import Mathlib

/-!
# dynarray: a shallow embedding of the nested variable-length array

The three headers of the repository (`src/dynarray.hpp`, `src/vla_neat/dynarray.hpp`,
`src/vla_nest/dynarray_lite.hpp`) are embedded as functions over an explicit heap.

* Leaf storage is a block-structured heap: a pointer is a block number and an
  offset counted in elements; block `0` is the null block and `nullptr` is `⟨0, 0⟩`.
* A node array (the array of child `dynarray` objects that a non-innermost level
  allocates with `array_allocator`) is carried by value, as the list of its objects.
* `size_type` is `Nat` with every multiplication reduced modulo `2 ^ 64`.
* A C++ exception is `Result.throw`, carrying the state at the throw; an access
  outside every live block is `Result.undefined`.
* An allocator always returns a fresh block (no `std::bad_alloc`).
-/

set_option autoImplicit false

namespace vla

/-! ## Machine integers -/

/-- One more than `SIZE_MAX` on a 64-bit platform: a value of `size_type` is a `Nat` and
every multiplication of two such values is reduced modulo `SIZE_MOD`. -/
def SIZE_MOD : Nat := 2 ^ 64

/-- The value `std::numeric_limits<difference_type>::max()`, returned by `max_size()`. -/
def PTRDIFF_MAX : Nat := 2 ^ 63 - 1

/-- Multiplication of two `size_type` values. -/
def size_mul (a b : Nat) : Nat := (a * b) % SIZE_MOD

/-! ## Pointers and the heap -/

/-- A pointer to a leaf element: allocation block and element offset. -/
structure Ptr where
  block : Nat
  off : Int
deriving DecidableEq, Repr

namespace Ptr

/-- The pointer `nullptr`. -/
def null : Ptr := ⟨0, 0⟩

/-- Pointer arithmetic `p + n`. -/
def add (p : Ptr) (n : Int) : Ptr := ⟨p.block, p.off + n⟩

/-- Pointer difference `p - q`, in elements. -/
def diff (p q : Ptr) : Int := p.off - q.off

/-- The test `if (p)`. -/
def isNull (p : Ptr) : Bool := decide (p = null)

end Ptr

/-- What the allocators and the element constructors and destructors did, in order
(latest first). `destroy_child i` is the end of the destructor of the object `i` of a node
array, `deallocate_nodes n` the release of a node array of `n` objects. -/
inductive Event where
  | allocate (block : Nat) (n : Nat)
  | deallocate (block : Nat)
  | construct (p : Ptr)
  | destroy (p : Ptr)
  | destroy_child (i : Nat)
  | deallocate_nodes (n : Nat)
deriving DecidableEq, Repr

/-- The leaf heap. `len b` is the length of block `b` while it is live; `cell b i`
is the object living at offset `i` of block `b` (`none`: raw, unconstructed storage). -/
structure Heap (α : Type) where
  next : Nat
  len : Nat → Option Nat
  cell : Nat → Int → Option α
  log : List Event

namespace Heap

variable {α : Type}

/-- The heap before any allocation. -/
def empty : Heap α := ⟨0, fun _ => none, fun _ _ => none, []⟩

/-- The address `p` lies in a live block. -/
def valid (h : Heap α) (p : Ptr) : Bool :=
  match h.len p.block with
  | some n => decide (0 ≤ p.off) && decide (p.off < (n : Int))
  | none => false

/-- The call `allocator.allocate(n)`: a fresh block of `n` raw cells. -/
def allocate (h : Heap α) (n : Nat) : Ptr × Heap α :=
  let b := h.next + 1
  (⟨b, 0⟩,
   { next := b
     len := fun b' => if b' = b then some n else h.len b'
     cell := fun b' i => if b' = b then none else h.cell b' i
     log := Event.allocate b n :: h.log })

/-- Reading `*p`: `none` when `p` is outside every live block. -/
def load (h : Heap α) (p : Ptr) : Option (Option α) :=
  if h.valid p then some (h.cell p.block p.off) else none

/-- Placing the object `v` at `p` (`allocator_traits::construct`): `none` when `p`
is outside every live block. A `none` value is an indeterminate one. -/
def construct (h : Heap α) (p : Ptr) (v : Option α) : Option (Heap α) :=
  if h.valid p then
    some { h with
      cell := fun b i => if b = p.block ∧ i = p.off then v else h.cell b i
      log := Event.construct p :: h.log }
  else none

/-- The assignment `*p = v`. -/
def assign (h : Heap α) (p : Ptr) (v : Option α) : Option (Heap α) :=
  if h.valid p then
    some { h with cell := fun b i => if b = p.block ∧ i = p.off then v else h.cell b i }
  else none

/-- The call `allocator_traits::destroy(alloc, p)`: the cell becomes raw storage again;
`none` when `p` is outside every live block. -/
def destroy (h : Heap α) (p : Ptr) : Option (Heap α) :=
  if h.valid p then
    some { h with
      cell := fun b i => if b = p.block ∧ i = p.off then none else h.cell b i
      log := Event.destroy p :: h.log }
  else none

/-- The call `allocator.deallocate(p, n)`: `none` unless `p` is the start of a live block
of `n` cells. -/
def deallocate (h : Heap α) (p : Ptr) (n : Nat) : Option (Heap α) :=
  if p.off = 0 ∧ h.len p.block = some n then
    some { h with
      len := fun b => if b = p.block then none else h.len b
      cell := fun b i => if b = p.block then none else h.cell b i
      log := Event.deallocate p.block :: h.log }
  else none

/-- An entry is added to the log. -/
def record (h : Heap α) (e : Event) : Heap α := { h with log := e :: h.log }

end Heap

/-! ## Results -/

/-- The two exceptions of the library. -/
inductive Exception where
  | length_error
  | out_of_range
deriving DecidableEq, Repr

/-- Result of running a member function on the state `σ`. -/
inductive Result (σ : Type) where
  | ok (s : σ)
  | throw (e : Exception) (s : σ)
  | undefined

/-- The run has undefined behaviour. -/
def Result.is_undefined {σ : Type} : Result σ → Bool
  | .undefined => true
  | _ => false

/-- The run completes normally. -/
def Result.is_ok {σ : Type} : Result σ → Bool
  | .ok _ => true
  | _ => false

/-- The exception that the run throws, if any. -/
def Result.thrown {σ : Type} : Result σ → Option Exception
  | .throw e _ => some e
  | _ => none

/-- The loop `for (size_type i = 0; i < n; ++i) body`, leaving at the first
iteration that does not complete normally. -/
def for_loop {σ : Type} (body : Nat → σ → Result σ) : Nat → σ → Result σ
  | 0, s => .ok s
  | n + 1, s =>
    match for_loop body n s with
    | .ok s' => body n s'
    | r => r

/-- The loop `for (size_type i = n; i != 0; --i) body(i - 1)` of code that cannot throw:
`none` is undefined behaviour. -/
def rev_loop {σ : Type} (body : Nat → σ → Option σ) : Nat → σ → Option σ
  | 0, s => some s
  | n + 1, s =>
    match body n s with
    | some s' => rev_loop body n s'
    | none => none

/-! ## Constructor arguments -/

/-- One argument of a pack `Args&&... args`. The library decides by position
whether it is used as an extent (`toSize`, its conversion to `size_type`) or is
forwarded to the leaf constructor (`toLeaf`, the leaf built from it). -/
structure Arg (α : Type) where
  toSize : Nat
  toLeaf : α

/-- The leaf `T(args...)` built by `allocator_traits::construct(alloc, p, args...)`:
value-initialisation for the empty pack, conversion of the argument for a pack of one
(packs of several leaf arguments are not used by the library's documentation and are
read as their first argument). -/
def make_leaf {α : Type} [Inhabited α] : List (Arg α) → α
  | [] => default
  | a :: _ => a.toLeaf

/-- An allocator object, known by an identity tag; `allocator_type()` is tag `0`. -/
abbrev Allocator := Nat

/-! ## `src/dynarray.hpp`: the object -/

/-- The data members of `dynarray<T, _Allocator>` (lines 693-703); `P` is the type of
`pointer current_dimension_array_data`. -/
structure Fields (P : Type) where
  array_allocator : Allocator
  contiguous_allocator : Allocator
  entire_array_data : Ptr
  current_dimension_array_size : Nat
  current_dimension_array_data : P
  this_level_array_head : Ptr
  this_level_array_tail : Ptr

/-- The type `pointer` (`T*`) of the class `dynarray<T>` whose `T` has `nested_level`
equal to `L` (`inner_type`, lines 67-79): for `L = 0` the element is the leaf type and
the pointer is a leaf pointer; for `L + 1` the element is a `dynarray` of level `L` and
the pointer is null (`none`) or the node array. -/
def node_pointer : Nat → Type
  | 0 => Ptr
  | L + 1 => Option (List (Fields (node_pointer L)))

/-- The class `dynarray<T>` whose `T` has `nested_level` equal to `L`. -/
abbrev dynarray (L : Nat) : Type := Fields (node_pointer L)

/-- The null value of `pointer current_dimension_array_data`. -/
def node_pointer.null : (L : Nat) → node_pointer L
  | 0 => Ptr.null
  | _ + 1 => none

/-- The member `initialise(other_allocator)` (lines 823-837). -/
def initialise (L : Nat) (other_allocator : Allocator) : dynarray L :=
  { array_allocator := other_allocator
    contiguous_allocator := if L = 0 then other_allocator else 0
    entire_array_data := Ptr.null
    current_dimension_array_size := 0
    current_dimension_array_data := node_pointer.null L
    this_level_array_head := Ptr.null
    this_level_array_tail := Ptr.null }

/-- The default constructor `dynarray()` (lines 190-193). -/
def dynarray.mk_default (L : Nat) : dynarray L := initialise L 0

/-- The member `size()` (line 548). -/
def dynarray.size {L : Nat} (x : dynarray L) : Nat := x.current_dimension_array_size

/-- The member `data()` (line 506). -/
def dynarray.data {L : Nat} (x : dynarray L) : Ptr := x.this_level_array_head

/-- The member `get_block_size()` (line 707). -/
def dynarray.get_block_size {L : Nat} (x : dynarray L) : Nat :=
  ((x.this_level_array_tail.diff x.this_level_array_head + 1) % (SIZE_MOD : Int)).toNat

/-- The node array of a nested level: `none` for a null `current_dimension_array_data`. -/
def dynarray.nodes {L : Nat} (x : dynarray (L + 1)) : Option (List (dynarray L)) :=
  x.current_dimension_array_data

/-- The access `x[pos]` at a nested level (lines 1412-1419): the child object
`*(current_dimension_array_data + pos)`, `none` when there is no such object. -/
def dynarray.child {L : Nat} (x : dynarray (L + 1)) (pos : Nat) : Option (dynarray L) :=
  match x.nodes with
  | some cs => cs.get? pos
  | none => none

/-- The access `x[pos]` at the innermost level (lines 1412-1419): the address
`this_level_array_head + pos`. -/
def dynarray.elem (x : dynarray 0) (pos : Nat) : Ptr := x.this_level_array_head.add pos

/-- The member `current_dimension_array_data` of the innermost class, a leaf pointer. -/
def dynarray.leaf_data (x : dynarray 0) : Ptr := x.current_dimension_array_data

/-- The member `verify_size(count)` (lines 839-844): `true` when it throws. -/
def verify_size (count : Nat) : Bool := decide (count > PTRDIFF_MAX)

/-- The static member `expand_counts(count, args...)` (lines 789-797) of the class of
level `L`. -/
def expand_counts {α : Type} : Nat → Nat → List (Arg α) → Nat
  | 0, count, _ => count
  | _ + 1, count, [] => count
  | L + 1, count, a :: rest => size_mul (expand_counts L a.toSize rest) count

/-- The loop `for (i = 0; i < count; ++i) construct(alloc, p + i, v)`. -/
def construct_n {α : Type} (p : Ptr) (v : Option α) (count : Nat) (h : Heap α) :
    Result (Heap α) :=
  for_loop (fun i h => match h.construct (p.add i) v with
    | some h1 => .ok h1
    | none => .undefined) count h

/-- The member `allocate_array(size_type count)` (lines 846-863) of the innermost class:
the path of the constructor `dynarray(size_type count)`. -/
def allocate_array_count {α : Type} [Inhabited α] (this : dynarray 0) (h : Heap α)
    (count : Nat) : Result (Heap α × dynarray 0) :=
  if count = 0 then .ok (h, initialise 0 this.array_allocator)
  else if verify_size count then .throw .length_error (h, this)
  else
    let (p, h1) := h.allocate count
    match construct_n p (some (default : α)) count h1 with
    | .ok h2 =>
      .ok (h2, { this with
        current_dimension_array_size := count
        entire_array_data := p
        current_dimension_array_data := p
        this_level_array_head := p
        this_level_array_tail := (p.add count).add (-1) })
    | .throw e h2 => .throw e (h2, this)
    | .undefined => .undefined

/-- One pass of the node loop (lines 916-922 and 952-958): the object
`current_dimension_array_data + i` is default-constructed, receives the parent's
`contiguous_allocator`, and `step` runs its allocation at the address
`base + i * each_block_size`. -/
def node_step {α : Type} {L : Nat}
    (step : dynarray L → Heap α → Ptr → Result (Heap α × dynarray L))
    (contiguous_allocator : Allocator) (base : Ptr) (each_block_size : Nat)
    (i : Nat) (s : Heap α × List (dynarray L)) : Result (Heap α × List (dynarray L)) :=
  let starting_address := base.add (size_mul i each_block_size)
  let node : dynarray L := { initialise L 0 with contiguous_allocator := contiguous_allocator }
  match step node s.1 starting_address with
  | .ok (h1, c) => .ok (h1, s.2 ++ [c])
  | .throw e (h1, c) => .throw e (h1, s.2 ++ [c])
  | .undefined => .undefined

/-- The overloads `allocate_array(starting_address, count)` (lines 865-880, chosen when
no argument follows `count`) and `allocate_array(starting_address, count, args...)`
(lines 929-963) of the class of level `L`: the allocation of a nested object. -/
def allocate_array_at {α : Type} [Inhabited α] : (L : Nat) → dynarray L → Heap α → Ptr →
    Nat → List (Arg α) → Result (Heap α × dynarray L)
  | 0, this, h, starting_address, count, [] =>
    .ok (h, { this with
      current_dimension_array_size := count
      current_dimension_array_data := Ptr.null
      entire_array_data := Ptr.null
      this_level_array_head := starting_address
      this_level_array_tail := (starting_address.add count).add (-1) })
  | L + 1, _, h, _, _, [] => .ok (h, initialise (L + 1) 0)
  | 0, this, h, starting_address, count, a :: rest =>
    match construct_n starting_address (some (make_leaf (a :: rest))) count h with
    | .ok h1 =>
      .ok (h1, { this with
        entire_array_data := Ptr.null
        current_dimension_array_size := count
        current_dimension_array_data := Ptr.null
        this_level_array_head := starting_address
        this_level_array_tail := (starting_address.add (size_mul 1 count)).add (-1) })
    | .throw e h1 => .throw e (h1, this)
    | .undefined => .undefined
  | L + 1, this, h, starting_address, count, a :: rest =>
    let each_block_size := expand_counts L a.toSize rest
    match for_loop (node_step (fun c h1 p => allocate_array_at L c h1 p a.toSize rest)
        this.contiguous_allocator starting_address each_block_size) count (h, []) with
    | .ok (h1, cs) =>
      .ok (h1, { this with
        entire_array_data := Ptr.null
        current_dimension_array_size := count
        current_dimension_array_data := some cs
        this_level_array_head := starting_address
        this_level_array_tail :=
          (starting_address.add (size_mul each_block_size count)).add (-1) })
    | .throw e (h1, cs) =>
      .throw e (h1, { this with
        entire_array_data := Ptr.null
        current_dimension_array_size := count
        current_dimension_array_data := some cs })
    | .undefined => .undefined

/-- The template member `allocate_array(count, args...)` (lines 882-927) of the class of
level `L`: the allocation of a top-level object. For a nested class the call is only
well-formed with a non-empty pack; on an empty one `each_block_size` keeps its
initial value. -/
def allocate_array {α : Type} [Inhabited α] (L : Nat) (this : dynarray L) (h : Heap α)
    (count : Nat) (args : List (Arg α)) : Result (Heap α × dynarray L) :=
  if verify_size count then .throw .length_error (h, this) else
  let each_block_size : Nat :=
    match L, args with
    | 0, _ => 1
    | _ + 1, [] => 1
    | L1 + 1, a :: rest => expand_counts L1 a.toSize rest
  if verify_size each_block_size then .throw .length_error (h, this) else
  let entire_array_size := size_mul each_block_size count
  if verify_size entire_array_size then .throw .length_error (h, this) else
  if L > args.length ∨ entire_array_size = 0 then .ok (h, initialise L this.array_allocator)
  else
    let (p, h1) := h.allocate entire_array_size
    let tail := (p.add entire_array_size).add (-1)
    match L, this, args with
    | 0, this, args =>
      match construct_n p (some (make_leaf args)) entire_array_size h1 with
      | .ok h2 =>
        .ok (h2, { this with
          entire_array_data := p
          current_dimension_array_data := p
          current_dimension_array_size := entire_array_size
          this_level_array_head := p
          this_level_array_tail := tail })
      | .throw e h2 => .throw e (h2, { this with entire_array_data := p })
      | .undefined => .undefined
    | L1 + 1, this, [] => .ok (h, initialise (L1 + 1) this.array_allocator)
    | L1 + 1, this, a :: rest =>
      match for_loop (node_step (fun c h2 q => allocate_array_at L1 c h2 q a.toSize rest)
          this.contiguous_allocator p each_block_size) count (h1, []) with
      | .ok (h2, cs) =>
        .ok (h2, { this with
          entire_array_data := p
          current_dimension_array_size := count
          current_dimension_array_data := some cs
          this_level_array_head := p
          this_level_array_tail := tail })
      | .throw e (h2, cs) =>
        .throw e (h2, { this with
          entire_array_data := p
          current_dimension_array_size := count
          current_dimension_array_data := some cs })
      | .undefined => .undefined

/-- The constructor `dynarray(size_type count)` (lines 201-205), of the innermost class. -/
def dynarray.mk_count {α : Type} [Inhabited α] (h : Heap α) (count : Nat) :
    Result (Heap α × dynarray 0) :=
  allocate_array_count (initialise 0 0) h count

/-- The constructor `dynarray(size_type count, Args&&... args)` (lines 235-240). -/
def dynarray.mk_counts {α : Type} [Inhabited α] (L : Nat) (h : Heap α) (count : Nat)
    (args : List (Arg α)) : Result (Heap α × dynarray L) :=
  allocate_array L (initialise L 0) h count args

/-! ## `src/dynarray.hpp`: copy construction -/

/-- The loop `for (i = 0; i < n; ++i) construct(alloc, dst + i, *(src + i))`
(lines 1178-1179). -/
def copy_n {α : Type} (dst src : Ptr) (n : Nat) (h : Heap α) : Result (Heap α) :=
  for_loop (fun i h => match h.load (src.add i) with
    | some v =>
      match h.construct (dst.add i) v with
      | some h1 => .ok h1
      | none => .undefined
    | none => .undefined) n h

/-- One pass of the node loop of `copy_array` (lines 1188-1193 and 1249-1254): the
address is `base + i * other[i].get_block_size()`, the object
`current_dimension_array_data + i` is default-constructed and `step` copies
`*(other.current_dimension_array_data + i)` into it. -/
def copy_node_step {α : Type} {L : Nat}
    (step : dynarray L → Heap α → Ptr → dynarray L → Result (Heap α × dynarray L))
    (base : Ptr) (other : dynarray (L + 1))
    (i : Nat) (s : Heap α × List (dynarray L)) : Result (Heap α × List (dynarray L)) :=
  match other.child i with
  | none => .undefined
  | some o =>
    let starting_address := base.add (size_mul i o.get_block_size)
    match step (initialise L 0) s.1 starting_address o with
    | .ok (h1, c) => .ok (h1, s.2 ++ [c])
    | .throw e (h1, c) => .throw e (h1, s.2 ++ [c])
    | .undefined => .undefined

/-- The member `copy_array(starting_address, other)` (lines 1233-1258) of the class of
level `L`: the copy of a nested object. -/
def copy_array_at {α : Type} : (L : Nat) → dynarray L → Heap α → Ptr → dynarray L →
    Result (Heap α × dynarray L)
  | 0, this, h, starting_address, other =>
    .ok (h, { this with
      current_dimension_array_size := other.current_dimension_array_size
      entire_array_data := Ptr.null
      current_dimension_array_data := Ptr.null
      this_level_array_head := starting_address
      this_level_array_tail :=
        (starting_address.add other.current_dimension_array_size).add (-1) })
  | L + 1, this, h, starting_address, other =>
    match for_loop (copy_node_step (copy_array_at L) starting_address other)
        other.current_dimension_array_size (h, []) with
    | .ok (h1, cs) =>
      .ok (h1, { this with
        current_dimension_array_size := other.current_dimension_array_size
        entire_array_data := Ptr.null
        current_dimension_array_data := some cs
        this_level_array_head := starting_address
        this_level_array_tail := (starting_address.add other.get_block_size).add (-1) })
    | .throw e (h1, cs) =>
      .throw e (h1, { this with
        current_dimension_array_size := other.current_dimension_array_size
        entire_array_data := Ptr.null
        current_dimension_array_data := some cs })
    | .undefined => .undefined

/-- The member `copy_array(other)` (lines 1170-1197) of the class of level `L`: the
copy of `other` into a top-level object. -/
def copy_array {α : Type} (L : Nat) (this : dynarray L) (h : Heap α) (other : dynarray L) :
    Result (Heap α × dynarray L) :=
  let entire_array_size := other.get_block_size
  let this : dynarray L :=
    { this with current_dimension_array_size := other.current_dimension_array_size }
  if entire_array_size = 0 ∨ this.current_dimension_array_size = 0 then .ok (h, this)
  else
    let (p, h1) := h.allocate entire_array_size
    match copy_n p other.entire_array_data entire_array_size h1 with
    | .throw e h2 => .throw e (h2, { this with entire_array_data := p })
    | .undefined => .undefined
    | .ok h2 =>
      let tail := (p.add entire_array_size).add (-1)
      match L, this, other with
      | 0, this, _ =>
        .ok (h2, { this with
          entire_array_data := p
          current_dimension_array_data := p
          this_level_array_head := p
          this_level_array_tail := tail })
      | L1 + 1, this, other =>
        match for_loop (copy_node_step (copy_array_at L1) p other)
            this.current_dimension_array_size (h2, []) with
        | .ok (h3, cs) =>
          .ok (h3, { this with
            entire_array_data := p
            current_dimension_array_data := some cs
            this_level_array_head := p
            this_level_array_tail := tail })
        | .throw e (h3, cs) =>
          .throw e (h3, { this with
            entire_array_data := p
            current_dimension_array_data := some cs })
        | .undefined => .undefined

/-- The copy constructor `dynarray(const dynarray &other)` (lines 256-265). -/
def dynarray.mk_copy {α : Type} (L : Nat) (h : Heap α) (other : dynarray L) :
    Result (Heap α × dynarray L) :=
  copy_array L (initialise L 0) h other

/-! ## `src/dynarray.hpp`: construction from brace lists -/

/-- The argument type of the brace-list constructors for the class of level `L`:
`std::initializer_list<T>` for `L = 0`, a list of the lists of the level below
otherwise. -/
def init_list (α : Type) : Nat → Type
  | 0 => List α
  | L + 1 => List (init_list α L)

/-- The static member `expand_list(init)` (lines 772-787) of the class of level `L`. -/
def expand_list {α : Type} : (L : Nat) → init_list α L → Nat
  | 0, init => List.length (α := α) init
  | L + 1, init =>
    List.foldl (fun count sub_list => (count + expand_list L sub_list) % SIZE_MOD) 0
      (show List (init_list α L) from init)

/-- The loop `for (i = 0; i < count; ++i, ++list_iter) construct(alloc, p + i, *list_iter)`
(lines 1113-1115). -/
def construct_list {α : Type} (p : Ptr) (input_list : List α) (h : Heap α) :
    Result (Heap α) :=
  for_loop (fun i h => match h.construct (p.add i) (input_list.get? i) with
    | some h1 => .ok h1
    | none => .undefined) input_list.length h

/-- One pass of the node loop of the brace-list allocation (lines 1090-1096 and
1124-1130): the address is `base + i * T::expand_list(*list_iter)`. -/
def list_node_step {α : Type} {L : Nat}
    (step : dynarray L → Heap α → Ptr → init_list α L → Result (Heap α × dynarray L))
    (contiguous_allocator : Allocator) (base : Ptr) (input_list : List (init_list α L))
    (i : Nat) (s : Heap α × List (dynarray L)) : Result (Heap α × List (dynarray L)) :=
  match input_list.get? i with
  | none => .undefined
  | some sub_list =>
    let starting_address := base.add (size_mul i (expand_list L sub_list))
    let node : dynarray L :=
      { initialise L 0 with contiguous_allocator := contiguous_allocator }
    match step node s.1 starting_address sub_list with
    | .ok (h1, c) => .ok (h1, s.2 ++ [c])
    | .throw e (h1, c) => .throw e (h1, s.2 ++ [c])
    | .undefined => .undefined

/-- The member `allocate_array(starting_address, input_list)` (lines 1101-1135) of the
class of level `L`. -/
def allocate_list_at {α : Type} : (L : Nat) → dynarray L → Heap α → Ptr → init_list α L →
    Result (Heap α × dynarray L)
  | 0, this, h, starting_address, input_list =>
    let count := List.length (α := α) input_list
    if verify_size count then .throw .length_error (h, this) else
    match construct_list starting_address input_list h with
    | .ok h1 =>
      .ok (h1, { this with
        current_dimension_array_size := count
        entire_array_data := Ptr.null
        current_dimension_array_data := Ptr.null
        this_level_array_head := starting_address
        this_level_array_tail := (starting_address.add count).add (-1) })
    | .throw e h1 => .throw e (h1, this)
    | .undefined => .undefined
  | L + 1, this, h, starting_address, input_list =>
    let count := List.length (α := init_list α L) input_list
    if verify_size count then .throw .length_error (h, this) else
    match for_loop (list_node_step (allocate_list_at L) this.contiguous_allocator
        starting_address input_list) count (h, []) with
    | .ok (h1, cs) =>
      .ok (h1, { this with
        current_dimension_array_size := count
        entire_array_data := Ptr.null
        current_dimension_array_data := some cs
        this_level_array_head := starting_address
        this_level_array_tail :=
          (starting_address.add (expand_list (L + 1) input_list)).add (-1) })
    | .throw e (h1, cs) =>
      .throw e (h1, { this with
        current_dimension_array_size := count
        entire_array_data := Ptr.null
        current_dimension_array_data := some cs })
    | .undefined => .undefined

/-- The member `allocate_array(input_list)` for a list of lists (lines 1073-1099), of
the class of level `L + 1`. -/
def allocate_list {α : Type} (L : Nat) (this : dynarray (L + 1)) (h : Heap α)
    (input_list : init_list α (L + 1)) : Result (Heap α × dynarray (L + 1)) :=
  let count := List.length (α := init_list α L) input_list
  if count = 0 then .ok (h, this) else
  if verify_size count then .throw .length_error (h, this) else
  let entire_array_size := expand_list (L + 1) input_list
  if entire_array_size = 0 then .ok (h, this) else
  if verify_size entire_array_size then .throw .length_error (h, this) else
  let (p, h1) := h.allocate entire_array_size
  match for_loop (list_node_step (allocate_list_at L) this.contiguous_allocator p
      input_list) count (h1, []) with
  | .ok (h2, cs) =>
    .ok (h2, { this with
      entire_array_data := p
      current_dimension_array_size := count
      current_dimension_array_data := some cs
      this_level_array_head := p
      this_level_array_tail := (p.add entire_array_size).add (-1) })
  | .throw e (h2, cs) =>
    .throw e (h2, { this with
      entire_array_data := p
      current_dimension_array_size := count
      current_dimension_array_data := some cs })
  | .undefined => .undefined

/-- The constructor `dynarray(std::initializer_list<std::initializer_list<Ty>>)`
(lines 317-327). -/
def dynarray.mk_lists {α : Type} (L : Nat) (h : Heap α) (input_list : init_list α (L + 1)) :
    Result (Heap α × dynarray (L + 1)) :=
  allocate_list L (initialise (L + 1) 0) h input_list

/-! ## Moving leaves -/

/-- The call `construct(alloc, dst, std::move(*src))`: the new object at `dst` takes the
value of `*src`, and the move constructor of the leaf type leaves `mv v` in the source
(`mv` is the identity for a trivially copyable leaf type). -/
def Heap.move_construct {α : Type} (mv : α → α) (h : Heap α) (dst src : Ptr) :
    Option (Heap α) :=
  match h.load src with
  | some v =>
    match h.construct dst v with
    | some h1 => h1.assign src (v.map mv)
    | none => none
  | none => none

/-- The loop `for (i = 0; i < n; ++i) construct(alloc, dst + i, std::move(*(src + i)))`. -/
def move_n {α : Type} (mv : α → α) (dst src : Ptr) (n : Nat) (h : Heap α) :
    Result (Heap α) :=
  for_loop (fun i h1 => match h1.move_construct mv (dst.add i) (src.add i) with
    | some h2 => .ok h2
    | none => .undefined) n h

/-! ## `src/dynarray.hpp`: teardown -/

/-- The loop `for (i = n; i != 0; --i) destroy(alloc, p + i - 1)` followed by
`alloc.deallocate(p, n)` (lines 1145-1147, 1161-1163). -/
def release {α : Type} (p : Ptr) (n : Nat) (h : Heap α) : Option (Heap α) :=
  match rev_loop (fun i h1 => h1.destroy (p.add i)) n h with
  | some h1 => h1.deallocate p n
  | none => none

/-- The loop that destroys the objects of the node array `cs`, last first (lines
1153-1154): `destroy(array_allocator, current_dimension_array_data + i - 1)` runs the
destructor of the child, which is `teardown`. -/
def destroy_nodes {α : Type} {L : Nat}
    (teardown : dynarray L → Heap α → Option (Heap α × dynarray L))
    (cs : List (dynarray L)) (n : Nat) (h : Heap α) : Option (Heap α) :=
  rev_loop (fun i h1 =>
    match cs.get? i with
    | some c =>
      match teardown c h1 with
      | some (h2, _) => some (h2.record (Event.destroy_child i))
      | none => none
    | none => none) n h

/-- The member `deallocate_array()` (lines 1137-1168) of the class of level `L`, also the
body of the destructor (lines 418-421). It resets `entire_array_data` and
`current_dimension_array_data` only. A node array is released with the size it was
allocated with. -/
def deallocate_array {α : Type} : (L : Nat) → dynarray L → Heap α →
    Option (Heap α × dynarray L)
  | 0, this, h =>
    let entire_array_size := this.get_block_size
    let s1 : Option (Heap α × dynarray 0) :=
      if this.entire_array_data ≠ Ptr.null ∧ this.leaf_data ≠ Ptr.null then
        match release this.entire_array_data entire_array_size h with
        | some h1 =>
          some (h1, { this with
            entire_array_data := Ptr.null
            current_dimension_array_data := Ptr.null })
        | none => none
      else some (h, this)
    match s1 with
    | none => none
    | some (h1, this1) =>
      let s2 : Option (Heap α × dynarray 0) :=
        if this1.leaf_data ≠ Ptr.null then
          match release this1.leaf_data
              this1.current_dimension_array_size h1 with
          | some h2 => some (h2, { this1 with current_dimension_array_data := Ptr.null })
          | none => none
        else some (h1, this1)
      match s2 with
      | none => none
      | some (h2, this2) =>
        if this2.entire_array_data ≠ Ptr.null then
          match release this2.entire_array_data entire_array_size h2 with
          | some h3 => some (h3, { this2 with entire_array_data := Ptr.null })
          | none => none
        else some (h2, this2)
  | L + 1, this, h =>
    let entire_array_size := this.get_block_size
    let s2 : Option (Heap α × dynarray (L + 1)) :=
      match this.current_dimension_array_data with
      | some cs =>
        if cs.length = this.current_dimension_array_size then
          match destroy_nodes (deallocate_array L) cs this.current_dimension_array_size h with
          | some h1 =>
            some (h1.record (Event.deallocate_nodes this.current_dimension_array_size),
              { this with current_dimension_array_data := none })
          | none => none
        else none
      | none => some (h, this)
    match s2 with
    | none => none
    | some (h2, this2) =>
      if this2.entire_array_data ≠ Ptr.null then
        match release this2.entire_array_data entire_array_size h2 with
        | some h3 => some (h3, { this2 with entire_array_data := Ptr.null })
        | none => none
      else some (h2, this2)

/-! ## `src/dynarray.hpp`: assignment and move -/

/-- The innermost branch of `loop_copy(right_dynarray)` (lines 1346-1350): the
assignments `*(this_level_array_head + i) = *(right.this_level_array_head + i)` for
`i` below the smaller of the two slice lengths. -/
def loop_copy_leaves {α : Type} (this right : dynarray 0) (h : Heap α) : Result (Heap α) :=
  let length : Int :=
    min (this.this_level_array_tail.diff this.this_level_array_head + 1)
      (right.this_level_array_tail.diff right.this_level_array_head + 1)
  for_loop (fun i h1 =>
    match h1.load (right.this_level_array_head.add i) with
    | some v =>
      match h1.assign (this.this_level_array_head.add i) v with
      | some h2 => .ok h2
      | none => .undefined
    | none => .undefined) length.toNat h

/-- The object `x` with the object `pos` of its node array replaced by `c`. -/
def dynarray.set_child {L : Nat} (x : dynarray (L + 1)) (pos : Nat) (c : dynarray L) :
    dynarray (L + 1) :=
  { x with current_dimension_array_data := x.nodes.map (fun cs => cs.set pos c) }

/-- The nested branch of `loop_copy(right_dynarray)` (lines 1353-1355): the assignments
`*(current_dimension_array_data + i) = *(right.current_dimension_array_data + i)`, each
one the `operator=` of the class below, here `assign`. -/
def loop_copy_nodes {α : Type} {L : Nat}
    (assign : dynarray L → Heap α → dynarray L → Result (Heap α × dynarray L))
    (this right : dynarray (L + 1)) (h : Heap α) : Result (Heap α × dynarray (L + 1)) :=
  for_loop (fun i (s : Heap α × dynarray (L + 1)) =>
    match s.2.child i, right.child i with
    | some c, some rc =>
      match assign c s.1 rc with
      | .ok (h1, c1) => .ok (h1, s.2.set_child i c1)
      | .throw e (h1, c1) => .throw e (h1, s.2.set_child i c1)
      | .undefined => .undefined
    | _, _ => .undefined)
    (min this.current_dimension_array_size right.current_dimension_array_size) (h, this)

/-- The copy assignment `operator=(const dynarray &right_dynarray)` (lines 337-349) of
the class of level `L`; its last branch is the member `loop_copy` (lines 1340-1357). -/
def copy_assign {α : Type} : (L : Nat) → dynarray L → Heap α → dynarray L →
    Result (Heap α × dynarray L)
  | 0, this, h, right =>
    if this.entire_array_data ≠ Ptr.null ∨ this.this_level_array_head = Ptr.null then
      match deallocate_array 0 this h with
      | some (h1, this1) => copy_array 0 this1 h1 right
      | none => .undefined
    else if right.size = 0 then .ok (h, this)
    else
      match loop_copy_leaves this right h with
      | .ok h1 => .ok (h1, this)
      | .throw e h1 => .throw e (h1, this)
      | .undefined => .undefined
  | L + 1, this, h, right =>
    if this.entire_array_data ≠ Ptr.null ∨ this.this_level_array_head = Ptr.null then
      match deallocate_array (L + 1) this h with
      | some (h1, this1) => copy_array (L + 1) this1 h1 right
      | none => .undefined
    else if right.size = 0 then .ok (h, this)
    else loop_copy_nodes (copy_assign L) this right h

/-- The member `loop_copy(right_dynarray)` (lines 1340-1357) of the class of level `L`. -/
def loop_copy {α : Type} : (L : Nat) → dynarray L → Heap α → dynarray L →
    Result (Heap α × dynarray L)
  | 0, this, h, right =>
    if right.size = 0 then .ok (h, this)
    else
      match loop_copy_leaves this right h with
      | .ok h1 => .ok (h1, this)
      | .throw e h1 => .throw e (h1, this)
      | .undefined => .undefined
  | L + 1, this, h, right =>
    if right.size = 0 then .ok (h, this)
    else loop_copy_nodes (copy_assign L) this right h

/-- The statement `a[i] = b` for an object `a` of a nested level: `operator[]` (lines
1412-1419) designates the object `i` of the node array of `a` and the copy assignment
runs on that object. -/
def assign_row {α : Type} {L : Nat} (a : dynarray (L + 1)) (i : Nat) (h : Heap α)
    (b : dynarray L) : Result (Heap α × dynarray (L + 1)) :=
  match a.child i with
  | some r =>
    match copy_assign L r h b with
    | .ok (h1, r1) => .ok (h1, a.set_child i r1)
    | .throw e (h1, r1) => .throw e (h1, a.set_child i r1)
    | .undefined => .undefined
  | none => .undefined

/-- The member `move_array(other)` (lines 1382-1394): the new states of `*this` and of
`other`. No element is touched: the function does not take the heap. -/
def move_array (L : Nat) (this other : dynarray L) : dynarray L × dynarray L :=
  ({ this with
      array_allocator := other.array_allocator
      contiguous_allocator := other.contiguous_allocator
      entire_array_data := other.entire_array_data
      current_dimension_array_size := other.current_dimension_array_size
      current_dimension_array_data := other.current_dimension_array_data
      this_level_array_head := other.this_level_array_head
      this_level_array_tail := other.this_level_array_tail },
   initialise L 0)

/-- The move constructor `dynarray(dynarray &&other)` (lines 272-275): `uninit` is the
object before the body runs, whose members have no initialiser. -/
def dynarray.mk_move (L : Nat) (uninit other : dynarray L) : dynarray L × dynarray L :=
  move_array L uninit other

/-- The move assignment `operator=(dynarray &&right_dynarray)` (lines 359-371): the heap
and the new states of `*this` and of `right_dynarray`. -/
def move_assign {α : Type} (L : Nat) (this : dynarray L) (h : Heap α) (right : dynarray L) :
    Result (Heap α × dynarray L × dynarray L) :=
  if this.entire_array_data ≠ Ptr.null ∨ this.this_level_array_head = Ptr.null then
    match deallocate_array L this h with
    | some (h1, this1) => .ok (h1, move_array L this1 right)
    | none => .undefined
  else
    match loop_copy L this h right with
    | .ok (h1, this1) => .ok (h1, this1, right)
    | .throw e (h1, this1) => .throw e (h1, this1, right)
    | .undefined => .undefined

/-! ## `src/dynarray.hpp`: element access -/

/-- What `operator[]` designates in the class of level `L`: a leaf address at the
innermost level, an object of the node array otherwise (`none`: there is no object). -/
def reference : Nat → Type
  | 0 => Ptr
  | L + 1 => Option (dynarray L)

/-- The member `operator[](pos)` (lines 1412-1419). -/
def dynarray.index : {L : Nat} → dynarray L → Nat → reference L
  | 0, x, pos => x.elem pos
  | _ + 1, x, pos => x.child pos

/-- The member `at(pos)` (lines 1396-1402). -/
def dynarray.at {L : Nat} (x : dynarray L) (pos : Nat) : Except Exception (reference L) :=
  if pos ≥ x.size then .error .out_of_range else .ok (x.index pos)

/-! ## `src/dynarray.hpp`: capacity and swap -/

/-- The member `empty()` (line 542): `static_cast<bool>(current_dimension_array_size)`. -/
def dynarray.empty {L : Nat} (x : dynarray L) : Bool :=
  decide (x.current_dimension_array_size ≠ 0)

/-- The member `swap(other)` (lines 1448-1458): the new states of `*this` and of `other`.
No element is touched: the function does not take the heap. -/
def swap (L : Nat) (this other : dynarray L) : dynarray L × dynarray L :=
  ({ this with
      array_allocator := other.array_allocator
      contiguous_allocator := other.contiguous_allocator
      entire_array_data := other.entire_array_data
      current_dimension_array_size := other.current_dimension_array_size
      current_dimension_array_data := other.current_dimension_array_data
      this_level_array_head := other.this_level_array_head
      this_level_array_tail := other.this_level_array_tail },
   { other with
      array_allocator := this.array_allocator
      contiguous_allocator := this.contiguous_allocator
      entire_array_data := this.entire_array_data
      current_dimension_array_size := this.current_dimension_array_size
      current_dimension_array_data := this.current_dimension_array_data
      this_level_array_head := this.this_level_array_head
      this_level_array_tail := this.this_level_array_tail })

/-- The loop `for (i = 0; i < n; ++i) std::swap(*(p + i), *(q + i))` of the two other
variants. -/
def swap_leaves {α : Type} (p q : Ptr) (n : Nat) (h : Heap α) : Result (Heap α) :=
  for_loop (fun i h1 =>
    match h1.load (p.add i), h1.load (q.add i) with
    | some v, some w =>
      match h1.assign (p.add i) w with
      | some h2 =>
        match h2.assign (q.add i) v with
        | some h3 => .ok h3
        | none => .undefined
      | none => .undefined
    | _, _ => .undefined) n h

/-! ## `src/dynarray.hpp`: iterators, `fill` and construction from an iterator pair -/

/-- The class `vla_iterator<T>` (lines 89-148) over the elements of the class of level
`L`: its member `dynarray_ptr`. At the innermost level it is a leaf pointer; otherwise it
points into a node array, and is that node array (`none`: null) with the position in it. -/
def iterator : Nat → Type
  | 0 => Ptr
  | L + 1 => Option (List (dynarray L)) × Int

/-- The members `operator+(offset)` and `operator-(offset)` of the iterator (lines
128 and 130). -/
def iterator.add : {L : Nat} → iterator L → Int → iterator L
  | 0, it, offset => Ptr.add it offset
  | _ + 1, it, offset => (Prod.fst it, Prod.snd it + offset)

/-- The member `operator-(right_iterator)` of the iterator (line 132). -/
def iterator.diff : {L : Nat} → iterator L → iterator L → Int
  | 0, a, b => Ptr.diff a b
  | _ + 1, a, b => Prod.snd a - Prod.snd b

/-- The member `operator*` of the iterator (line 106): what `*dynarray_ptr` designates, a
leaf address at the innermost level and an object of the node array otherwise (`none`:
there is no object there). -/
def iterator.deref : {L : Nat} → iterator L → reference L
  | 0, it => it
  | _ + 1, it =>
    match Prod.fst it with
    | some cs => if 0 ≤ Prod.snd it then cs.get? (Prod.snd it).toNat else none
    | none => none

/-- The member `begin()` (line 587): `iterator(current_dimension_array_data)`. -/
def dynarray.begin : {L : Nat} → dynarray L → iterator L
  | 0, x => x.leaf_data
  | _ + 1, x => (x.current_dimension_array_data, 0)

/-- The member `end()` (line 614):
`iterator(current_dimension_array_data + current_dimension_array_size)`. -/
def dynarray.end_ : {L : Nat} → dynarray L → iterator L
  | 0, x => x.leaf_data.add x.current_dimension_array_size
  | _ + 1, x => (x.current_dimension_array_data, x.current_dimension_array_size)

/-- The member `get()` (line 526): `current_dimension_array_data`. -/
def dynarray.get {L : Nat} (x : dynarray L) : node_pointer L := x.current_dimension_array_data

/-- The member `fill(value)` (lines 1460-1467): the loop
`for (p = this_level_array_head; p != this_level_array_tail + 1; ++p) *p = value`. It
ends after `tail + 1 - head` passes when the two pointers are in one block and that
number is not negative; otherwise `p` never meets `tail + 1` and runs out of its
block. -/
def fill {α : Type} {L : Nat} (x : dynarray L) (value : α) (h : Heap α) : Result (Heap α) :=
  let n : Int := (x.this_level_array_tail.add 1).diff x.this_level_array_head
  if x.this_level_array_head.block = x.this_level_array_tail.block ∧ 0 ≤ n then
    for_loop (fun i h1 =>
      match h1.assign (x.this_level_array_head.add i) (some value) with
      | some h2 => .ok h2
      | none => .undefined) n.toNat h
  else .undefined

/-- One pass of the node loop of `copy_array(other_begin, other_end)` (lines 1322-1327):
`other` is `other_begin + i`, the address is `base + i * other->get_block_size()`, the
object `current_dimension_array_data + i` is default-constructed and copies `*other`. -/
def iter_node_step {α : Type} {L : Nat} (base : Ptr) (other_begin : iterator (L + 1))
    (i : Nat) (s : Heap α × List (dynarray L)) : Result (Heap α × List (dynarray L)) :=
  match (other_begin.add i).deref with
  | none => .undefined
  | some o =>
    let starting_address := base.add (size_mul i o.get_block_size)
    match copy_array_at L (initialise L 0) s.1 starting_address o with
    | .ok (h1, c) => .ok (h1, s.2 ++ [c])
    | .throw e (h1, c) => .throw e (h1, s.2 ++ [c])
    | .undefined => .undefined

/-- The member `copy_array(other_begin, other_end)` (lines 1290-1338) of the class of
level `L`, for iterators of the class itself. At the innermost level the elements are
copy-constructed from `*other_iterator`; at a nested level the leaves are copied from
`other_begin->this_level_array_head` on, up to `(other_end - 1)->this_level_array_tail`. -/
def copy_array_iter {α : Type} : (L : Nat) → dynarray L → Heap α → iterator L → iterator L →
    Result (Heap α × dynarray L)
  | 0, this, h, other_begin, other_end =>
    let count := (Ptr.diff other_end other_begin).natAbs
    if count = 0 then .ok (h, this)
    else
      let (p, h1) := h.allocate count
      match copy_n p other_begin count h1 with
      | .ok h2 =>
        .ok (h2, { this with
          current_dimension_array_size := count
          entire_array_data := p
          current_dimension_array_data := p
          this_level_array_head := p
          this_level_array_tail := (p.add count).add (-1) })
      | .throw e h2 =>
        .throw e (h2, { this with
          current_dimension_array_size := count
          entire_array_data := p
          current_dimension_array_data := p })
      | .undefined => .undefined
  | _ + 1, this, h, other_begin, other_end =>
    let count := (other_end.diff other_begin).natAbs
    if count = 0 then .ok (h, this)
    else
      match other_begin.deref, (other_end.add (-1)).deref with
      | some first, some last =>
        let start_address := first.this_level_array_head
        let end_address := last.this_level_array_tail
        let entire_array_size :=
          ((end_address.diff start_address + 1) % (SIZE_MOD : Int)).toNat
        let (p, h1) := h.allocate entire_array_size
        match copy_n p start_address entire_array_size h1 with
        | .ok h2 =>
          match for_loop (iter_node_step p other_begin) count (h2, []) with
          | .ok (h3, cs) =>
            .ok (h3, { this with
              entire_array_data := p
              current_dimension_array_size := count
              current_dimension_array_data := some cs
              this_level_array_head := p
              this_level_array_tail := (p.add entire_array_size).add (-1) })
          | .throw e (h3, cs) =>
            .throw e (h3, { this with
              entire_array_data := p
              current_dimension_array_size := count
              current_dimension_array_data := some cs })
          | .undefined => .undefined
        | .throw e h2 =>
          .throw e (h2, { this with
            entire_array_data := p
            current_dimension_array_size := count })
        | .undefined => .undefined
      | _, _ => .undefined

/-- The constructor `dynarray(InputIterator other_begin, InputIterator other_end)` (lines
298-303). -/
def dynarray.mk_iterators {α : Type} (L : Nat) (h : Heap α) (other_begin other_end : iterator L) :
    Result (Heap α × dynarray L) :=
  copy_array_iter L (initialise L 0) h other_begin other_end

/-! ## `src/dynarray.hpp`: self-assignment -/

/-- The member `copy_array(other)` (lines 1170-1197) when `other` is `*this`, as in the
self-assignment `a = a` after `deallocate_array()` has run: every read of a member of
`other` is a read of the member of `*this` at that point of the run. The leaves are
copy-constructed from `*(entire_array_data + i)`, the storage just allocated; at a nested
level `other[i]` is the object `i` of the node array just allocated, read before it is
constructed (the node array holds the objects below `i` only). -/
def copy_array_self {α : Type} (L : Nat) (this : dynarray L) (h : Heap α) :
    Result (Heap α × dynarray L) :=
  let entire_array_size := this.get_block_size
  if entire_array_size = 0 ∨ this.current_dimension_array_size = 0 then .ok (h, this)
  else
    let (p, h1) := h.allocate entire_array_size
    match copy_n p p entire_array_size h1 with
    | .throw e h2 => .throw e (h2, { this with entire_array_data := p })
    | .undefined => .undefined
    | .ok h2 =>
      let tail := (p.add entire_array_size).add (-1)
      match L, this with
      | 0, this =>
        .ok (h2, { this with
          entire_array_data := p
          current_dimension_array_data := p
          this_level_array_head := p
          this_level_array_tail := tail })
      | L1 + 1, this =>
        match for_loop (fun i (s : Heap α × List (dynarray L1)) =>
            copy_node_step (copy_array_at L1) p
              { this with
                entire_array_data := p
                current_dimension_array_data := some s.2 } i s)
            this.current_dimension_array_size (h2, []) with
        | .ok (h3, cs) =>
          .ok (h3, { this with
            entire_array_data := p
            current_dimension_array_data := some cs
            this_level_array_head := p
            this_level_array_tail := tail })
        | .throw e (h3, cs) =>
          .throw e (h3, { this with
            entire_array_data := p
            current_dimension_array_data := some cs })
        | .undefined => .undefined

/-- The copy assignment `operator=(const dynarray &right_dynarray)` (lines 337-350) when
`right_dynarray` is `*this` (the statement `a = a`): the function has no test for it. -/
def copy_assign_self {α : Type} (L : Nat) (this : dynarray L) (h : Heap α) :
    Result (Heap α × dynarray L) :=
  if this.entire_array_data ≠ Ptr.null ∨ this.this_level_array_head = Ptr.null then
    match deallocate_array L this h with
    | some (h1, this1) => copy_array_self L this1 h1
    | none => .undefined
  else loop_copy L this h this

/-! ## Specification vocabulary -/

section
variable {α : Type}

/-- The state that a run ends in when it completes normally. -/
def Result.state {σ : Type} : Result σ → Option σ
  | .ok s => some s
  | _ => none

/-- The state that a run has when it throws, if it throws. -/
def Result.thrown_state {σ : Type} : Result σ → Option σ
  | .throw _ s => some s
  | _ => none

/-- The events, latest first, that the teardown of the node arrays of a rectangular
hierarchy of level `L` over the extents `exts` is expected to add: the children are
destroyed last first, each after the node arrays below it, and then the node array is
released. There is no leaf event in it. -/
def expected_node_log : Nat → List Nat → List Event
  | 0, _ => []
  | _ + 1, [] => []
  | L + 1, n :: rest =>
    Event.deallocate_nodes n ::
      (List.range n).flatMap (fun i => Event.destroy_child i :: expected_node_log L rest)

/-- The object `x` of level `L` is the node of a rectangular hierarchy over the extents
`exts` whose slice starts at `base`: sizes, slice bounds and node arrays at every level
are the ones of the row-major layout, `entire_array_data` is null below the root, and
at the root it is `base` when `own` holds and null otherwise. -/
def layout : (L : Nat) → Bool → dynarray L → Ptr → List Nat → Prop
  | 0, own, x, base, exts =>
    exts = [x.current_dimension_array_size] ∧
    x.entire_array_data = (if own then base else Ptr.null) ∧
    x.current_dimension_array_data = (if own then base else Ptr.null) ∧
    x.this_level_array_head = base ∧
    x.this_level_array_tail = (base.add (exts.prod : Nat)).add (-1)
  | L + 1, own, x, base, exts =>
    ∃ rest cs, exts = x.current_dimension_array_size :: rest ∧
      x.entire_array_data = (if own then base else Ptr.null) ∧
      x.current_dimension_array_data = some cs ∧
      cs.length = x.current_dimension_array_size ∧
      x.this_level_array_head = base ∧
      x.this_level_array_tail = (base.add (exts.prod : Nat)).add (-1) ∧
      ∀ i c, cs.get? i = some c → layout L false c (base.add ((i * rest.prod : Nat) : Int)) rest

/-- The extents that the class of level `L` reads from the call `(count, args...)`:
`count` and the sizes of the next `L` arguments. -/
def extents (L : Nat) (count : Nat) (args : List (Arg α)) : List Nat :=
  count :: (args.take L).map Arg.toSize

/-- Every path of `operator[]` from `x` reports the sizes `exts`: `x.size()` is the
first extent and each child `x[i]` has the shape of the remaining extents. -/
def has_shape : (L : Nat) → dynarray L → List Nat → Prop
  | 0, x, exts => exts = [x.size]
  | L + 1, x, exts =>
    ∃ rest, exts = x.size :: rest ∧
      ∀ i, i < x.size → ∃ c, x.child i = some c ∧ has_shape L c rest

/-- Every node strictly below `x` has a null `entire_array_data`. -/
def descendants_null : (L : Nat) → dynarray L → Prop
  | 0, _ => True
  | L + 1, x =>
    ∀ i c, x.child i = some c → c.entire_array_data = Ptr.null ∧ descendants_null L c

/-- The slices of the children of every non-leaf node below and including `x`, for the
extents `exts`: with `B` the product of the remaining extents, child `i` spans
`[head + i * B, head + i * B + B - 1]`, lies inside the slice of its node, ends before
every later sibling starts, and is followed at once by child `i + 1`. -/
def slices : (L : Nat) → dynarray L → List Nat → Prop
  | 0, _, _ => True
  | L + 1, x, exts =>
    ∃ n rest, exts = n :: rest ∧ ∀ i, i < n → ∃ c, x.child i = some c ∧
      c.this_level_array_head = x.this_level_array_head.add ((i * rest.prod : Nat) : Int) ∧
      c.this_level_array_tail =
        x.this_level_array_head.add (((i * rest.prod + rest.prod : Nat) : Int) - 1) ∧
      (c.this_level_array_head.block = x.this_level_array_head.block ∧
        c.this_level_array_tail.block = x.this_level_array_tail.block ∧
        x.this_level_array_head.off ≤ c.this_level_array_head.off ∧
        c.this_level_array_tail.off ≤ x.this_level_array_tail.off) ∧
      (∀ j d, i < j → j < n → x.child j = some d →
        c.this_level_array_tail.off < d.this_level_array_head.off) ∧
      (∀ d, x.child (i + 1) = some d →
        d.this_level_array_head = c.this_level_array_tail.add 1) ∧
      slices L c rest

/-- The address of the leaf `x[i0][i1]...[ik]`, reached by `operator[]` at every level;
`none` when the index list has the wrong length or a child is missing. -/
def leaf_address : (L : Nat) → dynarray L → List Nat → Option Ptr
  | 0, x, [i] => some (x.elem i)
  | 0, _, _ => none
  | L + 1, x, i :: idx =>
    match x.child i with
    | some c => leaf_address L c idx
    | none => none
  | _ + 1, _, [] => none

/-- The row-major offset of the index `idx` in an array of extents `exts`. -/
def flat_offset : List Nat → List Nat → Nat
  | _ :: rest, i :: idx => i * rest.prod + flat_offset rest idx
  | _, _ => 0

/-- The index `idx` is within the extents `exts` at every level. -/
def in_range : List Nat → List Nat → Prop
  | [], [] => True
  | n :: rest, i :: idx => i < n ∧ in_range rest idx
  | _, _ => False

/-- The object `x` is a top-level owner of a rectangular hierarchy over `exts` whose
buffer is a live block of the heap `h`. -/
def owns (h : Heap α) (L : Nat) (x : dynarray L) (exts : List Nat) : Prop :=
  ∃ b, layout L true x ⟨b, 0⟩ exts ∧ h.len b = some exts.prod ∧ b ≤ h.next ∧
    (∀ n ∈ exts, 1 ≤ n) ∧ exts.prod ≤ PTRDIFF_MAX

/-- A sample heap: one live block of six cells, holding `1, ..., 6`. -/
def sample_heap : Heap Int :=
  { next := 1
    len := fun b => if b = 1 then some 6 else none
    cell := fun b i => if b = 1 ∧ 0 ≤ i ∧ i < 6 then some (i + 1) else none
    log := [] }

/-- A sample row: a view of `n` leaves starting at offset `off` of block `1`. -/
def sample_row (off : Int) (n : Nat) : dynarray 0 :=
  { array_allocator := 0
    contiguous_allocator := 0
    entire_array_data := Ptr.null
    current_dimension_array_size := n
    current_dimension_array_data := Ptr.null
    this_level_array_head := ⟨1, off⟩
    this_level_array_tail := ⟨1, off + n - 1⟩ }

/-- A sample top-level owner: the `2 x 3` array over block `1` of `sample_heap`. -/
def sample_owner : dynarray 1 :=
  { array_allocator := 0
    contiguous_allocator := 0
    entire_array_data := ⟨1, 0⟩
    current_dimension_array_size := 2
    current_dimension_array_data := some [sample_row 0 3, sample_row 3 3]
    this_level_array_head := ⟨1, 0⟩
    this_level_array_tail := ⟨1, 5⟩ }

/-- A second sample heap: block `1` as in `sample_heap`, and a live block `2` of two
cells holding `7, 8`. -/
def sample_heap2 : Heap Int :=
  { next := 2
    len := fun b => if b = 1 then some 6 else if b = 2 then some 2 else none
    cell := fun b i =>
      if b = 1 ∧ 0 ≤ i ∧ i < 6 then some (i + 1)
      else if b = 2 ∧ 0 ≤ i ∧ i < 2 then some (i + 7) else none
    log := [] }

/-- A sample one-level owner: the array of two leaves over block `2` of `sample_heap2`. -/
def sample_vector : dynarray 0 :=
  { array_allocator := 0
    contiguous_allocator := 0
    entire_array_data := ⟨2, 0⟩
    current_dimension_array_size := 2
    current_dimension_array_data := (⟨2, 0⟩ : Ptr)
    this_level_array_head := ⟨2, 0⟩
    this_level_array_tail := ⟨2, 1⟩ }

end

/-! ## `src/vla_neat/dynarray.hpp`: the object and its allocation -/

end vla

namespace vla_neat

open vla

/-- The data members of the specialisation `dynarray<T, 1, _Allocator>` (lines 1951-1956):
it has neither a size nor a node array. -/
structure Fields1 where
  entire_array_data : Ptr
  this_level_array_head : Ptr
  this_level_array_tail : Ptr
  contiguous_allocator : Allocator

/-- The data members of `dynarray<T, N, _Allocator>` for `N ≥ 2` (lines 682-691); `C` is
the type `value_type`, and `current_dimension_array_data` is null (`none`) or the node
array. -/
structure FieldsN (C : Type) where
  entire_array_data : Ptr
  current_dimension_array_size : Nat
  current_dimension_array_data : Option (List C)
  this_level_array_head : Ptr
  this_level_array_tail : Ptr
  array_allocator : Allocator
  contiguous_allocator : Allocator

/-- The class `dynarray<T, k + 1>`. -/
def dynarray : Nat → Type
  | 0 => Fields1
  | k + 1 => FieldsN (dynarray k)

/-- The member `this_level_array_head`, also returned by `data()` (lines 495, 1759). -/
def dynarray.head : {k : Nat} → dynarray k → Ptr
  | 0, x => Fields1.this_level_array_head x
  | _ + 1, x => FieldsN.this_level_array_head x

/-- The member `this_level_array_tail`. -/
def dynarray.tail : {k : Nat} → dynarray k → Ptr
  | 0, x => Fields1.this_level_array_tail x
  | _ + 1, x => FieldsN.this_level_array_tail x

/-- The member `entire_array_data`. -/
def dynarray.entire : {k : Nat} → dynarray k → Ptr
  | 0, x => Fields1.entire_array_data x
  | _ + 1, x => FieldsN.entire_array_data x

/-- The member `size()`: computed from the slice for `N = 1` (lines 1800-1805), the
stored `current_dimension_array_size` otherwise (line 537). -/
def dynarray.size : {k : Nat} → dynarray k → Nat
  | 0, x =>
    if Fields1.this_level_array_tail x = Ptr.null ∧ Fields1.this_level_array_head x = Ptr.null
    then 0
    else (((Fields1.this_level_array_tail x).diff (Fields1.this_level_array_head x) + 1)
      % (SIZE_MOD : Int)).toNat
  | _ + 1, x => FieldsN.current_dimension_array_size x

/-- The member `get_block_size()` (lines 698, 1963). -/
def dynarray.get_block_size {k : Nat} (x : dynarray k) : Nat :=
  ((x.tail.diff x.head + 1) % (SIZE_MOD : Int)).toNat

/-- The access `x[pos]` for `N ≥ 2` (lines 1417-1422): the child object
`*(current_dimension_array_data + pos)`, `none` when there is no such object. -/
def dynarray.child {k : Nat} (x : dynarray (k + 1)) (pos : Nat) : Option (dynarray k) :=
  match FieldsN.current_dimension_array_data x with
  | some cs => cs.get? pos
  | none => none

/-- The access `x[pos]` for `N = 1` (lines 2511-2516): the address
`this_level_array_head + pos`. -/
def dynarray.elem (x : dynarray 0) (pos : Nat) : Ptr :=
  (Fields1.this_level_array_head x).add pos

/-- The member `reset()` (lines 905-914 and 2153-2160). -/
def reset : {k : Nat} → dynarray k → dynarray k
  | 0, x =>
    ({ (x : Fields1) with
      entire_array_data := Ptr.null
      this_level_array_head := Ptr.null
      this_level_array_tail := Ptr.null } : Fields1)
  | k + 1, x =>
    ({ (x : FieldsN (dynarray k)) with
      entire_array_data := Ptr.null
      current_dimension_array_size := 0
      current_dimension_array_data := none
      this_level_array_head := Ptr.null
      this_level_array_tail := Ptr.null } : FieldsN (dynarray k))

/-- The member `initialise(other_allocator)` (lines 895-903 and 2145-2151). -/
def initialise : (k : Nat) → Allocator → dynarray k
  | 0, other_allocator =>
    ({ entire_array_data := Ptr.null
       this_level_array_head := Ptr.null
       this_level_array_tail := Ptr.null
       contiguous_allocator := other_allocator } : Fields1)
  | k + 1, other_allocator =>
    ({ entire_array_data := Ptr.null
       current_dimension_array_size := 0
       current_dimension_array_data := none
       this_level_array_head := Ptr.null
       this_level_array_tail := Ptr.null
       array_allocator := other_allocator
       contiguous_allocator := 0 } : FieldsN (dynarray k))

/-- The assignment `x.contiguous_allocator = a`. -/
def dynarray.set_contiguous_allocator : {k : Nat} → dynarray k → Allocator → dynarray k
  | 0, x, a => ({ (x : Fields1) with contiguous_allocator := a } : Fields1)
  | k + 1, x, a =>
    ({ (x : FieldsN (dynarray k)) with contiguous_allocator := a } : FieldsN (dynarray k))

/-- The static member `expand_counts(count, args...)` of `dynarray<T, k + 1>`: `count`
for `N = 1` (lines 2121-2127), `value_type::expand_counts(args...) * count` otherwise
(lines 865-871; that call needs a non-empty pack, on an empty one the model has no
further factor). -/
def expand_counts {α : Type} : Nat → Nat → List (Arg α) → Nat
  | 0, count, _ => count
  | _ + 1, count, [] => count
  | k + 1, count, a :: rest => size_mul (expand_counts k a.toSize rest) count

/-- One pass of the node loop (lines 974-980 and 997-1003): the object
`current_dimension_array_data + i` is default-constructed, receives the parent's
`contiguous_allocator`, and `step` runs its allocation at the address
`base + i * each_block_size`. -/
def node_step {α : Type} {k : Nat}
    (step : dynarray k → Heap α → Ptr → Result (Heap α × dynarray k))
    (contiguous_allocator : Allocator) (base : Ptr) (each_block_size : Nat)
    (i : Nat) (s : Heap α × List (dynarray k)) : Result (Heap α × List (dynarray k)) :=
  let starting_address := base.add (size_mul i each_block_size)
  let node : dynarray k := (initialise k 0).set_contiguous_allocator contiguous_allocator
  match step node s.1 starting_address with
  | .ok (h1, c) => .ok (h1, s.2 ++ [c])
  | .throw e (h1, c) => .throw e (h1, s.2 ++ [c])
  | .undefined => .undefined

/-- The allocation of a nested object of class `dynarray<T, k + 1>`: for `N = 1` the
template `allocate_array(starting_address, count, args...)` (lines 2222-2234); for
`N ≥ 2` the overload `allocate_array(starting_address, count)` (lines 944-949), chosen
when no argument follows `count`, and the template
`allocate_array(starting_address, count, args...)` (lines 986-1007). -/
def allocate_array_at {α : Type} [Inhabited α] : (k : Nat) → dynarray k → Heap α → Ptr →
    Nat → List (Arg α) → Result (Heap α × dynarray k)
  | 0, this, h, starting_address, count, args =>
    match construct_n starting_address (some (make_leaf args)) count h with
    | .ok h1 =>
      .ok (h1, ({ (this : Fields1) with
        entire_array_data := Ptr.null
        this_level_array_head := starting_address
        this_level_array_tail := (starting_address.add count).add (-1) } : Fields1))
    | .throw e h1 => .throw e (h1, this)
    | .undefined => .undefined
  | _ + 1, this, h, _, _, [] => .ok (h, reset this)
  | k + 1, this, h, starting_address, count, a :: rest =>
    let each_block_size := expand_counts k a.toSize rest
    match for_loop (node_step (fun c h1 p => allocate_array_at k c h1 p a.toSize rest)
        (FieldsN.contiguous_allocator this) starting_address each_block_size) count (h, []) with
    | .ok (h1, cs) =>
      .ok (h1, ({ (this : FieldsN (dynarray k)) with
        entire_array_data := Ptr.null
        current_dimension_array_size := count
        current_dimension_array_data := some cs
        this_level_array_head := starting_address
        this_level_array_tail :=
          (starting_address.add (size_mul each_block_size count)).add (-1) } :
          FieldsN (dynarray k)))
    | .throw e (h1, cs) =>
      .throw e (h1, ({ (this : FieldsN (dynarray k)) with
        entire_array_data := Ptr.null
        current_dimension_array_size := count
        current_dimension_array_data := some cs } : FieldsN (dynarray k)))
    | .undefined => .undefined

/-- The template member `allocate_array(count, args...)` of `dynarray<T, k + 1>`: lines
2201-2220 for `N = 1`, lines 951-984 for `N ≥ 2` (whose call of
`value_type::expand_counts(args...)` needs a non-empty pack; on an empty one the model
takes the block size `1` and the guard `N > 1 + sizeof...(args)` resets the object). -/
def allocate_array {α : Type} [Inhabited α] : (k : Nat) → dynarray k → Heap α →
    Nat → List (Arg α) → Result (Heap α × dynarray k)
  | 0, this, h, count, args =>
    if count = 0 then .ok (h, reset this)
    else if verify_size count then .throw .length_error (h, this)
    else
      let (p, h1) := h.allocate count
      match construct_n p (some (make_leaf args)) count h1 with
      | .ok h2 =>
        .ok (h2, ({ (this : Fields1) with
          entire_array_data := p
          this_level_array_head := p
          this_level_array_tail := (p.add count).add (-1) } : Fields1))
      | .throw e h2 => .throw e (h2, ({ (this : Fields1) with entire_array_data := p } : Fields1))
      | .undefined => .undefined
  | k + 1, this, h, count, args =>
    if verify_size count then .throw .length_error (h, this) else
    let each_block_size : Nat :=
      match args with
      | [] => 1
      | a :: rest => expand_counts k a.toSize rest
    if verify_size each_block_size then .throw .length_error (h, this) else
    let entire_array_size := size_mul each_block_size count
    if verify_size entire_array_size then .throw .length_error (h, this) else
    if k + 2 > 1 + args.length ∨ entire_array_size = 0 then .ok (h, reset this)
    else
      match args with
      | [] => .ok (h, reset this)
      | a :: rest =>
        let (p, h1) := h.allocate entire_array_size
        match for_loop (node_step (fun c h2 q => allocate_array_at k c h2 q a.toSize rest)
            (FieldsN.contiguous_allocator this) p each_block_size) count (h1, []) with
        | .ok (h2, cs) =>
          .ok (h2, ({ (this : FieldsN (dynarray k)) with
            entire_array_data := p
            current_dimension_array_size := count
            current_dimension_array_data := some cs
            this_level_array_head := p
            this_level_array_tail := (p.add entire_array_size).add (-1) } :
            FieldsN (dynarray k)))
        | .throw e (h2, cs) =>
          .throw e (h2, ({ (this : FieldsN (dynarray k)) with
            entire_array_data := p
            current_dimension_array_size := count
            current_dimension_array_data := some cs } : FieldsN (dynarray k)))
        | .undefined => .undefined

/-- The constructor `dynarray(size_type count, Args&&... args)` (lines 242-248 and
1539-1544) of `dynarray<T, k + 1>`. -/
def dynarray.mk_counts {α : Type} [Inhabited α] (k : Nat) (h : Heap α) (count : Nat)
    (args : List (Arg α)) : Result (Heap α × dynarray k) :=
  allocate_array k (initialise k 0) h count args

/-- The address of the leaf `x[i0][i1]...[ik]`, reached by `operator[]` at every level;
`none` when the index list has the wrong length or a child is missing. -/
def leaf_address : (k : Nat) → dynarray k → List Nat → Option Ptr
  | 0, x, [i] => some (x.elem i)
  | 0, _, _ => none
  | k + 1, x, i :: idx =>
    match x.child i with
    | some c => leaf_address k c idx
    | none => none
  | _ + 1, _, [] => none

/-- The object `x` of class `dynarray<T, k + 1>` is the node of a rectangular hierarchy
over the extents `exts` whose slice starts at `base`; `entire_array_data` is null below
the root, and at the root it is `base` when `own` holds and null otherwise. -/
def layout : (k : Nat) → Bool → dynarray k → Ptr → List Nat → Prop
  | 0, own, x, base, exts =>
    (∃ n, exts = [n]) ∧
    Fields1.entire_array_data x = (if own then base else Ptr.null) ∧
    Fields1.this_level_array_head x = base ∧
    Fields1.this_level_array_tail x = (base.add (exts.prod : Nat)).add (-1)
  | k + 1, own, x, base, exts =>
    ∃ rest cs, exts = FieldsN.current_dimension_array_size x :: rest ∧
      FieldsN.entire_array_data x = (if own then base else Ptr.null) ∧
      FieldsN.current_dimension_array_data x = some cs ∧
      cs.length = FieldsN.current_dimension_array_size x ∧
      FieldsN.this_level_array_head x = base ∧
      FieldsN.this_level_array_tail x = (base.add (exts.prod : Nat)).add (-1) ∧
      ∀ i c, cs.get? i = some c → layout k false c (base.add ((i * rest.prod : Nat) : Int)) rest

/-- Every path of `operator[]` from `x` reports the sizes `exts`: `x.size()` is the
first extent and each child `x[i]` has the shape of the remaining extents. -/
def has_shape : (k : Nat) → dynarray k → List Nat → Prop
  | 0, x, exts => exts = [x.size]
  | k + 1, x, exts =>
    ∃ rest, exts = x.size :: rest ∧
      ∀ i, i < x.size → ∃ c, x.child i = some c ∧ has_shape k c rest

/-! ## `src/vla_neat/dynarray.hpp`: construction from brace lists -/

/-- The static member `expand_list(init)` of `dynarray<T, k + 1>`: `init.size()` for
`N = 1` (lines 2114-2119), the sum over the sub-lists otherwise (lines 855-863). -/
def expand_list {α : Type} : (k : Nat) → init_list α k → Nat
  | 0, init => List.length (α := α) init
  | k + 1, init =>
    List.foldl (fun count sub_list => (count + expand_list k sub_list) % SIZE_MOD) 0
      (show List (init_list α k) from init)

/-- One pass of the node loop of the brace-list allocation (lines 1092-1098 and
1118-1124): the object `current_dimension_array_data + i` is default-constructed,
receives the parent's `contiguous_allocator`, `step` runs its allocation at the running
address, and the address advances by `value_type::expand_list(*list_iter)`. -/
def list_node_step {α : Type} {k : Nat}
    (step : dynarray k → Heap α → Ptr → init_list α k → Result (Heap α × dynarray k))
    (contiguous_allocator : Allocator) (input_list : List (init_list α k))
    (i : Nat) (s : Heap α × List (dynarray k) × Ptr) :
    Result (Heap α × List (dynarray k) × Ptr) :=
  match input_list.get? i with
  | none => .undefined
  | some sub_list =>
    let node : dynarray k := (initialise k 0).set_contiguous_allocator contiguous_allocator
    match step node s.1 s.2.2 sub_list with
    | .ok (h1, c) => .ok (h1, s.2.1 ++ [c], s.2.2.add (expand_list k sub_list))
    | .throw e (h1, c) => .throw e (h1, s.2.1 ++ [c], s.2.2)
    | .undefined => .undefined

/-- The member `allocate_array(starting_address, input_list, other_allocator)` of
`dynarray<T, k + 1>`, called with the default `other_allocator`: lines 2290-2307 for
`N = 1`, lines 1103-1128 for `N ≥ 2`. -/
def allocate_list_at {α : Type} : (k : Nat) → dynarray k → Heap α → Ptr → init_list α k →
    Result (Heap α × dynarray k)
  | 0, this, h, starting_address, input_list =>
    let this : Fields1 := { (this : Fields1) with contiguous_allocator := 0 }
    let count := List.length (α := α) input_list
    if verify_size count then .throw .length_error (h, this) else
    match construct_list starting_address input_list h with
    | .ok h1 =>
      .ok (h1, ({ this with
        entire_array_data := Ptr.null
        this_level_array_head := starting_address
        this_level_array_tail := (starting_address.add count).add (-1) } : Fields1))
    | .throw e h1 => .throw e (h1, ({ this with entire_array_data := Ptr.null } : Fields1))
    | .undefined => .undefined
  | k + 1, this, h, starting_address, input_list =>
    let this : FieldsN (dynarray k) :=
      { (this : FieldsN (dynarray k)) with array_allocator := 0 }
    let count := List.length (α := init_list α k) input_list
    if verify_size count then .throw .length_error (h, this) else
    match for_loop (list_node_step (allocate_list_at k) this.contiguous_allocator input_list)
        count (h, [], starting_address) with
    | .ok (h1, cs, _) =>
      .ok (h1, ({ this with
        current_dimension_array_size := count
        entire_array_data := Ptr.null
        current_dimension_array_data := some cs
        this_level_array_head := starting_address
        this_level_array_tail :=
          (starting_address.add (expand_list (k + 1) input_list)).add (-1) } :
          FieldsN (dynarray k)))
    | .throw e (h1, cs, _) =>
      .throw e (h1, ({ this with
        current_dimension_array_size := count
        entire_array_data := Ptr.null
        current_dimension_array_data := some cs } : FieldsN (dynarray k)))
    | .undefined => .undefined

/-- The member `allocate_array(input_list)` for a list of lists (lines 1071-1101), of
`dynarray<T, k + 2>`. -/
def allocate_list {α : Type} (k : Nat) (this : dynarray (k + 1)) (h : Heap α)
    (input_list : init_list α (k + 1)) : Result (Heap α × dynarray (k + 1)) :=
  let count := List.length (α := init_list α k) input_list
  if count = 0 then .ok (h, this) else
  if verify_size count then .throw .length_error (h, this) else
  let entire_array_size := expand_list (k + 1) input_list
  if entire_array_size = 0 then .ok (h, this) else
  if verify_size entire_array_size then .throw .length_error (h, this) else
  let (p, h1) := h.allocate entire_array_size
  match for_loop (list_node_step (allocate_list_at k) (FieldsN.contiguous_allocator this)
      input_list) count (h1, [], p) with
  | .ok (h2, cs, _) =>
    .ok (h2, ({ (this : FieldsN (dynarray k)) with
      entire_array_data := p
      current_dimension_array_size := count
      current_dimension_array_data := some cs
      this_level_array_head := p
      this_level_array_tail := (p.add entire_array_size).add (-1) } : FieldsN (dynarray k)))
  | .throw e (h2, cs, _) =>
    .throw e (h2, ({ (this : FieldsN (dynarray k)) with
      entire_array_data := p
      current_dimension_array_size := count
      current_dimension_array_data := some cs } : FieldsN (dynarray k)))
  | .undefined => .undefined

/-- The constructor `dynarray(std::initializer_list<std::initializer_list<Ty>>)`
(lines 323-329) of `dynarray<T, k + 2>`. -/
def dynarray.mk_lists {α : Type} (k : Nat) (h : Heap α) (input_list : init_list α (k + 1)) :
    Result (Heap α × dynarray (k + 1)) :=
  allocate_list k (initialise (k + 1) 0) h input_list

/-! ## `src/vla_neat/dynarray.hpp`: copy assignment -/

/-- The object `x` with the object `pos` of its node array replaced by `c`. -/
def dynarray.set_child {k : Nat} (x : dynarray (k + 1)) (pos : Nat) (c : dynarray k) :
    dynarray (k + 1) :=
  ({ (x : FieldsN (dynarray k)) with
    current_dimension_array_data :=
      (FieldsN.current_dimension_array_data x).map (fun cs => cs.set pos c) } :
    FieldsN (dynarray k))

/-- The member `loop_copy(other)` of `dynarray<T, k + 1>`: lines 2401-2411 for `N = 1`,
lines 1283-1291 for `N ≥ 2`, where each pass is the copy assignment of the class below,
which is again `loop_copy`. -/
def loop_copy {α : Type} : (k : Nat) → dynarray k → Heap α → dynarray k →
    Result (Heap α × dynarray k)
  | 0, this, h, other =>
    if this.size = 0 ∨ other.size = 0 then .ok (h, this)
    else
      let length : Int := min (this.tail.diff this.head + 1) (other.tail.diff other.head + 1)
      match for_loop (fun i h1 =>
          match h1.load (other.head.add i) with
          | some v =>
            match h1.assign (this.head.add i) v with
            | some h2 => .ok h2
            | none => .undefined
          | none => .undefined) length.toNat h with
      | .ok h1 => .ok (h1, this)
      | .throw e h1 => .throw e (h1, this)
      | .undefined => .undefined
  | k + 1, this, h, other =>
    if this.size = 0 ∨ other.size = 0 then .ok (h, this)
    else
      for_loop (fun i (s : Heap α × dynarray (k + 1)) =>
        match s.2.child i, other.child i with
        | some c, some oc =>
          match loop_copy k c s.1 oc with
          | .ok (h1, c1) => .ok (h1, s.2.set_child i c1)
          | .throw e (h1, c1) => .throw e (h1, s.2.set_child i c1)
          | .undefined => .undefined
        | _, _ => .undefined) (min this.size other.size) (h, this)

/-- The copy assignment `operator=(const dynarray &other)` (lines 352-356 and
1629-1633). -/
def copy_assign {α : Type} (k : Nat) (this : dynarray k) (h : Heap α) (other : dynarray k) :
    Result (Heap α × dynarray k) :=
  loop_copy k this h other

/-! ## `src/vla_neat/dynarray.hpp`: move construction -/

/-- One pass of the node loop of `copy_array` and `move_array` (lines 1215-1220 and
1346-1351): the object `current_dimension_array_data + i` is default-constructed, `step`
copies the structure of `other[i]` into it at the running address, and the address
advances by `other[i].get_block_size()`. -/
def copy_node_step {k : Nat}
    (step : dynarray k → Ptr → dynarray k → Result (dynarray k))
    (other : dynarray (k + 1)) (i : Nat) (s : List (dynarray k) × Ptr) :
    Result (List (dynarray k) × Ptr) :=
  match other.child i with
  | none => .undefined
  | some o =>
    match step (initialise k 0) s.2 o with
    | .ok c => .ok (s.1 ++ [c], s.2.add o.get_block_size)
    | .throw e c => .throw e (s.1 ++ [c], s.2)
    | .undefined => .undefined

/-- The member `copy_array(starting_address, other)` of `dynarray<T, k + 1>`: lines
2356-2365 for `N = 1`, lines 1206-1223 for `N ≥ 2`. It touches no leaf. -/
def copy_array_at : (k : Nat) → dynarray k → Ptr → dynarray k → Result (dynarray k)
  | 0, this, starting_address, other =>
    let entire_array_size := dynarray.get_block_size (k := 0) other
    .ok ({ (this : Fields1) with
      entire_array_data := Ptr.null
      this_level_array_head := starting_address
      this_level_array_tail := (starting_address.add entire_array_size).add (-1) } : Fields1)
  | k + 1, this, starting_address, other =>
    match for_loop (copy_node_step (copy_array_at k) other)
        (FieldsN.current_dimension_array_size other) ([], starting_address) with
    | .ok (cs, _) =>
      .ok ({ (this : FieldsN (dynarray k)) with
        current_dimension_array_size := FieldsN.current_dimension_array_size other
        entire_array_data := Ptr.null
        current_dimension_array_data := some cs
        this_level_array_head := starting_address
        this_level_array_tail :=
          (starting_address.add (dynarray.get_block_size (k := k + 1) other)).add (-1) } :
        FieldsN (dynarray k))
    | .throw e (cs, _) =>
      .throw e ({ (this : FieldsN (dynarray k)) with
        current_dimension_array_size := FieldsN.current_dimension_array_size other
        entire_array_data := Ptr.null
        current_dimension_array_data := some cs } : FieldsN (dynarray k))
    | .undefined => .undefined

/-- The member `move_array(other)` of `dynarray<T, k + 1>` (lines 2426-2459 for `N = 1`,
lines 1318-1363 for `N ≥ 2`): the heap and the new states of `*this` and of `other`. -/
def move_array {α : Type} (mv : α → α) : (k : Nat) → dynarray k → Heap α → dynarray k →
    Result (Heap α × dynarray k × dynarray k)
  | 0, this, h, other =>
    if other.size = 0 then .ok (h, initialise 0 0, other)
    else if Fields1.entire_array_data other = Ptr.null then
      let this : Fields1 := initialise 0 0
      let entire_array_size := dynarray.get_block_size (k := 0) other
      if entire_array_size = 0 then .ok (h, this, other)
      else
        let (p, h1) := h.allocate entire_array_size
        match move_n mv p (Fields1.this_level_array_head other) entire_array_size h1 with
        | .ok h2 =>
          .ok (h2, ({ this with
            entire_array_data := p
            this_level_array_head := p
            this_level_array_tail := (p.add entire_array_size).add (-1) } : Fields1), other)
        | .throw e h2 => .throw e (h2, ({ this with entire_array_data := p } : Fields1), other)
        | .undefined => .undefined
    else
      .ok (h, ({ (this : Fields1) with
        contiguous_allocator := Fields1.contiguous_allocator other
        entire_array_data := Fields1.entire_array_data other
        this_level_array_head := Fields1.this_level_array_head other
        this_level_array_tail := Fields1.this_level_array_tail other } : Fields1), reset other)
  | k + 1, this, h, other =>
    if other.size = 0 then .ok (h, initialise (k + 1) 0, other)
    else if FieldsN.entire_array_data other = Ptr.null then
      let this : FieldsN (dynarray k) := initialise (k + 1) 0
      let entire_array_size := dynarray.get_block_size (k := k + 1) other
      if entire_array_size = 0 ∨ FieldsN.current_dimension_array_size other = 0 then
        .ok (h, this, other)
      else
        let this : FieldsN (dynarray k) :=
          { this with
            current_dimension_array_size := FieldsN.current_dimension_array_size other }
        let (p, h1) := h.allocate entire_array_size
        match move_n mv p (FieldsN.this_level_array_head other) entire_array_size h1 with
        | .ok h2 =>
          match for_loop (copy_node_step (copy_array_at k) other)
              this.current_dimension_array_size ([], p) with
          | .ok (cs, _) =>
            .ok (h2, ({ this with
              entire_array_data := p
              current_dimension_array_data := some cs
              this_level_array_head := p
              this_level_array_tail := (p.add entire_array_size).add (-1) } :
              FieldsN (dynarray k)), other)
          | .throw e (cs, _) =>
            .throw e (h2, ({ this with
              entire_array_data := p
              current_dimension_array_data := some cs } : FieldsN (dynarray k)), other)
          | .undefined => .undefined
        | .throw e h2 =>
          .throw e (h2, ({ this with entire_array_data := p } : FieldsN (dynarray k)), other)
        | .undefined => .undefined
    else
      .ok (h, ({ (this : FieldsN (dynarray k)) with
        array_allocator := FieldsN.array_allocator other
        contiguous_allocator := FieldsN.contiguous_allocator other
        entire_array_data := FieldsN.entire_array_data other
        current_dimension_array_size := FieldsN.current_dimension_array_size other
        current_dimension_array_data := FieldsN.current_dimension_array_data other
        this_level_array_head := FieldsN.this_level_array_head other
        this_level_array_tail := FieldsN.this_level_array_tail other } :
        FieldsN (dynarray k)), reset other)

/-- The move constructor `dynarray(dynarray &&other)` (lines 282-286 and 1576-1579):
`uninit` is the object before the body runs, whose members have no initialiser. -/
def dynarray.mk_move {α : Type} (mv : α → α) (k : Nat) (uninit : dynarray k) (h : Heap α)
    (other : dynarray k) : Result (Heap α × dynarray k × dynarray k) :=
  move_array mv k uninit h other

/-! ## `src/vla_neat/dynarray.hpp`: element access -/

/-- What `operator[]` designates in `dynarray<T, k + 1>`: a leaf address for `N = 1`, an
object of the node array otherwise (`none`: there is no object). -/
def reference : Nat → Type
  | 0 => Ptr
  | k + 1 => Option (dynarray k)

/-- The member `operator[](pos)` (lines 1417-1422 and 2511-2516). -/
def dynarray.index : {k : Nat} → dynarray k → Nat → reference k
  | 0, x, pos => dynarray.elem x pos
  | _ + 1, x, pos => dynarray.child x pos

/-- The member `at(pos)` (lines 1399-1406 and 2493-2500). -/
def dynarray.at {k : Nat} (x : dynarray k) (pos : Nat) : Except Exception (reference k) :=
  if pos ≥ x.size then .error .out_of_range else .ok (x.index pos)

/-- The object `x` is a top-level owner of a rectangular hierarchy over `exts` whose
buffer is a live block of the heap `h`. -/
def owns {α : Type} (h : Heap α) (k : Nat) (x : dynarray k) (exts : List Nat) : Prop :=
  ∃ b, layout k true x ⟨b, 0⟩ exts ∧ h.len b = some exts.prod ∧ b ≤ h.next ∧ b ≠ 0 ∧
    (∀ n ∈ exts, 1 ≤ n) ∧ exts.prod ≤ PTRDIFF_MAX

/-! ## `src/vla_neat/dynarray.hpp`: swap and exchange for `N = 1` -/

/-- The member `deallocate_array()` of `dynarray<T, 1>` (lines 2309-2321), also the body
of the destructor. -/
def deallocate_array {α : Type} (this : dynarray 0) (h : Heap α) :
    Option (Heap α × dynarray 0) :=
  let entire_array_size := dynarray.get_block_size (k := 0) this
  if Fields1.entire_array_data this ≠ Ptr.null then
    match release (Fields1.entire_array_data this) entire_array_size h with
    | some h1 => some (h1, ({ (this : Fields1) with entire_array_data := Ptr.null } : Fields1))
    | none => none
  else some (h, this)

/-- The member `swap(other)` of `dynarray<T, 1>` (lines 2540-2548): the elements are
swapped one by one over the shorter of the two slices; no member is written. -/
def swap {α : Type} (this : dynarray 0) (h : Heap α) (other : dynarray 0) : Result (Heap α) :=
  let length : Int :=
    min ((Fields1.this_level_array_tail this).diff (Fields1.this_level_array_head this) + 1)
      ((Fields1.this_level_array_tail other).diff (Fields1.this_level_array_head other) + 1)
  swap_leaves (Fields1.this_level_array_head this) (Fields1.this_level_array_head other)
    length.toNat h

/-- The member `swap_all(other)` of `dynarray<T, 1>` (lines 2473-2481): the new states of
`*this` and of `other`. -/
def swap_all (this other : dynarray 0) : dynarray 0 × dynarray 0 :=
  (({ (this : Fields1) with
      entire_array_data := Fields1.entire_array_data other
      this_level_array_head := Fields1.this_level_array_head other
      this_level_array_tail := Fields1.this_level_array_tail other
      contiguous_allocator := Fields1.contiguous_allocator other } : Fields1),
   ({ (other : Fields1) with
      entire_array_data := Fields1.entire_array_data this
      this_level_array_head := Fields1.this_level_array_head this
      this_level_array_tail := Fields1.this_level_array_tail this
      contiguous_allocator := Fields1.contiguous_allocator this } : Fields1))

/-- The member `swap_outside(other)` of `dynarray<T, 1>` (lines 2483-2491): the heap and
the new states of `*this` and of `other`. -/
def swap_outside {α : Type} (this : dynarray 0) (h : Heap α) (other : dynarray 0) :
    Result (Heap α × dynarray 0 × dynarray 0) :=
  if Fields1.entire_array_data this = Ptr.null ∨ Fields1.entire_array_data other = Ptr.null then
    match vla_neat.swap this h other with
    | .ok h1 => .ok (h1, this, other)
    | .throw e h1 => .throw e (h1, this, other)
    | .undefined => .undefined
  else .ok (h, swap_all this other)

/-- The friend function `swap(lhs, rhs)` of `dynarray<T, 1>` (line 2042). -/
def friend_swap {α : Type} (lhs : dynarray 0) (h : Heap α) (rhs : dynarray 0) :
    Result (Heap α × dynarray 0 × dynarray 0) :=
  swap_outside lhs h rhs

/-- The friend function `exchange(old_array, std::move(new_array))` of `dynarray<T, 1>`
(lines 2054-2073): the heap, the returned array and the new states of `old_array` and of
`new_array`. `uninit` and `uninit_temp` are the objects `current_array` and `temp_array`
before their move constructors run; `temp_array` is destroyed when its block ends. -/
def exchange {α : Type} (mv : α → α) (uninit uninit_temp : dynarray 0)
    (old_array : dynarray 0) (h : Heap α) (new_array : dynarray 0) :
    Result (Heap α × dynarray 0 × dynarray 0 × dynarray 0) :=
  match dynarray.mk_move mv 0 uninit h old_array with
  | .ok (h1, current_array, old1) =>
    if Fields1.entire_array_data old1 = Ptr.null then
      match vla_neat.swap old1 h1 new_array with
      | .ok h2 => .ok (h2, current_array, old1, new_array)
      | .throw e h2 => .throw e (h2, current_array, old1, new_array)
      | .undefined => .undefined
    else if Fields1.entire_array_data new_array = Ptr.null then
      match dynarray.mk_move mv 0 uninit_temp h1 new_array with
      | .ok (h2, temp_array, new1) =>
        match vla_neat.deallocate_array (swap_all old1 temp_array).2 h2 with
        | some (h3, _) => .ok (h3, current_array, (swap_all old1 temp_array).1, new1)
        | none => .undefined
      | .throw e (h2, _, new1) => .throw e (h2, current_array, old1, new1)
      | .undefined => .undefined
    else .ok (h1, current_array, (swap_all old1 new_array).1, (swap_all old1 new_array).2)
  | .throw e (h1, current_array, old1) => .throw e (h1, current_array, old1, new_array)
  | .undefined => .undefined

/-- A sample top-level owner of `dynarray<T, 1>`: the six leaves of block `1`. -/
def sample_top1 : dynarray 0 :=
  ({ entire_array_data := ⟨1, 0⟩
     this_level_array_head := ⟨1, 0⟩
     this_level_array_tail := ⟨1, 5⟩
     contiguous_allocator := 0 } : Fields1)

/-- A sample top-level owner of `dynarray<T, 1>`: the two leaves of block `2` of
`sample_heap2`. -/
def sample_top2 : dynarray 0 :=
  ({ entire_array_data := ⟨2, 0⟩
     this_level_array_head := ⟨2, 0⟩
     this_level_array_tail := ⟨2, 1⟩
     contiguous_allocator := 0 } : Fields1)

/-- A sample row of `dynarray<T, 1>`: a view of `n` leaves starting at offset `off` of
block `1`. -/
def sample_row (off : Int) (n : Nat) : dynarray 0 :=
  ({ entire_array_data := Ptr.null
     this_level_array_head := ⟨1, off⟩
     this_level_array_tail := ⟨1, off + n - 1⟩
     contiguous_allocator := 0 } : Fields1)

/-- A sample top-level owner of `dynarray<T, 2>`: the `2 x 3` array over block `1` of
`sample_heap`. -/
def sample_owner : dynarray 1 :=
  ({ entire_array_data := ⟨1, 0⟩
     current_dimension_array_size := 2
     current_dimension_array_data := some [sample_row 0 3, sample_row 3 3]
     this_level_array_head := ⟨1, 0⟩
     this_level_array_tail := ⟨1, 5⟩
     array_allocator := 0
     contiguous_allocator := 0 } : FieldsN (dynarray 0))

/-! ## `src/vla_neat/dynarray.hpp`: iterators and copy construction for `N = 1` -/

/-- The member `begin()` of `dynarray<T, 1>` (line 1845): `iterator(this_level_array_head)`. -/
def dynarray.begin (x : dynarray 0) : Ptr := Fields1.this_level_array_head x

/-- The member `end()` of `dynarray<T, 1>` (line 1872):
`iterator(this_level_array_tail + 1)`. -/
def dynarray.end_ (x : dynarray 0) : Ptr := (Fields1.this_level_array_tail x).add 1

/-- The member `copy_array(other)` of `dynarray<T, 1>` (lines 2323-2337). -/
def copy_array {α : Type} (this : dynarray 0) (h : Heap α) (other : dynarray 0) :
    Result (Heap α × dynarray 0) :=
  let entire_array_size := dynarray.get_block_size (k := 0) other
  if entire_array_size = 0 then .ok (h, this)
  else
    let (p, h1) := h.allocate entire_array_size
    let other_array_data :=
      if Fields1.entire_array_data other = Ptr.null then Fields1.this_level_array_head other
      else Fields1.entire_array_data other
    match copy_n p other_array_data entire_array_size h1 with
    | .ok h2 =>
      .ok (h2, ({ (this : Fields1) with
        entire_array_data := p
        this_level_array_head := p
        this_level_array_tail := (p.add entire_array_size).add (-1) } : Fields1))
    | .throw e h2 => .throw e (h2, ({ (this : Fields1) with entire_array_data := p } : Fields1))
    | .undefined => .undefined

/-- The copy constructor `dynarray(const dynarray &other)` of `dynarray<T, 1>` (lines
1565-1569). -/
def dynarray.mk_copy {α : Type} (h : Heap α) (other : dynarray 0) :
    Result (Heap α × dynarray 0) :=
  copy_array (initialise 0 0) h other

end vla_neat

/-! ## `src/vla_nest/dynarray_lite.hpp` -/

namespace vla_nest

open vla

/-- The data members of `dynarray<T, _Allocator>` (lines 685-688); `P` is the type of
`pointer current_dimension_array_data`. -/
structure Fields (P : Type) where
  current_dimension_array_size : Nat
  current_dimension_array_data : P
  array_allocator : Allocator

/-- The type `pointer` (`T*`) of the class `dynarray<T>` whose `T` has `nested_level`
equal to `L` (lines 84-96): a leaf pointer for `L = 0`; for `L + 1` the elements are
`dynarray` objects of level `L`, and the pointer is null (`none`) or the array of them,
carried by value. -/
def node_pointer : Nat → Type
  | 0 => Ptr
  | L + 1 => Option (List (Fields (node_pointer L)))

/-- The class `dynarray<T>` whose `T` has `nested_level` equal to `L`. -/
abbrev dynarray (L : Nat) : Type := Fields (node_pointer L)

/-- The member `size()` (line 540). -/
def dynarray.size {L : Nat} (x : dynarray L) : Nat := x.current_dimension_array_size

/-- The member `current_dimension_array_data` of the class whose `T` is the leaf type. -/
def dynarray.leaf_data (x : dynarray 0) : Ptr := x.current_dimension_array_data

/-- What `operator[]` designates: a leaf address when `T` is the leaf type, an object of
the array otherwise (`none`: there is no object). -/
def reference : Nat → Type
  | 0 => Ptr
  | L + 1 => Option (dynarray L)

/-- The member `operator[](pos)` (lines 1046-1051): `*(current_dimension_array_data + pos)`. -/
def dynarray.index : {L : Nat} → dynarray L → Nat → reference L
  | 0, x, pos => x.leaf_data.add pos
  | _ + 1, x, pos =>
    match x.current_dimension_array_data with
    | some cs => cs.get? pos
    | none => none

/-- The member `at(pos)` (lines 1028-1035). -/
def dynarray.at {L : Nat} (x : dynarray L) (pos : Nat) : Except Exception (reference L) :=
  if pos ≥ x.size then .error .out_of_range else .ok (x.index pos)

/-- The member `move_array(other)` (lines 1001-1016) of the class whose `T` is the leaf
type: the heap and the states of `*this` and of `other` afterwards. The elements are
move-constructed into a new block and no member of `other` is written (the lines that
took its pointer and reset it are commented out in the source, lines 1012-1015). -/
def move_array {α : Type} (mv : α → α) (this : dynarray 0) (h : Heap α) (other : dynarray 0) :
    Result (Heap α × dynarray 0 × dynarray 0) :=
  if other.current_dimension_array_size = 0 then .ok (h, this, other)
  else
    let (p, h1) := h.allocate other.current_dimension_array_size
    match move_n mv p other.leaf_data other.current_dimension_array_size h1 with
    | .ok h2 =>
      .ok (h2, { this with
        current_dimension_array_size := other.current_dimension_array_size
        array_allocator := other.array_allocator
        current_dimension_array_data := p }, other)
    | .throw e h2 =>
      .throw e (h2, { this with
        current_dimension_array_size := other.current_dimension_array_size
        array_allocator := other.array_allocator
        current_dimension_array_data := p }, other)
    | .undefined => .undefined

/-- The move constructor `dynarray(dynarray &&other)` (lines 288-291): the initialiser
list sets `array_allocator`; `uninit_size` and `uninit_data` are the values of the two
members that have no initialiser. -/
def dynarray.mk_move {α : Type} (mv : α → α) (uninit_size : Nat) (uninit_data : Ptr)
    (h : Heap α) (other : dynarray 0) : Result (Heap α × dynarray 0 × dynarray 0) :=
  move_array mv
    { current_dimension_array_size := uninit_size
      current_dimension_array_data := uninit_data
      array_allocator := 0 } h other

/-- The access `x[pos]` of a class whose `T` is itself a `dynarray`: the object
`*(current_dimension_array_data + pos)`, `none` when there is no such object. -/
def dynarray.child {L : Nat} (x : dynarray (L + 1)) (pos : Nat) : Option (dynarray L) :=
  match x.current_dimension_array_data with
  | some cs => cs.get? pos
  | none => none

/-- The object `x` with the object `pos` of its array replaced by `c`. -/
def dynarray.set_child {L : Nat} (x : dynarray (L + 1)) (pos : Nat) (c : dynarray L) :
    dynarray (L + 1) :=
  { x with
    current_dimension_array_data :=
      Option.map (fun cs => cs.set pos c)
        (show Option (List (dynarray L)) from x.current_dimension_array_data) }

/-- The member `swap(other)` (lines 1074-1088): the heap and the new states of `*this`
and of `other`. When `T` is the leaf type the elements are swapped one by one over the
smaller of the two sizes; otherwise the elements, themselves arrays, are swapped by
their own `swap`. No size and no data pointer is written. -/
def swap {α : Type} : (L : Nat) → dynarray L → Heap α → dynarray L →
    Result (Heap α × dynarray L × dynarray L)
  | 0, this, h, other =>
    let length : Int :=
      min (this.current_dimension_array_size : Int) (other.current_dimension_array_size : Int)
    match swap_leaves this.leaf_data other.leaf_data length.toNat h with
    | .ok h1 => .ok (h1, this, other)
    | .throw e h1 => .throw e (h1, this, other)
    | .undefined => .undefined
  | L + 1, this, h, other =>
    for_loop (fun i (s : Heap α × dynarray (L + 1) × dynarray (L + 1)) =>
      match s.2.1.child i, s.2.2.child i with
      | some c, some oc =>
        match swap L c s.1 oc with
        | .ok (h1, c1, oc1) => .ok (h1, s.2.1.set_child i c1, s.2.2.set_child i oc1)
        | .throw e (h1, c1, oc1) => .throw e (h1, s.2.1.set_child i c1, s.2.2.set_child i oc1)
        | .undefined => .undefined
      | _, _ => .undefined)
      (min this.current_dimension_array_size other.current_dimension_array_size) (h, this, other)

/-- A second sample array of `vla_nest`: the two leaves of block `2` of `sample_heap2`. -/
def sample_lite2 : dynarray 0 :=
  { current_dimension_array_size := 2
    current_dimension_array_data := (⟨2, 0⟩ : Ptr)
    array_allocator := 0 }

/-- A sample array of `vla_nest`: three leaves in block `1` of `sample_heap`, at offsets
`0..2`. -/
def sample_lite : dynarray 0 :=
  { current_dimension_array_size := 3
    current_dimension_array_data := (⟨1, 0⟩ : Ptr)
    array_allocator := 0 }

/-! ## `src/vla_nest/dynarray_lite.hpp`: construction from extents, teardown, move assignment -/

/-- The null value of `pointer current_dimension_array_data`. -/
def node_pointer.null : (L : Nat) → node_pointer L
  | 0 => Ptr.null
  | _ + 1 => none

/-- The member `initialise()` (lines 802-808): it leaves `array_allocator` alone. -/
def initialise {L : Nat} (this : dynarray L) : dynarray L :=
  { this with
    current_dimension_array_size := 0
    current_dimension_array_data := node_pointer.null L }

/-- The default constructor `dynarray()` (lines 206-209). -/
def dynarray.mk_default (L : Nat) : dynarray L :=
  { current_dimension_array_size := 0
    current_dimension_array_data := node_pointer.null L
    array_allocator := 0 }

/-- The static member `expand_counts(count, args...)` (lines 791-800) of the class of
level `L`. -/
def expand_counts {α : Type} : Nat → Nat → List (Arg α) → Nat
  | 0, count, _ => count
  | _ + 1, count, [] => count
  | L + 1, count, a :: rest => size_mul (expand_counts L a.toSize rest) count

/-- The member `allocate_array(size_type count)` (lines 818-832) of the class of level
`L`: every element is value-initialised, a leaf at the innermost level and an empty array
otherwise. -/
def allocate_array_count {α : Type} [Inhabited α] : (L : Nat) → dynarray L → Heap α → Nat →
    Result (Heap α × dynarray L)
  | 0, this, h, count =>
    if count = 0 then .ok (h, initialise this)
    else if verify_size count then .throw .length_error (h, this)
    else
      let (p, h1) := h.allocate count
      match construct_n p (some (default : α)) count h1 with
      | .ok h2 =>
        .ok (h2, { this with
          current_dimension_array_size := count
          current_dimension_array_data := p })
      | .throw e h2 =>
        .throw e (h2, { this with
          current_dimension_array_size := count
          current_dimension_array_data := p })
      | .undefined => .undefined
  | L + 1, this, h, count =>
    if count = 0 then .ok (h, initialise this)
    else if verify_size count then .throw .length_error (h, this)
    else
      .ok (h, { this with
        current_dimension_array_size := count
        current_dimension_array_data := some (List.replicate count (dynarray.mk_default L)) })

/-- One pass of the loop of `allocate_array(count, args...)` (lines 858-859): the element
`current_dimension_array_data + i` is constructed by `make`. -/
def element_step {α : Type} {L : Nat} (make : Heap α → Result (Heap α × dynarray L))
    (_ : Nat) (s : Heap α × List (dynarray L)) : Result (Heap α × List (dynarray L)) :=
  match make s.1 with
  | .ok (h1, c) => .ok (h1, s.2 ++ [c])
  | .throw e (h1, c) => .throw e (h1, s.2 ++ [c])
  | .undefined => .undefined

/-- The template member `allocate_array(count, args...)` (lines 834-860) of the class of
level `L`. At a nested level every element is constructed as `T(args...)`: by the
constructor `dynarray(size_type count)` (lines 217-221) when one argument is left, by the
template constructor `dynarray(size_type count, Args&&... args)` (lines 252-257) otherwise;
each element allocates its own block. For a nested class the call of
`T::expand_counts(args...)` needs a non-empty pack; on an empty one `each_block_size`
keeps its initial value. -/
def allocate_array {α : Type} [Inhabited α] : (L : Nat) → dynarray L → Heap α → Nat →
    List (Arg α) → Result (Heap α × dynarray L)
  | 0, this, h, count, args =>
    if verify_size count then .throw .length_error (h, this) else
    let each_block_size : Nat := 1
    if verify_size each_block_size then .throw .length_error (h, this) else
    let entire_array_size := size_mul each_block_size count
    if verify_size entire_array_size then .throw .length_error (h, this) else
    if 0 > args.length ∨ entire_array_size = 0 then .ok (h, initialise this)
    else
      let (p, h1) := h.allocate count
      match construct_n p (some (make_leaf args)) count h1 with
      | .ok h2 =>
        .ok (h2, { this with
          current_dimension_array_size := count
          current_dimension_array_data := p })
      | .throw e h2 =>
        .throw e (h2, { this with
          current_dimension_array_size := count
          current_dimension_array_data := p })
      | .undefined => .undefined
  | L + 1, this, h, count, args =>
    if verify_size count then .throw .length_error (h, this) else
    let each_block_size : Nat :=
      match args with
      | [] => 1
      | a :: rest => expand_counts L a.toSize rest
    if verify_size each_block_size then .throw .length_error (h, this) else
    let entire_array_size := size_mul each_block_size count
    if verify_size entire_array_size then .throw .length_error (h, this) else
    if L + 1 > args.length ∨ entire_array_size = 0 then .ok (h, initialise this)
    else
      match args with
      | [] => .ok (h, initialise this)
      | a :: rest =>
        match for_loop (element_step (fun h1 =>
            match rest with
            | [] => allocate_array_count L (dynarray.mk_default L) h1 a.toSize
            | _ :: _ => allocate_array L (dynarray.mk_default L) h1 a.toSize rest))
            count (h, []) with
        | .ok (h1, cs) =>
          .ok (h1, { this with
            current_dimension_array_size := count
            current_dimension_array_data := some cs })
        | .throw e (h1, cs) =>
          .throw e (h1, { this with
            current_dimension_array_size := count
            current_dimension_array_data := some cs })
        | .undefined => .undefined

/-- The constructor `dynarray(size_type count, Args&&... args)` (lines 252-257). -/
def dynarray.mk_counts {α : Type} [Inhabited α] (L : Nat) (h : Heap α) (count : Nat)
    (args : List (Arg α)) : Result (Heap α × dynarray L) :=
  allocate_array L (dynarray.mk_default L) h count args

/-- The loop that destroys the elements of the array `cs`, last first (lines 914-915),
when they are arrays: each `destroy` runs the destructor of the element, `teardown`. -/
def destroy_nodes {α : Type} {L : Nat}
    (teardown : dynarray L → Heap α → Option (Heap α × dynarray L))
    (cs : List (dynarray L)) (n : Nat) (h : Heap α) : Option (Heap α) :=
  rev_loop (fun i h1 =>
    match cs.get? i with
    | some c =>
      match teardown c h1 with
      | some (h2, _) => some (h2.record (Event.destroy_child i))
      | none => none
    | none => none) n h

/-- The member `deallocate_array()` (lines 908-919) of the class of level `L`, also the
body of the destructor (lines 400-403). It resets `current_dimension_array_data` only. -/
def deallocate_array {α : Type} : (L : Nat) → dynarray L → Heap α →
    Option (Heap α × dynarray L)
  | 0, this, h =>
    if this.leaf_data ≠ Ptr.null then
      match release this.leaf_data this.current_dimension_array_size h with
      | some h1 => some (h1, { this with current_dimension_array_data := Ptr.null })
      | none => none
    else some (h, this)
  | L + 1, this, h =>
    match this.current_dimension_array_data with
    | some cs =>
      if cs.length = this.current_dimension_array_size then
        match destroy_nodes (deallocate_array L) cs this.current_dimension_array_size h with
        | some h1 =>
          some (h1.record (Event.deallocate_nodes this.current_dimension_array_size),
            { this with current_dimension_array_data := none })
        | none => none
      else none
    | none => some (h, this)

/-- The member `move_array(other)` (lines 1001-1016) of the class of level `L`: the heap
and the states of `*this` and of `other` afterwards. At a nested level every element is
built by the move constructor (lines 288-291) from the element of `other`, that is by
`move_array` on an object whose size and data pointer have no initialiser (`uninit`). -/
def move_array_nested {α : Type} (mv : α → α) (uninit : (L : Nat) → dynarray L) :
    (L : Nat) → dynarray L → Heap α → dynarray L → Result (Heap α × dynarray L × dynarray L)
  | 0, this, h, other => move_array mv this h other
  | L + 1, this, h, other =>
    if other.current_dimension_array_size = 0 then .ok (h, this, other)
    else
      match for_loop (fun i (s : Heap α × List (dynarray L) × dynarray (L + 1)) =>
          match s.2.2.child i with
          | none => .undefined
          | some oc =>
            match move_array_nested mv uninit L { uninit L with array_allocator := 0 } s.1 oc with
            | .ok (h1, c, oc1) => .ok (h1, s.2.1 ++ [c], s.2.2.set_child i oc1)
            | .throw e (h1, c, oc1) => .throw e (h1, s.2.1 ++ [c], s.2.2.set_child i oc1)
            | .undefined => .undefined)
          other.current_dimension_array_size (h, [], other) with
      | .ok (h1, cs, other1) =>
        .ok (h1, { this with
          current_dimension_array_size := other.current_dimension_array_size
          array_allocator := other.array_allocator
          current_dimension_array_data := some cs }, other1)
      | .throw e (h1, cs, other1) =>
        .throw e (h1, { this with
          current_dimension_array_size := other.current_dimension_array_size
          array_allocator := other.array_allocator
          current_dimension_array_data := some cs }, other1)
      | .undefined => .undefined

/-- The assignment `*dst = std::move(*src)` of two leaves: `*dst` takes the value of
`*src` and the move assignment of the leaf type leaves `mv v` in the source. -/
def move_assign_leaf {α : Type} (mv : α → α) (h : Heap α) (dst src : Ptr) : Option (Heap α) :=
  match h.load src with
  | some v =>
    match h.assign dst v with
    | some h1 => h1.assign src (v.map mv)
    | none => none
  | none => none

/-- The member `move_values(other)` (lines 1018-1026) of the class whose `T` is the leaf
type. -/
def move_values_leaves {α : Type} (mv : α → α) (this other : dynarray 0) (h : Heap α) :
    Result (Heap α) :=
  if this.size = 0 ∨ other.size = 0 then .ok h
  else
    for_loop (fun i h1 =>
      match move_assign_leaf mv h1 (this.leaf_data.add i) (other.leaf_data.add i) with
      | some h2 => .ok h2
      | none => .undefined)
      (min this.current_dimension_array_size other.current_dimension_array_size) h

/-- The member `move_values(other)` (lines 1018-1026) of a class whose `T` is itself a
`dynarray`: each pass is the move assignment of the class below, here `assign`. -/
def move_values_nodes {α : Type} {L : Nat}
    (assign : dynarray L → Heap α → dynarray L → Result (Heap α × dynarray L × dynarray L))
    (this other : dynarray (L + 1)) (h : Heap α) :
    Result (Heap α × dynarray (L + 1) × dynarray (L + 1)) :=
  if this.size = 0 ∨ other.size = 0 then .ok (h, this, other)
  else
    for_loop (fun i (s : Heap α × dynarray (L + 1) × dynarray (L + 1)) =>
      match s.2.1.child i, s.2.2.child i with
      | some c, some oc =>
        match assign c s.1 oc with
        | .ok (h1, c1, oc1) => .ok (h1, s.2.1.set_child i c1, s.2.2.set_child i oc1)
        | .throw e (h1, c1, oc1) => .throw e (h1, s.2.1.set_child i c1, s.2.2.set_child i oc1)
        | .undefined => .undefined
      | _, _ => .undefined)
      (min this.current_dimension_array_size other.current_dimension_array_size) (h, this, other)

/-- The move assignment `operator=(dynarray &&other)` (lines 359-369) of the class of
level `L`: the heap and the new states of `*this` and of `other`. -/
def move_assign {α : Type} (mv : α → α) (uninit : (L : Nat) → dynarray L) :
    (L : Nat) → dynarray L → Heap α → dynarray L → Result (Heap α × dynarray L × dynarray L)
  | 0, this, h, other =>
    if this.current_dimension_array_size > 0 ∧
        this.current_dimension_array_size ≠ other.current_dimension_array_size then
      match move_values_leaves mv this other h with
      | .ok h1 => .ok (h1, this, other)
      | .throw e h1 => .throw e (h1, this, other)
      | .undefined => .undefined
    else
      match deallocate_array 0 this h with
      | some (h1, this1) => move_array_nested mv uninit 0 this1 h1 other
      | none => .undefined
  | L + 1, this, h, other =>
    if this.current_dimension_array_size > 0 ∧
        this.current_dimension_array_size ≠ other.current_dimension_array_size then
      move_values_nodes (move_assign mv uninit L) this other h
    else
      match deallocate_array (L + 1) this h with
      | some (h1, this1) => move_array_nested mv uninit (L + 1) this1 h1 other
      | none => .undefined

/-- The sizes that `size()` reports along every path of `operator[]` from `x`: `x.size()`
is the first extent and each element `x[i]` has the shape of the remaining extents. -/
def has_shape : (L : Nat) → dynarray L → List Nat → Prop
  | 0, x, exts => exts = [x.size]
  | L + 1, x, exts =>
    ∃ rest, exts = x.size :: rest ∧
      ∀ i, i < x.size → ∃ c, x.child i = some c ∧ has_shape L c rest

/-- The address of the leaf `x[i0][i1]...[ik]`, reached by `operator[]` (lines 1046-1051)
at every level; `none` when the index list has the wrong length or an element is
missing. -/
def leaf_address : (L : Nat) → dynarray L → List Nat → Option Ptr
  | 0, x, [i] => some (x.leaf_data.add i)
  | 0, _, _ => none
  | L + 1, x, i :: idx =>
    match x.child i with
    | some c => leaf_address L c idx
    | none => none
  | _ + 1, _, [] => none

end vla_nest

namespace vla

variable {α : Type}

/-! ## Basic lemmas -/

theorem Ptr.add_add (p : Ptr) (a b : Int) : (p.add a).add b = p.add (a + b) := by
  simp [Ptr.add, add_assoc]

theorem Ptr.add_block (p : Ptr) (a : Int) : (p.add a).block = p.block := rfl

theorem Ptr.add_off (p : Ptr) (a : Int) : (p.add a).off = p.off + a := rfl

theorem for_loop_inv {σ : Type} (body : Nat → σ → Result σ) (P : Nat → σ → Prop) (n : Nat)
    (s : σ) (h0 : P 0 s)
    (hstep : ∀ i t, i < n → P i t → ∃ t', body i t = .ok t' ∧ P (i + 1) t') :
    ∃ t, for_loop body n s = .ok t ∧ P n t := by
  induction n with
  | zero => exact ⟨s, rfl, h0⟩
  | succ n ih =>
    obtain ⟨t, ht, hP⟩ := ih (fun i t hi hp => hstep i t (Nat.lt_succ_of_lt hi) hp)
    obtain ⟨t', ht', hP'⟩ := hstep n t (Nat.lt_succ_self n) hP
    exact ⟨t', by simp [for_loop, ht, ht'], hP'⟩

theorem size_mul_eq {a b : Nat} (h : a * b ≤ PTRDIFF_MAX) : size_mul a b = a * b := by
  unfold size_mul SIZE_MOD
  apply Nat.mod_eq_of_lt
  unfold PTRDIFF_MAX at h
  omega

variable {α : Type}

theorem Heap.valid_iff (h : Heap α) (p : Ptr) (len : Nat) (hlen : h.len p.block = some len) :
    h.valid p = true ↔ 0 ≤ p.off ∧ p.off < len := by
  simp [Heap.valid, hlen]

theorem Heap.construct_spec (h : Heap α) (p : Ptr) (v : Option α) (hv : h.valid p = true) :
    ∃ h', h.construct p v = some h' ∧ h'.len = h.len ∧ h'.next = h.next ∧
      ∀ b i, h'.cell b i = if b = p.block ∧ i = p.off then v else h.cell b i :=
  ⟨{ h with
      cell := fun b i => if b = p.block ∧ i = p.off then v else h.cell b i
      log := Event.construct p :: h.log }, by simp [Heap.construct, hv], rfl, rfl,
    fun _ _ => rfl⟩

theorem construct_n_spec (p : Ptr) (v : Option α) (count : Nat) (h : Heap α) (len : Nat)
    (hlen : h.len p.block = some len) (h0 : 0 ≤ p.off) (h1 : p.off + count ≤ len) :
    ∃ h', construct_n p v count h = .ok h' ∧ h'.len = h.len ∧ h'.next = h.next ∧
      ∀ b i, h'.cell b i =
        if b = p.block ∧ p.off ≤ i ∧ i < p.off + count then v else h.cell b i := by
  unfold construct_n
  apply for_loop_inv _
    (fun k (t : Heap α) => t.len = h.len ∧ t.next = h.next ∧
      ∀ b i, t.cell b i = if b = p.block ∧ p.off ≤ i ∧ i < p.off + k then v else h.cell b i)
  · refine ⟨rfl, rfl, fun b i => ?_⟩
    split_ifs with hc
    · exfalso; omega
    · rfl
  · intro k t hk ⟨hl, hn, hc⟩
    have hv : t.valid (p.add k) = true := by
      rw [Heap.valid_iff t _ len (by rw [hl]; exact hlen)]
      simp only [Ptr.add_off]; omega
    obtain ⟨t', ht', hl', hn', hc'⟩ := Heap.construct_spec t _ v hv
    refine ⟨t', by rw [ht'], hl'.trans hl, hn'.trans hn, ?_⟩
    intro b i
    simp only [Ptr.add_block, Ptr.add_off, hc, hc']
    split_ifs <;> first | rfl | (exfalso; omega)

theorem extents_succ_cons (L : Nat) (count : Nat) (a : Arg α) (rest : List (Arg α)) :
    extents (L + 1) count (a :: rest) = count :: extents L a.toSize rest := rfl

theorem extents_zero (count : Nat) (args : List (Arg α)) : extents 0 count args = [count] := rfl

theorem expand_counts_eq (L : Nat) : ∀ (count : Nat) (args : List (Arg α)),
    (∀ x ∈ extents L count args, 1 ≤ x) → (extents L count args).prod ≤ PTRDIFF_MAX →
    expand_counts L count args = (extents L count args).prod := by
  induction L with
  | zero => intro count args _ _; simp [expand_counts, extents]
  | succ L ih =>
    intro count args hpos hmax
    cases args with
    | nil => simp [expand_counts, extents]
    | cons a rest =>
      rw [extents_succ_cons] at hpos hmax ⊢
      rw [List.prod_cons] at hmax ⊢
      have hc : 1 ≤ count := hpos count (List.mem_cons_self _ _)
      have hle : (extents L a.toSize rest).prod ≤ count * (extents L a.toSize rest).prod :=
        Nat.le_mul_of_pos_left _ hc
      have := ih a.toSize rest (fun x hx => hpos x (List.mem_cons_of_mem _ hx))
        (le_trans hle hmax)
      simp only [expand_counts, this]
      rw [size_mul_eq (by rw [Nat.mul_comm]; exact hmax), Nat.mul_comm]

theorem get?_snoc {β : Type} {cs : List β} {x c : β} {j : Nat}
    (h : (cs ++ [x]).get? j = some c) :
    (j < cs.length ∧ cs.get? j = some c) ∨ (j = cs.length ∧ c = x) := by
  rcases Nat.lt_or_ge j cs.length with hjl | hjl
  · left
    rw [List.get?_eq_getElem?, List.getElem?_append_left hjl, ← List.get?_eq_getElem?] at h
    exact ⟨hjl, h⟩
  · right
    rw [List.get?_eq_getElem?, List.getElem?_append_right hjl] at h
    have hj : j = cs.length := by
      by_contra hne
      have : 1 ≤ j - cs.length := by omega
      rw [List.getElem?_eq_none (by simpa using this)] at h
      exact absurd h (by simp)
    subst hj
    simp at h
    exact ⟨rfl, h.symm⟩

theorem prod_pos_of_pos (l : List Nat) (h : ∀ x ∈ l, 1 ≤ x) : 1 ≤ l.prod := by
  induction l with
  | nil => simp
  | cons a l ih =>
    rw [List.prod_cons]
    exact Nat.mul_pos (h a (List.mem_cons_self _ _)) (ih fun x hx => h x (List.mem_cons_of_mem _ hx))

theorem node_loop_spec_of [Inhabited α] (L : Nat)
    (ih : ∀ (this : dynarray L) (h : Heap α) (base : Ptr) (count : Nat) (args : List (Arg α))
      (len : Nat),
      L ≤ args.length →
      (∀ x ∈ extents L count args, 1 ≤ x) →
      (extents L count args).prod ≤ PTRDIFF_MAX →
      h.len base.block = some len → 0 ≤ base.off →
      base.off + ((extents L count args).prod : Nat) ≤ len →
      ∃ h' x, allocate_array_at L this h base count args = .ok (h', x) ∧
        layout L false x base (extents L count args) ∧ h'.len = h.len ∧ h'.next = h.next ∧
        ∀ b i, h'.cell b i =
          if L < args.length ∧ b = base.block ∧ base.off ≤ i ∧
              i < base.off + ((extents L count args).prod : Nat)
          then some (make_leaf (args.drop L)) else h.cell b i)
    (calloc : Allocator) (h : Heap α) (base : Ptr) (count : Nat) (a : Arg α)
    (rest : List (Arg α)) (len : Nat)
    (hrl : L ≤ rest.length)
    (hpos : ∀ x ∈ extents L a.toSize rest, 1 ≤ x)
    (hmax : count * (extents L a.toSize rest).prod ≤ PTRDIFF_MAX)
    (hc1 : 1 ≤ count)
    (hlen : h.len base.block = some len) (h0 : 0 ≤ base.off)
    (h1 : base.off + ((count * (extents L a.toSize rest).prod : Nat) : Int) ≤ len) :
    ∃ hf cs, for_loop (node_step (fun c h1 p => allocate_array_at L c h1 p a.toSize rest)
        calloc base (expand_counts L a.toSize rest)) count (h, []) = .ok (hf, cs) ∧
      cs.length = count ∧
      (∀ j c, cs.get? j = some c →
        layout L false c (base.add ((j * (extents L a.toSize rest).prod : Nat) : Int))
          (extents L a.toSize rest)) ∧
      hf.len = h.len ∧ hf.next = h.next ∧
      ∀ b k, hf.cell b k =
        if L < rest.length ∧ b = base.block ∧ base.off ≤ k ∧
            k < base.off + ((count * (extents L a.toSize rest).prod : Nat) : Int)
        then some (make_leaf (rest.drop L)) else h.cell b k := by
  generalize hE : extents L a.toSize rest = E at *
  generalize hB : E.prod = B at *
  have hBmax : B ≤ PTRDIFF_MAX := le_trans (Nat.le_mul_of_pos_left _ hc1) hmax
  have heb : expand_counts L a.toSize rest = B := by
    rw [expand_counts_eq L a.toSize rest (by rw [hE]; exact hpos)
      (by rw [hE, hB]; exact hBmax), hE, hB]
  obtain ⟨⟨hf, cs⟩, hloop, hlencs, hlay, hl, hn, hcell⟩ := for_loop_inv
    (node_step (fun c h1 p => allocate_array_at L c h1 p a.toSize rest)
      calloc base (expand_counts L a.toSize rest))
    (fun i (s : Heap α × List (dynarray L)) => s.2.length = i ∧
      (∀ j c, s.2.get? j = some c → layout L false c (base.add ((j * B : Nat) : Int)) E) ∧
      s.1.len = h.len ∧ s.1.next = h.next ∧
      ∀ b k, s.1.cell b k =
        if L < rest.length ∧ b = base.block ∧ base.off ≤ k ∧
            k < base.off + ((i * B : Nat) : Int)
        then some (make_leaf (rest.drop L)) else h.cell b k)
    count (h, [])
    ⟨rfl, by simp, rfl, rfl, fun b k => by
      split_ifs with hc
      · exfalso; simp at hc; omega
      · rfl⟩
    (by
      rintro i ⟨hi, cs⟩ hlt ⟨hlencs, hlay, hl, hn, hcell⟩
      simp only at hlencs hlay hl hn hcell
      have hiB : (i + 1) * B ≤ count * B := Nat.mul_le_mul_right _ hlt
      have hsucc : (i + 1) * B = i * B + B := Nat.succ_mul _ _
      have hsm : size_mul i B = i * B :=
        size_mul_eq (le_trans (by omega) (le_trans hiB hmax))
      obtain ⟨h', x, hx, hxl, hl', hn', hcell'⟩ := ih
        ({ initialise L 0 with contiguous_allocator := calloc })
        hi (base.add ((i * B : Nat) : Int)) a.toSize rest len hrl
        (by rw [hE]; exact hpos) (by rw [hE, hB]; exact hBmax)
        (by rw [Ptr.add_block, hl]; exact hlen)
        (by rw [Ptr.add_off]; omega)
        (by rw [Ptr.add_off, hE, hB]; omega)
      rw [hE] at hxl
      rw [hE, hB] at hcell'
      refine ⟨(h', cs ++ [x]), ?_, ?_, ?_, hl'.trans hl, hn'.trans hn, ?_⟩
      · simp only [node_step, heb, hsm, hx]
      · simp [hlencs]
      · intro j c hj
        rcases get?_snoc hj with ⟨_, hj'⟩ | ⟨hj', hcx⟩
        · exact hlay j c hj'
        · rw [hj', hcx, hlencs]; exact hxl
      · intro b k
        simp only at hcell' ⊢
        rw [hcell', hcell]
        simp only [Ptr.add_block, Ptr.add_off]
        split_ifs <;> first | rfl | (exfalso; omega))
  exact ⟨hf, cs, hloop, hlencs, hlay, hl, hn, hcell⟩

theorem allocate_array_at_spec [Inhabited α] (L : Nat) :
    ∀ (this : dynarray L) (h : Heap α) (base : Ptr) (count : Nat) (args : List (Arg α))
      (len : Nat),
    L ≤ args.length →
    (∀ x ∈ extents L count args, 1 ≤ x) →
    (extents L count args).prod ≤ PTRDIFF_MAX →
    h.len base.block = some len → 0 ≤ base.off →
    base.off + ((extents L count args).prod : Nat) ≤ len →
    ∃ h' x, allocate_array_at L this h base count args = .ok (h', x) ∧
      layout L false x base (extents L count args) ∧ h'.len = h.len ∧ h'.next = h.next ∧
      ∀ b i, h'.cell b i =
        if L < args.length ∧ b = base.block ∧ base.off ≤ i ∧
            i < base.off + ((extents L count args).prod : Nat)
        then some (make_leaf (args.drop L)) else h.cell b i := by
  induction L with
  | zero =>
    intro this h base count args len _ _ hmax hlen h0 h1
    simp only [extents_zero, List.prod_singleton] at h1 hmax ⊢
    cases args with
    | nil =>
      refine ⟨h, _, rfl, ?_, rfl, rfl, fun b i => by simp⟩
      simp [layout]
    | cons a rest =>
      obtain ⟨h', hc, hl, hn, hcell⟩ :=
        construct_n_spec base (some (make_leaf (a :: rest))) count h len hlen h0 h1
      refine ⟨h', _, by simp only [allocate_array_at, hc]; rfl, ?_, hl, hn, fun b i => ?_⟩
      · have : size_mul 1 count = count := by rw [size_mul_eq (by simpa using hmax)]; simp
        simp [layout, this]
      · rw [hcell]; simp
  | succ L ih =>
    intro this h base count args len hlenargs hpos hmax hlen h0 h1
    cases args with
    | nil => simp at hlenargs
    | cons a rest =>
      rw [extents_succ_cons] at hpos hmax h1 ⊢
      rw [List.prod_cons] at hmax h1 ⊢
      have hc1 : 1 ≤ count := hpos count (List.mem_cons_self _ _)
      have hpos' : ∀ x ∈ extents L a.toSize rest, 1 ≤ x :=
        fun x hx => hpos x (List.mem_cons_of_mem _ hx)
      have hrl : L ≤ rest.length := by simpa using hlenargs
      obtain ⟨hf, cs, hloop, hlencs, hlay, hl, hn, hcell⟩ := node_loop_spec_of L ih
        this.contiguous_allocator h base count a rest len hrl hpos' hmax hc1 hlen h0 h1
      have hBmax : (extents L a.toSize rest).prod ≤ PTRDIFF_MAX :=
        le_trans (Nat.le_mul_of_pos_left _ hc1) hmax
      have heb := expand_counts_eq L a.toSize rest hpos' hBmax
      refine ⟨hf, _, by simp only [allocate_array_at, hloop]; rfl, ?_, hl, hn, ?_⟩
      · have hsm : size_mul (extents L a.toSize rest).prod count
            = count * (extents L a.toSize rest).prod := by
          rw [size_mul_eq (by rw [Nat.mul_comm]; exact hmax), Nat.mul_comm]
        refine ⟨_, cs, rfl, rfl, rfl, hlencs, rfl, ?_, hlay⟩
        simp only [heb, hsm, List.prod_cons]
      · intro b k
        rw [hcell]
        simp only [List.length_cons, List.drop_succ_cons, Nat.add_lt_add_iff_right]

theorem allocate_array_spec [Inhabited α] (L : Nat) (this : dynarray L) (h : Heap α)
    (count : Nat) (args : List (Arg α))
    (hargs : L ≤ args.length)
    (hpos : ∀ x ∈ extents L count args, 1 ≤ x)
    (hmax : (extents L count args).prod ≤ PTRDIFF_MAX) :
    ∃ h' x, allocate_array L this h count args = .ok (h', x) ∧
      layout L true x ⟨h.next + 1, 0⟩ (extents L count args) ∧
      h'.next = h.next + 1 ∧
      (∀ b, h'.len b = if b = h.next + 1 then some (extents L count args).prod else h.len b) ∧
      ∀ b i, h'.cell b i =
        if b = h.next + 1 then
          (if (L < args.length ∨ L = 0) ∧ 0 ≤ i ∧ i < ((extents L count args).prod : Nat)
            then some (make_leaf (args.drop L)) else none)
        else h.cell b i := by
  have hc1 : 1 ≤ count := hpos count (List.mem_cons_self _ _)
  cases L with
  | zero =>
    simp only [extents_zero, List.prod_singleton] at hmax ⊢
    have hv : verify_size count = false := by simp [verify_size]; exact hmax
    have hv1 : verify_size 1 = false := by simp [verify_size, PTRDIFF_MAX]
    have hsm : size_mul 1 count = count := by rw [size_mul_eq (by simpa using hmax)]; simp
    obtain ⟨h', hc, hl, hn, hcell⟩ := construct_n_spec (⟨h.next + 1, 0⟩ : Ptr)
      (some (make_leaf args)) count (h.allocate count).2 count (by simp [Heap.allocate])
      (le_refl _) (by simp)
    have hg : ¬ (0 > args.length ∨ count = 0) := by omega
    simp only [Heap.allocate] at hc
    refine ⟨h', _, by
      simp only [allocate_array, hv, hv1, hsm, Bool.false_eq_true, if_false, hg,
        Heap.allocate, hc]
      rfl, ?_, hn, ?_, ?_⟩
    · simp [layout]
    · intro b; rw [hl]; rfl
    · intro b i
      rw [hcell]
      simp only [Heap.allocate]
      split_ifs <;> first | rfl | (exfalso; simp_all)
  | succ L =>
    cases args with
    | nil => simp at hargs
    | cons a rest =>
      rw [extents_succ_cons] at hpos hmax ⊢
      rw [List.prod_cons] at hmax ⊢
      have hpos1 : ∀ x ∈ extents L a.toSize rest, 1 ≤ x :=
        fun x hx => hpos x (List.mem_cons_of_mem _ hx)
      have hrl : L ≤ rest.length := by simpa using hargs
      have hBmax : (extents L a.toSize rest).prod ≤ PTRDIFF_MAX :=
        le_trans (Nat.le_mul_of_pos_left _ hc1) hmax
      have heb := expand_counts_eq L a.toSize rest hpos1 hBmax
      have hB1 : 1 ≤ (extents L a.toSize rest).prod := prod_pos_of_pos _ hpos1
      generalize hB : (extents L a.toSize rest).prod = B at *
      have hN1 : 1 ≤ count * B := Nat.mul_pos hc1 hB1
      have hv : verify_size count = false := by
        simp only [verify_size, decide_eq_false_iff_not, not_lt]
        exact le_trans (Nat.le_mul_of_pos_right _ hB1) hmax
      have hvB : verify_size B = false := by
        simp only [verify_size, decide_eq_false_iff_not, not_lt]; exact hBmax
      have hsm : size_mul B count = count * B := by
        rw [size_mul_eq (by rw [Nat.mul_comm]; exact hmax), Nat.mul_comm]
      have hvN : verify_size (count * B) = false := by
        simp only [verify_size, decide_eq_false_iff_not, not_lt]; exact hmax
      have hg : ¬ (L + 1 > (a :: rest).length ∨ count * B = 0) := by
        simp only [List.length_cons]; omega
      obtain ⟨hf, cs, hloop, hlencs, hlay, hl, hn, hcell⟩ :=
        node_loop_spec_of L (allocate_array_at_spec L) this.contiguous_allocator
          (h.allocate (count * B)).2 ⟨h.next + 1, 0⟩ count a rest (count * B) hrl hpos1
          (by rw [hB]; exact hmax) hc1 (by simp [Heap.allocate]) (le_refl _)
          (by rw [hB]; simp)
      rw [hB] at hlay hcell
      rw [heb] at hloop
      refine ⟨hf, _, by
        simp only [allocate_array, hv, heb, hvB, hsm, hvN, Bool.false_eq_true, if_false, hg,
          Heap.allocate] at hloop ⊢
        simp only [hloop]
        rfl, ?_, hn, ?_, ?_⟩
      · refine ⟨_, cs, rfl, rfl, rfl, hlencs, rfl, ?_, ?_⟩
        · simp only [List.prod_cons, hB]
        · rw [hB]; exact hlay
      · intro b; rw [hl]; rfl
      · intro b i
        rw [hcell]
        simp only [Heap.allocate, List.length_cons, List.drop_succ_cons,
          Nat.add_lt_add_iff_right, Nat.succ_ne_zero, or_false]
        split_ifs <;> first | rfl | (exfalso; omega)


theorem layout_child {L : Nat} {own : Bool} {x : dynarray (L + 1)} {base : Ptr}
    {exts : List Nat} (hl : layout (L + 1) own x base exts) :
    ∃ rest, exts = x.current_dimension_array_size :: rest ∧
      x.this_level_array_head = base ∧
      x.this_level_array_tail = (base.add (exts.prod : Nat)).add (-1) ∧
      x.entire_array_data = (if own then base else Ptr.null) ∧
      (∀ i, i < x.current_dimension_array_size → ∃ c, x.child i = some c) ∧
      ∀ i c, x.child i = some c →
        i < x.current_dimension_array_size ∧
        layout L false c (base.add ((i * rest.prod : Nat) : Int)) rest := by
  obtain ⟨rest, cs, he, hent, hcs, hlen, hh, ht, hch⟩ := hl
  refine ⟨rest, he, hh, ht, hent, ?_, ?_⟩
  · intro i hi
    have : i < cs.length := by rw [hlen]; exact hi
    exact ⟨cs.get ⟨i, this⟩, by simp [dynarray.child, dynarray.nodes, hcs, List.getElem?_eq_getElem this]⟩
  · intro i c hc
    simp only [dynarray.child, dynarray.nodes, hcs] at hc
    refine ⟨?_, hch i c hc⟩
    rw [← hlen]
    rw [List.get?_eq_getElem?] at hc
    exact (List.getElem?_eq_some_iff.mp hc).1

theorem layout_has_shape (L : Nat) : ∀ (own : Bool) (x : dynarray L) (base : Ptr)
    (exts : List Nat), layout L own x base exts → has_shape L x exts := by
  induction L with
  | zero => intro own x base exts h; exact h.1
  | succ L ih =>
    intro own x base exts h
    obtain ⟨rest, he, _, _, _, hex, hch⟩ := layout_child h
    refine ⟨rest, he, fun i hi => ?_⟩
    obtain ⟨c, hc⟩ := hex i hi
    exact ⟨c, hc, ih _ _ _ _ (hch i c hc).2⟩

theorem layout_descendants_null (L : Nat) : ∀ (own : Bool) (x : dynarray L) (base : Ptr)
    (exts : List Nat), layout L own x base exts → descendants_null L x := by
  induction L with
  | zero => intro _ _ _ _ _; trivial
  | succ L ih =>
    intro own x base exts h
    obtain ⟨rest, he, _, _, _, hex, hch⟩ := layout_child h
    intro i c hc
    have hlc := (hch i c hc).2
    refine ⟨?_, ih _ _ _ _ hlc⟩
    cases L with
    | zero => exact hlc.2.1
    | succ L =>
      obtain ⟨_, _, _, _, hent, _, _⟩ := layout_child hlc
      exact hent

theorem layout_head (L : Nat) (own : Bool) (x : dynarray L) (base : Ptr) (exts : List Nat)
    (h : layout L own x base exts) :
    x.this_level_array_head = base ∧
    x.this_level_array_tail = (base.add (exts.prod : Nat)).add (-1) ∧
    x.entire_array_data = (if own then base else Ptr.null) := by
  cases L with
  | zero => exact ⟨h.2.2.2.1, h.2.2.2.2, h.2.1⟩
  | succ L =>
    obtain ⟨_, _, hh, ht, hent, _, _⟩ := layout_child h
    exact ⟨hh, ht, hent⟩

theorem Ptr.ext_iff2 (p q : Ptr) : p = q ↔ p.block = q.block ∧ p.off = q.off := by
  cases p; cases q; simp

theorem layout_slices (L : Nat) : ∀ (own : Bool) (x : dynarray L) (base : Ptr)
    (exts : List Nat), layout L own x base exts → slices L x exts := by
  induction L with
  | zero => intro _ _ _ _ _; trivial
  | succ L ih =>
    intro own x base exts h
    obtain ⟨rest, he, hh, ht, _, hex, hch⟩ := layout_child h
    refine ⟨_, rest, he, fun i hi => ?_⟩
    obtain ⟨c, hc⟩ := hex i hi
    obtain ⟨_, hlc⟩ := hch i c hc
    obtain ⟨hch', hct, _⟩ := layout_head L false c _ rest hlc
    have hiB : (i + 1) * rest.prod ≤ x.current_dimension_array_size * rest.prod :=
      Nat.mul_le_mul_right _ hi
    have hsucc : (i + 1) * rest.prod = i * rest.prod + rest.prod := Nat.succ_mul _ _
    have hprod : exts.prod = x.current_dimension_array_size * rest.prod := by
      rw [he, List.prod_cons]
    refine ⟨c, hc, by rw [hch', hh], ?_, ?_, ?_, ?_, ih _ _ _ _ hlc⟩
    · rw [hct, hh, Ptr.add_add, Ptr.add_add]
      congr 1; push_cast; ring
    · rw [hch', hct, hh, ht, hprod]
      simp only [Ptr.add_block, Ptr.add_off]
      refine ⟨trivial, trivial, ?_, ?_⟩ <;> omega
    · intro j d hij hj hd
      obtain ⟨_, hld⟩ := hch j d hd
      obtain ⟨hdh, _, _⟩ := layout_head L false d _ rest hld
      have hjB : (i + 1) * rest.prod ≤ j * rest.prod := Nat.mul_le_mul_right _ hij
      rw [hct, hdh]
      simp only [Ptr.add_off]
      omega
    · intro d hd
      obtain ⟨_, hld⟩ := hch (i + 1) d hd
      obtain ⟨hdh, _, _⟩ := layout_head L false d _ rest hld
      rw [hct, hdh, Ptr.add_add, Ptr.add_add, Ptr.add_add]
      congr 1; push_cast; ring

theorem layout_leaf_address (L : Nat) : ∀ (own : Bool) (x : dynarray L) (base : Ptr)
    (exts idx : List Nat), layout L own x base exts → in_range exts idx →
    leaf_address L x idx = some (base.add (flat_offset exts idx : Nat)) := by
  induction L with
  | zero =>
    intro own x base exts idx h hr
    obtain ⟨he, _, _, hh, _⟩ := h
    rw [he] at hr ⊢
    match idx, hr with
    | [i], _ => simp [leaf_address, dynarray.elem, flat_offset, hh]
    | _ :: _ :: _, hr => simp [in_range] at hr
  | succ L ih =>
    intro own x base exts idx h hr
    obtain ⟨rest, he, _, _, _, hex, hch⟩ := layout_child h
    rw [he] at hr ⊢
    match idx, hr with
    | i :: idx, hr =>
      obtain ⟨hi, hr⟩ := hr
      obtain ⟨c, hc⟩ := hex i hi
      simp only [leaf_address, hc, flat_offset]
      rw [ih _ _ _ _ _ (hch i c hc).2 hr, Ptr.add_add]
      congr 2

/-- The flat offset of an index within the extents is below their product. -/
theorem flat_offset_lt : ∀ (exts idx : List Nat), in_range exts idx →
    flat_offset exts idx < exts.prod ∨ (exts = [] ∧ idx = [])
  | [], [], _ => Or.inr ⟨rfl, rfl⟩
  | [], _ :: _, h => by simp [in_range] at h
  | _ :: _, [], h => by simp [in_range] at h
  | n :: rest, i :: idx, h => by
    left
    obtain ⟨hi, hr⟩ := h
    simp only [flat_offset, List.prod_cons]
    have hiB : (i + 1) * rest.prod ≤ n * rest.prod := Nat.mul_le_mul_right _ hi
    have hsucc : (i + 1) * rest.prod = i * rest.prod + rest.prod := Nat.succ_mul _ _
    rcases flat_offset_lt rest idx hr with hlt | ⟨hre, hie⟩
    · omega
    · subst hre; subst hie
      simp [flat_offset] at *
      omega


theorem allocate_array_count_spec [Inhabited α] (this : dynarray 0) (h : Heap α) (count : Nat)
    (hc1 : 1 ≤ count) (hmax : count ≤ PTRDIFF_MAX) :
    ∃ h' x, allocate_array_count this h count = .ok (h', x) ∧
      layout 0 true x ⟨h.next + 1, 0⟩ [count] ∧
      h'.next = h.next + 1 ∧
      (∀ b, h'.len b = if b = h.next + 1 then some count else h.len b) ∧
      ∀ b i, h'.cell b i =
        if b = h.next + 1 then
          (if 0 ≤ i ∧ i < (count : Int) then some (default : α) else none)
        else h.cell b i := by
  have hv : verify_size count = false := by simp [verify_size]; exact hmax
  obtain ⟨h', hc, hl, hn, hcell⟩ := construct_n_spec (⟨h.next + 1, 0⟩ : Ptr)
    (some (default : α)) count (h.allocate count).2 count (by simp [Heap.allocate])
    (le_refl _) (by simp)
  have hg : ¬ count = 0 := by omega
  simp only [Heap.allocate] at hc
  refine ⟨h', _, by
    simp only [allocate_array_count, hv, Bool.false_eq_true, if_false, hg, Heap.allocate, hc]
    rfl, ?_, hn, ?_, ?_⟩
  · simp [layout]
  · intro b; rw [hl]; rfl
  · intro b i
    rw [hcell]
    simp only [Heap.allocate]
    split_ifs <;> first | rfl | (exfalso; omega)

/-- C1. For every nesting level `L` (depth `L + 1`) and every call `(count, args...)`
that supplies the `L + 1` extents, all at least `1` and of product at most
`PTRDIFF_MAX`, with or without leaf arguments after them, the constructor
`dynarray(count, args...)` returns an array whose `size()` is the first extent and
whose children, reached by `operator[]`, report the next extents down to the
innermost level; the one-dimensional constructor `dynarray(count)` returns an array
of `size()` equal to `count`. -/
theorem extents_construction_shape [Inhabited α] (L : Nat) (h : Heap α) (count : Nat)
    (args : List (Arg α)) (hargs : L ≤ args.length)
    (hpos : ∀ n ∈ extents L count args, 1 ≤ n)
    (hmax : (extents L count args).prod ≤ PTRDIFF_MAX) :
    (∃ h' x, dynarray.mk_counts L h count args = .ok (h', x) ∧
      has_shape L x (extents L count args)) ∧
    (∃ h' x, dynarray.mk_count h count = .ok (h', x) ∧ has_shape 0 x [count]) := by
  constructor
  · obtain ⟨h', x, hx, hl, _⟩ := allocate_array_spec L (initialise L 0) h count args hargs hpos hmax
    exact ⟨h', x, hx, layout_has_shape L _ _ _ _ hl⟩
  · have hc1 : 1 ≤ count := hpos count (List.mem_cons_self _ _)
    have hcm : count ≤ PTRDIFF_MAX := by
      refine le_trans ?_ hmax
      unfold extents
      rw [List.prod_cons]
      exact Nat.le_mul_of_pos_right _
        (prod_pos_of_pos _ fun x hx => hpos x (List.mem_cons_of_mem _ hx))
    obtain ⟨h', x, hx, hl, _⟩ := allocate_array_count_spec (initialise 0 0) h count hc1 hcm
    exact ⟨h', x, hx, layout_has_shape 0 _ _ _ _ hl⟩

/-- Witness of `extents_construction_shape`: the call `dynarray<dynarray<int>>(3, 4, 7)`. -/
theorem extents_construction_shape_witness :
    ((∀ n ∈ extents 1 3 [(⟨4, 0⟩ : Arg Int), ⟨0, 7⟩], 1 ≤ n) ∧
      (extents 1 3 [(⟨4, 0⟩ : Arg Int), ⟨0, 7⟩]).prod ≤ PTRDIFF_MAX) ∧
    ((∃ h' x, dynarray.mk_counts 1 (Heap.empty : Heap Int) 3 [⟨4, 0⟩, ⟨0, 7⟩] = .ok (h', x) ∧
      has_shape 1 x [3, 4]) ∧
    (∃ h' x, dynarray.mk_count (Heap.empty : Heap Int) 3 = .ok (h', x) ∧ has_shape 0 x [3])) :=
  ⟨⟨by decide, by decide⟩,
    extents_construction_shape 1 Heap.empty 3 [⟨4, 0⟩, ⟨0, 7⟩] (by decide) (by decide)
      (by decide)⟩

theorem get_block_size_eq {L : Nat} (x : dynarray L) (base : Ptr) (n : Nat)
    (hh : x.this_level_array_head = base)
    (ht : x.this_level_array_tail = (base.add n).add (-1)) (hn : n ≤ PTRDIFF_MAX) :
    x.get_block_size = n := by
  unfold dynarray.get_block_size
  rw [hh, ht]
  simp only [Ptr.diff, Ptr.add_off]
  have : base.off + (n : Int) + -1 - base.off + 1 = (n : Int) := by ring
  rw [this]
  unfold PTRDIFF_MAX at hn
  unfold SIZE_MOD
  have h2 : (n : Int) % ((2 ^ 64 : Nat) : Int) = (n : Int) :=
    Int.emod_eq_of_lt (by omega) (by norm_num; omega)
  rw [h2]; simp

/-- C2. For all extents `n0, n1 ≥ 1` of product at most `PTRDIFF_MAX` and every last
argument `a2`, the array `dynarray<dynarray<T>>(n0, n1, a2)` has `n0` rows of size and
block size `n1` (whatever `a2` would be as a size) and every leaf `a[i][j]` holds the
leaf built from `a2`; the array `dynarray<T>(n0, a2)` has `n0` elements, each holding
the leaf built from `a2`. -/
theorem extents_construction_values [Inhabited α] (h : Heap α) (n0 : Nat) (a1 a2 : Arg α)
    (h0 : 1 ≤ n0) (h1 : 1 ≤ a1.toSize) (hmax : n0 * a1.toSize ≤ PTRDIFF_MAX) :
    (∃ h' x, dynarray.mk_counts 1 h n0 [a1, a2] = .ok (h', x) ∧ x.size = n0 ∧
      ∀ i, i < n0 → ∃ c, x.child i = some c ∧ c.size = a1.toSize ∧
        c.get_block_size = a1.toSize ∧
        ∀ j, j < a1.toSize → h'.load (c.elem j) = some (some a2.toLeaf)) ∧
    (∃ h' x, dynarray.mk_counts 0 h n0 [a2] = .ok (h', x) ∧ x.size = n0 ∧
      ∀ i, i < n0 → h'.load (x.elem i) = some (some a2.toLeaf)) := by
  have hn0 : n0 ≤ PTRDIFF_MAX := le_trans (Nat.le_mul_of_pos_right _ h1) hmax
  have hn1 : a1.toSize ≤ PTRDIFF_MAX := le_trans (Nat.le_mul_of_pos_left _ h0) hmax
  constructor
  · obtain ⟨h', x, hx, hl, hn, hlen, hcell⟩ := allocate_array_spec 1 (initialise 1 0) h n0
      [a1, a2] (by simp) (by simp [extents]; exact ⟨h0, h1⟩) (by simpa [extents] using hmax)
    have hext : extents 1 n0 [a1, a2] = [n0, a1.toSize] := rfl
    rw [hext] at hl hlen hcell
    simp only [List.prod_cons, List.prod_nil, mul_one] at hlen hcell
    obtain ⟨rest, he, _, _, _, hex, hch⟩ := layout_child hl
    have hsz : x.current_dimension_array_size = n0 := by
      simp at he; exact he.1.symm
    have hrest : rest = [a1.toSize] := by simp at he; exact he.2.symm
    subst hrest
    refine ⟨h', x, hx, hsz, fun i hi => ?_⟩
    obtain ⟨c, hc⟩ := hex i (by rw [hsz]; exact hi)
    obtain ⟨_, hlc⟩ := hch i c hc
    obtain ⟨he0, _, _, hh, ht⟩ := hlc
    have hcs : c.current_dimension_array_size = a1.toSize := by simpa using he0.symm
    simp only [List.prod_singleton] at hh ht
    refine ⟨c, hc, hcs, get_block_size_eq c _ _ hh ht hn1, fun j hj => ?_⟩
    have hiB : (i + 1) * a1.toSize ≤ n0 * a1.toSize := Nat.mul_le_mul_right _ hi
    have hsucc : (i + 1) * a1.toSize = i * a1.toSize + a1.toSize := Nat.succ_mul _ _
    have hoff : (c.elem j).off = ((i * a1.toSize + j : Nat) : Int) := by
      simp only [dynarray.elem, hh, Ptr.add_off]; push_cast; ring
    have hblk : (c.elem j).block = h.next + 1 := by
      simp only [dynarray.elem, hh, Ptr.add_block]
    have hlt : i * a1.toSize + j < n0 * a1.toSize := by omega
    have hvalid : h'.valid (c.elem j) = true := by
      rw [Heap.valid_iff h' _ (n0 * a1.toSize) (by rw [hblk, hlen, if_pos rfl]), hoff]
      exact ⟨Int.natCast_nonneg _, by exact_mod_cast hlt⟩
    simp only [Heap.load, hvalid, if_true, hcell, hblk, hoff]
    rw [if_pos ⟨Or.inl (by simp), Int.natCast_nonneg _, by exact_mod_cast hlt⟩]
    rfl
  · obtain ⟨h', x, hx, hl, hn, hlen, hcell⟩ := allocate_array_spec 0 (initialise 0 0) h n0
      [a2] (by simp) (by simp [extents]; exact h0) (by simpa [extents] using hn0)
    have hext : extents 0 n0 [a2] = [n0] := rfl
    rw [hext] at hl hlen hcell
    simp only [List.prod_singleton] at hlen hcell
    obtain ⟨he0, _, _, hh, ht⟩ := hl
    have hsz : x.current_dimension_array_size = n0 := by simpa using he0.symm
    refine ⟨h', x, hx, hsz, fun i hi => ?_⟩
    have hoff : (x.elem i).off = (i : Int) := by
      simp only [dynarray.elem, hh, Ptr.add_off]; ring
    have hblk : (x.elem i).block = h.next + 1 := by
      simp only [dynarray.elem, hh, Ptr.add_block]
    have hvalid : h'.valid (x.elem i) = true := by
      rw [Heap.valid_iff h' _ n0 (by rw [hblk, hlen, if_pos rfl]), hoff]
      exact ⟨Int.natCast_nonneg _, by exact_mod_cast hi⟩
    simp only [Heap.load, hvalid, if_true, hcell, hblk, hoff]
    rw [if_pos ⟨Or.inr trivial, Int.natCast_nonneg _, by exact_mod_cast hi⟩]
    rfl

/-- Witness of `extents_construction_values`: the calls `dynarray<dynarray<int>>(3, 4, 7)`
and `dynarray<int>(3, 7)`, whose last argument would be `5` as a size. -/
theorem extents_construction_values_witness :
    (3 * (⟨4, 0⟩ : Arg Int).toSize ≤ PTRDIFF_MAX) ∧
    ((∃ h' x, dynarray.mk_counts 1 (Heap.empty : Heap Int) 3 [⟨4, 0⟩, ⟨5, 7⟩] = .ok (h', x) ∧
      x.size = 3 ∧
      ∀ i, i < 3 → ∃ c, x.child i = some c ∧ c.size = 4 ∧ c.get_block_size = 4 ∧
        ∀ j, j < 4 → h'.load (c.elem j) = some (some 7)) ∧
    (∃ h' x, dynarray.mk_counts 0 (Heap.empty : Heap Int) 3 [⟨5, 7⟩] = .ok (h', x) ∧
      x.size = 3 ∧ ∀ i, i < 3 → h'.load (x.elem i) = some (some 7))) :=
  ⟨by decide,
    extents_construction_values Heap.empty 3 ⟨4, 0⟩ ⟨5, 7⟩ (by decide) (by decide) (by decide)⟩

/-- C3 at the failing input `dynarray<dynarray<int>>(2, 2)`: the construction returns, the
leaf `a[1][1]` lies in the allocated buffer and no object was constructed there (the
storage is raw, its value indeterminate), while `dynarray<int>(2)` holds `0`. -/
theorem nested_default_leaves_unconstructed :
    (∃ h' x c, dynarray.mk_counts 1 (Heap.empty : Heap Int) 2 [⟨2, 0⟩] = .ok (h', x) ∧
      x.child 1 = some c ∧ h'.load (c.elem 1) = some none) ∧
    (∃ h' x, dynarray.mk_count (Heap.empty : Heap Int) 2 = .ok (h', x) ∧
      h'.load (x.elem 1) = some (some 0)) :=
  ⟨⟨_, _, _, rfl, rfl, rfl⟩, ⟨_, _, rfl, rfl⟩⟩

/-- C5. For an array built from the extents of the call `(count, args...)`, all at least
`1` and of product at most `PTRDIFF_MAX`: at every non-leaf node, child `i` spans
`[head + i * B, head + i * B + B - 1]` with `B` the product of the remaining extents,
inside the slice of its node, before every later sibling, and child `i + 1` starts one
past its end; and the leaf `a[i0]...[ik]` sits at the row-major offset from `data()`. -/
theorem extents_construction_slices [Inhabited α] (L : Nat) (h : Heap α) (count : Nat)
    (args : List (Arg α)) (hargs : L ≤ args.length)
    (hpos : ∀ n ∈ extents L count args, 1 ≤ n)
    (hmax : (extents L count args).prod ≤ PTRDIFF_MAX) :
    ∃ h' x, dynarray.mk_counts L h count args = .ok (h', x) ∧
      slices L x (extents L count args) ∧
      ∀ idx, in_range (extents L count args) idx →
        leaf_address L x idx = some (x.data.add (flat_offset (extents L count args) idx : Nat)) := by
  obtain ⟨h', x, hx, hl, _⟩ := allocate_array_spec L (initialise L 0) h count args hargs hpos hmax
  refine ⟨h', x, hx, layout_slices L _ _ _ _ hl, fun idx hr => ?_⟩
  rw [layout_leaf_address L _ _ _ _ _ hl hr]
  unfold dynarray.data
  rw [(layout_head L _ _ _ _ hl).1]

/-- Witness of `extents_construction_slices`: the call `dynarray<dynarray<int>>(3, 4, 7)`. -/
theorem extents_construction_slices_witness :
    ((∀ n ∈ extents 1 3 [(⟨4, 0⟩ : Arg Int), ⟨0, 7⟩], 1 ≤ n) ∧
      (extents 1 3 [(⟨4, 0⟩ : Arg Int), ⟨0, 7⟩]).prod ≤ PTRDIFF_MAX) ∧
    ∃ h' x, dynarray.mk_counts 1 (Heap.empty : Heap Int) 3 [⟨4, 0⟩, ⟨0, 7⟩] = .ok (h', x) ∧
      slices 1 x [3, 4] ∧
      ∀ idx, in_range [3, 4] idx →
        leaf_address 1 x idx = some (x.data.add (flat_offset [3, 4] idx : Nat)) :=
  ⟨⟨by decide, by decide⟩,
    extents_construction_slices 1 Heap.empty 3 [⟨4, 0⟩, ⟨0, 7⟩] (by decide) (by decide)
      (by decide)⟩


theorem copy_n_spec (dst src : Ptr) (n : Nat) (h : Heap α) (slen dlen : Nat)
    (hs : h.len src.block = some slen) (hs0 : 0 ≤ src.off) (hs1 : src.off + n ≤ slen)
    (hd : h.len dst.block = some dlen) (hd0 : 0 ≤ dst.off) (hd1 : dst.off + n ≤ dlen)
    (hne : dst.block ≠ src.block) :
    ∃ h', copy_n dst src n h = .ok h' ∧ h'.len = h.len ∧ h'.next = h.next ∧
      ∀ b i, h'.cell b i =
        if b = dst.block ∧ dst.off ≤ i ∧ i < dst.off + n
        then h.cell src.block (src.off + (i - dst.off)) else h.cell b i := by
  unfold copy_n
  apply for_loop_inv _
    (fun k (t : Heap α) => t.len = h.len ∧ t.next = h.next ∧
      ∀ b i, t.cell b i =
        if b = dst.block ∧ dst.off ≤ i ∧ i < dst.off + k
        then h.cell src.block (src.off + (i - dst.off)) else h.cell b i)
  · refine ⟨rfl, rfl, fun b i => ?_⟩
    split_ifs with hc
    · exfalso; omega
    · rfl
  · intro k t hk ⟨hl, hn, hc⟩
    have hvs : t.valid (src.add k) = true := by
      rw [Heap.valid_iff t _ slen (by rw [hl]; exact hs)]
      simp only [Ptr.add_off]; omega
    have hvd : t.valid (dst.add k) = true := by
      rw [Heap.valid_iff t _ dlen (by rw [hl]; exact hd)]
      simp only [Ptr.add_off]; omega
    obtain ⟨t', ht', hl', hn', hc'⟩ := Heap.construct_spec t (dst.add k)
      (t.cell (src.add k).block (src.add k).off) hvd
    refine ⟨t', by simp only [Heap.load, hvs, if_true, ht'], hl'.trans hl, hn'.trans hn, ?_⟩
    intro b i
    rw [hc', hc, hc]
    simp only [Ptr.add_block, Ptr.add_off]
    have hsrc : ¬ (src.block = dst.block ∧ dst.off ≤ src.off + (k : Int) ∧
        src.off + (k : Int) < dst.off + (k : Int)) := fun hh => hne hh.1.symm
    rw [if_neg hsrc]
    split_ifs with h1 h2 h3 h4 h5
    · obtain ⟨_, hi⟩ := h1
      subst hi
      congr 1; ring
    · exfalso; omega
    · rfl
    · exfalso; omega
    · exfalso; omega
    · rfl

theorem layout_block_size (L : Nat) (own : Bool) (x : dynarray L) (base : Ptr)
    (exts : List Nat) (h : layout L own x base exts) (hmax : exts.prod ≤ PTRDIFF_MAX) :
    x.get_block_size = exts.prod := by
  obtain ⟨hh, ht, _⟩ := layout_head L own x base exts h
  exact get_block_size_eq x base _ hh ht hmax

theorem layout_size (L : Nat) (own : Bool) (x : dynarray L) (base : Ptr)
    (exts : List Nat) (h : layout L own x base exts) :
    ∃ rest, exts = x.current_dimension_array_size :: rest := by
  cases L with
  | zero => exact ⟨[], h.1⟩
  | succ L =>
    obtain ⟨rest, he, _⟩ := layout_child h
    exact ⟨rest, he⟩

theorem copy_loop_spec_of (L : Nat)
    (ih : ∀ (this other : dynarray L) (h : Heap α) (start base : Ptr) (exts : List Nat),
      layout L false other base exts → (∀ n ∈ exts, 1 ≤ n) → exts.prod ≤ PTRDIFF_MAX →
      ∃ x, copy_array_at L this h start other = .ok (h, x) ∧ layout L false x start exts)
    (own : Bool) (other : dynarray (L + 1)) (h : Heap α) (start base : Ptr)
    (exts : List Nat) (hl : layout (L + 1) own other base exts)
    (hpos : ∀ n ∈ exts, 1 ≤ n) (hmax : exts.prod ≤ PTRDIFF_MAX) :
    ∃ cs rest, for_loop (copy_node_step (copy_array_at L) start other)
        other.current_dimension_array_size (h, []) = .ok (h, cs) ∧
      exts = other.current_dimension_array_size :: rest ∧
      cs.length = other.current_dimension_array_size ∧
      ∀ j c, cs.get? j = some c →
        layout L false c (start.add ((j * rest.prod : Nat) : Int)) rest := by
  obtain ⟨rest, he, _, _, _, hex, hch⟩ := layout_child hl
  have hc1 : 1 ≤ other.current_dimension_array_size :=
    hpos _ (by rw [he]; exact List.mem_cons_self _ _)
  have hpos1 : ∀ n ∈ rest, 1 ≤ n :=
    fun n hn => hpos n (by rw [he]; exact List.mem_cons_of_mem _ hn)
  have hmax1 : other.current_dimension_array_size * rest.prod ≤ PTRDIFF_MAX := by
    rw [he, List.prod_cons] at hmax; exact hmax
  have hBmax : rest.prod ≤ PTRDIFF_MAX := le_trans (Nat.le_mul_of_pos_left _ hc1) hmax1
  obtain ⟨⟨hf, cs⟩, hloop, hhf, hlencs, hlay⟩ := for_loop_inv
    (copy_node_step (copy_array_at L) start other)
    (fun i (s : Heap α × List (dynarray L)) => s.1 = h ∧ s.2.length = i ∧
      ∀ j c, s.2.get? j = some c →
        layout L false c (start.add ((j * rest.prod : Nat) : Int)) rest)
    other.current_dimension_array_size (h, []) ⟨rfl, rfl, by simp⟩
    (by
      rintro i ⟨hi, cs⟩ hlt ⟨hhi, hlencs, hlay⟩
      simp only at hhi hlencs hlay
      subst hhi
      obtain ⟨o, ho⟩ := hex i hlt
      obtain ⟨_, hlo⟩ := hch i o ho
      have hbs : o.get_block_size = rest.prod := layout_block_size L false o _ rest hlo hBmax
      have hiB : (i + 1) * rest.prod ≤ other.current_dimension_array_size * rest.prod :=
        Nat.mul_le_mul_right _ hlt
      have hsm : size_mul i rest.prod = i * rest.prod :=
        size_mul_eq (le_trans (by rw [Nat.succ_mul] at hiB; omega) hmax1)
      obtain ⟨x, hx, hxl⟩ := ih (initialise L 0) o hi
        (start.add ((i * rest.prod : Nat) : Int)) _ rest hlo hpos1 hBmax
      refine ⟨(hi, cs ++ [x]), ?_, rfl, by simp [hlencs], ?_⟩
      · simp only [copy_node_step, ho, hbs, hsm, hx]
      · intro j c hj
        rcases get?_snoc hj with ⟨_, hj'⟩ | ⟨hj', hcx⟩
        · exact hlay j c hj'
        · rw [hj', hcx, hlencs]; exact hxl)
  simp only at hhf hlencs hlay
  subst hhf
  exact ⟨cs, rest, hloop, he, hlencs, hlay⟩

theorem copy_array_at_spec (L : Nat) :
    ∀ (this other : dynarray L) (h : Heap α) (start base : Ptr) (exts : List Nat),
      layout L false other base exts → (∀ n ∈ exts, 1 ≤ n) → exts.prod ≤ PTRDIFF_MAX →
      ∃ x, copy_array_at L this h start other = .ok (h, x) ∧ layout L false x start exts := by
  induction L with
  | zero =>
    intro this other h start base exts hl _ _
    obtain ⟨he, _⟩ := hl
    refine ⟨_, rfl, ?_⟩
    rw [he]
    simp [layout]
  | succ L ih =>
    intro this other h start base exts hl hpos hmax
    obtain ⟨cs, rest, hloop, he, hlencs, hlay⟩ :=
      copy_loop_spec_of L ih false other h start base exts hl hpos hmax
    have hbs := layout_block_size (L + 1) false other base exts hl hmax
    refine ⟨_, by simp only [copy_array_at, hloop]; rfl, ?_⟩
    exact ⟨rest, cs, he, rfl, rfl, hlencs, rfl, by rw [hbs], hlay⟩

theorem copy_array_spec (L : Nat) (this other : dynarray L) (h : Heap α) (base : Ptr)
    (exts : List Nat) (len : Nat)
    (hl : layout L true other base exts)
    (hpos : ∀ n ∈ exts, 1 ≤ n) (hmax : exts.prod ≤ PTRDIFF_MAX)
    (hlen : h.len base.block = some len) (h0 : 0 ≤ base.off)
    (h1 : base.off + (exts.prod : Nat) ≤ len) (hb : base.block ≤ h.next) :
    ∃ h' x, copy_array L this h other = .ok (h', x) ∧
      layout L true x ⟨h.next + 1, 0⟩ exts ∧ h'.next = h.next + 1 ∧
      (∀ b, h'.len b = if b = h.next + 1 then some exts.prod else h.len b) ∧
      ∀ b i, h'.cell b i =
        if b = h.next + 1 then
          (if 0 ≤ i ∧ i < (exts.prod : Nat) then h.cell base.block (base.off + i) else none)
        else h.cell b i := by
  have hbs := layout_block_size L true other base exts hl hmax
  obtain ⟨rest, he⟩ := layout_size L true other base exts hl
  have hc1 : 1 ≤ other.current_dimension_array_size :=
    hpos _ (by rw [he]; exact List.mem_cons_self _ _)
  have hN1 : 1 ≤ exts.prod := prod_pos_of_pos _ hpos
  have hent : other.entire_array_data = base := by
    have := (layout_head L true other base exts hl).2.2
    simpa using this
  have hg : ¬ (exts.prod = 0 ∨ other.current_dimension_array_size = 0) := by omega
  have hne : h.next + 1 ≠ base.block := by omega
  obtain ⟨h2, hc, hl2, hn2, hcell2⟩ := copy_n_spec (⟨h.next + 1, 0⟩ : Ptr) base exts.prod
    (h.allocate exts.prod).2 len exts.prod
    (by simp only [Heap.allocate]; rw [if_neg (Ne.symm hne)]; exact hlen) h0 h1
    (by simp [Heap.allocate]) (le_refl _) (by simp) hne
  have hc0 : copy_n (h.allocate exts.prod).1 base exts.prod (h.allocate exts.prod).2
      = Result.ok h2 := hc
  have hloopfix : (h.allocate exts.prod).1 = (⟨h.next + 1, 0⟩ : Ptr) := rfl
  have hcellf : ∀ b i, h2.cell b i =
      if b = h.next + 1 then
        (if 0 ≤ i ∧ i < (exts.prod : Nat) then h.cell base.block (base.off + i) else none)
      else h.cell b i := by
    intro b i
    rw [hcell2]
    simp only [Heap.allocate, if_neg (Ne.symm hne)]
    split_ifs <;> first | rfl | (exfalso; omega) | (congr 1; ring)
  have hlenf : ∀ b, h2.len b = if b = h.next + 1 then some exts.prod else h.len b := by
    intro b; rw [hl2]; rfl
  cases L with
  | zero =>
    refine ⟨h2, _, by
      simp only [copy_array, hbs, hg, if_false, hent, hc0]
      rfl, ?_, hn2, hlenf, hcellf⟩
    obtain ⟨he0, _⟩ := hl
    rw [he0]
    simp [layout, Heap.allocate]
  | succ L =>
    obtain ⟨cs, rest', hloop, he', hlencs, hlay⟩ := copy_loop_spec_of L (copy_array_at_spec L)
      true other h2 ⟨h.next + 1, 0⟩ base exts hl hpos hmax
    refine ⟨h2, _, by
      simp only [copy_array, hbs, hg, if_false, hent, hloopfix, hc, hloop]
      rfl, ?_, hn2, hlenf, hcellf⟩
    exact ⟨rest', cs, he', rfl, rfl, hlencs, rfl, rfl, hlay⟩


theorem sample_owner_owns : owns sample_heap 1 sample_owner [2, 3] := by
  refine ⟨1, ?_, rfl, le_refl _, by decide, by decide⟩
  refine ⟨[3], [sample_row 0 3, sample_row 3 3], rfl, rfl, rfl, rfl, rfl, rfl, ?_⟩
  intro i c hc
  match i, hc with
  | 0, hc =>
    simp at hc; subst hc
    simp [layout, sample_row, Ptr.add, Ptr.null]
  | 1, hc =>
    simp at hc; subst hc
    simp [layout, sample_row, Ptr.add, Ptr.null]
  | n + 2, hc => simp at hc

theorem Heap.assign_spec (h : Heap α) (p : Ptr) (v : Option α) (hv : h.valid p = true) :
    ∃ h', h.assign p v = some h' ∧ h'.len = h.len ∧ h'.next = h.next ∧
      ∀ b i, h'.cell b i = if b = p.block ∧ i = p.off then v else h.cell b i :=
  ⟨{ h with cell := fun b i => if b = p.block ∧ i = p.off then v else h.cell b i },
    by simp [Heap.assign, hv], rfl, rfl, fun _ _ => rfl⟩

theorem in_range_flat_lt (exts idx : List Nat) (n : Nat) (rest : List Nat)
    (he : exts = n :: rest) (hr : in_range exts idx) : flat_offset exts idx < exts.prod := by
  rcases flat_offset_lt exts idx hr with h | ⟨h, _⟩
  · exact h
  · rw [he] at h; exact absurd h (by simp)

/-- The copy of a rectangular top-level owner: the result, its layout in a fresh block,
the cells of that block, and the leaf addresses of source and copy. -/
theorem mk_copy_spec (L : Nat) (h : Heap α) (A : dynarray L) (exts : List Nat)
    (hA : owns h L A exts) :
    ∃ b h' B, dynarray.mk_copy L h A = .ok (h', B) ∧
      layout L true A ⟨b, 0⟩ exts ∧ layout L true B ⟨h.next + 1, 0⟩ exts ∧
      b ≤ h.next ∧ h.len b = some exts.prod ∧
      (∀ c, h'.len c = if c = h.next + 1 then some exts.prod else h.len c) ∧
      ∀ c i, h'.cell c i =
        if c = h.next + 1 then
          (if 0 ≤ i ∧ i < (exts.prod : Nat) then h.cell b i else none)
        else h.cell c i := by
  obtain ⟨b, hl, hlen, hb, hpos, hmax⟩ := hA
  obtain ⟨h', B, hB, hlB, _, hlen', hcell'⟩ := copy_array_spec L (initialise L 0) A h ⟨b, 0⟩
    exts exts.prod hl hpos hmax hlen (le_refl _) (by simp) hb
  refine ⟨b, h', B, hB, hl, hlB, hb, hlen, hlen', fun c i => ?_⟩
  rw [hcell']
  simp

/-- C6. In the hierarchy built by the constructor from extents (all at least `1`, product
at most `PTRDIFF_MAX`) and in the hierarchy built by copy-constructing a rectangular
top-level owner, the outermost node has a non-null `entire_array_data` and every node
below it, at every depth, has a null one. -/
theorem single_ownership [Inhabited α] (L : Nat) (h : Heap α) (count : Nat)
    (args : List (Arg α)) (hargs : L ≤ args.length)
    (hpos : ∀ n ∈ extents L count args, 1 ≤ n)
    (hmax : (extents L count args).prod ≤ PTRDIFF_MAX)
    (A : dynarray L) (exts : List Nat) (hA : owns h L A exts) :
    (∃ h' x, dynarray.mk_counts L h count args = .ok (h', x) ∧
      x.entire_array_data ≠ Ptr.null ∧ descendants_null L x) ∧
    (∃ h' B, dynarray.mk_copy L h A = .ok (h', B) ∧
      B.entire_array_data ≠ Ptr.null ∧ descendants_null L B) := by
  constructor
  · obtain ⟨h', x, hx, hl, _⟩ :=
      allocate_array_spec L (initialise L 0) h count args hargs hpos hmax
    refine ⟨h', x, hx, ?_, layout_descendants_null L _ _ _ _ hl⟩
    rw [(layout_head L _ _ _ _ hl).2.2]
    simp [Ptr.null]
  · obtain ⟨b, h', B, hB, _, hlB, _⟩ := mk_copy_spec L h A exts hA
    refine ⟨h', B, hB, ?_, layout_descendants_null L _ _ _ _ hlB⟩
    rw [(layout_head L _ _ _ _ hlB).2.2]
    simp [Ptr.null]

/-- Witness of `single_ownership`: the call `dynarray<dynarray<int>>(3, 4, 7)` and the
copy of the sample `2 x 3` owner. -/
theorem single_ownership_witness :
    (owns sample_heap 1 sample_owner [2, 3] ∧
      (extents 1 3 [(⟨4, 0⟩ : Arg Int), ⟨0, 7⟩]).prod ≤ PTRDIFF_MAX) ∧
    ((∃ h' x, dynarray.mk_counts 1 sample_heap 3 [⟨4, 0⟩, ⟨0, 7⟩] = .ok (h', x) ∧
      x.entire_array_data ≠ Ptr.null ∧ descendants_null 1 x) ∧
    (∃ h' B, dynarray.mk_copy 1 sample_heap sample_owner = .ok (h', B) ∧
      B.entire_array_data ≠ Ptr.null ∧ descendants_null 1 B)) :=
  ⟨⟨sample_owner_owns, by decide⟩,
    single_ownership 1 sample_heap 3 [⟨4, 0⟩, ⟨0, 7⟩] (by decide) (by decide) (by decide)
      sample_owner [2, 3] sample_owner_owns⟩

/-- C7. The copy `B` of a non-empty rectangular top-level owner `A` is constructed, has
the same `size()` as `A` at every level, and the leaf of `B` at every full index holds
what the leaf of `A` at that index holds, before and after the copy. -/
theorem copy_construction_equal (L : Nat) (h : Heap α) (A : dynarray L) (exts : List Nat)
    (hA : owns h L A exts) :
    ∃ h' B, dynarray.mk_copy L h A = .ok (h', B) ∧
      has_shape L A exts ∧ has_shape L B exts ∧
      ∀ idx, in_range exts idx → ∃ p q, leaf_address L A idx = some p ∧
        leaf_address L B idx = some q ∧ h.valid p = true ∧ h'.valid q = true ∧
        h'.load q = h.load p ∧ h'.load p = h.load p := by
  obtain ⟨b, h', B, hB, hlA, hlB, hb, hlen, hlen', hcell'⟩ := mk_copy_spec L h A exts hA
  refine ⟨h', B, hB, layout_has_shape L _ _ _ _ hlA, layout_has_shape L _ _ _ _ hlB,
    fun idx hr => ?_⟩
  obtain ⟨rest, he⟩ := layout_size L true A _ exts hlA
  have hlt := in_range_flat_lt exts idx _ rest he hr
  have hvp : h.valid ((⟨b, 0⟩ : Ptr).add (flat_offset exts idx : Nat)) = true := by
    rw [Heap.valid_iff h _ exts.prod (by rw [Ptr.add_block]; exact hlen)]
    simp only [Ptr.add_off]
    omega
  have hvq : h'.valid ((⟨h.next + 1, 0⟩ : Ptr).add (flat_offset exts idx : Nat)) = true := by
    rw [Heap.valid_iff h' _ exts.prod (by rw [Ptr.add_block, hlen', if_pos rfl])]
    simp only [Ptr.add_off]
    omega
  have hne : b ≠ h.next + 1 := by omega
  have hvp' : h'.valid ((⟨b, 0⟩ : Ptr).add (flat_offset exts idx : Nat)) = true := by
    rw [Heap.valid_iff h' _ exts.prod (by rw [Ptr.add_block, hlen', if_neg hne]; exact hlen)]
    simp only [Ptr.add_off]
    omega
  refine ⟨_, _, layout_leaf_address L _ _ _ _ _ hlA hr, layout_leaf_address L _ _ _ _ _ hlB hr,
    hvp, hvq, ?_, ?_⟩
  · simp only [Heap.load, hvp, hvq, if_true, hcell', Ptr.add_block, Ptr.add_off]
    rw [if_pos ⟨by omega, by omega⟩]
  · simp only [Heap.load, hvp, hvp', if_true, hcell', Ptr.add_block, if_neg hne]

/-- Witness of `copy_construction_equal`: the copy of the sample `2 x 3` owner. -/
theorem copy_construction_equal_witness :
    owns sample_heap 1 sample_owner [2, 3] ∧
    ∃ h' B, dynarray.mk_copy 1 sample_heap sample_owner = .ok (h', B) ∧
      has_shape 1 sample_owner [2, 3] ∧ has_shape 1 B [2, 3] ∧
      ∀ idx, in_range [2, 3] idx → ∃ p q, leaf_address 1 sample_owner idx = some p ∧
        leaf_address 1 B idx = some q ∧ sample_heap.valid p = true ∧ h'.valid q = true ∧
        h'.load q = sample_heap.load p ∧ h'.load p = sample_heap.load p :=
  ⟨sample_owner_owns, copy_construction_equal 1 sample_heap sample_owner [2, 3] sample_owner_owns⟩

/-- C8. After `B` is copy-constructed from a non-empty rectangular top-level owner `A`,
the two buffers are different blocks, a write to any leaf of `A` succeeds and leaves
every leaf of `B` as it was, and a write to any leaf of `B` succeeds and leaves every
leaf of `A` as it was. -/
theorem copy_construction_independent (L : Nat) (h : Heap α) (A : dynarray L)
    (exts : List Nat) (hA : owns h L A exts) :
    ∃ h' B, dynarray.mk_copy L h A = .ok (h', B) ∧
      B.entire_array_data.block ≠ A.entire_array_data.block ∧
      ∀ idx jdx, in_range exts idx → in_range exts jdx → ∀ v : α,
        ∃ p q, leaf_address L A idx = some p ∧ leaf_address L B jdx = some q ∧
          (∃ h2, h'.assign p (some v) = some h2 ∧ h2.load q = h'.load q) ∧
          (∃ h2, h'.assign q (some v) = some h2 ∧ h2.load p = h'.load p) := by
  obtain ⟨b, h', B, hB, hlA, hlB, hb, hlen, hlen', hcell'⟩ := mk_copy_spec L h A exts hA
  have hne : h.next + 1 ≠ b := by omega
  refine ⟨h', B, hB, ?_, fun idx jdx hri hrj v => ?_⟩
  · rw [(layout_head L _ _ _ _ hlA).2.2, (layout_head L _ _ _ _ hlB).2.2]
    simpa using hne
  obtain ⟨rest, he⟩ := layout_size L true A _ exts hlA
  have hlti := in_range_flat_lt exts idx _ rest he hri
  have hltj := in_range_flat_lt exts jdx _ rest he hrj
  have hvp : h'.valid ((⟨b, 0⟩ : Ptr).add (flat_offset exts idx : Nat)) = true := by
    rw [Heap.valid_iff h' _ exts.prod (by rw [Ptr.add_block, hlen', if_neg (Ne.symm hne)]; exact hlen)]
    simp only [Ptr.add_off]
    omega
  have hvq : h'.valid ((⟨h.next + 1, 0⟩ : Ptr).add (flat_offset exts jdx : Nat)) = true := by
    rw [Heap.valid_iff h' _ exts.prod (by rw [Ptr.add_block, hlen', if_pos rfl])]
    simp only [Ptr.add_off]
    omega
  obtain ⟨h2, hh2, hl2, _, hc2⟩ := Heap.assign_spec h' _ (some v) hvp
  obtain ⟨h3, hh3, hl3, _, hc3⟩ := Heap.assign_spec h' _ (some v) hvq
  refine ⟨_, _, layout_leaf_address L _ _ _ _ _ hlA hri,
    layout_leaf_address L _ _ _ _ _ hlB hrj, ⟨h2, hh2, ?_⟩, ⟨h3, hh3, ?_⟩⟩
  · have hvq2 : h2.valid ((⟨h.next + 1, 0⟩ : Ptr).add (flat_offset exts jdx : Nat)) = true := by
      simp only [Heap.valid, hl2] at hvq ⊢; exact hvq
    simp only [Heap.load, hvq, hvq2, if_true, hc2, Ptr.add_block]
    rw [if_neg (fun hh => hne hh.1)]
  · have hvp3 : h3.valid ((⟨b, 0⟩ : Ptr).add (flat_offset exts idx : Nat)) = true := by
      simp only [Heap.valid, hl3] at hvp ⊢; exact hvp
    simp only [Heap.load, hvp, hvp3, if_true, hc3, Ptr.add_block]
    rw [if_neg (fun hh => hne hh.1.symm)]

/-- Witness of `copy_construction_independent`: the copy of the sample `2 x 3` owner. -/
theorem copy_construction_independent_witness :
    owns sample_heap 1 sample_owner [2, 3] ∧
    ∃ h' B, dynarray.mk_copy 1 sample_heap sample_owner = .ok (h', B) ∧
      B.entire_array_data.block ≠ sample_owner.entire_array_data.block ∧
      ∀ idx jdx, in_range [2, 3] idx → in_range [2, 3] jdx → ∀ v : Int,
        ∃ p q, leaf_address 1 sample_owner idx = some p ∧ leaf_address 1 B jdx = some q ∧
          (∃ h2, h'.assign p (some v) = some h2 ∧ h2.load q = h'.load q) ∧
          (∃ h2, h'.assign q (some v) = some h2 ∧ h2.load p = h'.load p) :=
  ⟨sample_owner_owns,
    copy_construction_independent 1 sample_heap sample_owner [2, 3] sample_owner_owns⟩

/-- C9 at the failing input: the copy constructor applied to the row `a[1]` of the sample
`2 x 3` owner (a view: its `entire_array_data` is null, its slice is the three live
leaves at offsets `3..5`) has undefined behaviour, because `copy_array` reads
`*(other.entire_array_data + i)`, an address of the null block; the copy of the owner
itself succeeds. -/
theorem copy_of_view_reads_null :
    sample_owner.child 1 = some (sample_row 3 3) ∧
    (sample_row 3 3).entire_array_data = Ptr.null ∧
    sample_heap.load ((sample_row 3 3).elem 0) = some (some 4) ∧
    sample_heap.load ((sample_row 3 3).entire_array_data.add 0) = none ∧
    (dynarray.mk_copy 0 sample_heap (sample_row 3 3)).is_undefined = true ∧
    (dynarray.mk_copy 1 sample_heap sample_owner).is_ok = true := by
  refine ⟨rfl, rfl, ?_, ?_, ?_, ?_⟩
  · decide
  · decide
  · decide
  · decide

/-- C10 at the failing inputs. For the brace list `{{1,2},{3,4,5}}` the buffer has five
leaves and the second row is placed at `1 * 3`, so its last element is constructed one
past the end of the buffer: undefined behaviour. For `{{1,2,3},{4,5}}` the second row is
placed at `1 * 2`, inside the first row: `a[0][2]` then holds `4` and not `3`. -/
theorem jagged_brace_list_misplaced :
    (dynarray.mk_lists 0 (Heap.empty : Heap Int)
      ([[1, 2], [3, 4, 5]] : List (List Int))).is_undefined = true ∧
    ∃ h x r0 r1, dynarray.mk_lists 0 (Heap.empty : Heap Int)
        ([[1, 2, 3], [4, 5]] : List (List Int)) = .ok (h, x) ∧
      x.child 0 = some r0 ∧ x.child 1 = some r1 ∧ r0.size = 3 ∧ r1.size = 2 ∧
      r0.elem 2 = r1.elem 0 ∧ h.load (r0.elem 2) = some (some 4) := by
  constructor
  · decide
  · exact ⟨_, _, _, _, rfl, rfl, rfl, rfl, rfl, rfl, rfl⟩


end vla

namespace vla_neat

open vla

variable {α : Type}

theorem neat_expand_counts_eq (k : Nat) : ∀ (count : Nat) (args : List (Arg α)),
    (∀ x ∈ extents k count args, 1 ≤ x) → (extents k count args).prod ≤ PTRDIFF_MAX →
    expand_counts k count args = (extents k count args).prod := by
  induction k with
  | zero => intro count args _ _; simp [expand_counts, extents]
  | succ k ih =>
    intro count args hpos hmax
    cases args with
    | nil => simp [expand_counts, extents]
    | cons a rest =>
      rw [extents_succ_cons] at hpos hmax ⊢
      rw [List.prod_cons] at hmax ⊢
      have hc : 1 ≤ count := hpos count (List.mem_cons_self _ _)
      have hle : (extents k a.toSize rest).prod ≤ count * (extents k a.toSize rest).prod :=
        Nat.le_mul_of_pos_left _ hc
      have := ih a.toSize rest (fun x hx => hpos x (List.mem_cons_of_mem _ hx))
        (le_trans hle hmax)
      simp only [expand_counts, this]
      rw [size_mul_eq (by rw [Nat.mul_comm]; exact hmax), Nat.mul_comm]

theorem neat_node_loop_spec_of [Inhabited α] (k : Nat)
    (ih : ∀ (this : dynarray k) (h : Heap α) (base : Ptr) (count : Nat) (args : List (Arg α))
      (len : Nat),
      k ≤ args.length →
      (∀ x ∈ extents k count args, 1 ≤ x) →
      (extents k count args).prod ≤ PTRDIFF_MAX →
      h.len base.block = some len → 0 ≤ base.off →
      base.off + ((extents k count args).prod : Nat) ≤ len →
      ∃ h' x, allocate_array_at k this h base count args = .ok (h', x) ∧
        layout k false x base (extents k count args) ∧ h'.len = h.len ∧ h'.next = h.next ∧
        ∀ b i, h'.cell b i =
          if b = base.block ∧ base.off ≤ i ∧
              i < base.off + ((extents k count args).prod : Nat)
          then some (make_leaf (args.drop k)) else h.cell b i)
    (calloc : Allocator) (h : Heap α) (base : Ptr) (count : Nat) (a : Arg α)
    (rest : List (Arg α)) (len : Nat)
    (hrl : k ≤ rest.length)
    (hpos : ∀ x ∈ extents k a.toSize rest, 1 ≤ x)
    (hmax : count * (extents k a.toSize rest).prod ≤ PTRDIFF_MAX)
    (hc1 : 1 ≤ count)
    (hlen : h.len base.block = some len) (h0 : 0 ≤ base.off)
    (h1 : base.off + ((count * (extents k a.toSize rest).prod : Nat) : Int) ≤ len) :
    ∃ hf cs, for_loop (node_step (fun c h1 p => allocate_array_at k c h1 p a.toSize rest)
        calloc base (expand_counts k a.toSize rest)) count (h, []) = .ok (hf, cs) ∧
      cs.length = count ∧
      (∀ j c, cs.get? j = some c →
        layout k false c (base.add ((j * (extents k a.toSize rest).prod : Nat) : Int))
          (extents k a.toSize rest)) ∧
      hf.len = h.len ∧ hf.next = h.next ∧
      ∀ b i, hf.cell b i =
        if b = base.block ∧ base.off ≤ i ∧
            i < base.off + ((count * (extents k a.toSize rest).prod : Nat) : Int)
        then some (make_leaf (rest.drop k)) else h.cell b i := by
  generalize hE : extents k a.toSize rest = E at *
  generalize hB : E.prod = B at *
  have hBmax : B ≤ PTRDIFF_MAX := le_trans (Nat.le_mul_of_pos_left _ hc1) hmax
  have heb : expand_counts k a.toSize rest = B := by
    rw [neat_expand_counts_eq k a.toSize rest (by rw [hE]; exact hpos)
      (by rw [hE, hB]; exact hBmax), hE, hB]
  obtain ⟨⟨hf, cs⟩, hloop, hlencs, hlay, hl, hn, hcell⟩ := for_loop_inv
    (node_step (fun c h1 p => allocate_array_at k c h1 p a.toSize rest)
      calloc base (expand_counts k a.toSize rest))
    (fun i (s : Heap α × List (dynarray k)) => s.2.length = i ∧
      (∀ j c, s.2.get? j = some c → layout k false c (base.add ((j * B : Nat) : Int)) E) ∧
      s.1.len = h.len ∧ s.1.next = h.next ∧
      ∀ b i', s.1.cell b i' =
        if b = base.block ∧ base.off ≤ i' ∧ i' < base.off + ((i * B : Nat) : Int)
        then some (make_leaf (rest.drop k)) else h.cell b i')
    count (h, [])
    ⟨rfl, by simp, rfl, rfl, fun b i' => by
      split_ifs with hc
      · exfalso; simp at hc; omega
      · rfl⟩
    (by
      rintro i ⟨hi, cs⟩ hlt ⟨hlencs, hlay, hl, hn, hcell⟩
      simp only at hlencs hlay hl hn hcell
      have hiB : (i + 1) * B ≤ count * B := Nat.mul_le_mul_right _ hlt
      have hsucc : (i + 1) * B = i * B + B := Nat.succ_mul _ _
      have hsm : size_mul i B = i * B :=
        size_mul_eq (le_trans (by omega) (le_trans hiB hmax))
      obtain ⟨h', x, hx, hxl, hl', hn', hcell'⟩ := ih
        ((initialise k 0).set_contiguous_allocator calloc)
        hi (base.add ((i * B : Nat) : Int)) a.toSize rest len hrl
        (by rw [hE]; exact hpos) (by rw [hE, hB]; exact hBmax)
        (by rw [Ptr.add_block, hl]; exact hlen)
        (by rw [Ptr.add_off]; omega)
        (by rw [Ptr.add_off, hE, hB]; omega)
      rw [hE] at hxl
      rw [hE, hB] at hcell'
      refine ⟨(h', cs ++ [x]), ?_, ?_, ?_, hl'.trans hl, hn'.trans hn, ?_⟩
      · simp only [node_step, heb, hsm, hx]
      · simp [hlencs]
      · intro j c hj
        rcases get?_snoc hj with ⟨_, hj'⟩ | ⟨hj', hcx⟩
        · exact hlay j c hj'
        · rw [hj', hcx, hlencs]; exact hxl
      · intro b i'
        simp only at hcell' ⊢
        rw [hcell', hcell]
        simp only [Ptr.add_block, Ptr.add_off]
        split_ifs <;> first | rfl | (exfalso; omega))
  exact ⟨hf, cs, hloop, hlencs, hlay, hl, hn, hcell⟩

theorem neat_allocate_array_at_spec [Inhabited α] (k : Nat) :
    ∀ (this : dynarray k) (h : Heap α) (base : Ptr) (count : Nat) (args : List (Arg α))
      (len : Nat),
    k ≤ args.length →
    (∀ x ∈ extents k count args, 1 ≤ x) →
    (extents k count args).prod ≤ PTRDIFF_MAX →
    h.len base.block = some len → 0 ≤ base.off →
    base.off + ((extents k count args).prod : Nat) ≤ len →
    ∃ h' x, allocate_array_at k this h base count args = .ok (h', x) ∧
      layout k false x base (extents k count args) ∧ h'.len = h.len ∧ h'.next = h.next ∧
      ∀ b i, h'.cell b i =
        if b = base.block ∧ base.off ≤ i ∧
            i < base.off + ((extents k count args).prod : Nat)
        then some (make_leaf (args.drop k)) else h.cell b i := by
  induction k with
  | zero =>
    intro this h base count args len _ _ hmax hlen h0 h1
    simp only [extents_zero, List.prod_singleton] at h1 hmax ⊢
    obtain ⟨h', hc, hl, hn, hcell⟩ :=
      construct_n_spec base (some (make_leaf args)) count h len hlen h0 h1
    refine ⟨h', _, by simp only [allocate_array_at, hc]; rfl, ?_, hl, hn, fun b i => ?_⟩
    · exact ⟨⟨count, rfl⟩, rfl, rfl, by simp⟩
    · rw [hcell]; simp
  | succ k ih =>
    intro this h base count args len hlenargs hpos hmax hlen h0 h1
    cases args with
    | nil => simp at hlenargs
    | cons a rest =>
      rw [extents_succ_cons] at hpos hmax h1 ⊢
      rw [List.prod_cons] at hmax h1 ⊢
      have hc1 : 1 ≤ count := hpos count (List.mem_cons_self _ _)
      have hpos' : ∀ x ∈ extents k a.toSize rest, 1 ≤ x :=
        fun x hx => hpos x (List.mem_cons_of_mem _ hx)
      have hrl : k ≤ rest.length := by simpa using hlenargs
      obtain ⟨hf, cs, hloop, hlencs, hlay, hl, hn, hcell⟩ := neat_node_loop_spec_of k ih
        (FieldsN.contiguous_allocator this) h base count a rest len hrl hpos' hmax hc1 hlen h0 h1
      have hBmax : (extents k a.toSize rest).prod ≤ PTRDIFF_MAX :=
        le_trans (Nat.le_mul_of_pos_left _ hc1) hmax
      have heb := neat_expand_counts_eq k a.toSize rest hpos' hBmax
      refine ⟨hf, _, by simp only [allocate_array_at, hloop]; rfl, ?_, hl, hn, ?_⟩
      · have hsm : size_mul (extents k a.toSize rest).prod count
            = count * (extents k a.toSize rest).prod := by
          rw [size_mul_eq (by rw [Nat.mul_comm]; exact hmax), Nat.mul_comm]
        refine ⟨_, cs, rfl, rfl, rfl, hlencs, rfl, ?_, hlay⟩
        simp only [heb, hsm, List.prod_cons]
      · intro b i
        rw [hcell]
        simp only [List.drop_succ_cons]


end vla_neat

namespace vla

theorem flat_offset_injective : ∀ (exts idx jdx : List Nat), in_range exts idx →
    in_range exts jdx → flat_offset exts idx = flat_offset exts jdx → idx = jdx
  | [], [], [], _, _, _ => rfl
  | [], _ :: _, _, h, _, _ => by simp [in_range] at h
  | [], [], _ :: _, _, h, _ => by simp [in_range] at h
  | _ :: _, [], _, h, _, _ => by simp [in_range] at h
  | _ :: _, _ :: _, [], _, h, _ => by simp [in_range] at h
  | n :: rest, i :: idx, j :: jdx, hi, hj, he => by
    obtain ⟨hin, hir⟩ := hi
    obtain ⟨hjn, hjr⟩ := hj
    simp only [flat_offset] at he
    have hf : flat_offset rest idx < rest.prod := by
      rcases flat_offset_lt rest idx hir with h | ⟨h1, h2⟩
      · exact h
      · subst h1; subst h2; simp [flat_offset]
    have hg : flat_offset rest jdx < rest.prod := by
      rcases flat_offset_lt rest jdx hjr with h | ⟨h1, h2⟩
      · exact h
      · subst h1; subst h2; simp [flat_offset]
    have hij : i = j := by
      rcases Nat.lt_trichotomy i j with hlt | heq | hgt
      · have := Nat.mul_le_mul_right rest.prod (Nat.succ_le_of_lt hlt)
        rw [Nat.succ_mul] at this
        omega
      · exact heq
      · have := Nat.mul_le_mul_right rest.prod (Nat.succ_le_of_lt hgt)
        rw [Nat.succ_mul] at this
        omega
    subst hij
    have := flat_offset_injective rest idx jdx hir hjr (by omega)
    rw [this]

theorem flat_offset_surjective : ∀ (exts : List Nat) (off : Nat), off < exts.prod →
    ∃ idx, in_range exts idx ∧ flat_offset exts idx = off
  | [], off, h => ⟨[], trivial, by simp at h; simp [flat_offset, h]⟩
  | n :: rest, off, h => by
    rw [List.prod_cons] at h
    have hB : 0 < rest.prod := by
      rcases Nat.eq_zero_or_pos rest.prod with h0 | hp
      · rw [h0] at h; simp at h
      · exact hp
    obtain ⟨idx, hr, hf⟩ := flat_offset_surjective rest (off % rest.prod) (Nat.mod_lt _ hB)
    refine ⟨(off / rest.prod) :: idx, ⟨?_, hr⟩, ?_⟩
    · exact Nat.div_lt_of_lt_mul (by rw [Nat.mul_comm]; exact h)
    · simp only [flat_offset, hf]
      exact Nat.div_add_mod' off rest.prod

end vla

namespace vla_neat
open vla
variable {α : Type}

theorem neat_layout_child {k : Nat} {own : Bool} {x : dynarray (k + 1)} {base : Ptr}
    {exts : List Nat} (hl : layout (k + 1) own x base exts) :
    ∃ rest, exts = x.size :: rest ∧ x.head = base ∧
      x.tail = (base.add (exts.prod : Nat)).add (-1) ∧
      x.entire = (if own then base else Ptr.null) ∧
      (∀ i, i < x.size → ∃ c, x.child i = some c) ∧
      ∀ i c, x.child i = some c →
        i < x.size ∧ layout k false c (base.add ((i * rest.prod : Nat) : Int)) rest := by
  obtain ⟨rest, cs, he, hent, hcs, hlen, hh, ht, hch⟩ := hl
  refine ⟨rest, he, hh, ht, hent, ?_, ?_⟩
  · intro i hi
    have : i < cs.length := by rw [hlen]; exact hi
    exact ⟨cs.get ⟨i, this⟩, by simp [dynarray.child, hcs, List.getElem?_eq_getElem this]⟩
  · intro i c hc
    simp only [dynarray.child, hcs] at hc
    refine ⟨?_, hch i c hc⟩
    show i < FieldsN.current_dimension_array_size x
    rw [← hlen]
    rw [List.get?_eq_getElem?] at hc
    exact (List.getElem?_eq_some_iff.mp hc).1

theorem neat_layout_head (k : Nat) (own : Bool) (x : dynarray k) (base : Ptr) (exts : List Nat)
    (h : layout k own x base exts) :
    x.head = base ∧ x.tail = (base.add (exts.prod : Nat)).add (-1) ∧
    x.entire = (if own then base else Ptr.null) := by
  cases k with
  | zero => exact ⟨h.2.2.1, h.2.2.2, h.2.1⟩
  | succ k =>
    obtain ⟨_, _, hh, ht, hent, _, _⟩ := neat_layout_child h
    exact ⟨hh, ht, hent⟩

theorem neat_layout_leaf_address (k : Nat) : ∀ (own : Bool) (x : dynarray k) (base : Ptr)
    (exts idx : List Nat), layout k own x base exts → in_range exts idx →
    leaf_address k x idx = some (base.add (flat_offset exts idx : Nat)) := by
  induction k with
  | zero =>
    intro own x base exts idx h hr
    obtain ⟨⟨n, he⟩, _, hh, _⟩ := h
    rw [he] at hr ⊢
    match idx, hr with
    | [i], _ => simp [leaf_address, dynarray.elem, flat_offset, hh]
    | _ :: _ :: _, hr => simp [in_range] at hr
  | succ k ih =>
    intro own x base exts idx h hr
    obtain ⟨rest, he, _, _, _, hex, hch⟩ := neat_layout_child h
    rw [he] at hr ⊢
    match idx, hr with
    | i :: idx, hr =>
      obtain ⟨hi, hr⟩ := hr
      obtain ⟨c, hc⟩ := hex i hi
      simp only [leaf_address, hc, flat_offset]
      rw [ih _ _ _ _ _ (hch i c hc).2 hr, Ptr.add_add]
      congr 2

theorem block_size_of_bounds {k : Nat} (x : dynarray k) (base : Ptr) (n : Nat)
    (hh : x.head = base) (ht : x.tail = (base.add n).add (-1)) (hn : n ≤ PTRDIFF_MAX) :
    x.get_block_size = n := by
  unfold dynarray.get_block_size
  rw [hh, ht]
  simp only [Ptr.diff, Ptr.add_off]
  have : base.off + (n : Int) + -1 - base.off + 1 = (n : Int) := by ring
  rw [this]
  unfold PTRDIFF_MAX at hn
  unfold SIZE_MOD
  have h2 : (n : Int) % ((2 ^ 64 : Nat) : Int) = (n : Int) :=
    Int.emod_eq_of_lt (by omega) (by norm_num; omega)
  rw [h2]; simp

theorem neat_layout_has_shape (k : Nat) : ∀ (own : Bool) (x : dynarray k) (base : Ptr)
    (exts : List Nat), layout k own x base exts → base.block ≠ 0 →
    exts.prod ≤ PTRDIFF_MAX → (∀ n ∈ exts, 1 ≤ n) → has_shape k x exts := by
  induction k with
  | zero =>
    intro own x base exts h hb hmax _
    obtain ⟨⟨n, he⟩, _, hh, ht⟩ := h
    have hbs := block_size_of_bounds (k := 0) x base exts.prod hh ht hmax
    have hne : ¬ (Fields1.this_level_array_tail x = Ptr.null ∧
        Fields1.this_level_array_head x = Ptr.null) := by
      intro hh'
      rw [hh] at hh'
      exact hb (by rw [hh'.2]; rfl)
    show exts = [dynarray.size (k := 0) x]
    simp only [dynarray.size, if_neg hne]
    have : (((Fields1.this_level_array_tail x).diff (Fields1.this_level_array_head x) + 1)
        % (SIZE_MOD : Int)).toNat = exts.prod := hbs
    rw [this, he]; simp
  | succ k ih =>
    intro own x base exts h hb hmax hpos
    obtain ⟨rest, he, _, _, _, hex, hch⟩ := neat_layout_child h
    have hc1 : 1 ≤ x.size := hpos _ (by rw [he]; exact List.mem_cons_self _ _)
    refine ⟨rest, he, fun i hi => ?_⟩
    obtain ⟨c, hc⟩ := hex i hi
    refine ⟨c, hc, ih _ _ _ _ (hch i c hc).2 hb ?_ ?_⟩
    · rw [he, List.prod_cons] at hmax
      exact le_trans (Nat.le_mul_of_pos_left _ hc1) hmax
    · exact fun n hn => hpos n (by rw [he]; exact List.mem_cons_of_mem _ hn)

theorem neat_allocate_array_spec [Inhabited α] (k : Nat) (this : dynarray k) (h : Heap α)
    (count : Nat) (args : List (Arg α))
    (hargs : k ≤ args.length)
    (hpos : ∀ x ∈ extents k count args, 1 ≤ x)
    (hmax : (extents k count args).prod ≤ PTRDIFF_MAX) :
    ∃ h' x, allocate_array k this h count args = .ok (h', x) ∧
      layout k true x ⟨h.next + 1, 0⟩ (extents k count args) ∧
      h'.next = h.next + 1 ∧
      (∀ b, h'.len b = if b = h.next + 1 then some (extents k count args).prod else h.len b) ∧
      ∀ b i, h'.cell b i =
        if b = h.next + 1 then
          (if 0 ≤ i ∧ i < ((extents k count args).prod : Nat)
            then some (make_leaf (args.drop k)) else none)
        else h.cell b i := by
  have hc1 : 1 ≤ count := hpos count (List.mem_cons_self _ _)
  cases k with
  | zero =>
    simp only [extents_zero, List.prod_singleton] at hmax ⊢
    have hv : verify_size count = false := by simp [verify_size]; exact hmax
    obtain ⟨h', hc, hl, hn, hcell⟩ := construct_n_spec (⟨h.next + 1, 0⟩ : Ptr)
      (some (make_leaf args)) count (h.allocate count).2 count (by simp [Heap.allocate])
      (le_refl _) (by simp)
    have hg : ¬ count = 0 := by omega
    simp only [Heap.allocate] at hc
    refine ⟨h', _, by
      simp only [allocate_array, hv, Bool.false_eq_true, if_false, hg, Heap.allocate, hc]
      rfl, ?_, hn, ?_, ?_⟩
    · exact ⟨⟨count, rfl⟩, rfl, rfl, by simp⟩
    · intro b; rw [hl]; rfl
    · intro b i
      rw [hcell]
      simp only [Heap.allocate, List.drop_zero]
      split_ifs <;> first | rfl | (exfalso; omega)
  | succ k =>
    cases args with
    | nil => simp at hargs
    | cons a rest =>
      rw [extents_succ_cons] at hpos hmax ⊢
      rw [List.prod_cons] at hmax ⊢
      have hpos1 : ∀ x ∈ extents k a.toSize rest, 1 ≤ x :=
        fun x hx => hpos x (List.mem_cons_of_mem _ hx)
      have hrl : k ≤ rest.length := by simpa using hargs
      have hBmax : (extents k a.toSize rest).prod ≤ PTRDIFF_MAX :=
        le_trans (Nat.le_mul_of_pos_left _ hc1) hmax
      have heb := neat_expand_counts_eq k a.toSize rest hpos1 hBmax
      have hB1 : 1 ≤ (extents k a.toSize rest).prod := prod_pos_of_pos _ hpos1
      generalize hB : (extents k a.toSize rest).prod = B at *
      have hN1 : 1 ≤ count * B := Nat.mul_pos hc1 hB1
      have hv : verify_size count = false := by
        simp only [verify_size, decide_eq_false_iff_not, not_lt]
        exact le_trans (Nat.le_mul_of_pos_right _ hB1) hmax
      have hvB : verify_size B = false := by
        simp only [verify_size, decide_eq_false_iff_not, not_lt]; exact hBmax
      have hsm : size_mul B count = count * B := by
        rw [size_mul_eq (by rw [Nat.mul_comm]; exact hmax), Nat.mul_comm]
      have hvN : verify_size (count * B) = false := by
        simp only [verify_size, decide_eq_false_iff_not, not_lt]; exact hmax
      have hg : ¬ (k + 2 > 1 + (a :: rest).length ∨ count * B = 0) := by
        simp only [List.length_cons]; omega
      obtain ⟨hf, cs, hloop, hlencs, hlay, hl, hn, hcell⟩ :=
        neat_node_loop_spec_of k (neat_allocate_array_at_spec k) (FieldsN.contiguous_allocator this)
          (h.allocate (count * B)).2 ⟨h.next + 1, 0⟩ count a rest (count * B) hrl hpos1
          (by rw [hB]; exact hmax) hc1 (by simp [Heap.allocate]) (le_refl _)
          (by rw [hB]; simp)
      rw [hB] at hlay hcell
      rw [heb] at hloop
      refine ⟨hf, _, by
        simp only [allocate_array, hv, heb, hvB, hsm, hvN, Bool.false_eq_true, if_false, hg,
          Heap.allocate] at hloop ⊢
        simp only [hloop]
        rfl, ?_, hn, ?_, ?_⟩
      · refine ⟨_, cs, rfl, rfl, rfl, hlencs, rfl, ?_, ?_⟩
        · simp only [List.prod_cons, hB]
        · rw [hB]; exact hlay
      · intro b; rw [hl]; rfl
      · intro b i
        rw [hcell]
        simp only [Heap.allocate, List.drop_succ_cons]
        split_ifs <;> first | rfl | (exfalso; omega)

/-- C4. For every depth `N = k + 1` and every call `(count, args...)` of the constructor
of `dynarray<T, N>` that supplies the `N` extents, all at least `1` and of product at most
`PTRDIFF_MAX`, followed by a leaf value: the array is constructed, its sizes along
`operator[]` are the extents, its top-level block size is the product of the extents,
every full index within the sizes reaches a live leaf address, different indices reach
different addresses, and the addresses reached are exactly the `product` addresses
`data() + off`, `off < product`. -/
theorem traversal_reaches_product [Inhabited α] (k : Nat) (h : Heap α) (count : Nat)
    (args : List (Arg α)) (hargs : k < args.length)
    (hpos : ∀ n ∈ extents k count args, 1 ≤ n)
    (hmax : (extents k count args).prod ≤ PTRDIFF_MAX) :
    ∃ h' x, dynarray.mk_counts k h count args = .ok (h', x) ∧
      has_shape k x (extents k count args) ∧
      x.get_block_size = (extents k count args).prod ∧
      (∀ idx, in_range (extents k count args) idx →
        ∃ p, leaf_address k x idx = some p ∧ h'.valid p = true) ∧
      (∀ idx jdx, in_range (extents k count args) idx → in_range (extents k count args) jdx →
        leaf_address k x idx = leaf_address k x jdx → idx = jdx) ∧
      (∀ idx p, in_range (extents k count args) idx → leaf_address k x idx = some p →
        ∃ off, off < (extents k count args).prod ∧ p = x.head.add (off : Nat)) ∧
      (∀ off, off < (extents k count args).prod →
        ∃ idx, in_range (extents k count args) idx ∧
          leaf_address k x idx = some (x.head.add (off : Nat))) := by
  obtain ⟨h', x, hx, hl, _, hlen, _⟩ :=
    neat_allocate_array_spec k (initialise k 0) h count args (Nat.le_of_lt hargs) hpos hmax
  obtain ⟨hh, ht, _⟩ := neat_layout_head k true x _ _ hl
  have hflt : ∀ idx, in_range (extents k count args) idx →
      flat_offset (extents k count args) idx < (extents k count args).prod :=
    fun idx hr => in_range_flat_lt _ idx count _ rfl hr
  refine ⟨h', x, hx, neat_layout_has_shape k true x _ _ hl (by simp) hmax hpos,
    block_size_of_bounds x _ _ hh ht hmax, ?_, ?_, ?_, ?_⟩
  · intro idx hr
    refine ⟨_, neat_layout_leaf_address k _ _ _ _ _ hl hr, ?_⟩
    rw [Heap.valid_iff h' _ _ (by rw [Ptr.add_block, hlen, if_pos rfl])]
    simp only [Ptr.add_off]
    have := hflt idx hr
    omega
  · intro idx jdx hri hrj he
    rw [neat_layout_leaf_address k _ _ _ _ _ hl hri, neat_layout_leaf_address k _ _ _ _ _ hl hrj] at he
    have he' := congrArg Ptr.off (Option.some.inj he)
    simp only [Ptr.add_off] at he'
    exact flat_offset_injective _ idx jdx hri hrj (by omega)
  · intro idx p hr hp
    rw [neat_layout_leaf_address k _ _ _ _ _ hl hr] at hp
    exact ⟨_, hflt idx hr, by rw [hh]; exact (Option.some.inj hp).symm⟩
  · intro off hoff
    obtain ⟨idx, hr, hf⟩ := flat_offset_surjective _ off hoff
    exact ⟨idx, hr, by rw [neat_layout_leaf_address k _ _ _ _ _ hl hr, hf, hh]⟩

/-- Witness of `traversal_reaches_product`: the call `dynarray<int, 2>(3, 4, 7)`. -/
theorem traversal_reaches_product_witness :
    ((∀ n ∈ extents 1 3 [(⟨4, 0⟩ : Arg Int), ⟨0, 7⟩], 1 ≤ n) ∧
      (extents 1 3 [(⟨4, 0⟩ : Arg Int), ⟨0, 7⟩]).prod ≤ PTRDIFF_MAX) ∧
    ∃ h' x, dynarray.mk_counts 1 (Heap.empty : Heap Int) 3 [⟨4, 0⟩, ⟨0, 7⟩] = .ok (h', x) ∧
      has_shape 1 x [3, 4] ∧
      x.get_block_size = 12 ∧
      (∀ idx, in_range [3, 4] idx → ∃ p, leaf_address 1 x idx = some p ∧ h'.valid p = true) ∧
      (∀ idx jdx, in_range [3, 4] idx → in_range [3, 4] jdx →
        leaf_address 1 x idx = leaf_address 1 x jdx → idx = jdx) ∧
      (∀ idx p, in_range [3, 4] idx → leaf_address 1 x idx = some p →
        ∃ off, off < 12 ∧ p = x.head.add (off : Nat)) ∧
      (∀ off, off < 12 → ∃ idx, in_range [3, 4] idx ∧
        leaf_address 1 x idx = some (x.head.add (off : Nat))) :=
  ⟨⟨by decide, by decide⟩,
    traversal_reaches_product 1 Heap.empty 3 [⟨4, 0⟩, ⟨0, 7⟩] (by decide) (by decide)
      (by decide)⟩

end vla_neat

namespace vla

variable {α : Type}

/-! ## Teardown and copy assignment -/

theorem rev_loop_inv {σ : Type} (body : Nat → σ → Option σ) (P : Nat → σ → Prop) (n : Nat)
    (s : σ) (h0 : P n s)
    (hstep : ∀ i t, i < n → P (i + 1) t → ∃ t', body i t = some t' ∧ P i t') :
    ∃ t, rev_loop body n s = some t ∧ P 0 t := by
  induction n generalizing s with
  | zero => exact ⟨s, rfl, h0⟩
  | succ n ih =>
    obtain ⟨t', ht', hP'⟩ := hstep n s (Nat.lt_succ_self n) h0
    obtain ⟨t, ht, hP⟩ := ih t' hP' (fun i t hi hp => hstep i t (Nat.lt_succ_of_lt hi) hp)
    exact ⟨t, by simp [rev_loop, ht', ht], hP⟩

theorem Heap.destroy_spec (h : Heap α) (p : Ptr) (hv : h.valid p = true) :
    ∃ h', h.destroy p = some h' ∧ h'.len = h.len ∧ h'.next = h.next ∧
      ∀ b i, h'.cell b i = if b = p.block ∧ i = p.off then none else h.cell b i :=
  ⟨{ h with
      cell := fun b i => if b = p.block ∧ i = p.off then none else h.cell b i
      log := Event.destroy p :: h.log }, by simp [Heap.destroy, hv], rfl, rfl,
    fun _ _ => rfl⟩

theorem release_spec (p : Ptr) (n : Nat) (h : Heap α) (hlen : h.len p.block = some n)
    (hoff : p.off = 0) :
    ∃ h', release p n h = some h' ∧ h'.next = h.next ∧
      (∀ b, h'.len b = if b = p.block then none else h.len b) ∧
      ∀ b i, h'.cell b i = if b = p.block then none else h.cell b i := by
  obtain ⟨t, ht, hl, hn, hc⟩ := rev_loop_inv (fun i (h1 : Heap α) => h1.destroy (p.add i))
    (fun _ (t : Heap α) => t.len = h.len ∧ t.next = h.next ∧
      ∀ b i, b ≠ p.block → t.cell b i = h.cell b i) n h ⟨rfl, rfl, fun _ _ _ => rfl⟩
    (by
      intro i t hi ⟨hl, hn, hc⟩
      have hv : t.valid (p.add i) = true := by
        rw [Heap.valid_iff t _ n (by rw [hl]; exact hlen)]
        simp only [Ptr.add_off]; omega
      obtain ⟨t', ht', hl', hn', hc'⟩ := Heap.destroy_spec t _ hv
      refine ⟨t', ht', hl'.trans hl, hn'.trans hn, fun b j hb => ?_⟩
      rw [hc', if_neg (fun hh => hb hh.1), hc b j hb])
  refine ⟨{ t with
      len := fun b => if b = p.block then none else t.len b
      cell := fun b i => if b = p.block then none else t.cell b i
      log := Event.deallocate p.block :: t.log }, ?_, hn, ?_, ?_⟩
  · simp only [release, ht, Heap.deallocate, hoff, hl, hlen, and_self, if_true]
  · intro b; simp only [hl]
  · intro b i
    by_cases hb : b = p.block
    · simp only [hb, if_true]
    · simp only [hb, if_false]; exact hc b i hb

theorem destroy_nodes_spec {L : Nat}
    (teardown : dynarray L → Heap α → Option (Heap α × dynarray L))
    (cs : List (dynarray L)) (n : Nat) (h : Heap α) (hn : n ≤ cs.length)
    (hstep : ∀ i c (t : Heap α), cs.get? i = some c →
      ∃ h2 x2, teardown c t = some (h2, x2) ∧ h2.len = t.len ∧ h2.next = t.next ∧
        h2.cell = t.cell) :
    ∃ t, destroy_nodes teardown cs n h = some t ∧ t.len = h.len ∧ t.next = h.next ∧
      t.cell = h.cell := by
  unfold destroy_nodes
  apply rev_loop_inv _ (fun _ (t : Heap α) => t.len = h.len ∧ t.next = h.next ∧ t.cell = h.cell)
  · exact ⟨rfl, rfl, rfl⟩
  · intro i t hi ⟨hl, hn', hc⟩
    have hi' : i < cs.length := by omega
    have hg : cs.get? i = some (cs.get ⟨i, hi'⟩) := by
      rw [List.get?_eq_getElem?]; exact List.getElem?_eq_getElem hi'
    obtain ⟨h2, x2, hd, hl2, hn2, hc2⟩ := hstep i _ t hg
    refine ⟨h2.record (Event.destroy_child i), ?_, hl2.trans hl, hn2.trans hn', hc2.trans hc⟩
    simp only [hg, hd]

theorem deallocate_view_spec (L : Nat) : ∀ (x : dynarray L) (h : Heap α) (base : Ptr)
    (exts : List Nat), layout L false x base exts →
    ∃ h' x', deallocate_array L x h = some (h', x') ∧ h'.len = h.len ∧ h'.next = h.next ∧
      h'.cell = h.cell := by
  induction L with
  | zero =>
    intro x h base exts hl
    obtain ⟨_, he, hc, _, _⟩ := hl
    simp only [Bool.false_eq_true, if_false] at he hc
    refine ⟨h, x, ?_, rfl, rfl, rfl⟩
    simp [deallocate_array, dynarray.leaf_data, he, hc]
  | succ L ih =>
    intro x h base exts hl
    obtain ⟨rest, cs, he, hent, hcs, hlen, hh, ht, hch⟩ := hl
    simp only [Bool.false_eq_true, if_false] at hent
    obtain ⟨t, ht, hl, hn, hc⟩ := destroy_nodes_spec (deallocate_array L) cs
      x.current_dimension_array_size h (le_of_eq hlen.symm)
      (fun i c t hg => ih c t _ rest (hch i c hg))
    refine ⟨t.record (Event.deallocate_nodes x.current_dimension_array_size), _, by
      simp only [deallocate_array, hcs, hlen, if_true, ht, hent, ne_eq,
        not_true_eq_false, if_false]
      rfl, hl, hn, hc⟩

theorem deallocate_owner_spec (L : Nat) (x : dynarray L) (h : Heap α) (b : Nat)
    (exts : List Nat) (hl : layout L true x ⟨b, 0⟩ exts) (hb : b ≠ 0)
    (hlen : h.len b = some exts.prod) (hmax : exts.prod ≤ PTRDIFF_MAX) :
    ∃ h' x', deallocate_array L x h = some (h', x') ∧ h'.next = h.next ∧
      (∀ c, h'.len c = if c = b then none else h.len c) ∧
      ∀ c i, h'.cell c i = if c = b then none else h.cell c i := by
  have hbs := layout_block_size L true x ⟨b, 0⟩ exts hl hmax
  have hnn : (⟨b, 0⟩ : Ptr) ≠ Ptr.null := by
    intro hh; apply hb; simpa [Ptr.null] using congrArg Ptr.block hh
  cases L with
  | zero =>
    obtain ⟨_, he, hc, _, _⟩ := hl
    simp only [if_true] at he hc
    obtain ⟨h', hr, hn, hl', hc'⟩ := release_spec (⟨b, 0⟩ : Ptr) exts.prod h hlen rfl
    refine ⟨h', _, by
      simp only [deallocate_array, dynarray.leaf_data, he, hc, hbs, ne_eq, hnn,
        not_false_eq_true, and_self, if_true, hr, not_true_eq_false, if_false]
      rfl, hn, hl', hc'⟩
  | succ L =>
    obtain ⟨rest, cs, he, hent, hcs, hlencs, hh, ht, hch⟩ := hl
    simp only [if_true] at hent
    obtain ⟨t, ht, hlt, hnt, hct⟩ := destroy_nodes_spec (deallocate_array L) cs
      x.current_dimension_array_size h (le_of_eq hlencs.symm)
      (fun i c t hg => deallocate_view_spec L c t _ rest (hch i c hg))
    obtain ⟨h', hr, hn, hl', hc'⟩ := release_spec (⟨b, 0⟩ : Ptr) exts.prod
      (t.record (Event.deallocate_nodes x.current_dimension_array_size))
      (by simp only [Heap.record, hlt]; exact hlen) rfl
    refine ⟨h', _, by
      simp only [deallocate_array, hcs, hlencs, if_true, ht, hent, hbs, ne_eq,
        hnn, not_false_eq_true, hr]
      rfl, ?_, ?_, ?_⟩
    · rw [hn]; exact hnt
    · intro c; rw [hl']; simp only [Heap.record, hlt]
    · intro c i; rw [hc']; simp only [Heap.record, hct]

theorem deallocate_empty_spec (L : Nat) (a : Allocator) (h : Heap α) :
    deallocate_array L (initialise L a) h = some (h, initialise L a) := by
  cases L with
  | zero => simp [deallocate_array, initialise, dynarray.leaf_data, node_pointer.null]
  | succ L => simp [deallocate_array, initialise, node_pointer.null]

theorem copy_assign_rebuild_eq (L : Nat) (T S : dynarray L) (h : Heap α)
    (hc : T.entire_array_data ≠ Ptr.null ∨ T.this_level_array_head = Ptr.null)
    (h1 : Heap α) (T1 : dynarray L) (hd : deallocate_array L T h = some (h1, T1)) :
    copy_assign L T h S = copy_array L T1 h1 S := by
  cases L with
  | zero => simp only [copy_assign, hc, if_true, hd]
  | succ L => simp only [copy_assign, hc, if_true, hd]

/-- The teardown of an assignment target that is default-empty or a rectangular top-level
owner: it succeeds and leaves every other block as it was. -/
theorem deallocate_target_spec (L : Nat) (h : Heap α) (T : dynarray L) (extsT : List Nat)
    (a : Allocator) (bS : Nat) (h0 : h.len 0 = none)
    (hT : T = initialise L a ∨ (owns h L T extsT ∧ T.entire_array_data.block ≠ bS)) :
    (T.entire_array_data ≠ Ptr.null ∨ T.this_level_array_head = Ptr.null) ∧
    ∃ h1 T1, deallocate_array L T h = some (h1, T1) ∧ h1.next = h.next ∧
      h1.len bS = h.len bS ∧ ∀ i, h1.cell bS i = h.cell bS i := by
  rcases hT with hT | ⟨⟨bT, hlT, hlenT, _, _, hmaxT⟩, hne⟩
  · subst hT
    exact ⟨Or.inr rfl, h, _, deallocate_empty_spec L a h, rfl, rfl, fun _ => rfl⟩
  · have hbT : bT ≠ 0 := by
      intro hh; rw [hh, h0] at hlenT; exact absurd hlenT (by simp)
    have hent := (layout_head L true T _ extsT hlT).2.2
    simp only [if_true] at hent
    rw [hent] at hne
    obtain ⟨h1, T1, hd, hn, hl, hc⟩ := deallocate_owner_spec L T h bT extsT hlT hbT hlenT hmaxT
    refine ⟨Or.inl ?_, h1, T1, hd, hn, ?_, fun i => ?_⟩
    · rw [hent]; intro hh; apply hbT; simpa [Ptr.null] using congrArg Ptr.block hh
    · rw [hl, if_neg (fun hh => hne hh.symm)]
    · rw [hc, if_neg (fun hh => hne hh.symm)]

/-- C12. Copy-assigning a non-empty rectangular top-level owner `S` into a distinct target
`T` that is default-empty or a rectangular top-level owner of any shape completes and
rebuilds `T`: afterwards `T` is a top-level owner with the extents of `S` (so it reports
the `size()` of `S` at every level), its buffer is a live block other than the one of
`S`, the leaf of `T` at every full index holds what the leaf of `S` holds there, and `S`
is still an owner of its buffer whose leaves are what they were. -/
theorem copy_assignment_rebuilds (L : Nat) (h : Heap α) (S T : dynarray L)
    (exts extsT : List Nat) (a : Allocator) (h0 : h.len 0 = none) (hS : owns h L S exts)
    (hT : T = initialise L a ∨
      (owns h L T extsT ∧ T.entire_array_data.block ≠ S.entire_array_data.block)) :
    ∃ h' T', copy_assign L T h S = .ok (h', T') ∧
      owns h' L T' exts ∧ owns h' L S exts ∧ has_shape L S exts ∧ has_shape L T' exts ∧
      T'.entire_array_data ≠ Ptr.null ∧
      T'.entire_array_data.block ≠ S.entire_array_data.block ∧
      ∀ idx, in_range exts idx → ∃ p q, leaf_address L S idx = some p ∧
        leaf_address L T' idx = some q ∧ h.valid p = true ∧ h'.valid q = true ∧
        h'.load q = h.load p ∧ h'.load p = h.load p := by
  obtain ⟨b, hlS, hlen, hb, hpos, hmax⟩ := hS
  have hentS := (layout_head L true S _ exts hlS).2.2
  simp only [if_true] at hentS
  rw [hentS] at hT
  obtain ⟨hcond, h1, T1, hd, hn1, hl1, hc1⟩ := deallocate_target_spec L h T extsT a b h0 hT
  obtain ⟨h', T', hcp, hlT', hn', hlen', hcell'⟩ := copy_array_spec L T1 S h1 ⟨b, 0⟩ exts
    exts.prod hlS hpos hmax (by rw [hl1]; exact hlen) (le_refl _) (by simp)
    (by rw [hn1]; exact hb)
  rw [hn1] at hlT' hn' hlen' hcell'
  have hne : b ≠ h.next + 1 := by omega
  have hlenS' : h'.len b = some exts.prod := by rw [hlen', if_neg hne, hl1]; exact hlen
  have hentT := (layout_head L true T' _ exts hlT').2.2
  simp only [if_true] at hentT
  refine ⟨h', T', by rw [copy_assign_rebuild_eq L T S h hcond h1 T1 hd]; exact hcp,
    ⟨h.next + 1, hlT', by rw [hlen', if_pos rfl], by omega, hpos, hmax⟩,
    ⟨b, hlS, hlenS', by omega, hpos, hmax⟩,
    layout_has_shape L _ _ _ _ hlS, layout_has_shape L _ _ _ _ hlT', ?_, ?_, fun idx hr => ?_⟩
  · rw [hentT]; intro hh; simpa [Ptr.null] using congrArg Ptr.block hh
  · rw [hentT, hentS]; exact fun hh => hne hh.symm
  obtain ⟨rest, he⟩ := layout_size L true S _ exts hlS
  have hlt := in_range_flat_lt exts idx _ rest he hr
  have hvp : h.valid ((⟨b, 0⟩ : Ptr).add (flat_offset exts idx : Nat)) = true := by
    rw [Heap.valid_iff h _ exts.prod (by rw [Ptr.add_block]; exact hlen)]
    simp only [Ptr.add_off]
    omega
  have hvq : h'.valid ((⟨h.next + 1, 0⟩ : Ptr).add (flat_offset exts idx : Nat)) = true := by
    rw [Heap.valid_iff h' _ exts.prod (by rw [Ptr.add_block, hlen', if_pos rfl])]
    simp only [Ptr.add_off]
    omega
  have hvp' : h'.valid ((⟨b, 0⟩ : Ptr).add (flat_offset exts idx : Nat)) = true := by
    rw [Heap.valid_iff h' _ exts.prod (by rw [Ptr.add_block]; exact hlenS')]
    simp only [Ptr.add_off]
    omega
  refine ⟨_, _, layout_leaf_address L _ _ _ _ _ hlS hr, layout_leaf_address L _ _ _ _ _ hlT' hr,
    hvp, hvq, ?_, ?_⟩
  · simp only [Heap.load, hvp, hvq, if_true, hcell', Ptr.add_block, Ptr.add_off]
    rw [if_pos ⟨by omega, by omega⟩, hc1]
    simp
  · simp only [Heap.load, hvp, hvp', if_true, hcell', Ptr.add_block, if_neg hne, hc1]

/-- Witness of `copy_assignment_rebuilds`: the sample `2 x 3` owner assigned into a
default-constructed object. -/
theorem copy_assignment_rebuilds_witness :
    sample_heap.len 0 = none ∧ owns sample_heap 1 sample_owner [2, 3] ∧
    ∃ h' T', copy_assign 1 (initialise 1 0) sample_heap sample_owner = .ok (h', T') ∧
      owns h' 1 T' [2, 3] ∧ owns h' 1 sample_owner [2, 3] ∧
      has_shape 1 sample_owner [2, 3] ∧ has_shape 1 T' [2, 3] ∧
      T'.entire_array_data ≠ Ptr.null ∧
      T'.entire_array_data.block ≠ sample_owner.entire_array_data.block ∧
      ∀ idx, in_range [2, 3] idx → ∃ p q, leaf_address 1 sample_owner idx = some p ∧
        leaf_address 1 T' idx = some q ∧ sample_heap.valid p = true ∧ h'.valid q = true ∧
        h'.load q = sample_heap.load p ∧ h'.load p = sample_heap.load p :=
  ⟨rfl, sample_owner_owns,
    copy_assignment_rebuilds 1 sample_heap sample_owner (initialise 1 0) [2, 3] [] 0 rfl
      sample_owner_owns (Or.inl rfl)⟩

/-! ## Assignment into a view, and move -/

theorem list_set_get?_self {β : Type} (l : List β) (i : Nat) (c : β)
    (h : l.get? i = some c) : l.set i c = l := by
  induction l generalizing i with
  | nil => rfl
  | cons x xs ih =>
    cases i with
    | zero => simp at h; subst h; rfl
    | succ i => simp at h; simp [List.set, ih i (by simpa using h)]

theorem set_child_self {L : Nat} (a : dynarray (L + 1)) (i : Nat) (c : dynarray L)
    (h : a.child i = some c) : a.set_child i c = a := by
  unfold dynarray.child dynarray.nodes at h
  unfold dynarray.set_child dynarray.nodes
  cases hcs : a.current_dimension_array_data with
  | none => rw [hcs] at h; exact absurd h (by simp)
  | some cs =>
    rw [hcs] at h
    simp only at h
    have : a = { a with current_dimension_array_data := some cs } := by rw [← hcs]
    rw [this]
    simp only [Option.map, list_set_get?_self cs i c h]

/-- The assignment loop of `loop_copy` over two slices of live blocks, which may lie in one
block. It writes the first `min n m` leaves of the destination only. The loop runs
upwards, so every leaf it reads is still the one of the heap it started from unless the
source slice starts below the destination slice and reaches into it. -/
theorem loop_copy_leaves_spec (this right : dynarray 0) (h : Heap α) (n m : Nat)
    (dst src : Ptr) (dlen slen : Nat)
    (hdh : this.this_level_array_head = dst)
    (hdt : this.this_level_array_tail = (dst.add n).add (-1))
    (hsh : right.this_level_array_head = src)
    (hst : right.this_level_array_tail = (src.add m).add (-1))
    (hd : h.len dst.block = some dlen) (hd0 : 0 ≤ dst.off) (hd1 : dst.off + n ≤ dlen)
    (hs : h.len src.block = some slen) (hs0 : 0 ≤ src.off) (hs1 : src.off + m ≤ slen) :
    ∃ h', loop_copy_leaves this right h = .ok h' ∧ h'.len = h.len ∧ h'.next = h.next ∧
      (∀ b i, ¬ (b = dst.block ∧ dst.off ≤ i ∧ i < dst.off + (min n m : Nat)) →
        h'.cell b i = h.cell b i) ∧
      ((src.block = dst.block →
          dst.off ≤ src.off ∨ src.off + (min n m : Nat) ≤ dst.off) →
        ∀ i, dst.off ≤ i → i < dst.off + (min n m : Nat) →
          h'.cell dst.block i = h.cell src.block (src.off + (i - dst.off))) := by
  have hlen : (min (this.this_level_array_tail.diff this.this_level_array_head + 1)
      (right.this_level_array_tail.diff right.this_level_array_head + 1)).toNat = min n m := by
    rw [hdh, hdt, hsh, hst]
    simp only [Ptr.diff, Ptr.add_off]
    omega
  simp only [loop_copy_leaves]
  rw [hlen]
  simp only [hdh, hsh]
  apply for_loop_inv _
    (fun k (t : Heap α) => t.len = h.len ∧ t.next = h.next ∧
      (∀ b i, ¬ (b = dst.block ∧ dst.off ≤ i ∧ i < dst.off + k) → t.cell b i = h.cell b i) ∧
      ((src.block = dst.block →
          dst.off ≤ src.off ∨ src.off + (min n m : Nat) ≤ dst.off) →
        ∀ i, dst.off ≤ i → i < dst.off + k →
          t.cell dst.block i = h.cell src.block (src.off + (i - dst.off))))
  · refine ⟨rfl, rfl, fun b i _ => rfl, fun _ i h1 h2 => ?_⟩
    exfalso; omega
  · intro k t hk ⟨hl, hn, hfr, hval⟩
    have hvs : t.valid (src.add k) = true := by
      rw [Heap.valid_iff t _ slen (by rw [hl]; exact hs)]
      simp only [Ptr.add_off]; omega
    have hvd : t.valid (dst.add k) = true := by
      rw [Heap.valid_iff t _ dlen (by rw [hl]; exact hd)]
      simp only [Ptr.add_off]; omega
    obtain ⟨t', ht', hl', hn', hc'⟩ := Heap.assign_spec t (dst.add k)
      (t.cell (src.add k).block (src.add k).off) hvd
    refine ⟨t', by simp only [Heap.load, hvs, if_true, ht'], hl'.trans hl, hn'.trans hn, ?_, ?_⟩
    · intro b i hout
      rw [hc']
      simp only [Ptr.add_block, Ptr.add_off]
      rw [if_neg (by rintro ⟨h1, h2⟩; apply hout; exact ⟨h1, by omega, by omega⟩)]
      apply hfr
      rintro ⟨h1, h2, h3⟩
      apply hout
      exact ⟨h1, h2, by omega⟩
    · intro hov i h1 h2
      rw [hc']
      simp only [Ptr.add_block, Ptr.add_off]
      by_cases hik : i = dst.off + (k : Int)
      · rw [if_pos ⟨trivial, hik⟩]
        have hsame : t.cell src.block (src.off + (k : Int)) =
            h.cell src.block (src.off + (k : Int)) := by
          apply hfr
          rintro ⟨hb, h3, h4⟩
          rcases hov hb with h5 | h5
          · omega
          · omega
        rw [hsame, hik]
        congr 1; ring
      · rw [if_neg (fun hh => hik hh.2)]
        exact hval hov i h1 (by omega)

theorem load_congr (h h' : Heap α) (p q : Ptr) (hv : h'.valid p = h.valid q)
    (hc : h'.cell p.block p.off = h.cell q.block q.off) : h'.load p = h.load q := by
  simp only [Heap.load, hv, hc]

/-- The frame of `a[i] = b` on a rectangular two-level owner, for any slice `b` of a live
block: only the first `min n m` leaves of row `i` are written, and they receive the leaves
of `b` unless the slice of `b` starts below the slice of row `i` and reaches into it. -/
theorem assign_row_spec (h : Heap α) (a : dynarray 1) (b : dynarray 0)
    (r n m i ba : Nat) (B : Ptr) (lenB : Nat) (hba : ba ≠ 0)
    (hl : layout 1 true a ⟨ba, 0⟩ [r, n]) (hlen : h.len ba = some (r * n)) (hi : i < r)
    (hbm : b.size = m)
    (hb : m = 0 ∨ (b.this_level_array_head = B ∧
      b.this_level_array_tail = (B.add m).add (-1) ∧
      h.len B.block = some lenB ∧ 0 ≤ B.off ∧ B.off + m ≤ lenB)) :
    ∃ h', assign_row a i h b = .ok (h', a) ∧ h'.len = h.len ∧
      (∀ j, j < r → ∃ c, a.child j = some c ∧ c.size = n ∧
        c.this_level_array_head = ⟨ba, ((j * n : Nat) : Int)⟩) ∧
      (∀ c j, ¬ (c = ba ∧ ((i * n : Nat) : Int) ≤ j ∧
          j < ((i * n : Nat) : Int) + (min n m : Nat)) → h'.cell c j = h.cell c j) ∧
      ((B.block = ba → ((i * n : Nat) : Int) ≤ B.off ∨
          B.off + (min n m : Nat) ≤ ((i * n : Nat) : Int)) →
        ∀ j, ((i * n : Nat) : Int) ≤ j → j < ((i * n : Nat) : Int) + (min n m : Nat) →
          h'.cell ba j = h.cell B.block (B.off + (j - ((i * n : Nat) : Int)))) := by
  obtain ⟨rest, he, _, _, _, hex, hch⟩ := layout_child hl
  have hr : a.current_dimension_array_size = r := by
    have := (List.cons.inj he).1; exact this.symm
  have hrest : rest = [n] := ((List.cons.inj he).2).symm
  subst hrest
  rw [hr] at hex
  have hrows : ∀ j, j < r → ∃ c, a.child j = some c ∧ c.size = n ∧
      c.this_level_array_head = ⟨ba, ((j * n : Nat) : Int)⟩ ∧
      c.this_level_array_tail = ((⟨ba, ((j * n : Nat) : Int)⟩ : Ptr).add n).add (-1) ∧
      c.entire_array_data = Ptr.null := by
    intro j hj
    obtain ⟨c, hc⟩ := hex j hj
    obtain ⟨hs, hent, _, hh, ht⟩ := (hch j c hc).2
    simp only [Bool.false_eq_true, if_false] at hent
    have hsz : c.current_dimension_array_size = n := ((List.cons.inj hs).1).symm
    simp only [List.prod_cons, List.prod_nil, mul_one] at hh ht
    refine ⟨c, hc, hsz, ?_, ?_, hent⟩
    · rw [hh]; simp [Ptr.add]
    · rw [ht]; simp [Ptr.add]
  obtain ⟨row, hrow, hsz, hh, ht, hent⟩ := hrows i hi
  have hin : i * n + n ≤ r * n := by
    have := Nat.mul_le_mul_right n (Nat.succ_le_of_lt hi)
    rw [Nat.succ_mul] at this; exact this
  have hcond : ¬ (row.entire_array_data ≠ Ptr.null ∨ row.this_level_array_head = Ptr.null) := by
    rw [hent, hh]
    intro hc
    rcases hc with hc | hc
    · exact hc rfl
    · apply hba; simpa [Ptr.null] using congrArg Ptr.block hc
  have hkey : ∃ h', copy_assign 0 row h b = .ok (h', row) ∧ h'.len = h.len ∧
      (∀ c j, ¬ (c = ba ∧ ((i * n : Nat) : Int) ≤ j ∧
          j < ((i * n : Nat) : Int) + (min n m : Nat)) → h'.cell c j = h.cell c j) ∧
      ((B.block = ba → ((i * n : Nat) : Int) ≤ B.off ∨
          B.off + (min n m : Nat) ≤ ((i * n : Nat) : Int)) →
        ∀ j, ((i * n : Nat) : Int) ≤ j → j < ((i * n : Nat) : Int) + (min n m : Nat) →
          h'.cell ba j = h.cell B.block (B.off + (j - ((i * n : Nat) : Int)))) := by
    by_cases hm0 : m = 0
    · refine ⟨h, by simp only [copy_assign, hcond, if_false, hbm, hm0, if_true], rfl,
        fun _ _ _ => rfl, fun _ j h1 h2 => ?_⟩
      exfalso
      rw [hm0] at h2
      simp only [Nat.min_zero, Nat.cast_zero, add_zero] at h2
      omega
    · rcases hb with hb | ⟨hbh, hbt, hlB, hB0, hB1⟩
      · exact absurd hb hm0
      obtain ⟨h', hlc, hl', _, hfr, hval⟩ := loop_copy_leaves_spec row b h n m
        ⟨ba, ((i * n : Nat) : Int)⟩ B (r * n) lenB hh ht hbh hbt hlen
        (show (0 : Int) ≤ ((i * n : Nat) : Int) from Int.natCast_nonneg _)
        (show ((i * n : Nat) : Int) + (n : Int) ≤ ((r * n : Nat) : Int) by omega)
        hlB hB0 hB1
      have hbm' : ¬ (b.size = 0) := by rw [hbm]; exact hm0
      exact ⟨h', by simp only [copy_assign, hcond, if_false, hbm', hlc], hl', hfr, hval⟩
  obtain ⟨h', hca, hl', hfr, hval⟩ := hkey
  refine ⟨h', ?_, hl', fun j hj => ?_, hfr, hval⟩
  · simp only [assign_row, hrow, hca, set_child_self a i row hrow]
  · obtain ⟨c, hc, hs, hhd, _⟩ := hrows j hj
    exact ⟨c, hc, hs, hhd⟩

/-- C14. For a rectangular two-level owner `a` with `r` rows of length `n` and any
one-level array `b` of length `m` (empty, or its `m` leaves a slice of a live block, which
may be the buffer of `a` itself), the statement `a[i] = b` completes and leaves the object
`a`, with every row object in it, exactly as it was: row `i` still has `size() == n` and
every row keeps its slice. Afterwards `a[i][k]` holds what it held for `min n m ≤ k < n`,
every leaf of every other row holds what it held, and `a[i][k]` holds `b[k]` for
`k < min n m`.

The last part is stated for every `b` whose slice does not start below the slice of `a[i]`
and reach into it. That is every `b` in another block and every row `a[j]` of `a`
(`i * n ≤ j * n` for `i ≤ j`, `j * n + n ≤ i * n` for `j < i`), so `a[0] = a[1]` and
`a[i] = a[i]` are covered; the rows are the only one-level arrays that the buffer of a
rectangular `a` holds. -/
theorem view_assignment_in_place (h : Heap α) (a : dynarray 1) (b : dynarray 0)
    (r n m i : Nat) (B : Ptr) (lenB : Nat) (h0 : h.len 0 = none)
    (ha : owns h 1 a [r, n]) (hi : i < r) (hbm : b.size = m)
    (hb : m = 0 ∨ (b.this_level_array_head = B ∧
      b.this_level_array_tail = (B.add m).add (-1) ∧
      h.len B.block = some lenB ∧ 0 ≤ B.off ∧ B.off + m ≤ lenB)) :
    ∃ h' row, assign_row a i h b = .ok (h', a) ∧ a.child i = some row ∧ row.size = n ∧
      (∀ k, k < n → h'.valid (row.elem k) = true) ∧
      ((B.block = a.entire_array_data.block → ((i * n : Nat) : Int) ≤ B.off ∨
          B.off + (min n m : Nat) ≤ ((i * n : Nat) : Int)) →
        ∀ k, k < min n m → h.valid (b.elem k) = true ∧
          h'.load (row.elem k) = h.load (b.elem k)) ∧
      (∀ k, min n m ≤ k → k < n → h'.load (row.elem k) = h.load (row.elem k)) ∧
      ∀ j k, j ≠ i → j < r → k < n →
        ∃ sib, a.child j = some sib ∧ sib.size = n ∧
          h'.load (sib.elem k) = h.load (sib.elem k) := by
  obtain ⟨ba, hl, hlen, _, _, _⟩ := ha
  have hba : ba ≠ 0 := by
    intro hh; rw [hh, h0] at hlen; exact absurd hlen (by simp)
  have hent := (layout_head 1 true a _ _ hl).2.2
  simp only [if_true] at hent
  rw [hent]
  simp only [List.prod_cons, List.prod_nil, mul_one] at hlen
  obtain ⟨h', hres, hl', hrows, hfr, hvalc⟩ :=
    assign_row_spec h a b r n m i ba B lenB hba hl hlen hi hbm hb
  have hval : ∀ p, h'.valid p = h.valid p := fun p => by simp only [Heap.valid, hl']
  have hmul : ∀ j, j < r → j * n + n ≤ r * n := by
    intro j hj
    have := Nat.mul_le_mul_right n (Nat.succ_le_of_lt hj)
    rw [Nat.succ_mul] at this; exact this
  have hvrow : ∀ j k, j < r → k < n →
      h.valid ((⟨ba, ((j * n : Nat) : Int)⟩ : Ptr).add k) = true := by
    intro j k hj hk
    rw [Heap.valid_iff h _ (r * n) (by rw [Ptr.add_block]; exact hlen)]
    have := hmul j hj
    simp only [Ptr.add_off]
    omega
  obtain ⟨row, hrow, hsz, hh⟩ := hrows i hi
  refine ⟨h', row, hres, hrow, hsz, ?_, ?_, ?_, ?_⟩
  · intro k hk
    rw [hval, dynarray.elem, hh]
    exact hvrow i k hi hk
  · intro hov k hk
    have hkn : k < n := lt_of_lt_of_le hk (Nat.min_le_left _ _)
    have hkm : k < m := lt_of_lt_of_le hk (Nat.min_le_right _ _)
    rcases hb with hb | ⟨hbh, _, hlB, hB0, hB1⟩
    · omega
    have hvb : h.valid (b.elem k) = true := by
      rw [dynarray.elem, hbh, Heap.valid_iff h _ lenB (by rw [Ptr.add_block]; exact hlB)]
      simp only [Ptr.add_off]
      omega
    refine ⟨hvb, load_congr h h' _ _ ?_ ?_⟩
    · rw [hval, hvb, dynarray.elem, hh]; exact hvrow i k hi hkn
    · simp only [dynarray.elem, hh, hbh, Ptr.add_block, Ptr.add_off]
      rw [hvalc hov _ (by omega) (by omega)]
      congr 1; ring
  · intro k hk1 hk2
    refine load_congr h h' _ _ (hval _) ?_
    apply hfr
    simp only [dynarray.elem, hh, Ptr.add_block, Ptr.add_off]
    omega
  · intro j k hj hjr hk
    obtain ⟨sib, hsib, hss, hsh⟩ := hrows j hjr
    refine ⟨sib, hsib, hss, load_congr h h' _ _ (hval _) ?_⟩
    apply hfr
    simp only [dynarray.elem, hsh, Ptr.add_block, Ptr.add_off]
    have hji : j < i ∨ i < j := Nat.lt_or_gt_of_ne hj
    have h1 : j < i → j * n + n ≤ i * n := by
      intro hlt
      have := Nat.mul_le_mul_right n (Nat.succ_le_of_lt hlt)
      rw [Nat.succ_mul] at this; exact this
    have h2 : i < j → i * n + n ≤ j * n := by
      intro hlt
      have := Nat.mul_le_mul_right n (Nat.succ_le_of_lt hlt)
      rw [Nat.succ_mul] at this; exact this
    rintro ⟨_, h3, h4⟩
    have hmin : min n m ≤ n := Nat.min_le_left _ _
    rcases hji with hlt | hlt
    · have := h1 hlt; omega
    · have := h2 hlt; omega

theorem sample_owner_owns2 : owns sample_heap2 1 sample_owner [2, 3] := by
  obtain ⟨b, hl, hlen, _, hpos, hmax⟩ := sample_owner_owns
  have hb : b = 1 := by
    have := (layout_head 1 true sample_owner _ _ hl).2.2
    simp only [if_true, sample_owner] at this
    exact (congrArg Ptr.block this).symm
  subst hb
  exact ⟨1, hl, rfl, by decide, hpos, hmax⟩

/-- Witness of `view_assignment_in_place` on the sample `2 x 3` owner: the sample vector
`{7, 8}` of another block assigned into row `1`, then three assignments between slices of
the one buffer: `a[0] = a[1]`, `a[1] = a[0]` and `a[1] = a[1]`. -/
theorem view_assignment_in_place_witness :
    sample_heap2.len 0 = none ∧ owns sample_heap2 1 sample_owner [2, 3] ∧
    sample_vector.size = 2 ∧ sample_owner.child 1 = some (sample_row 3 3) ∧
    sample_owner.child 0 = some (sample_row 0 3) ∧
    (∃ h' row, assign_row sample_owner 1 sample_heap2 sample_vector = .ok (h', sample_owner) ∧
      sample_owner.child 1 = some row ∧ row.size = 3 ∧
      (∀ k, k < 3 → h'.valid (row.elem k) = true) ∧
      (∀ k, k < min 3 2 → sample_heap2.valid (sample_vector.elem k) = true ∧
        h'.load (row.elem k) = sample_heap2.load (sample_vector.elem k)) ∧
      (∀ k, min 3 2 ≤ k → k < 3 → h'.load (row.elem k) = sample_heap2.load (row.elem k)) ∧
      ∀ j k, j ≠ 1 → j < 2 → k < 3 →
        ∃ sib, sample_owner.child j = some sib ∧ sib.size = 3 ∧
          h'.load (sib.elem k) = sample_heap2.load (sib.elem k)) ∧
    (∃ h' row, assign_row sample_owner 0 sample_heap2 (sample_row 3 3) =
        .ok (h', sample_owner) ∧
      sample_owner.child 0 = some row ∧ row.size = 3 ∧
      (∀ k, k < 3 → h'.valid (row.elem k) = true) ∧
      (∀ k, k < min 3 3 → sample_heap2.valid ((sample_row 3 3).elem k) = true ∧
        h'.load (row.elem k) = sample_heap2.load ((sample_row 3 3).elem k)) ∧
      (∀ k, min 3 3 ≤ k → k < 3 → h'.load (row.elem k) = sample_heap2.load (row.elem k)) ∧
      ∀ j k, j ≠ 0 → j < 2 → k < 3 →
        ∃ sib, sample_owner.child j = some sib ∧ sib.size = 3 ∧
          h'.load (sib.elem k) = sample_heap2.load (sib.elem k)) ∧
    (∃ h' row, assign_row sample_owner 1 sample_heap2 (sample_row 0 3) =
        .ok (h', sample_owner) ∧
      sample_owner.child 1 = some row ∧ row.size = 3 ∧
      (∀ k, k < 3 → h'.valid (row.elem k) = true) ∧
      (∀ k, k < min 3 3 → sample_heap2.valid ((sample_row 0 3).elem k) = true ∧
        h'.load (row.elem k) = sample_heap2.load ((sample_row 0 3).elem k)) ∧
      (∀ k, min 3 3 ≤ k → k < 3 → h'.load (row.elem k) = sample_heap2.load (row.elem k)) ∧
      ∀ j k, j ≠ 1 → j < 2 → k < 3 →
        ∃ sib, sample_owner.child j = some sib ∧ sib.size = 3 ∧
          h'.load (sib.elem k) = sample_heap2.load (sib.elem k)) ∧
    ∃ h' row, assign_row sample_owner 1 sample_heap2 (sample_row 3 3) =
        .ok (h', sample_owner) ∧
      sample_owner.child 1 = some row ∧ row.size = 3 ∧
      (∀ k, k < 3 → h'.valid (row.elem k) = true) ∧
      (∀ k, k < min 3 3 → sample_heap2.valid ((sample_row 3 3).elem k) = true ∧
        h'.load (row.elem k) = sample_heap2.load ((sample_row 3 3).elem k)) ∧
      (∀ k, min 3 3 ≤ k → k < 3 → h'.load (row.elem k) = sample_heap2.load (row.elem k)) ∧
      ∀ j k, j ≠ 1 → j < 2 → k < 3 →
        ∃ sib, sample_owner.child j = some sib ∧ sib.size = 3 ∧
          h'.load (sib.elem k) = sample_heap2.load (sib.elem k) :=
  ⟨rfl, sample_owner_owns2, rfl, rfl, rfl,
    (let ⟨h', row, h1, h2, h3, h4, h5, h6, h7⟩ :=
      view_assignment_in_place sample_heap2 sample_owner sample_vector 2 3 2 1 ⟨2, 0⟩ 2 rfl
        sample_owner_owns2 (by decide) rfl (Or.inr ⟨rfl, rfl, rfl, by decide, by decide⟩)
    ⟨h', row, h1, h2, h3, h4, h5 (fun hb => absurd hb (by decide)), h6, h7⟩),
    (let ⟨h', row, h1, h2, h3, h4, h5, h6, h7⟩ :=
      view_assignment_in_place sample_heap2 sample_owner (sample_row 3 3) 2 3 3 0 ⟨1, 3⟩ 6
        rfl sample_owner_owns2 (by decide) rfl
        (Or.inr ⟨rfl, rfl, rfl, by decide, by decide⟩)
    ⟨h', row, h1, h2, h3, h4, h5 (fun _ => Or.inl (by decide)), h6, h7⟩),
    (let ⟨h', row, h1, h2, h3, h4, h5, h6, h7⟩ :=
      view_assignment_in_place sample_heap2 sample_owner (sample_row 0 3) 2 3 3 1 ⟨1, 0⟩ 6
        rfl sample_owner_owns2 (by decide) rfl
        (Or.inr ⟨rfl, rfl, rfl, by decide, by decide⟩)
    ⟨h', row, h1, h2, h3, h4, h5 (fun _ => Or.inr (by decide)), h6, h7⟩),
    (let ⟨h', row, h1, h2, h3, h4, h5, h6, h7⟩ :=
      view_assignment_in_place sample_heap2 sample_owner (sample_row 3 3) 2 3 3 1 ⟨1, 3⟩ 6
        rfl sample_owner_owns2 (by decide) rfl
        (Or.inr ⟨rfl, rfl, rfl, by decide, by decide⟩)
    ⟨h', row, h1, h2, h3, h4, h5 (fun _ => Or.inl (by decide)), h6, h7⟩)⟩

theorem move_array_eq (L : Nat) (this other : dynarray L) :
    move_array L this other = (other, initialise L 0) := rfl

/-- C15. Let `A` be a non-empty rectangular top-level owner. Move-constructing from `A`,
and move-assigning `A` into a target `B` that is default-empty or a rectangular top-level
owner with its own buffer, both give the destination every member of `A` (so it is the
owner of the buffer of `A`, with the shape of `A` and the same leaf at every index) and
leave `A` with `size() == 0` and null `entire_array_data`,
`current_dimension_array_data`, `this_level_array_head` and `this_level_array_tail`. The
move constructor does not take the heap; the move assignment leaves every cell of the
buffer of `A` as it was, and leaves the whole heap as it was when `B` is default-empty. -/
theorem move_transfers_ownership (L : Nat) (h : Heap α) (A B uninit : dynarray L)
    (exts extsB : List Nat) (a : Allocator) (h0 : h.len 0 = none) (hA : owns h L A exts)
    (hB : B = initialise L a ∨
      (owns h L B extsB ∧ B.entire_array_data.block ≠ A.entire_array_data.block)) :
    dynarray.mk_move L uninit A = (A, initialise L 0) ∧
    (∃ h', move_assign L B h A = .ok (h', A, initialise L 0) ∧ owns h' L A exts ∧
      (B = initialise L a → h' = h) ∧
      (∀ i, h'.cell A.entire_array_data.block i = h.cell A.entire_array_data.block i) ∧
      ∀ idx, in_range exts idx → ∃ p, leaf_address L A idx = some p ∧
        h.valid p = true ∧ h'.valid p = true ∧ h'.load p = h.load p) ∧
    (initialise L 0).size = 0 ∧
    (initialise L 0).entire_array_data = Ptr.null ∧
    (initialise L 0).current_dimension_array_data = node_pointer.null L ∧
    (initialise L 0).this_level_array_head = Ptr.null ∧
    (initialise L 0).this_level_array_tail = Ptr.null := by
  refine ⟨rfl, ?_, rfl, rfl, rfl, rfl, rfl⟩
  obtain ⟨b, hlA, hlen, hb, hpos, hmax⟩ := hA
  have hentA := (layout_head L true A _ exts hlA).2.2
  simp only [if_true] at hentA
  rw [hentA] at hB ⊢
  have hkey : ∃ h', move_assign L B h A = .ok (h', A, initialise L 0) ∧
      (B = initialise L a → h' = h) ∧ h'.next = h.next ∧ h'.len b = h.len b ∧
      ∀ i, h'.cell b i = h.cell b i := by
    rcases hB with hB | ⟨⟨bB, hlB, hlenB, _, _, hmaxB⟩, hne⟩
    · subst hB
      refine ⟨h, ?_, fun _ => rfl, rfl, rfl, fun _ => rfl⟩
      have hc : (initialise L a).entire_array_data ≠ Ptr.null ∨
          (initialise L a).this_level_array_head = Ptr.null := Or.inr rfl
      simp only [move_assign, hc, if_true, deallocate_empty_spec, move_array_eq]
    · have hbB : bB ≠ 0 := by
        intro hh; rw [hh, h0] at hlenB; exact absurd hlenB (by simp)
      have hent := (layout_head L true B _ extsB hlB).2.2
      simp only [if_true] at hent
      rw [hent] at hne
      obtain ⟨h1, T1, hd, hn, hl, hc⟩ :=
        deallocate_owner_spec L B h bB extsB hlB hbB hlenB hmaxB
      have hnn : B.entire_array_data ≠ Ptr.null := by
        rw [hent]; intro hh; apply hbB; simpa [Ptr.null] using congrArg Ptr.block hh
      refine ⟨h1, ?_, ?_, hn, ?_, fun i => ?_⟩
      · simp only [move_assign, hnn, ne_eq, not_false_eq_true, true_or, if_true, hd,
          move_array_eq]
      · intro hh; rw [hh] at hnn; exact absurd rfl hnn
      · rw [hl, if_neg (fun hh => hne hh.symm)]
      · rw [hc, if_neg (fun hh => hne hh.symm)]
  obtain ⟨h', hma, hsame, hn', hl', hc'⟩ := hkey
  have hlen' : h'.len b = some exts.prod := by rw [hl']; exact hlen
  refine ⟨h', hma, ⟨b, hlA, hlen', by omega, hpos, hmax⟩, hsame, hc', fun idx hr => ?_⟩
  obtain ⟨rest, he⟩ := layout_size L true A _ exts hlA
  have hlt := in_range_flat_lt exts idx _ rest he hr
  have hvp : h.valid ((⟨b, 0⟩ : Ptr).add (flat_offset exts idx : Nat)) = true := by
    rw [Heap.valid_iff h _ exts.prod (by rw [Ptr.add_block]; exact hlen)]
    simp only [Ptr.add_off]
    omega
  have hvp' : h'.valid ((⟨b, 0⟩ : Ptr).add (flat_offset exts idx : Nat)) = true := by
    rw [Heap.valid_iff h' _ exts.prod (by rw [Ptr.add_block]; exact hlen')]
    simp only [Ptr.add_off]
    omega
  refine ⟨_, layout_leaf_address L _ _ _ _ _ hlA hr, hvp, hvp', ?_⟩
  simp only [Heap.load, hvp, hvp', if_true, Ptr.add_block, hc']

/-- Witness of `move_transfers_ownership`: the sample `2 x 3` owner moved into a
default-constructed object. -/
theorem move_transfers_ownership_witness :
    sample_heap.len 0 = none ∧ owns sample_heap 1 sample_owner [2, 3] ∧
    dynarray.mk_move 1 (initialise 1 5) sample_owner = (sample_owner, initialise 1 0) ∧
    (∃ h', move_assign 1 (initialise 1 0) sample_heap sample_owner =
        .ok (h', sample_owner, initialise 1 0) ∧ owns h' 1 sample_owner [2, 3] ∧
      ((initialise 1 0 : dynarray 1) = initialise 1 0 → h' = sample_heap) ∧
      (∀ i, h'.cell sample_owner.entire_array_data.block i =
        sample_heap.cell sample_owner.entire_array_data.block i) ∧
      ∀ idx, in_range [2, 3] idx → ∃ p, leaf_address 1 sample_owner idx = some p ∧
        sample_heap.valid p = true ∧ h'.valid p = true ∧ h'.load p = sample_heap.load p) ∧
    (initialise 1 0).size = 0 ∧
    (initialise 1 0).entire_array_data = Ptr.null ∧
    (initialise 1 0).current_dimension_array_data = node_pointer.null 1 ∧
    (initialise 1 0).this_level_array_head = Ptr.null ∧
    (initialise 1 0).this_level_array_tail = Ptr.null :=
  ⟨rfl, sample_owner_owns,
    move_transfers_ownership 1 sample_heap sample_owner (initialise 1 0) (initialise 1 5)
      [2, 3] [] 0 rfl sample_owner_owns (Or.inl rfl)⟩

/-- C17 at the failing input: move-constructing from the row `a[0]` of the sample `2 x 3`
owner (a view of three live leaves). The new object takes the members of the view, so its
`entire_array_data` is null and its slice is the slice of the row inside the buffer of
`a`; the row is reset, so it reports `size() == 0` with null slice pointers, while the
sibling row still has `size() == 3`. -/
theorem move_from_view_steals_slice :
    sample_owner.child 0 = some (sample_row 0 3) ∧ (sample_row 0 3).size = 3 ∧
    (sample_row 0 3).entire_array_data = Ptr.null ∧
    (sample_row 0 3).this_level_array_head ≠ Ptr.null ∧
    (dynarray.mk_move 0 (initialise 0 0) (sample_row 0 3)).1.entire_array_data = Ptr.null ∧
    (dynarray.mk_move 0 (initialise 0 0) (sample_row 0 3)).1.this_level_array_head.block =
      sample_owner.entire_array_data.block ∧
    (dynarray.mk_move 0 (initialise 0 0) (sample_row 0 3)).2.size = 0 ∧
    (dynarray.mk_move 0 (initialise 0 0) (sample_row 0 3)).2.this_level_array_head = Ptr.null ∧
    (dynarray.mk_move 0 (initialise 0 0) (sample_row 0 3)).2.this_level_array_tail = Ptr.null ∧
    ((sample_owner.set_child 0
      (dynarray.mk_move 0 (initialise 0 0) (sample_row 0 3)).2).child 0).map dynarray.size
        = some 0 ∧
    ((sample_owner.set_child 0
      (dynarray.mk_move 0 (initialise 0 0) (sample_row 0 3)).2).child 1).map dynarray.size
        = some 3 := by
  refine ⟨rfl, rfl, rfl, by decide, rfl, rfl, rfl, rfl, rfl, rfl, rfl⟩

/-- C20 at the failing input: the extents `(2 ^ 32, 2 ^ 32)` for a two-level array. Each
extent and the block size `2 ^ 32` pass `verify_size`; their product exceeds
`PTRDIFF_MAX` but `each_block_size * count` wraps to `0`, which passes `verify_size` and
takes the branch for an empty array: the constructor completes without any exception.
The extents `(2 ^ 32, 2 ^ 31)`, whose product `2 ^ 63` does not wrap, are rejected. -/
theorem overflow_check_defeated_by_wrap :
    PTRDIFF_MAX < 2 ^ 32 * 2 ^ 32 ∧
    verify_size (2 ^ 32) = false ∧
    size_mul (2 ^ 32) (2 ^ 32) = 0 ∧
    (dynarray.mk_counts 1 (Heap.empty : Heap Int) (2 ^ 32) [⟨2 ^ 32, 0⟩]).thrown = none ∧
    (dynarray.mk_counts 1 (Heap.empty : Heap Int) (2 ^ 32) [⟨2 ^ 32, 0⟩]).is_ok = true ∧
    (dynarray.mk_counts 1 (Heap.empty : Heap Int) (2 ^ 32) [⟨2 ^ 31, 0⟩]).thrown =
      some Exception.length_error := by
  refine ⟨by decide, by decide, by decide, ?_, ?_, ?_⟩
  · decide
  · decide
  · decide

end vla

/-! ## Brace lists, assignment, move and element access in the other variants -/

namespace vla
variable {α : Type}

theorem Heap.move_construct_spec (mv : α → α) (h : Heap α) (dst src : Ptr)
    (hs : h.valid src = true) (hd : h.valid dst = true) :
    ∃ h', h.move_construct mv dst src = some h' ∧ h'.len = h.len ∧ h'.next = h.next ∧
      ∀ b i, h'.cell b i =
        if b = src.block ∧ i = src.off then (h.cell src.block src.off).map mv
        else if b = dst.block ∧ i = dst.off then h.cell src.block src.off
        else h.cell b i := by
  obtain ⟨h1, hc1, hl1, hn1, hcell1⟩ := Heap.construct_spec h dst (h.cell src.block src.off) hd
  have hs1 : h1.valid src = true := by
    simp only [Heap.valid, hl1] at hs ⊢; exact hs
  obtain ⟨h2, hc2, hl2, hn2, hcell2⟩ :=
    Heap.assign_spec h1 src ((h.cell src.block src.off).map mv) hs1
  refine ⟨h2, ?_, hl2.trans hl1, hn2.trans hn1, fun b i => ?_⟩
  · simp only [Heap.move_construct, Heap.load, hs, if_true, hc1, hc2]
  · rw [hcell2, hcell1]

theorem move_n_spec (mv : α → α) (dst src : Ptr) (n : Nat) (h : Heap α) (slen dlen : Nat)
    (hs : h.len src.block = some slen) (hs0 : 0 ≤ src.off) (hs1 : src.off + n ≤ slen)
    (hd : h.len dst.block = some dlen) (hd0 : 0 ≤ dst.off) (hd1 : dst.off + n ≤ dlen)
    (hne : dst.block ≠ src.block) :
    ∃ h', move_n mv dst src n h = .ok h' ∧ h'.len = h.len ∧ h'.next = h.next ∧
      ∀ b i, h'.cell b i =
        if b = dst.block ∧ dst.off ≤ i ∧ i < dst.off + n
        then h.cell src.block (src.off + (i - dst.off))
        else if b = src.block ∧ src.off ≤ i ∧ i < src.off + n then (h.cell b i).map mv
        else h.cell b i := by
  unfold move_n
  apply for_loop_inv _
    (fun k (t : Heap α) => t.len = h.len ∧ t.next = h.next ∧
      ∀ b i, t.cell b i =
        if b = dst.block ∧ dst.off ≤ i ∧ i < dst.off + k
        then h.cell src.block (src.off + (i - dst.off))
        else if b = src.block ∧ src.off ≤ i ∧ i < src.off + k then (h.cell b i).map mv
        else h.cell b i)
  · refine ⟨rfl, rfl, fun b i => ?_⟩
    rw [if_neg (by omega), if_neg (by omega)]
  · intro k t hk ⟨hl, hn, hc⟩
    have hvs : t.valid (src.add k) = true := by
      rw [Heap.valid_iff t _ slen (by rw [hl]; exact hs)]
      simp only [Ptr.add_off]; omega
    have hvd : t.valid (dst.add k) = true := by
      rw [Heap.valid_iff t _ dlen (by rw [hl]; exact hd)]
      simp only [Ptr.add_off]; omega
    obtain ⟨t', ht', hl', hn', hc'⟩ := Heap.move_construct_spec mv t _ _ hvs hvd
    refine ⟨t', by simp only [ht'], hl'.trans hl, hn'.trans hn, ?_⟩
    intro b i
    have hsrc : ¬ (src.block = dst.block ∧ dst.off ≤ src.off + (k : Int) ∧
        src.off + (k : Int) < dst.off + (k : Int)) := fun hh => hne hh.1.symm
    have hsrc2 : ¬ (src.block = src.block ∧ src.off ≤ src.off + (k : Int) ∧
        src.off + (k : Int) < src.off + (k : Int)) := by omega
    have e1 : t.cell src.block (src.off + (k : Int)) = h.cell src.block (src.off + (k : Int)) := by
      rw [hc, if_neg hsrc, if_neg hsrc2]
    rw [hc']
    simp only [Ptr.add_block, Ptr.add_off, e1]
    rw [hc b i]
    by_cases h1 : b = src.block ∧ i = src.off + (k : Int)
    · obtain ⟨hb, hi⟩ := h1
      subst hb; subst hi
      rw [if_pos ⟨rfl, rfl⟩, if_neg (fun hh => hne hh.1.symm), if_pos ⟨rfl, by omega, by omega⟩]
    · rw [if_neg h1]
      by_cases h2 : b = dst.block ∧ i = dst.off + (k : Int)
      · obtain ⟨hb, hi⟩ := h2
        subst hb; subst hi
        rw [if_pos ⟨rfl, rfl⟩, if_pos ⟨rfl, by omega, by omega⟩]
        congr 1; ring
      · rw [if_neg h2]
        have c1 : (b = dst.block ∧ dst.off ≤ i ∧ i < dst.off + ((k + 1 : Nat) : Int)) ↔
            (b = dst.block ∧ dst.off ≤ i ∧ i < dst.off + (k : Int)) := by
          constructor
          · intro hh
            refine ⟨hh.1, hh.2.1, ?_⟩
            have : i ≠ dst.off + (k : Int) := fun hi => h2 ⟨hh.1, hi⟩
            omega
          · intro hh; exact ⟨hh.1, hh.2.1, by omega⟩
        have c2 : (b = src.block ∧ src.off ≤ i ∧ i < src.off + ((k + 1 : Nat) : Int)) ↔
            (b = src.block ∧ src.off ≤ i ∧ i < src.off + (k : Int)) := by
          constructor
          · intro hh
            refine ⟨hh.1, hh.2.1, ?_⟩
            have : i ≠ src.off + (k : Int) := fun hi => h1 ⟨hh.1, hi⟩
            omega
          · intro hh; exact ⟨hh.1, hh.2.1, by omega⟩
        simp only [c1, c2]

end vla

namespace vla_nest
open vla
variable {α : Type}

/-- C16 at the counterexample: move-constructing from the sample array of three
elements. The destination has `size() == 3`, and the source still has `size() == 3`,
not `0`. -/
theorem lite_move_source_not_emptied :
    ∃ h' D S', dynarray.mk_move (fun v : Int => v) 0 Ptr.null sample_heap sample_lite =
        .ok (h', D, S') ∧
      D.size = 3 ∧ S'.size = 3 ∧ S'.size ≠ 0 ∧ S' = sample_lite ∧
      h'.load (dynarray.index (L := 0) D 2) = some (some 3) :=
  ⟨_, _, _, rfl, rfl, rfl, by decide, rfl, by decide⟩

/-- C16 (amended). After a new array `D` is move-constructed from an array `S` of
`n ≥ 1` leaves stored in a live block, `D` has `size() == n`, its elements are in a
fresh block and `D[i]` holds what `S[i]` held, for every `i < n`; the source object is
not written: it still has `size() == n` and the same data pointer, and `S[i]` holds the
moved-from value left by the move constructor of the leaf type. -/
theorem lite_move_construction (mv : α → α) (h : Heap α) (S : dynarray 0) (n b len : Nat)
    (off : Int) (uninit_size : Nat) (uninit_data : Ptr)
    (hn : 1 ≤ n) (hsz : S.size = n) (hdata : S.leaf_data = ⟨b, off⟩)
    (hlen : h.len b = some len) (h0 : 0 ≤ off) (h1 : off + n ≤ len) (hb : b ≤ h.next) :
    ∃ h' D, dynarray.mk_move mv uninit_size uninit_data h S = .ok (h', D, S) ∧
      D.size = n ∧ S.size = n ∧ D.leaf_data = ⟨h.next + 1, 0⟩ ∧
      D.leaf_data.block ≠ S.leaf_data.block ∧ h'.len (h.next + 1) = some n ∧
      ∀ i, i < n →
        h.valid (dynarray.index (L := 0) S i) = true ∧
        h'.valid (dynarray.index (L := 0) D i) = true ∧
        h'.load (dynarray.index (L := 0) D i) = h.load (dynarray.index (L := 0) S i) ∧
        h'.load (dynarray.index (L := 0) S i) =
          (h.load (dynarray.index (L := 0) S i)).map (Option.map mv) := by
  have hsz' : S.current_dimension_array_size = n := hsz
  have hne : h.next + 1 ≠ b := by omega
  obtain ⟨h2, hm, hl2, hn2, hc2⟩ := move_n_spec mv (⟨h.next + 1, 0⟩ : Ptr) ⟨b, off⟩ n
    (h.allocate n).2 len n
    (by simp only [Heap.allocate]; rw [if_neg (Ne.symm hne)]; exact hlen) h0 h1
    (by simp [Heap.allocate]) (le_refl _) (by simp) hne
  have hm0 : move_n mv (h.allocate n).1 ⟨b, off⟩ n (h.allocate n).2 = Result.ok h2 := hm
  have hn0 : ¬ (n = 0) := by omega
  have hlen2 : ∀ c, h2.len c = if c = h.next + 1 then some n else h.len c := by
    intro c; rw [hl2]; rfl
  refine ⟨h2, { current_dimension_array_size := n
                current_dimension_array_data := (⟨h.next + 1, 0⟩ : Ptr)
                array_allocator := S.array_allocator }, by
    simp only [dynarray.mk_move, move_array, hsz', hn0, if_false, hdata, hm0]
    rfl, rfl, hsz, rfl, ?_, by rw [hlen2, if_pos rfl], fun i hi => ?_⟩
  · rw [hdata]; exact hne
  have hvS : h.valid ((⟨b, off⟩ : Ptr).add i) = true := by
    rw [Heap.valid_iff h _ len (by rw [Ptr.add_block]; exact hlen)]
    simp only [Ptr.add_off]; omega
  have hvS2 : h2.valid ((⟨b, off⟩ : Ptr).add i) = true := by
    rw [Heap.valid_iff h2 _ len (by rw [Ptr.add_block, hlen2, if_neg (Ne.symm hne)]; exact hlen)]
    simp only [Ptr.add_off]; omega
  have hvD : h2.valid ((⟨h.next + 1, 0⟩ : Ptr).add i) = true := by
    rw [Heap.valid_iff h2 _ n (by rw [Ptr.add_block, hlen2, if_pos rfl])]
    simp only [Ptr.add_off]; omega
  have hcellS : (h.allocate n).2.cell b (off + i) = h.cell b (off + i) := by
    simp only [Heap.allocate, if_neg (Ne.symm hne)]
  simp only [dynarray.index, hdata]
  simp only [dynarray.leaf_data]
  refine ⟨hvS, hvD, ?_, ?_⟩
  · simp only [Heap.load, hvS, hvD, if_true, hc2, Ptr.add_block, Ptr.add_off]
    rw [if_pos ⟨trivial, by omega, by omega⟩]
    simp only [zero_add, sub_zero, hcellS]
  · simp only [Heap.load, hvS, hvS2, if_true, hc2, Ptr.add_block, Ptr.add_off,
      Option.map_some']
    rw [if_neg (fun hh => hne hh.1.symm), if_pos ⟨trivial, by omega, by omega⟩, hcellS]

/-- Witness of `lite_move_construction`: the sample array of three leaves. -/
theorem lite_move_construction_witness :
    (1 ≤ 3) ∧ sample_lite.size = 3 ∧ sample_lite.leaf_data = ⟨1, 0⟩ ∧
    sample_heap.len 1 = some 6 ∧
    ∃ h' D, dynarray.mk_move (fun v : Int => v) 0 Ptr.null sample_heap sample_lite =
        .ok (h', D, sample_lite) ∧
      D.size = 3 ∧ sample_lite.size = 3 ∧ D.leaf_data = ⟨sample_heap.next + 1, 0⟩ ∧
      D.leaf_data.block ≠ sample_lite.leaf_data.block ∧
      h'.len (sample_heap.next + 1) = some 3 ∧
      ∀ i, i < 3 →
        sample_heap.valid (dynarray.index (L := 0) sample_lite i) = true ∧
        h'.valid (dynarray.index (L := 0) D i) = true ∧
        h'.load (dynarray.index (L := 0) D i) =
          sample_heap.load (dynarray.index (L := 0) sample_lite i) ∧
        h'.load (dynarray.index (L := 0) sample_lite i) =
          (sample_heap.load (dynarray.index (L := 0) sample_lite i)).map
            (Option.map (fun v : Int => v)) :=
  ⟨by decide, rfl, rfl, rfl,
    lite_move_construction (fun v : Int => v) sample_heap sample_lite 3 1 6 0 0 Ptr.null
      (by decide) rfl rfl rfl (by decide) (by decide) (by decide)⟩

end vla_nest

namespace vla

/-- C19. In each of the three variants and at every nesting level, `at(pos)` throws
`std::out_of_range` if and only if `pos >= size()`, and otherwise returns what
`operator[](pos)` designates; so `at(size())` always throws, and on a non-empty array
`at(size() - 1)` returns the last element `x[size() - 1]`. -/
theorem at_checks_bounds :
    (∀ (L : Nat) (x : dynarray L) (pos : Nat),
      (x.at pos = .error .out_of_range ↔ pos ≥ x.size) ∧
      (x.at pos = if pos ≥ x.size then .error .out_of_range else .ok (x.index pos)) ∧
      x.at x.size = .error .out_of_range ∧
      (x.at (x.size - 1) =
        if x.size = 0 then .error .out_of_range else .ok (x.index (x.size - 1)))) ∧
    (∀ (k : Nat) (x : vla_neat.dynarray k) (pos : Nat),
      (x.at pos = .error .out_of_range ↔ pos ≥ x.size) ∧
      (x.at pos = if pos ≥ x.size then .error .out_of_range else .ok (x.index pos)) ∧
      x.at x.size = .error .out_of_range ∧
      (x.at (x.size - 1) =
        if x.size = 0 then .error .out_of_range else .ok (x.index (x.size - 1)))) ∧
    (∀ (L : Nat) (x : vla_nest.dynarray L) (pos : Nat),
      (x.at pos = .error .out_of_range ↔ pos ≥ x.size) ∧
      (x.at pos = if pos ≥ x.size then .error .out_of_range else .ok (x.index pos)) ∧
      x.at x.size = .error .out_of_range ∧
      (x.at (x.size - 1) =
        if x.size = 0 then .error .out_of_range else .ok (x.index (x.size - 1)))) := by
  refine ⟨fun L x pos => ⟨?_, rfl, ?_, ?_⟩, fun k x pos => ⟨?_, rfl, ?_, ?_⟩,
    fun L x pos => ⟨?_, rfl, ?_, ?_⟩⟩
  · unfold dynarray.at; split_ifs with hc <;> simp [hc]
  · simp [dynarray.at]
  · unfold dynarray.at
    by_cases h0 : x.size = 0
    · simp [h0]
    · have : ¬ (x.size - 1 ≥ x.size) := by omega
      simp [h0, this]
  · unfold vla_neat.dynarray.at; split_ifs with hc <;> simp [hc]
  · simp [vla_neat.dynarray.at]
  · unfold vla_neat.dynarray.at
    by_cases h0 : x.size = 0
    · simp [h0]
    · have : ¬ (x.size - 1 ≥ x.size) := by omega
      simp [h0, this]
  · unfold vla_nest.dynarray.at; split_ifs with hc <;> simp [hc]
  · simp [vla_nest.dynarray.at]
  · unfold vla_nest.dynarray.at
    by_cases h0 : x.size = 0
    · simp [h0]
    · have : ¬ (x.size - 1 ≥ x.size) := by omega
      simp [h0, this]

end vla

namespace vla_neat
open vla

/-- C13 at the failing inputs. `S` is the one-dimensional array of three leaves `7`.
Copy-assigning `S` into a default-constructed object leaves that object empty
(`size() == 0`) and the heap as it was; copy-assigning `S` into an owner of two leaves
leaves it with `size() == 2` and its own buffer: only the two leaves are overwritten. -/
theorem neat_copy_assignment_never_rebuilds :
    ∃ h S, dynarray.mk_counts 0 (Heap.empty : Heap Int) 3 [⟨0, 7⟩] = .ok (h, S) ∧
      dynarray.size (k := 0) S = 3 ∧
      copy_assign 0 (initialise 0 0) h S = .ok (h, initialise 0 0) ∧
      dynarray.size (k := 0) (initialise 0 0) = 0 ∧
      ∃ h1 T, dynarray.mk_counts 0 h 2 [⟨0, 1⟩] = .ok (h1, T) ∧
        dynarray.size (k := 0) T = 2 ∧
        ∃ h2, copy_assign 0 T h1 S = .ok (h2, T) ∧
          h2.load (dynarray.elem T 0) = some (some 7) ∧
          h2.load (dynarray.elem T 1) = some (some 7) ∧
          h2.load (dynarray.elem T 2) = none :=
  ⟨_, _, rfl, by decide, rfl, by decide, _, _, rfl, by decide, _, rfl, by decide, by decide,
    by decide⟩

end vla_neat

namespace vla_neat
open vla
variable {α : Type}

theorem neat_layout_block_size (k : Nat) (own : Bool) (x : dynarray k) (base : Ptr)
    (exts : List Nat) (h : layout k own x base exts) (hmax : exts.prod ≤ PTRDIFF_MAX) :
    x.get_block_size = exts.prod := by
  obtain ⟨hh, ht, _⟩ := neat_layout_head k own x base exts h
  exact block_size_of_bounds x base _ hh ht hmax

theorem neat_copy_loop_spec_of (k : Nat)
    (ih : ∀ (this other : dynarray k) (start base : Ptr) (exts : List Nat),
      layout k false other base exts → (∀ n ∈ exts, 1 ≤ n) → exts.prod ≤ PTRDIFF_MAX →
      ∃ x, copy_array_at k this start other = .ok x ∧ layout k false x start exts)
    (own : Bool) (other : dynarray (k + 1)) (start base : Ptr)
    (exts : List Nat) (hl : layout (k + 1) own other base exts)
    (hpos : ∀ n ∈ exts, 1 ≤ n) (hmax : exts.prod ≤ PTRDIFF_MAX) :
    ∃ cs rest p, for_loop (copy_node_step (copy_array_at k) other)
        (FieldsN.current_dimension_array_size other) ([], start) = .ok (cs, p) ∧
      exts = FieldsN.current_dimension_array_size other :: rest ∧
      cs.length = FieldsN.current_dimension_array_size other ∧
      ∀ j c, cs.get? j = some c →
        layout k false c (start.add ((j * rest.prod : Nat) : Int)) rest := by
  obtain ⟨rest, he, _, _, _, hex, hch⟩ := neat_layout_child hl
  have he' : exts = FieldsN.current_dimension_array_size other :: rest := he
  have hc1 : 1 ≤ FieldsN.current_dimension_array_size other :=
    hpos _ (by rw [he']; exact List.mem_cons_self _ _)
  have hpos1 : ∀ n ∈ rest, 1 ≤ n :=
    fun n hn => hpos n (by rw [he']; exact List.mem_cons_of_mem _ hn)
  have hmax1 : FieldsN.current_dimension_array_size other * rest.prod ≤ PTRDIFF_MAX := by
    rw [he', List.prod_cons] at hmax; exact hmax
  have hBmax : rest.prod ≤ PTRDIFF_MAX := le_trans (Nat.le_mul_of_pos_left _ hc1) hmax1
  obtain ⟨⟨cs, p⟩, hloop, hlencs, _, hlay⟩ := for_loop_inv
    (copy_node_step (copy_array_at k) other)
    (fun i (s : List (dynarray k) × Ptr) => s.1.length = i ∧
      s.2 = start.add ((i * rest.prod : Nat) : Int) ∧
      ∀ j c, s.1.get? j = some c →
        layout k false c (start.add ((j * rest.prod : Nat) : Int)) rest)
    (FieldsN.current_dimension_array_size other) ([], start)
    ⟨rfl, by simp [Ptr.add], by simp⟩
    (by
      rintro i ⟨cs, p⟩ hlt ⟨hlencs, hp, hlay⟩
      simp only at hlencs hp hlay
      subst hp
      obtain ⟨o, ho⟩ := hex i hlt
      obtain ⟨_, hlo⟩ := hch i o ho
      have hbs : o.get_block_size = rest.prod := neat_layout_block_size k false o _ rest hlo hBmax
      obtain ⟨x, hx, hxl⟩ := ih (initialise k 0) o
        (start.add ((i * rest.prod : Nat) : Int)) _ rest hlo hpos1 hBmax
      refine ⟨(cs ++ [x], (start.add ((i * rest.prod : Nat) : Int)).add rest.prod), ?_,
        by simp [hlencs], ?_, ?_⟩
      · simp only [copy_node_step, ho, hbs, hx]
      · simp only [Ptr.add, Ptr.mk.injEq, true_and]
        push_cast; ring
      · intro j c hj
        rcases get?_snoc hj with ⟨_, hj'⟩ | ⟨hj', hcx⟩
        · exact hlay j c hj'
        · rw [hj', hcx, hlencs]; exact hxl)
  exact ⟨cs, rest, p, hloop, he', hlencs, hlay⟩

theorem neat_copy_array_at_spec (k : Nat) :
    ∀ (this other : dynarray k) (start base : Ptr) (exts : List Nat),
      layout k false other base exts → (∀ n ∈ exts, 1 ≤ n) → exts.prod ≤ PTRDIFF_MAX →
      ∃ x, copy_array_at k this start other = .ok x ∧ layout k false x start exts := by
  induction k with
  | zero =>
    intro this other start base exts hl _ hmax
    have hbs := neat_layout_block_size 0 false other base exts hl hmax
    obtain ⟨he, _⟩ := hl
    refine ⟨_, rfl, he, rfl, rfl, ?_⟩
    show (start.add (dynarray.get_block_size (k := 0) other)).add (-1) = _
    rw [hbs]
  | succ k ih =>
    intro this other start base exts hl hpos hmax
    obtain ⟨cs, rest, p, hloop, he, hlencs, hlay⟩ :=
      neat_copy_loop_spec_of k ih false other start base exts hl hpos hmax
    have hbs := neat_layout_block_size (k + 1) false other base exts hl hmax
    refine ⟨_, by simp only [copy_array_at, hloop]; rfl, ?_⟩
    exact ⟨rest, cs, he, rfl, rfl, hlencs, rfl, by
      show (start.add (dynarray.get_block_size (k := k + 1) other)).add (-1) = _
      rw [hbs], hlay⟩

end vla_neat

namespace vla_neat
open vla
variable {α : Type}

theorem neat_view_size_ne_zero (k : Nat) (x : dynarray k) (base : Ptr) (exts : List Nat)
    (hl : layout k false x base exts) (hb : base.block ≠ 0)
    (hpos : ∀ n ∈ exts, 1 ≤ n) (hmax : exts.prod ≤ PTRDIFF_MAX) : x.size ≠ 0 := by
  have hs := neat_layout_has_shape k false x base exts hl hb hmax hpos
  cases k with
  | zero =>
    have hs' : exts = [dynarray.size (k := 0) x] := hs
    have := hpos (dynarray.size (k := 0) x) (by rw [hs']; exact List.mem_singleton_self _)
    omega
  | succ k =>
    obtain ⟨rest, he, _⟩ := hs
    have := hpos (dynarray.size (k := k + 1) x) (by rw [he]; exact List.mem_cons_self _ _)
    omega

/-- The move of a rectangular view into a new object: the result, its layout in a fresh
block, and the cells afterwards. -/
theorem neat_move_array_view_spec (mv : α → α) (k : Nat) (this V : dynarray k) (h : Heap α)
    (base : Ptr) (exts : List Nat) (len : Nat)
    (hl : layout k false V base exts) (hb0 : base.block ≠ 0)
    (hpos : ∀ n ∈ exts, 1 ≤ n) (hmax : exts.prod ≤ PTRDIFF_MAX)
    (hlen : h.len base.block = some len) (h0 : 0 ≤ base.off)
    (h1 : base.off + (exts.prod : Nat) ≤ len) (hb : base.block ≤ h.next) :
    ∃ h' D, move_array mv k this h V = .ok (h', D, V) ∧
      layout k true D ⟨h.next + 1, 0⟩ exts ∧ h'.next = h.next + 1 ∧
      (∀ b, h'.len b = if b = h.next + 1 then some exts.prod else h.len b) ∧
      ∀ b i, h'.cell b i =
        if b = h.next + 1 then
          (if 0 ≤ i ∧ i < (exts.prod : Nat) then h.cell base.block (base.off + i) else none)
        else if b = base.block ∧ base.off ≤ i ∧ i < base.off + (exts.prod : Nat)
          then (h.cell b i).map mv
        else h.cell b i := by
  have hbs := neat_layout_block_size k false V base exts hl hmax
  have hsz := neat_view_size_ne_zero k V base exts hl hb0 hpos hmax
  have hN1 : 1 ≤ exts.prod := prod_pos_of_pos _ hpos
  obtain ⟨hhd, _, hent⟩ := neat_layout_head k false V base exts hl
  simp only [Bool.false_eq_true, if_false] at hent
  have hne : h.next + 1 ≠ base.block := by omega
  obtain ⟨h2, hc, hl2, hn2, hcell2⟩ := move_n_spec mv (⟨h.next + 1, 0⟩ : Ptr) base exts.prod
    (h.allocate exts.prod).2 len exts.prod
    (by simp only [Heap.allocate]; rw [if_neg (Ne.symm hne)]; exact hlen) h0 h1
    (by simp [Heap.allocate]) (le_refl _) (by simp) hne
  have hc0 : move_n mv (h.allocate exts.prod).1 base exts.prod (h.allocate exts.prod).2
      = Result.ok h2 := hc
  have hloopfix : (h.allocate exts.prod).1 = (⟨h.next + 1, 0⟩ : Ptr) := rfl
  have hcellf : ∀ b i, h2.cell b i =
      if b = h.next + 1 then
        (if 0 ≤ i ∧ i < (exts.prod : Nat) then h.cell base.block (base.off + i) else none)
      else if b = base.block ∧ base.off ≤ i ∧ i < base.off + (exts.prod : Nat)
        then (h.cell b i).map mv
      else h.cell b i := by
    intro b i
    rw [hcell2]
    simp only [Heap.allocate, if_neg (Ne.symm hne)]
    by_cases hbb : b = h.next + 1
    · subst hbb
      simp only [if_true, true_and, zero_add, sub_zero]
      split_ifs <;> rfl
    · simp only [hbb, false_and, if_false]
  have hlenf : ∀ b, h2.len b = if b = h.next + 1 then some exts.prod else h.len b := by
    intro b; rw [hl2]; rfl
  have hg0 : ¬ (exts.prod = 0) := by omega
  cases k with
  | zero =>
    have hent' : Fields1.entire_array_data V = Ptr.null := hent
    have hhd' : Fields1.this_level_array_head V = base := hhd
    refine ⟨h2, _, by
      simp only [move_array, hsz, if_false, hent', if_true, hbs, hg0, hhd', hc0]
      rfl, ?_, hn2, hlenf, hcellf⟩
    obtain ⟨he0, _⟩ := hl
    exact ⟨he0, rfl, rfl, rfl⟩
  | succ k =>
    have hent' : FieldsN.entire_array_data V = Ptr.null := hent
    have hhd' : FieldsN.this_level_array_head V = base := hhd
    have hsz' : ¬ (FieldsN.current_dimension_array_size V = 0) := hsz
    obtain ⟨cs, rest', p, hloop, he', hlencs, hlay⟩ :=
      neat_copy_loop_spec_of k (neat_copy_array_at_spec k)
        false V ⟨h.next + 1, 0⟩ base exts hl hpos hmax
    have hloop' : for_loop (copy_node_step (copy_array_at k) V)
        (FieldsN.current_dimension_array_size V) ([], (h.allocate exts.prod).1)
        = .ok (cs, p) := hloop
    refine ⟨h2, _, by
      simp only [move_array, hsz, if_false, hent', if_true, hbs, hg0, hsz', or_self, hhd',
        hc0, hloop']
      rfl, ?_, hn2, hlenf, hcellf⟩
    exact ⟨rest', cs, he', rfl, rfl, hlencs, rfl, rfl, hlay⟩

end vla_neat

namespace vla_neat
open vla
variable {α : Type}

theorem neat_layout_exts_cons (k : Nat) (own : Bool) (x : dynarray k) (base : Ptr)
    (exts : List Nat) (hl : layout k own x base exts) : ∃ n rest, exts = n :: rest := by
  cases k with
  | zero => obtain ⟨⟨n, he⟩, _⟩ := hl; exact ⟨n, [], he⟩
  | succ k => obtain ⟨rest, he, _⟩ := neat_layout_child hl; exact ⟨_, rest, he⟩

/-- C18. Let `V = P[i]` be a row of a non-empty rectangular top-level owner `P` of
`dynarray<T, k + 2>`. Move-constructing `D` from `V` completes; `D` is a top-level owner
of a fresh live block (its `entire_array_data` is non-null and in another block than the
buffer of `P`), `D` and `V` report the same `size()` at every level, and the leaf of `D`
at every full index holds what the leaf of `V` held there. The object `V` is returned
as it was (same size and slice pointers), its leaves hold the moved-from values, and
every leaf of every other row of `P` holds what it held. -/
theorem move_from_view_builds_owner (mv : α → α) (k : Nat) (h : Heap α)
    (P : dynarray (k + 1)) (n : Nat) (exts : List Nat) (i : Nat) (uninit : dynarray k)
    (hP : owns h (k + 1) P (n :: exts)) (hi : i < n) :
    ∃ V h' D, P.child i = some V ∧ dynarray.mk_move mv k uninit h V = .ok (h', D, V) ∧
      owns h' k D exts ∧ D.entire ≠ Ptr.null ∧ D.entire.block ≠ P.entire.block ∧
      has_shape k V exts ∧ has_shape k D exts ∧
      (∀ idx, in_range exts idx → ∃ p q, leaf_address k V idx = some p ∧
        leaf_address k D idx = some q ∧ h.valid p = true ∧ h'.valid q = true ∧
        h'.load q = h.load p ∧ h'.load p = (h.load p).map (Option.map mv)) ∧
      ∀ j idx, j ≠ i → j < n → in_range exts idx →
        ∃ s p, P.child j = some s ∧ leaf_address k s idx = some p ∧
          h.valid p = true ∧ h'.load p = h.load p := by
  obtain ⟨b, hlP, hlen, hb, hb0, hpos, hmax⟩ := hP
  obtain ⟨rest, he, _, _, hentP, hex, hch⟩ := neat_layout_child hlP
  have hsz : dynarray.size (k := k + 1) P = n := ((List.cons.inj he).1).symm
  have hrest : rest = exts := ((List.cons.inj he).2).symm
  subst hrest
  rw [hsz] at hex
  simp only [if_true] at hentP
  have hpos1 : ∀ m ∈ rest, 1 ≤ m := fun m hm => hpos m (List.mem_cons_of_mem _ hm)
  have hn1 : 1 ≤ n := hpos n (List.mem_cons_self _ _)
  rw [List.prod_cons] at hlen hmax
  have hBmax : rest.prod ≤ PTRDIFF_MAX := le_trans (Nat.le_mul_of_pos_left _ hn1) hmax
  have hmul : ∀ j, j < n → j * rest.prod + rest.prod ≤ n * rest.prod := by
    intro j hj
    have := Nat.mul_le_mul_right rest.prod (Nat.succ_le_of_lt hj)
    rw [Nat.succ_mul] at this; exact this
  obtain ⟨V, hV⟩ := hex i hi
  obtain ⟨_, hlV⟩ := hch i V hV
  have hin := hmul i hi
  obtain ⟨h', D, hmv, hlD, hn', hlen', hcell'⟩ := neat_move_array_view_spec mv k uninit V h
    ((⟨b, 0⟩ : Ptr).add ((i * rest.prod : Nat) : Int)) rest (n * rest.prod) hlV hb0 hpos1 hBmax
    hlen (by simp only [Ptr.add_off]; omega) (by simp only [Ptr.add_off]; omega) hb
  simp only [Ptr.add_block, Ptr.add_off] at hcell'
  have hne : h.next + 1 ≠ b := by omega
  have hentD := (neat_layout_head k true D _ rest hlD).2.2
  simp only [if_true] at hentD
  have hlenb : h'.len b = h.len b := by rw [hlen', if_neg (Ne.symm hne)]
  have hvalb : ∀ p : Ptr, p.block = b → h'.valid p = h.valid p := by
    intro p hp; simp only [Heap.valid, hp, hlenb]
  have hvrow : ∀ j off, j < n → off < rest.prod →
      h.valid (((⟨b, 0⟩ : Ptr).add ((j * rest.prod : Nat) : Int)).add (off : Nat)) = true := by
    intro j off hj hoff
    rw [Heap.valid_iff h _ (n * rest.prod) (by simp only [Ptr.add_block]; exact hlen)]
    have := hmul j hj
    simp only [Ptr.add_off]
    omega
  refine ⟨V, h', D, hV, hmv,
    ⟨h.next + 1, hlD, by rw [hlen', if_pos rfl], by omega, by omega, hpos1, hBmax⟩, ?_, ?_,
    neat_layout_has_shape k _ _ _ _ hlV hb0 hBmax hpos1,
    neat_layout_has_shape k _ _ _ _ hlD (by simp) hBmax hpos1, ?_, ?_⟩
  · rw [hentD]; intro hh; simpa [Ptr.null] using congrArg Ptr.block hh
  · rw [hentD, hentP]; exact hne
  · intro idx hr
    obtain ⟨m, rest', he'⟩ := neat_layout_exts_cons k false V _ rest hlV
    have hlt := in_range_flat_lt rest idx m rest' he' hr
    have hvp := hvrow i (flat_offset rest idx) hi hlt
    have hvq : h'.valid ((⟨h.next + 1, 0⟩ : Ptr).add (flat_offset rest idx : Nat)) = true := by
      rw [Heap.valid_iff h' _ rest.prod (by rw [Ptr.add_block, hlen', if_pos rfl])]
      simp only [Ptr.add_off]
      omega
    have hvp' := (hvalb _ (by simp only [Ptr.add_block])).trans hvp
    refine ⟨_, _, neat_layout_leaf_address k _ _ _ _ _ hlV hr,
      neat_layout_leaf_address k _ _ _ _ _ hlD hr, hvp, hvq, ?_, ?_⟩
    · simp only [Heap.load, hvp, hvq, if_true, hcell', Ptr.add_block, Ptr.add_off]
      rw [if_pos ⟨by omega, by omega⟩]
      simp only [zero_add]
    · simp only [Heap.load, hvp, hvp', if_true, hcell', Ptr.add_block, Ptr.add_off,
        if_neg (Ne.symm hne), Option.map_some']
      rw [if_pos ⟨trivial, by omega, by omega⟩]
  · intro j idx hj hjn hr
    obtain ⟨s, hs⟩ := hex j hjn
    obtain ⟨_, hls⟩ := hch j s hs
    obtain ⟨m, rest', he'⟩ := neat_layout_exts_cons k false s _ rest hls
    have hlt := in_range_flat_lt rest idx m rest' he' hr
    have hvp := hvrow j (flat_offset rest idx) hjn hlt
    refine ⟨s, _, hs, neat_layout_leaf_address k _ _ _ _ _ hls hr, hvp,
      load_congr h h' _ _ (hvalb _ (by simp only [Ptr.add_block])) ?_⟩
    rw [hcell']
    simp only [Ptr.add_block, Ptr.add_off, if_neg (Ne.symm hne)]
    have hji : j < i ∨ i < j := Nat.lt_or_gt_of_ne hj
    have h1 : j < i → j * rest.prod + rest.prod ≤ i * rest.prod := by
      intro hlt'
      have := Nat.mul_le_mul_right rest.prod (Nat.succ_le_of_lt hlt')
      rw [Nat.succ_mul] at this; exact this
    have h2 : i < j → i * rest.prod + rest.prod ≤ j * rest.prod := by
      intro hlt'
      have := Nat.mul_le_mul_right rest.prod (Nat.succ_le_of_lt hlt')
      rw [Nat.succ_mul] at this; exact this
    rw [if_neg]
    rintro ⟨_, h3, h4⟩
    rcases hji with hlt' | hlt'
    · have := h1 hlt'; omega
    · have := h2 hlt'; omega

end vla_neat

namespace vla
variable {α : Type}

theorem construct_list_spec (p : Ptr) (l : List α) (h : Heap α) (len : Nat)
    (hlen : h.len p.block = some len) (h0 : 0 ≤ p.off) (h1 : p.off + l.length ≤ len) :
    ∃ h', construct_list p l h = .ok h' ∧ h'.len = h.len ∧ h'.next = h.next ∧
      (∀ b i, ¬ (b = p.block ∧ p.off ≤ i ∧ i < p.off + l.length) → h'.cell b i = h.cell b i) ∧
      ∀ k, k < l.length → h'.cell p.block (p.off + k) = l.get? k := by
  unfold construct_list
  obtain ⟨t, ht, hl, hn, hfr, hval⟩ := for_loop_inv
    (fun i (h : Heap α) => match h.construct (p.add i) (l.get? i) with
      | some h1 => Result.ok h1
      | none => Result.undefined)
    (fun n (t : Heap α) => t.len = h.len ∧ t.next = h.next ∧
      (∀ b i, ¬ (b = p.block ∧ p.off ≤ i ∧ i < p.off + n) → t.cell b i = h.cell b i) ∧
      ∀ k, k < n → t.cell p.block (p.off + k) = l.get? k)
    l.length h ⟨rfl, rfl, fun _ _ _ => rfl, fun k hk => absurd hk (by omega)⟩
    (by
      intro n t hn ⟨hl, hnx, hfr, hval⟩
      have hv : t.valid (p.add n) = true := by
        rw [Heap.valid_iff t _ len (by rw [hl]; exact hlen)]
        simp only [Ptr.add_off]; omega
      obtain ⟨t', ht', hl', hn', hc'⟩ := Heap.construct_spec t (p.add n) (l.get? n) hv
      refine ⟨t', by simp only [ht'], hl'.trans hl, hn'.trans hnx, ?_, ?_⟩
      · intro b i hbi
        rw [hc']
        simp only [Ptr.add_block, Ptr.add_off]
        rw [if_neg (by intro hh; apply hbi; refine ⟨hh.1, ?_, ?_⟩ <;> omega)]
        exact hfr b i (by intro hh; apply hbi; exact ⟨hh.1, hh.2.1, by omega⟩)
      · intro k hk
        rw [hc']
        simp only [Ptr.add_block, Ptr.add_off]
        by_cases hkn : k = n
        · subst hkn; simp
        · rw [if_neg (by intro hh; apply hkn; have := hh.2; omega)]
          exact hval k (by omega))
  exact ⟨t, ht, hl, hn, hfr, hval⟩

theorem sum_take_succ_length {β : Type} (rows : List (List β)) (j : Nat) (r : List β)
    (hr : rows.get? j = some r) :
    ((rows.take (j + 1)).map List.length).sum =
      ((rows.take j).map List.length).sum + r.length := by
  induction rows generalizing j with
  | nil => simp at hr
  | cons x xs ih =>
    cases j with
    | zero => simp at hr; subst hr; simp
    | succ j =>
      simp only [List.get?_cons_succ] at hr
      simp only [List.take_succ_cons, List.map_cons, List.sum_cons]
      rw [ih j hr]; omega

theorem sum_take_mono {β : Type} (rows : List (List β)) (i j : Nat) (hij : i ≤ j) :
    ((rows.take i).map List.length).sum ≤ ((rows.take j).map List.length).sum := by
  induction rows generalizing i j with
  | nil => simp
  | cons x xs ih =>
    cases i with
    | zero => simp
    | succ i =>
      cases j with
      | zero => omega
      | succ j =>
        simp only [List.take_succ_cons, List.map_cons, List.sum_cons]
        have := ih i j (by omega)
        omega

theorem sum_take_le_total {β : Type} (rows : List (List β)) (i : Nat) :
    ((rows.take i).map List.length).sum ≤ (rows.map List.length).sum := by
  have := sum_take_mono rows i (max i rows.length) (le_max_left _ _)
  rwa [List.take_of_length_le (le_max_right _ _)] at this

end vla

namespace vla_neat
open vla
variable {α : Type}

theorem neat_expand_list_rows (rows : List (List α))
    (hmax : (rows.map List.length).sum ≤ PTRDIFF_MAX) :
    expand_list 1 (rows : init_list α 1) = (rows.map List.length).sum := by
  have key : ∀ (l : List (List α)) (acc : Nat), acc + (l.map List.length).sum ≤ PTRDIFF_MAX →
      List.foldl (fun count (sub_list : init_list α 0) =>
        (count + expand_list 0 sub_list) % SIZE_MOD) acc l = acc + (l.map List.length).sum := by
    intro l
    induction l with
    | nil => intro acc _; simp
    | cons x xs ih =>
      intro acc hacc
      simp only [List.map_cons, List.sum_cons] at hacc
      simp only [List.foldl_cons, List.map_cons, List.sum_cons]
      have hx : (acc + expand_list 0 (show init_list α 0 from x)) % SIZE_MOD = acc + x.length := by
        show (acc + x.length) % SIZE_MOD = acc + x.length
        apply Nat.mod_eq_of_lt
        unfold PTRDIFF_MAX at hacc; unfold SIZE_MOD; omega
      rw [hx, ih (acc + x.length) (by omega)]
      omega
  have := key rows 0 (by omega)
  simpa [expand_list] using this

end vla_neat

namespace vla_neat
open vla
variable {α : Type}

theorem neat_jagged_loop_spec (rows : List (List α)) (ca : Allocator) (h1 : Heap α) (b : Nat)
    (hlen : h1.len b = some (rows.map List.length).sum)
    (hmax : (rows.map List.length).sum ≤ PTRDIFF_MAX) :
    ∃ t cs p, for_loop (list_node_step (allocate_list_at 0) ca (rows : List (init_list α 0)))
        rows.length (h1, [], (⟨b, 0⟩ : Ptr)) = .ok (t, cs, p) ∧
      t.len = h1.len ∧ t.next = h1.next ∧ cs.length = rows.length ∧
      (∀ j c, cs.get? j = some c → ∃ r, rows.get? j = some r ∧
        Fields1.this_level_array_head c =
          ⟨b, (((rows.take j).map List.length).sum : Nat)⟩ ∧
        Fields1.this_level_array_tail c =
          ((⟨b, (((rows.take j).map List.length).sum : Nat)⟩ : Ptr).add r.length).add (-1) ∧
        Fields1.entire_array_data c = Ptr.null) ∧
      (∀ j r k, rows.get? j = some r → k < r.length →
        t.cell b ((((rows.take j).map List.length).sum : Nat) + (k : Int)) = r.get? k) ∧
      ∀ c i, c ≠ b → t.cell c i = h1.cell c i := by
  obtain ⟨⟨t, cs, p⟩, hloop, hl, hn, hlencs, _, hrows, hcells, hfr⟩ := for_loop_inv
    (list_node_step (allocate_list_at 0) ca (rows : List (init_list α 0)))
    (fun i (s : Heap α × List (dynarray 0) × Ptr) =>
      s.1.len = h1.len ∧ s.1.next = h1.next ∧ s.2.1.length = i ∧
      s.2.2 = ⟨b, (((rows.take i).map List.length).sum : Nat)⟩ ∧
      (∀ j c, s.2.1.get? j = some c → ∃ r, rows.get? j = some r ∧
        Fields1.this_level_array_head c =
          ⟨b, (((rows.take j).map List.length).sum : Nat)⟩ ∧
        Fields1.this_level_array_tail c =
          ((⟨b, (((rows.take j).map List.length).sum : Nat)⟩ : Ptr).add r.length).add (-1) ∧
        Fields1.entire_array_data c = Ptr.null) ∧
      (∀ j r k, j < i → rows.get? j = some r → k < r.length →
        s.1.cell b ((((rows.take j).map List.length).sum : Nat) + (k : Int)) = r.get? k) ∧
      ∀ c i, c ≠ b → s.1.cell c i = h1.cell c i)
    rows.length (h1, [], (⟨b, 0⟩ : Ptr))
    ⟨rfl, rfl, rfl, by simp, by simp, fun j r k hj => absurd hj (by omega), fun _ _ _ => rfl⟩
    (by
      rintro i ⟨t, cs, p⟩ hlt ⟨hl, hn, hlencs, hp, hrows, hcells, hfr⟩
      simp only at hl hn hlencs hp hrows hcells hfr
      subst hp
      have hr : rows.get? i = some (rows.get ⟨i, hlt⟩) := by
        rw [List.get?_eq_getElem?]; exact List.getElem?_eq_getElem hlt
      generalize rows.get ⟨i, hlt⟩ = r at hr
      have hS := sum_take_succ_length rows i r hr
      have hle := sum_take_le_total rows (i + 1)
      have hvs : verify_size (List.length (α := α) r) = false := by
        simp only [verify_size, decide_eq_false_iff_not]; omega
      obtain ⟨t', hcl, hl', hn', hfr', hval'⟩ := construct_list_spec
        (⟨b, (((rows.take i).map List.length).sum : Nat)⟩ : Ptr) r t
        (rows.map List.length).sum (by rw [hl]; exact hlen)
        (Int.natCast_nonneg _) (by simp only []; omega)
      obtain ⟨c0, hc0⟩ : ∃ c0 : dynarray 0, c0 =
          ({ entire_array_data := Ptr.null
             this_level_array_head := ⟨b, (((rows.take i).map List.length).sum : Nat)⟩
             this_level_array_tail :=
               ((⟨b, (((rows.take i).map List.length).sum : Nat)⟩ : Ptr).add r.length).add (-1)
             contiguous_allocator := 0 } : Fields1) := ⟨_, rfl⟩
      refine ⟨(t', cs ++ [c0],
          ⟨b, (((rows.take (i + 1)).map List.length).sum : Nat)⟩), ?_,
        hl'.trans hl, hn'.trans hn, by simp [hlencs], rfl, ?_, ?_, ?_⟩
      · have hr' : List.get? (rows : List (init_list α 0)) i = some r := hr
        simp only [list_node_step, hr', allocate_list_at, hvs, Bool.false_eq_true, if_false,
          hcl, expand_list]
        simp only [Ptr.add, hS, hc0]
        congr 4
      · intro j c hj
        rcases get?_snoc hj with ⟨_, hj'⟩ | ⟨hj', hcx⟩
        · exact hrows j c hj'
        · subst hcx
          rw [hj', hlencs, hc0]
          exact ⟨r, hr, rfl, rfl, rfl⟩
      · intro j r' k hj hr' hk
        by_cases hji : j = i
        · subst hji
          rw [hr] at hr'
          cases hr'
          exact hval' k hk
        · have hj' : j < i := by omega
          have hSj := sum_take_succ_length rows j r' hr'
          have hmono := sum_take_mono rows (j + 1) i (by omega)
          rw [hfr' _ _ (by simp only []; omega)]
          exact hcells j r' k hj' hr' hk
      · intro c o hc
        rw [hfr' c o (by simp only []; intro hh; exact hc hh.1)]
        exact hfr c o hc)
  refine ⟨t, cs, p, hloop, hl, hn, hlencs, hrows, fun j r k hr hk => ?_, hfr⟩
  have hj : j < rows.length := by
    rw [List.get?_eq_getElem?] at hr
    exact (List.getElem?_eq_some_iff.mp hr).1
  exact hcells j r k hj hr hk

end vla_neat

namespace vla_neat
open vla
variable {α : Type}

/-- C11. Constructing `dynarray<T, 2>` from a nested brace list with rows `rows` (of any
lengths, the total at least `1` and at most `PTRDIFF_MAX`) completes; the array has
`size()` equal to the number of rows and owns a buffer of as many leaves as the rows
have in total; child `i` is a view with `size()` equal to the length of row `i`, its
slice starts at the sum of the lengths of the rows before it, and its element `k` holds
element `k` of row `i`. -/
theorem jagged_rows_at_running_sum (h : Heap α) (rows : List (List α))
    (htot : 0 < (rows.map List.length).sum)
    (hmax : (rows.map List.length).sum ≤ PTRDIFF_MAX)
    (hcount : rows.length ≤ PTRDIFF_MAX) :
    ∃ h' x, dynarray.mk_lists 0 h rows = .ok (h', x) ∧
      dynarray.size (k := 1) x = rows.length ∧
      x.entire = ⟨h.next + 1, 0⟩ ∧ x.head = ⟨h.next + 1, 0⟩ ∧
      h'.len (h.next + 1) = some (rows.map List.length).sum ∧
      ∀ i r, rows.get? i = some r → ∃ c, x.child i = some c ∧
        dynarray.size (k := 0) c = r.length ∧
        c.head = x.head.add (((rows.take i).map List.length).sum : Nat) ∧
        c.entire = Ptr.null ∧
        ∀ k v, r.get? k = some v → h'.load (c.elem k) = some (some v) := by
  have hc0 : ¬ (List.length (α := init_list α 0) rows = 0) := by
    intro hh
    have : rows = [] := List.length_eq_zero.mp hh
    rw [this] at htot; simp at htot
  have hvc : verify_size (List.length (α := init_list α 0) rows) = false := by
    simp only [verify_size, decide_eq_false_iff_not]
    exact Nat.not_lt.mpr hcount
  have hel := neat_expand_list_rows rows hmax
  have hvt : verify_size (rows.map List.length).sum = false := by
    simp only [verify_size, decide_eq_false_iff_not]; omega
  have ht0 : ¬ ((rows.map List.length).sum = 0) := by omega
  obtain ⟨t, cs, p, hloop, hl, hn, hlencs, hrows, hcells, _⟩ := neat_jagged_loop_spec rows
    (FieldsN.contiguous_allocator (initialise 1 0 : dynarray 1))
    (h.allocate (rows.map List.length).sum).2 (h.next + 1)
    (by simp [Heap.allocate]) hmax
  have hloop' : for_loop (list_node_step (allocate_list_at 0)
      (FieldsN.contiguous_allocator (initialise 1 0 : dynarray 1))
      (rows : List (init_list α 0))) (List.length (α := init_list α 0) rows)
      ((h.allocate (rows.map List.length).sum).2, [],
        (h.allocate (rows.map List.length).sum).1) = .ok (t, cs, p) := hloop
  have hlen' : t.len (h.next + 1) = some (rows.map List.length).sum := by
    rw [hl]; simp [Heap.allocate]
  refine ⟨t, _, by
    simp only [dynarray.mk_lists, allocate_list, hc0, if_false, hvc, Bool.false_eq_true, hel,
      ht0, hvt, hloop']
    rfl, ?_, ?_, ?_, hlen', ?_⟩
  · exact hlencs ▸ rfl
  · rfl
  · rfl
  · intro i r hr
    have hi : i < rows.length := by
      rw [List.get?_eq_getElem?] at hr
      exact (List.getElem?_eq_some_iff.mp hr).1
    have hi' : i < cs.length := by rw [hlencs]; exact hi
    have hg : cs.get? i = some (cs.get ⟨i, hi'⟩) := by
      rw [List.get?_eq_getElem?]; exact List.getElem?_eq_getElem hi'
    generalize cs.get ⟨i, hi'⟩ = c at hg
    obtain ⟨r', hr', hh, htl, hent⟩ := hrows i c hg
    rw [hr] at hr'
    cases hr'
    have hS := sum_take_succ_length rows i r hr
    have hle := sum_take_le_total rows (i + 1)
    have hnn : ¬ (Fields1.this_level_array_tail c = Ptr.null ∧
        Fields1.this_level_array_head c = Ptr.null) := by
      intro hh'
      rw [hh] at hh'
      have := congrArg Ptr.block hh'.2
      simp [Ptr.null] at this
    refine ⟨c, hg, ?_, ?_, hent, ?_⟩
    · have hbs := block_size_of_bounds (k := 0) c _ r.length hh htl (by omega)
      simp only [dynarray.size, if_neg hnn]
      exact hbs
    · show Fields1.this_level_array_head c = _
      rw [hh]
      show _ = (⟨h.next + 1, 0⟩ : Ptr).add _
      simp [Ptr.add]
    · intro k v hv
      have hk : k < r.length := by
        rw [List.get?_eq_getElem?] at hv
        exact (List.getElem?_eq_some_iff.mp hv).1
      have hval : t.valid (dynarray.elem c k) = true := by
        simp only [dynarray.elem, hh]
        rw [Heap.valid_iff t _ (rows.map List.length).sum (by rw [Ptr.add_block]; exact hlen')]
        simp only [Ptr.add_off]; omega
      simp only [Heap.load, hval, if_true]
      simp only [dynarray.elem, hh, Ptr.add_block, Ptr.add_off]
      rw [hcells i r k hr hk, hv]

/-- Witness of `jagged_rows_at_running_sum`: the brace list `{{1, 2}, {3, 4, 5}}`. -/
theorem jagged_rows_at_running_sum_witness :
    (0 < (([[1, 2], [3, 4, 5]] : List (List Int)).map List.length).sum) ∧
    ∃ h' x, dynarray.mk_lists 0 (Heap.empty : Heap Int) ([[1, 2], [3, 4, 5]] : List (List Int))
        = .ok (h', x) ∧
      dynarray.size (k := 1) x = ([[1, 2], [3, 4, 5]] : List (List Int)).length ∧
      x.entire = ⟨(Heap.empty : Heap Int).next + 1, 0⟩ ∧
      x.head = ⟨(Heap.empty : Heap Int).next + 1, 0⟩ ∧
      h'.len ((Heap.empty : Heap Int).next + 1) =
        some (([[1, 2], [3, 4, 5]] : List (List Int)).map List.length).sum ∧
      ∀ i r, ([[1, 2], [3, 4, 5]] : List (List Int)).get? i = some r →
        ∃ c, x.child i = some c ∧
        dynarray.size (k := 0) c = r.length ∧
        c.head = x.head.add
          (((([[1, 2], [3, 4, 5]] : List (List Int)).take i).map List.length).sum : Nat) ∧
        c.entire = Ptr.null ∧
        ∀ k v, r.get? k = some v → h'.load (c.elem k) = some (some v) :=
  ⟨by decide,
    jagged_rows_at_running_sum (Heap.empty : Heap Int) [[1, 2], [3, 4, 5]] (by decide)
      (by decide) (by decide)⟩

end vla_neat

namespace vla_neat
open vla
variable {α : Type}

theorem neat_sample_owner_owns : owns sample_heap 1 sample_owner [2, 3] := by
  refine ⟨1, ?_, rfl, le_refl _, by decide, by decide, by decide⟩
  refine ⟨[3], [sample_row 0 3, sample_row 3 3], rfl, rfl, rfl, rfl, rfl, rfl, ?_⟩
  intro i c hc
  match i, hc with
  | 0, hc =>
    simp at hc; subst hc
    exact ⟨⟨3, rfl⟩, rfl, by simp [sample_row, Ptr.add], by simp [sample_row, Ptr.add]⟩
  | 1, hc =>
    simp at hc; subst hc
    exact ⟨⟨3, rfl⟩, rfl, by simp [sample_row, Ptr.add], by simp [sample_row, Ptr.add]⟩
  | n + 2, hc => simp at hc

/-- Witness of `move_from_view_builds_owner`: the move from row `1` of the sample `2 x 3`
owner. -/
theorem move_from_view_builds_owner_witness :
    owns sample_heap 1 sample_owner [2, 3] ∧ 1 < 2 ∧
    ∃ V h' D, sample_owner.child 1 = some V ∧
      dynarray.mk_move (fun v : Int => v) 0 (initialise 0 0) sample_heap V = .ok (h', D, V) ∧
      owns h' 0 D [3] ∧ D.entire ≠ Ptr.null ∧ D.entire.block ≠ sample_owner.entire.block ∧
      has_shape 0 V [3] ∧ has_shape 0 D [3] ∧
      (∀ idx, in_range [3] idx → ∃ p q, leaf_address 0 V idx = some p ∧
        leaf_address 0 D idx = some q ∧ sample_heap.valid p = true ∧ h'.valid q = true ∧
        h'.load q = sample_heap.load p ∧
        h'.load p = (sample_heap.load p).map (Option.map (fun v : Int => v))) ∧
      ∀ j idx, j ≠ 1 → j < 2 → in_range [3] idx →
        ∃ s p, sample_owner.child j = some s ∧ leaf_address 0 s idx = some p ∧
          sample_heap.valid p = true ∧ h'.load p = sample_heap.load p :=
  ⟨neat_sample_owner_owns, by decide,
    move_from_view_builds_owner (fun v : Int => v) 0 sample_heap sample_owner 2 [3] 1
      (initialise 0 0) neat_sample_owner_owns (by decide)⟩

end vla_neat

/-! ## Length errors and degenerate extents (`src/dynarray.hpp`) -/

namespace vla
variable {α : Type}

theorem verify_size_false {n : Nat} (h : n ≤ PTRDIFF_MAX) : verify_size n = false := by
  simp only [verify_size, decide_eq_false_iff_not]; omega

theorem verify_size_true {n : Nat} (h : PTRDIFF_MAX < n) : verify_size n = true := by
  simp only [verify_size, decide_eq_true_eq]; exact h

/-- C21. The constructors of a one-dimensional array, `dynarray(count)` and
`dynarray(count, args...)` with any leaf arguments, throw `std::length_error` if and only
if `count > PTRDIFF_MAX`; when they throw, the heap is the heap before the call (nothing
was allocated) and the members are the ones `initialise()` set. -/
theorem one_dimensional_length_error [Inhabited α] (h : Heap α) (n : Nat)
    (args : List (Arg α)) :
    ((dynarray.mk_count h n).thrown = some .length_error ↔ PTRDIFF_MAX < n) ∧
    ((dynarray.mk_counts 0 h n args).thrown = some .length_error ↔ PTRDIFF_MAX < n) ∧
    (dynarray.mk_count h n).thrown_state =
      (if PTRDIFF_MAX < n then some (h, initialise 0 0) else none) ∧
    (dynarray.mk_counts 0 h n args).thrown_state =
      (if PTRDIFF_MAX < n then some (h, initialise 0 0) else none) ∧
    (initialise 0 0 : dynarray 0).size = 0 ∧
    (initialise 0 0 : dynarray 0).entire_array_data = Ptr.null ∧
    (initialise 0 0 : dynarray 0).leaf_data = Ptr.null ∧
    (initialise 0 0 : dynarray 0).this_level_array_head = Ptr.null ∧
    (initialise 0 0 : dynarray 0).this_level_array_tail = Ptr.null := by
  have key1 : (PTRDIFF_MAX < n →
        dynarray.mk_count h n = .throw .length_error (h, initialise 0 0)) ∧
      (n ≤ PTRDIFF_MAX → ∃ s, dynarray.mk_count h n = .ok s) := by
    constructor
    · intro hn
      have h0 : n ≠ 0 := by omega
      simp only [dynarray.mk_count, allocate_array_count, h0, if_false, verify_size_true hn,
        if_true]
    · intro hn
      by_cases h0 : n = 0
      · exact ⟨_, by simp only [dynarray.mk_count, allocate_array_count, h0, if_true]; rfl⟩
      · obtain ⟨h', x, hx, _⟩ := allocate_array_count_spec (initialise 0 0) h n (by omega) hn
        exact ⟨_, hx⟩
  have key2 : (PTRDIFF_MAX < n →
        dynarray.mk_counts 0 h n args = .throw .length_error (h, initialise 0 0)) ∧
      (n ≤ PTRDIFF_MAX → ∃ s, dynarray.mk_counts 0 h n args = .ok s) := by
    constructor
    · intro hn
      simp only [dynarray.mk_counts, allocate_array, verify_size_true hn, if_true]
    · intro hn
      by_cases h0 : n = 0
      · have h1 : verify_size 1 = false := by decide
        have h2 : verify_size 0 = false := by decide
        exact ⟨(h, initialise 0 0), by
          simp only [dynarray.mk_counts, allocate_array, h0, h2, h1, size_mul, Nat.mul_zero,
            Nat.zero_mod, Bool.false_eq_true, if_false, or_true, if_true]
          rfl⟩
      · obtain ⟨h', x, hx, _⟩ := allocate_array_spec 0 (initialise 0 0) h n args
          (Nat.zero_le _) (by intro x hx; simp [extents] at hx; omega)
          (by simp [extents]; exact hn)
        exact ⟨_, hx⟩
  refine ⟨?_, ?_, ?_, ?_, rfl, rfl, rfl, rfl, rfl⟩
  · by_cases hn : PTRDIFF_MAX < n
    · rw [key1.1 hn]; simp [Result.thrown, hn]
    · obtain ⟨s, hs⟩ := key1.2 (by omega)
      rw [hs]; simp [Result.thrown, hn]
  · by_cases hn : PTRDIFF_MAX < n
    · rw [key2.1 hn]; simp [Result.thrown, hn]
    · obtain ⟨s, hs⟩ := key2.2 (by omega)
      rw [hs]; simp [Result.thrown, hn]
  · by_cases hn : PTRDIFF_MAX < n
    · rw [key1.1 hn]; simp [Result.thrown_state, hn]
    · obtain ⟨s, hs⟩ := key1.2 (by omega)
      rw [hs]; simp [Result.thrown_state, hn]
  · by_cases hn : PTRDIFF_MAX < n
    · rw [key2.1 hn]; simp [Result.thrown_state, hn]
    · obtain ⟨s, hs⟩ := key2.2 (by omega)
      rw [hs]; simp [Result.thrown_state, hn]

theorem expand_counts_mod (L : Nat) : ∀ (count : Nat) (args : List (Arg α)),
    expand_counts L count args % SIZE_MOD =
      (count * ((args.take L).map Arg.toSize).prod) % SIZE_MOD := by
  induction L with
  | zero => intro count args; simp [expand_counts]
  | succ L ih =>
    intro count args
    cases args with
    | nil => simp [expand_counts]
    | cons a rest =>
      simp only [expand_counts, size_mul, List.take_succ_cons, List.map_cons, List.prod_cons,
        Nat.mod_mod]
      rw [Nat.mul_mod, ih a.toSize rest, ← Nat.mul_mod, Nat.mul_comm]

theorem expand_counts_exact (L : Nat) (count : Nat) (args : List (Arg α))
    (h : count * ((args.take L).map Arg.toSize).prod ≤ PTRDIFF_MAX) :
    expand_counts L count args = count * ((args.take L).map Arg.toSize).prod := by
  have hlt : count * ((args.take L).map Arg.toSize).prod < SIZE_MOD := by
    unfold PTRDIFF_MAX at h; unfold SIZE_MOD; omega
  cases L with
  | zero => simp [expand_counts]
  | succ L =>
    cases args with
    | nil => simp [expand_counts]
    | cons a rest =>
      have hm := expand_counts_mod (L + 1) count (a :: rest)
      rw [Nat.mod_eq_of_lt hlt] at hm
      rw [← hm]
      simp only [expand_counts, size_mul, Nat.mod_mod]

end vla

/-! ## Degenerate extents, member `swap` and `empty()` (`src/dynarray.hpp`) -/

namespace vla
variable {α : Type}

/-- C22 at the counterexample: a three-level array constructed from the extents
`(0, 2 ^ 62, 2)`, each at most `PTRDIFF_MAX` and the first one zero. The block size
`2 ^ 62 * 2` exceeds `PTRDIFF_MAX` and the constructor throws `std::length_error`; so do
the two extents `(2 ^ 32, 2 ^ 31)` given to the same three-level type. -/
theorem degenerate_extents_can_throw :
    (0 ≤ PTRDIFF_MAX ∧ 2 ^ 62 ≤ PTRDIFF_MAX ∧ 2 ≤ PTRDIFF_MAX) ∧
    (dynarray.mk_counts 2 (Heap.empty : Heap Int) 0 [⟨2 ^ 62, 0⟩, ⟨2, 0⟩]).thrown =
      some Exception.length_error ∧
    (dynarray.mk_counts 2 (Heap.empty : Heap Int) 0 [⟨2 ^ 62, 0⟩, ⟨2, 0⟩]).is_ok = false ∧
    (2 ^ 32 ≤ PTRDIFF_MAX ∧ 2 ^ 31 ≤ PTRDIFF_MAX) ∧
    (dynarray.mk_counts 2 (Heap.empty : Heap Int) (2 ^ 32) [⟨2 ^ 31, 0⟩]).thrown =
      some Exception.length_error := by
  refine ⟨by decide, ?_, ?_, by decide, ?_⟩
  · decide
  · decide
  · decide

/-- C22 (amended). Let the first extent, the product of the extents that follow it and
the product of all of them be at most `PTRDIFF_MAX`. If fewer extents than the nesting
depth are supplied, or some extent is zero, the constructor returns normally, the heap
is the heap before the call (nothing was allocated), and the object is the canonical
empty one: `size() == 0` and `entire_array_data`, `current_dimension_array_data`,
`this_level_array_head` and `this_level_array_tail` null. -/
theorem degenerate_extents_construct_empty [Inhabited α] (L : Nat) (h : Heap α) (count : Nat)
    (args : List (Arg α)) (hcount : count ≤ PTRDIFF_MAX)
    (hblock : ((args.take L).map Arg.toSize).prod ≤ PTRDIFF_MAX)
    (htotal : count * ((args.take L).map Arg.toSize).prod ≤ PTRDIFF_MAX)
    (hdeg : args.length < L ∨ count = 0 ∨ 0 ∈ (args.take L).map Arg.toSize) :
    dynarray.mk_counts L h count args = .ok (h, initialise L 0) ∧
    (initialise L 0).size = 0 ∧
    (initialise L 0).entire_array_data = Ptr.null ∧
    (initialise L 0).current_dimension_array_data = node_pointer.null L ∧
    (initialise L 0).this_level_array_head = Ptr.null ∧
    (initialise L 0).this_level_array_tail = Ptr.null := by
  refine ⟨?_, rfl, rfl, rfl, rfl, rfl⟩
  have hdeg' : L > args.length ∨ count * ((args.take L).map Arg.toSize).prod = 0 := by
    rcases hdeg with hd | hd | hd
    · exact Or.inl hd
    · right; rw [hd]; simp
    · right; rw [List.prod_eq_zero hd]; simp
  have hvc := verify_size_false hcount
  have hvb := verify_size_false hblock
  have hvt := verify_size_false htotal
  have hsm : size_mul ((args.take L).map Arg.toSize).prod count =
      count * ((args.take L).map Arg.toSize).prod := by
    rw [size_mul_eq (by rw [Nat.mul_comm]; exact htotal), Nat.mul_comm]
  cases L with
  | zero =>
    simp only [List.take_zero, List.map_nil, List.prod_nil] at hvb hsm hdeg' hvt
    simp only [dynarray.mk_counts, allocate_array, hvc, Bool.false_eq_true, if_false, hvb, hsm,
      hvt, hdeg', if_true]
    rfl
  | succ L1 =>
    cases args with
    | nil =>
      simp only [List.take_nil, List.map_nil, List.prod_nil] at hvb hsm hdeg' hvt
      simp only [dynarray.mk_counts, allocate_array, hvc, Bool.false_eq_true, if_false, hvb,
        hsm, hvt, hdeg', if_true]
      rfl
    | cons a rest =>
      have hbs : expand_counts L1 a.toSize rest =
          (((a :: rest).take (L1 + 1)).map Arg.toSize).prod := by
        simp only [List.take_succ_cons, List.map_cons, List.prod_cons] at hblock ⊢
        exact expand_counts_exact L1 a.toSize rest hblock
      simp only [dynarray.mk_counts, allocate_array, hvc, Bool.false_eq_true, if_false, hbs,
        hvb, hsm, hvt, hdeg', if_true]
      rfl

/-- Witness of `degenerate_extents_construct_empty`: the extents `(3, 0)` for a two-level
array. -/
theorem degenerate_extents_construct_empty_witness :
    (3 ≤ PTRDIFF_MAX) ∧
    ((([⟨0, 0⟩] : List (Arg Int)).take 1).map Arg.toSize).prod ≤ PTRDIFF_MAX ∧
    (([⟨0, 0⟩] : List (Arg Int)).length < 1 ∨ 3 = 0 ∨
      0 ∈ (([⟨0, 0⟩] : List (Arg Int)).take 1).map Arg.toSize) ∧
    dynarray.mk_counts 1 (Heap.empty : Heap Int) 3 [⟨0, 0⟩] =
      .ok (Heap.empty, initialise 1 0) ∧
    (initialise 1 0).size = 0 ∧
    (initialise 1 0).entire_array_data = Ptr.null ∧
    (initialise 1 0).current_dimension_array_data = node_pointer.null 1 ∧
    (initialise 1 0).this_level_array_head = Ptr.null ∧
    (initialise 1 0).this_level_array_tail = Ptr.null :=
  ⟨by decide, by decide, by decide,
    degenerate_extents_construct_empty 1 (Heap.empty : Heap Int) 3 [⟨0, 0⟩] (by decide)
      (by decide) (by decide) (by decide)⟩

/-- C26. `a.swap(b)` gives `a` every member of `b` and `b` every member of `a` (both
allocators, `entire_array_data`, `current_dimension_array_size`,
`current_dimension_array_data`, `this_level_array_head`, `this_level_array_tail`), and
swapping twice gives back the two objects. The function does not take the heap: no
element is read or written. -/
theorem swap_exchanges_members (L : Nat) (a b : dynarray L) :
    swap L a b = (b, a) ∧
    swap L (swap L a b).1 (swap L a b).2 = (a, b) ∧
    (swap L a b).1.array_allocator = b.array_allocator ∧
    (swap L a b).1.contiguous_allocator = b.contiguous_allocator ∧
    (swap L a b).1.entire_array_data = b.entire_array_data ∧
    (swap L a b).1.current_dimension_array_size = b.current_dimension_array_size ∧
    (swap L a b).1.current_dimension_array_data = b.current_dimension_array_data ∧
    (swap L a b).1.this_level_array_head = b.this_level_array_head ∧
    (swap L a b).1.this_level_array_tail = b.this_level_array_tail ∧
    (swap L a b).2.array_allocator = a.array_allocator ∧
    (swap L a b).2.contiguous_allocator = a.contiguous_allocator ∧
    (swap L a b).2.entire_array_data = a.entire_array_data ∧
    (swap L a b).2.current_dimension_array_size = a.current_dimension_array_size ∧
    (swap L a b).2.current_dimension_array_data = a.current_dimension_array_data ∧
    (swap L a b).2.this_level_array_head = a.this_level_array_head ∧
    (swap L a b).2.this_level_array_tail = a.this_level_array_tail :=
  ⟨rfl, rfl, rfl, rfl, rfl, rfl, rfl, rfl, rfl, rfl, rfl, rfl, rfl, rfl, rfl, rfl⟩

/-- C30 on the code. `empty()` returns `static_cast<bool>(current_dimension_array_size)`:
it is `true` exactly when `size()` is not `0`. A default-constructed array has
`size() == 0` and `empty() == false`; the sample `2 x 3` array has `size() == 2` and
`empty() == true`. -/
theorem empty_is_inverted :
    (∀ (L : Nat) (x : dynarray L), x.empty = true ↔ x.size ≠ 0) ∧
    (dynarray.mk_default 0).size = 0 ∧ (dynarray.mk_default 0).empty = false ∧
    sample_owner.size = 2 ∧ sample_owner.empty = true := by
  refine ⟨fun L x => ?_, rfl, rfl, rfl, rfl⟩
  simp [dynarray.empty, dynarray.size]

end vla

/-! ## Idempotence of `deallocate_array()` -/

namespace vla
variable {α : Type}

theorem deallocate_null_spec (L : Nat) (x : dynarray L) (h : Heap α)
    (he : x.entire_array_data = Ptr.null)
    (hc : x.current_dimension_array_data = node_pointer.null L) :
    deallocate_array L x h = some (h, x) := by
  cases L with
  | zero =>
    have hc' : x.leaf_data = Ptr.null := hc
    simp [deallocate_array, he, hc']
  | succ L =>
    have hc' : x.current_dimension_array_data = none := hc
    simp [deallocate_array, he, hc']

theorem deallocate_post (L : Nat) (x : dynarray L) (h h1 : Heap α) (x1 : dynarray L)
    (hrun : deallocate_array L x h = some (h1, x1)) :
    x1.entire_array_data = Ptr.null ∧
    x1.current_dimension_array_data = node_pointer.null L := by
  cases L with
  | zero =>
    simp only [deallocate_array, ne_eq, dynarray.leaf_data] at hrun
    by_cases c1 : x.entire_array_data = Ptr.null
    · by_cases c2 : @Eq Ptr x.current_dimension_array_data Ptr.null
      · simp [c1, c2] at hrun
        obtain ⟨_, hx⟩ := hrun
        subst hx
        refine ⟨?_, ?_⟩ <;> first | rfl | assumption
      · cases hr : release x.current_dimension_array_data x.current_dimension_array_size h with
        | none => simp [c1, c2, hr] at hrun
        | some h2 =>
          simp [c1, c2, hr] at hrun
          obtain ⟨_, hx⟩ := hrun
          subst hx
          exact ⟨rfl, rfl⟩
    · by_cases c2 : @Eq Ptr x.current_dimension_array_data Ptr.null
      · cases hr : release x.entire_array_data x.get_block_size h with
        | none => simp [c1, c2, hr] at hrun
        | some h2 =>
          simp [c1, c2, hr] at hrun
          obtain ⟨_, hx⟩ := hrun
          subst hx
          exact ⟨rfl, rfl⟩
      · cases hr : release x.entire_array_data x.get_block_size h with
        | none => simp [c1, c2, hr] at hrun
        | some h2 =>
          simp [c1, c2, hr] at hrun
          obtain ⟨_, hx⟩ := hrun
          subst hx
          exact ⟨rfl, rfl⟩
  | succ L =>
    simp only [deallocate_array, ne_eq] at hrun
    cases hcd : x.current_dimension_array_data with
    | none =>
      by_cases c3 : x.entire_array_data = Ptr.null
      · simp [hcd, c3] at hrun
        obtain ⟨_, hx⟩ := hrun
        subst hx
        refine ⟨?_, ?_⟩ <;> first | rfl | assumption
      · cases hr : release x.entire_array_data x.get_block_size h with
        | none => simp [hcd, c3, hr] at hrun
        | some h2 =>
          simp [hcd, c3, hr] at hrun
          obtain ⟨_, hx⟩ := hrun
          subst hx
          exact ⟨rfl, rfl⟩
    | some cs =>
      by_cases cl : cs.length = x.current_dimension_array_size
      · cases hd : destroy_nodes (deallocate_array L) cs x.current_dimension_array_size h with
        | none => simp [hcd, cl, hd] at hrun
        | some h2 =>
          by_cases c3 : x.entire_array_data = Ptr.null
          · simp [hcd, cl, hd, c3] at hrun
            obtain ⟨_, hx⟩ := hrun
            subst hx
            exact ⟨rfl, rfl⟩
          · cases hr : release x.entire_array_data x.get_block_size
                (h2.record (Event.deallocate_nodes x.current_dimension_array_size)) with
            | none => simp [hcd, cl, hd, c3, hr] at hrun
            | some h3 =>
              simp [hcd, cl, hd, c3, hr] at hrun
              obtain ⟨_, hx⟩ := hrun
              subst hx
              exact ⟨rfl, rfl⟩
      · simp [hcd, cl] at hrun

/-- C24. The member `deallocate_array()` is idempotent. On a top-level owner, on a view and
on an empty object the first run completes, and running it again on the result completes
and changes neither the object nor the heap, whose log of destroyed elements and released
buffers is therefore the one after the first run; after the first run `entire_array_data`
and `current_dimension_array_data` are null. In any other state too, a first run that
completes is followed by a second run that changes nothing. -/
theorem deallocate_twice_is_once (L : Nat) (h : Heap α) (x : dynarray L) (exts : List Nat)
    (base : Ptr) (a : Allocator)
    (hstate : (h.len 0 = none ∧ owns h L x exts) ∨ layout L false x base exts ∨
      x = initialise L a) :
    (∃ h1 x1, deallocate_array L x h = some (h1, x1) ∧
      deallocate_array L x1 h1 = some (h1, x1) ∧
      x1.entire_array_data = Ptr.null ∧
      x1.current_dimension_array_data = node_pointer.null L) ∧
    ∀ (y : dynarray L) (g g1 : Heap α) (y1 : dynarray L),
      deallocate_array L y g = some (g1, y1) → deallocate_array L y1 g1 = some (g1, y1) := by
  have hall : ∀ (y : dynarray L) (g g1 : Heap α) (y1 : dynarray L),
      deallocate_array L y g = some (g1, y1) →
      deallocate_array L y1 g1 = some (g1, y1) ∧ y1.entire_array_data = Ptr.null ∧
        y1.current_dimension_array_data = node_pointer.null L := by
    intro y g g1 y1 hrun
    obtain ⟨he, hc⟩ := deallocate_post L y g g1 y1 hrun
    exact ⟨deallocate_null_spec L y1 g1 he hc, he, hc⟩
  have hfirst : ∃ h1 x1, deallocate_array L x h = some (h1, x1) := by
    rcases hstate with ⟨h0, b, hl, hlen, _, _, hmax⟩ | hv | he
    · have hb : b ≠ 0 := by
        intro hh; rw [hh, h0] at hlen; exact absurd hlen (by simp)
      obtain ⟨h1, x1, hd, _⟩ := deallocate_owner_spec L x h b exts hl hb hlen hmax
      exact ⟨h1, x1, hd⟩
    · obtain ⟨h1, x1, hd, _⟩ := deallocate_view_spec L x h base exts hv
      exact ⟨h1, x1, hd⟩
    · subst he
      exact ⟨h, _, deallocate_empty_spec L a h⟩
  obtain ⟨h1, x1, hd⟩ := hfirst
  exact ⟨⟨h1, x1, hd, hall x h h1 x1 hd⟩, fun y g g1 y1 hrun => (hall y g g1 y1 hrun).1⟩

/-- Witness of `deallocate_twice_is_once`: the sample `2 x 3` owner. -/
theorem deallocate_twice_is_once_witness :
    ((sample_heap.len 0 = none ∧ owns sample_heap 1 sample_owner [2, 3]) ∨
      layout 1 false sample_owner Ptr.null [2, 3] ∨ sample_owner = initialise 1 0) ∧
    ((∃ h1 x1, deallocate_array 1 sample_owner sample_heap = some (h1, x1) ∧
      deallocate_array 1 x1 h1 = some (h1, x1) ∧
      x1.entire_array_data = Ptr.null ∧
      x1.current_dimension_array_data = node_pointer.null 1) ∧
    ∀ (y : dynarray 1) (g g1 : Heap Int) (y1 : dynarray 1),
      deallocate_array 1 y g = some (g1, y1) → deallocate_array 1 y1 g1 = some (g1, y1)) :=
  ⟨Or.inl ⟨rfl, sample_owner_owns⟩,
    deallocate_twice_is_once 1 sample_heap sample_owner [2, 3] Ptr.null 0
      (Or.inl ⟨rfl, sample_owner_owns⟩)⟩

end vla

/-! ## The order of events of a teardown -/

namespace vla
variable {α : Type}

theorem Heap.destroy_log (h : Heap α) (p : Ptr) (hv : h.valid p = true) :
    ∃ h', h.destroy p = some h' ∧ h'.len = h.len ∧ h'.log = Event.destroy p :: h.log :=
  ⟨{ h with
      cell := fun b i => if b = p.block ∧ i = p.off then none else h.cell b i
      log := Event.destroy p :: h.log }, by simp [Heap.destroy, hv], rfl, rfl⟩

theorem range_from_pred_cons (i n : Nat) (hi : i < n) :
    List.range' i (n - i) = i :: List.range' (i + 1) (n - (i + 1)) := by
  have : n - i = (n - (i + 1)) + 1 := by omega
  rw [this, List.range'_succ]

theorem release_log (p : Ptr) (n : Nat) (h : Heap α) (hlen : h.len p.block = some n)
    (hoff : p.off = 0) :
    ∃ h', release p n h = some h' ∧
      h'.log = Event.deallocate p.block ::
        ((List.range n).map (fun i => Event.destroy (p.add (i : Nat))) ++ h.log) := by
  obtain ⟨t, ht, hl, hlog⟩ := rev_loop_inv (fun i (h1 : Heap α) => h1.destroy (p.add i))
    (fun i (t : Heap α) => t.len = h.len ∧
      t.log = (List.range' i (n - i)).map (fun j => Event.destroy (p.add (j : Nat))) ++ h.log)
    n h ⟨rfl, by simp⟩
    (by
      intro i t hi ⟨hl, hlog⟩
      have hv : t.valid (p.add i) = true := by
        rw [Heap.valid_iff t _ n (by rw [hl]; exact hlen)]
        simp only [Ptr.add_off]; omega
      obtain ⟨t', ht', hl', hlog'⟩ := Heap.destroy_log t _ hv
      refine ⟨t', ht', hl'.trans hl, ?_⟩
      rw [hlog', hlog, range_from_pred_cons i n hi]
      rfl)
  refine ⟨{ t with
      len := fun b => if b = p.block then none else t.len b
      cell := fun b i => if b = p.block then none else t.cell b i
      log := Event.deallocate p.block :: t.log }, ?_, ?_⟩
  · simp only [release, ht, Heap.deallocate, hoff, hl, hlen, and_self, if_true]
  · simp only [hlog, Nat.sub_zero, List.range_eq_range']

theorem destroy_nodes_log {L : Nat}
    (teardown : dynarray L → Heap α → Option (Heap α × dynarray L))
    (cs : List (dynarray L)) (n : Nat) (h : Heap α) (E : List Event) (hn : n ≤ cs.length)
    (hstep : ∀ i c (t : Heap α), cs.get? i = some c →
      ∃ h2 x2, teardown c t = some (h2, x2) ∧ h2.len = t.len ∧ h2.next = t.next ∧
        h2.cell = t.cell ∧ h2.log = E ++ t.log) :
    ∃ t, destroy_nodes teardown cs n h = some t ∧ t.len = h.len ∧ t.next = h.next ∧
      t.cell = h.cell ∧
      t.log = (List.range n).flatMap (fun j => Event.destroy_child j :: E) ++ h.log := by
  unfold destroy_nodes
  have key : ∃ t, rev_loop (fun i h1 =>
      match cs.get? i with
      | some c =>
        match teardown c h1 with
        | some (h2, _) => some (h2.record (Event.destroy_child i))
        | none => none
      | none => none) n h = some t ∧
      (t.len = h.len ∧ t.next = h.next ∧ t.cell = h.cell ∧
        t.log = (List.range' 0 (n - 0)).flatMap (fun j => Event.destroy_child j :: E) ++
          h.log) := by
    apply rev_loop_inv _ (fun i (t : Heap α) => t.len = h.len ∧ t.next = h.next ∧
      t.cell = h.cell ∧
      t.log = (List.range' i (n - i)).flatMap (fun j => Event.destroy_child j :: E) ++ h.log)
    · exact ⟨rfl, rfl, rfl, by simp⟩
    · intro i t hi ⟨hl, hn', hc, hlog⟩
      have hi' : i < cs.length := by omega
      have hg : cs.get? i = some (cs.get ⟨i, hi'⟩) := by
        rw [List.get?_eq_getElem?]; exact List.getElem?_eq_getElem hi'
      obtain ⟨h2, x2, hd, hl2, hn2, hc2, hlog2⟩ := hstep i _ t hg
      refine ⟨h2.record (Event.destroy_child i), ?_, hl2.trans hl, hn2.trans hn',
        hc2.trans hc, ?_⟩
      · simp only [hg, hd]
      · simp only [Heap.record, hlog2, hlog, range_from_pred_cons i n hi, List.flatMap_cons,
          List.cons_append, List.append_assoc]
  obtain ⟨t, ht, hl, hnx, hc, hlog⟩ := key
  exact ⟨t, ht, hl, hnx, hc, by simp only [hlog, Nat.sub_zero, List.range_eq_range']⟩

theorem deallocate_view_log (L : Nat) : ∀ (x : dynarray L) (h : Heap α) (base : Ptr)
    (exts : List Nat), layout L false x base exts →
    ∃ h' x', deallocate_array L x h = some (h', x') ∧ h'.len = h.len ∧ h'.next = h.next ∧
      h'.cell = h.cell ∧ h'.log = expected_node_log L exts ++ h.log := by
  induction L with
  | zero =>
    intro x h base exts hl
    obtain ⟨_, he, hc, _, _⟩ := hl
    simp only [Bool.false_eq_true, if_false] at he hc
    refine ⟨h, x, ?_, rfl, rfl, rfl, rfl⟩
    simp [deallocate_array, dynarray.leaf_data, he, hc]
  | succ L ih =>
    intro x h base exts hl
    obtain ⟨rest, cs, he, hent, hcs, hlen, hh, ht, hch⟩ := hl
    simp only [Bool.false_eq_true, if_false] at hent
    obtain ⟨t, ht, hl, hn, hc, hlog⟩ := destroy_nodes_log (deallocate_array L) cs
      x.current_dimension_array_size h (expected_node_log L rest) (le_of_eq hlen.symm)
      (fun i c t hg => ih c t _ rest (hch i c hg))
    refine ⟨t.record (Event.deallocate_nodes x.current_dimension_array_size), _, by
      simp only [deallocate_array, hcs, hlen, if_true, ht, hent, ne_eq,
        not_true_eq_false, if_false]
      rfl, hl, hn, hc, ?_⟩
    rw [he]
    simp only [Heap.record, hlog, expected_node_log, List.cons_append]

theorem deallocate_owner_log (L : Nat) (x : dynarray L) (h : Heap α) (b : Nat)
    (exts : List Nat) (hl : layout L true x ⟨b, 0⟩ exts) (hb : b ≠ 0)
    (hlen : h.len b = some exts.prod) (hmax : exts.prod ≤ PTRDIFF_MAX) :
    ∃ h' x', deallocate_array L x h = some (h', x') ∧
      h'.log = Event.deallocate b ::
        ((List.range exts.prod).map (fun i => Event.destroy ((⟨b, 0⟩ : Ptr).add (i : Nat))) ++
          (expected_node_log L exts ++ h.log)) := by
  have hbs := layout_block_size L true x ⟨b, 0⟩ exts hl hmax
  have hnn : (⟨b, 0⟩ : Ptr) ≠ Ptr.null := by
    intro hh; apply hb; simpa [Ptr.null] using congrArg Ptr.block hh
  cases L with
  | zero =>
    obtain ⟨_, he, hc, _, _⟩ := hl
    simp only [if_true] at he hc
    obtain ⟨h', hr, hlog⟩ := release_log (⟨b, 0⟩ : Ptr) exts.prod h hlen rfl
    refine ⟨h', _, by
      simp only [deallocate_array, dynarray.leaf_data, he, hc, hbs, ne_eq, hnn,
        not_false_eq_true, and_self, if_true, hr, not_true_eq_false, if_false]
      rfl, ?_⟩
    rw [hlog]; rfl
  | succ L =>
    obtain ⟨rest, cs, he, hent, hcs, hlencs, hh, ht, hch⟩ := hl
    simp only [if_true] at hent
    obtain ⟨t, ht, hlt, hnt, hct, hlogt⟩ := destroy_nodes_log (deallocate_array L) cs
      x.current_dimension_array_size h (expected_node_log L rest) (le_of_eq hlencs.symm)
      (fun i c t hg => deallocate_view_log L c t _ rest (hch i c hg))
    obtain ⟨h', hr, hlog⟩ := release_log (⟨b, 0⟩ : Ptr) exts.prod
      (t.record (Event.deallocate_nodes x.current_dimension_array_size))
      (by simp only [Heap.record, hlt]; exact hlen) rfl
    refine ⟨h', _, by
      simp only [deallocate_array, hcs, hlencs, if_true, ht, hent, hbs, ne_eq,
        hnn, not_false_eq_true, hr]
      rfl, ?_⟩
    rw [hlog]
    subst he
    simp only [Heap.record, hlogt, expected_node_log, List.cons_append]

theorem expected_node_log_events (L : Nat) : ∀ (exts : List Nat) (e : Event),
    e ∈ expected_node_log L exts →
    (∃ i, e = Event.destroy_child i) ∨ ∃ n, e = Event.deallocate_nodes n := by
  induction L with
  | zero => intro exts e he; simp [expected_node_log] at he
  | succ L ih =>
    intro exts e he
    cases exts with
    | nil => simp [expected_node_log] at he
    | cons n rest =>
      simp only [expected_node_log, List.mem_cons, List.mem_flatMap, List.mem_range] at he
      rcases he with he | ⟨i, _, he | he⟩
      · exact Or.inr ⟨n, he⟩
      · exact Or.inl ⟨i, he⟩
      · exact ih rest e he

/-- C25. Destroying a top-level owner of extents `exts` (all at least `1`) runs to
completion, and the events it records, latest first, are: the release of the flat buffer,
once; before it the destruction of the leaves at the flat indices `0, ..., exts.prod - 1`,
each once, the highest index first; and before all of them the destruction and release of
every node array (`expected_node_log`, which holds no leaf destruction and no buffer
release). Afterwards the buffer is no longer live. Deallocating a view runs to completion
and records node events only: it changes no cell and no block. -/
theorem teardown_destroys_leaves_once (L : Nat) (h : Heap α) (x : dynarray L)
    (exts : List Nat) (h0 : h.len 0 = none) (hx : owns h L x exts) :
    (∃ h1 x1, deallocate_array L x h = some (h1, x1) ∧
      h1.log = Event.deallocate x.entire_array_data.block ::
        ((List.range exts.prod).map (fun i => Event.destroy (x.entire_array_data.add (i : Nat)))
          ++ (expected_node_log L exts ++ h.log)) ∧
      h1.len x.entire_array_data.block = none) ∧
    (∀ e ∈ expected_node_log L exts,
      (∃ i, e = Event.destroy_child i) ∨ ∃ n, e = Event.deallocate_nodes n) ∧
    ∀ (v : dynarray L) (base : Ptr) (vexts : List Nat), layout L false v base vexts →
      ∃ h2 v2, deallocate_array L v h = some (h2, v2) ∧
        h2.log = expected_node_log L vexts ++ h.log ∧ h2.len = h.len ∧ h2.cell = h.cell ∧
        ∀ e ∈ expected_node_log L vexts,
          (∃ i, e = Event.destroy_child i) ∨ ∃ n, e = Event.deallocate_nodes n := by
  obtain ⟨b, hl, hlen, _, _, hmax⟩ := hx
  have hb : b ≠ 0 := by
    intro hh; rw [hh, h0] at hlen; exact absurd hlen (by simp)
  have hent := (layout_head L true x _ exts hl).2.2
  simp only [if_true] at hent
  refine ⟨?_, expected_node_log_events L exts, fun v base vexts hv => ?_⟩
  · obtain ⟨h1, x1, hd, hlog⟩ := deallocate_owner_log L x h b exts hl hb hlen hmax
    obtain ⟨h1', x1', hd', _, hlen', _⟩ := deallocate_owner_spec L x h b exts hl hb hlen hmax
    rw [hd] at hd'
    simp only [Option.some.injEq, Prod.mk.injEq] at hd'
    obtain ⟨e1, _⟩ := hd'
    subst e1
    refine ⟨h1, x1, hd, by rw [hent]; exact hlog, ?_⟩
    rw [hent, hlen']
    simp
  · obtain ⟨h2, v2, hd, hl2, _, hc2, hlog⟩ := deallocate_view_log L v h base vexts hv
    exact ⟨h2, v2, hd, hlog, hl2, hc2, expected_node_log_events L vexts⟩

/-- Witness of `teardown_destroys_leaves_once`: the sample `2 x 3` owner. -/
theorem teardown_destroys_leaves_once_witness :
    sample_heap.len 0 = none ∧ owns sample_heap 1 sample_owner [2, 3] ∧
    ((∃ h1 x1, deallocate_array 1 sample_owner sample_heap = some (h1, x1) ∧
      h1.log = Event.deallocate sample_owner.entire_array_data.block ::
        ((List.range [2, 3].prod).map
            (fun i => Event.destroy (sample_owner.entire_array_data.add (i : Nat)))
          ++ (expected_node_log 1 [2, 3] ++ sample_heap.log)) ∧
      h1.len sample_owner.entire_array_data.block = none) ∧
    (∀ e ∈ expected_node_log 1 [2, 3],
      (∃ i, e = Event.destroy_child i) ∨ ∃ n, e = Event.deallocate_nodes n) ∧
    ∀ (v : dynarray 1) (base : Ptr) (vexts : List Nat), layout 1 false v base vexts →
      ∃ h2 v2, deallocate_array 1 v sample_heap = some (h2, v2) ∧
        h2.log = expected_node_log 1 vexts ++ sample_heap.log ∧
        h2.len = sample_heap.len ∧ h2.cell = sample_heap.cell ∧
        ∀ e ∈ expected_node_log 1 vexts,
          (∃ i, e = Event.destroy_child i) ∨ ∃ n, e = Event.deallocate_nodes n) :=
  ⟨rfl, sample_owner_owns,
    teardown_destroys_leaves_once 1 sample_heap sample_owner [2, 3] rfl sample_owner_owns⟩

end vla

/-! ## Stale slice pointers, and `swap` / `exchange` of the variants -/

namespace vla

/-- C23. The state `size() == 0` does not imply null slice pointers. `T` is built as
`dynarray<int>(3)` in an empty heap and the default-constructed empty array is
copy-assigned to it (`operator=`, lines 337-350): the operation completes, `T` then
reports `size() == 0` with `entire_array_data` and `current_dimension_array_data` null and
its block freed, but `this_level_array_head` and `this_level_array_tail` still hold the
addresses `0` and `2` of the freed block, so `data()` is not null. Assigning a fresh array
of three leaves to this `T` afterwards takes the branch of a view and is undefined. -/
theorem empty_copy_assignment_keeps_stale_slice :
    ∃ h T h1 T1 h2 S, dynarray.mk_count (Heap.empty : Heap Int) 3 = .ok (h, T) ∧
      copy_assign 0 T h (dynarray.mk_default 0) = .ok (h1, T1) ∧
      T1.size = 0 ∧ T1.entire_array_data = Ptr.null ∧ T1.leaf_data = Ptr.null ∧
      T1.this_level_array_head = ⟨1, 0⟩ ∧ T1.this_level_array_tail = ⟨1, 2⟩ ∧
      T1.data ≠ Ptr.null ∧ h1.len 1 = none ∧ h1.valid T1.data = false ∧
      dynarray.mk_count h1 3 = .ok (h2, S) ∧ (copy_assign 0 T1 h2 S).is_undefined = true :=
  ⟨_, _, _, _, _, _, rfl, rfl, rfl, rfl, rfl, rfl, rfl, by decide, rfl, rfl, rfl, rfl⟩

end vla

namespace vla_nest
open vla

/-- C27. The member `swap` of `src/vla_nest/dynarray_lite.hpp` does not exchange
bookkeeping. Swapping the sample array of three leaves `1, 2, 3` with the sample array of
two leaves `7, 8` completes and leaves both objects as they were, with sizes `3` and `2`
and their own data pointers; the leaves were swapped one by one over the smaller size, so
the first array now holds `7, 8, 3` and the second `1, 2`. -/
theorem lite_swap_is_elementwise :
    ∃ h1, swap 0 sample_lite sample_heap2 sample_lite2 = .ok (h1, sample_lite, sample_lite2) ∧
      sample_lite.size = 3 ∧ sample_lite2.size = 2 ∧
      h1.cell 1 0 = some 7 ∧ h1.cell 1 1 = some 8 ∧ h1.cell 1 2 = some 3 ∧
      h1.cell 2 0 = some 1 ∧ h1.cell 2 1 = some 2 ∧
      sample_heap2.cell 1 0 = some 1 ∧ sample_heap2.cell 1 1 = some 2 ∧
      sample_heap2.cell 1 2 = some 3 ∧
      sample_heap2.cell 2 0 = some 7 ∧ sample_heap2.cell 2 1 = some 8 :=
  ⟨_, rfl, rfl, rfl, rfl, rfl, rfl, rfl, rfl, rfl, rfl, rfl, rfl, rfl⟩

end vla_nest

namespace vla_neat
open vla

/-- C28. The free function `swap(lhs, rhs)` of `dynarray<T, 1>` is undefined as soon as
one of two outermost arrays is a default-constructed empty one: `swap_outside` then calls
the member `swap`, whose length is `min(nullptr - nullptr + 1, ...) = 1`, and its loop
reads through the null `this_level_array_head`. Two non-empty outermost owners are swapped
completely. -/
theorem neat_swap_with_empty_is_undefined :
    (friend_swap (initialise 0 0) sample_heap2 sample_top2).is_undefined = true ∧
    (friend_swap sample_top2 sample_heap2 (initialise 0 0)).is_undefined = true ∧
    (friend_swap (initialise 0 0) sample_heap2 (initialise 0 0)).is_undefined = true ∧
    dynarray.size (k := 0) (initialise 0 0) = 0 ∧
    friend_swap sample_top1 sample_heap2 sample_top2 =
      .ok (sample_heap2, sample_top2, sample_top1) :=
  ⟨rfl, rfl, rfl, rfl, rfl⟩

/-- C29. The function `exchange(old_array, new_array)` of `dynarray<T, 1>` is undefined
for a non-empty outermost `old_array`: the move construction of the returned array resets
`old_array`, the test `old_array.entire_array_data == nullptr` made afterwards is then
true, and the member `swap` reads through the null `this_level_array_head` of
`old_array`. This is so for a non-empty as for an empty outermost `new_array`. -/
theorem neat_exchange_is_undefined :
    (exchange (fun v => v) (initialise 0 0) (initialise 0 0) sample_top2 sample_heap2
      sample_top1).is_undefined = true ∧
    (exchange (fun v => v) (initialise 0 0) (initialise 0 0) sample_top1 sample_heap2
      sample_top2).is_undefined = true ∧
    (exchange (fun v => v) (initialise 0 0) (initialise 0 0) sample_top2 sample_heap2
      (initialise 0 0)).is_undefined = true ∧
    dynarray.size (k := 0) sample_top2 = 2 ∧ dynarray.size (k := 0) sample_top1 = 6 :=
  ⟨rfl, rfl, rfl, rfl, rfl⟩

end vla_neat

/-! ## Iterators, copies of empty arrays, self-assignment and `fill` of an empty array -/

namespace vla_neat
open vla
variable {α : Type}

/-- C31. For an empty `dynarray<T, 1>` the iterators `begin()` and `end()` differ. A
default-constructed array, an array constructed with `count == 0` and a moved-from array
have null `this_level_array_head` and `this_level_array_tail`; `size()` is `0` for them,
but `begin()` is the null pointer and `end()` is `nullptr + 1`, so `end() - begin()` is
`1`. In every state `end() - begin()` is `tail - head + 1`, which is `size()` for the
sample array of two elements. -/
theorem neat_empty_begin_is_not_end :
    (∀ a : Allocator, dynarray.size (k := 0) (initialise 0 a) = 0 ∧
      dynarray.begin (initialise 0 a) ≠ dynarray.end_ (initialise 0 a) ∧
      (dynarray.end_ (initialise 0 a)).diff (dynarray.begin (initialise 0 a)) = 1) ∧
    (∀ x : dynarray 0, dynarray.size (k := 0) (reset x) = 0 ∧
      dynarray.begin (reset x) ≠ dynarray.end_ (reset x) ∧
      (dynarray.end_ (reset x)).diff (dynarray.begin (reset x)) = 1) ∧
    (∀ (h : Heap Int) (args : List (Arg Int)),
      dynarray.mk_counts 0 h 0 args = .ok (h, reset (initialise 0 0))) ∧
    dynarray.mk_move (fun v : Int => v) 0 (initialise 0 0) sample_heap2 sample_top2 =
      .ok (sample_heap2, sample_top2, reset sample_top2) ∧
    (∀ x : dynarray 0, (dynarray.end_ x).diff (dynarray.begin x) =
      (Fields1.this_level_array_tail x).diff (Fields1.this_level_array_head x) + 1) ∧
    dynarray.size (k := 0) sample_top2 = 2 ∧
    (dynarray.end_ sample_top2).diff (dynarray.begin sample_top2) = 2 := by
  have hne : ∀ y : dynarray 0, Fields1.this_level_array_head y = Ptr.null →
      Fields1.this_level_array_tail y = Ptr.null → dynarray.begin y ≠ dynarray.end_ y := by
    intro y hh ht hb
    have hoff : (0 : Int) = 0 + 1 := by
      have := congrArg Ptr.off hb
      simpa only [dynarray.begin, dynarray.end_, hh, ht, Ptr.add, Ptr.null] using this
    omega
  refine ⟨fun a => ⟨rfl, hne _ rfl rfl, rfl⟩, fun x => ⟨rfl, hne _ rfl rfl, rfl⟩,
    fun h args => rfl, rfl, fun x => ?_, rfl, rfl⟩
  simp only [dynarray.end_, dynarray.begin, Ptr.diff, Ptr.add]
  omega

/-- C36. Copy-constructing a `dynarray<T, 1>` from an empty source has undefined behaviour.
For a default-constructed source and for a moved-from or zero-count one (the state after
`reset()`), `copy_array` computes `entire_array_size` as `nullptr - nullptr + 1 == 1`, so
its test for `0` does not return; it allocates one element and copy-constructs it from
`*(other.this_level_array_head + 0)`, a read through the null pointer. -/
theorem neat_copy_of_empty_reads_null (h : Heap α) (a : Allocator) (x : dynarray 0)
    (hnull : h.len 0 = none) :
    dynarray.size (k := 0) (initialise 0 a) = 0 ∧
    dynarray.get_block_size (k := 0) (initialise 0 a) = 1 ∧
    (dynarray.mk_copy h (initialise 0 a)).is_undefined = true ∧
    dynarray.size (k := 0) (reset x) = 0 ∧
    (dynarray.mk_copy h (reset x)).is_undefined = true := by
  have key : ∀ y : dynarray 0, Fields1.entire_array_data y = Ptr.null →
      Fields1.this_level_array_head y = Ptr.null → Fields1.this_level_array_tail y = Ptr.null →
      (dynarray.mk_copy h y).is_undefined = true := by
    intro y he hh ht
    have hbs : dynarray.get_block_size (k := 0) y = 1 := by
      simp only [dynarray.get_block_size, dynarray.tail, dynarray.head, hh, ht]
      decide
    have hv : (h.allocate 1).2.valid (Ptr.null.add ((0 : Nat) : Int)) = false := by
      simp [Heap.valid, Heap.allocate, Ptr.null, Ptr.add, hnull]
    simp only [dynarray.mk_copy, copy_array, hbs, he, hh, if_true, copy_n, for_loop,
      Heap.load, hv]
    rfl
  exact ⟨rfl, rfl, key _ rfl rfl rfl, rfl, key _ rfl rfl rfl⟩

/-- Witness of `neat_copy_of_empty_reads_null`: the empty heap and the moved-from sample
array. -/
theorem neat_copy_of_empty_reads_null_witness :
    (Heap.empty : Heap Int).len 0 = none ∧
    dynarray.size (k := 0) (initialise 0 0) = 0 ∧
    dynarray.get_block_size (k := 0) (initialise 0 0) = 1 ∧
    (dynarray.mk_copy (Heap.empty : Heap Int) (initialise 0 0)).is_undefined = true ∧
    dynarray.size (k := 0) (reset sample_top2) = 0 ∧
    (dynarray.mk_copy (Heap.empty : Heap Int) (reset sample_top2)).is_undefined = true :=
  ⟨rfl, neat_copy_of_empty_reads_null Heap.empty 0 sample_top2 rfl⟩

end vla_neat

namespace vla
variable {α : Type}

/-- C32. For a row of a nested array whose elements are leaves, `begin()` and `get()` do
not address the first element. In `dynarray<dynarray<int>> a(2, 3, 7)` the row `a[0]` has
three elements and `a[0][1]` holds `7`, but `a[0].begin()` and `a[0].get()` are null
(`current_dimension_array_data` of such a row is set to null), so `*(a[0].begin() + 1)` is
a read through a null-based pointer; this is so for every leaf-level view. For an array
of arrays, and for a top-level array of leaves, `*(x.begin() + k)` is `x[k]`; and
`end() - begin()` is `size()` at every level. -/
theorem leaf_row_begin_is_null :
    (∃ h a r, dynarray.mk_counts 1 (Heap.empty : Heap Int) 2 [⟨3, 0⟩, ⟨0, 7⟩] = .ok (h, a) ∧
      a.child 0 = some r ∧ r.size = 3 ∧ r.begin = Ptr.null ∧ r.get = Ptr.null ∧
      r.index 1 = (⟨1, 1⟩ : Ptr) ∧ h.load (r.index 1) = some (some 7) ∧
      (r.begin.add 1).deref = (⟨0, 1⟩ : Ptr) ∧ h.load (r.begin.add 1).deref = none) ∧
    (∀ (x : dynarray 0) (base : Ptr) (exts : List Nat), layout 0 false x base exts →
      x.begin = Ptr.null ∧ x.get = Ptr.null) ∧
    (∀ (x : dynarray 0) (base : Ptr) (exts : List Nat), layout 0 true x base exts →
      ∀ k : Nat, (x.begin.add k).deref = x.index k) ∧
    (∀ (L : Nat) (x : dynarray (L + 1)) (k : Nat), (x.begin.add k).deref = x.index k) ∧
    (∀ (L : Nat) (x : dynarray L), x.end_.diff x.begin = x.size) := by
  refine ⟨⟨_, _, _, rfl, rfl, rfl, rfl, rfl, rfl, rfl, rfl, rfl⟩, ?_, ?_, ?_, ?_⟩
  · intro x base exts hl
    obtain ⟨_, _, hc, _, _⟩ := hl
    simp only [Bool.false_eq_true, if_false] at hc
    exact ⟨hc, hc⟩
  · intro x base exts hl k
    obtain ⟨_, _, hc, hh, _⟩ := hl
    simp only [if_true] at hc
    show Ptr.add x.leaf_data k = x.this_level_array_head.add k
    rw [hh]
    show Ptr.add x.current_dimension_array_data k = _
    rw [hc]
  · intro L x k
    show (match x.current_dimension_array_data with
      | some cs => if 0 ≤ (0 : Int) + k then cs.get? ((0 : Int) + k).toNat else none
      | none => none) = x.child k
    unfold dynarray.child dynarray.nodes
    cases x.current_dimension_array_data with
    | none => rfl
    | some cs => simp
  · intro L x
    cases L with
    | zero =>
      show (Ptr.add x.leaf_data x.current_dimension_array_size).diff x.leaf_data = _
      simp [Ptr.diff, Ptr.add, dynarray.size]
    | succ L =>
      show ((x.current_dimension_array_size : Int) - 0) = _
      simp [dynarray.size]

/-- C38. The self-assignment `a = a` of a non-empty top-level owner does not keep the
leaves. `operator=` has no test for it: `deallocate_array()` destroys the elements and
releases the buffer, and `copy_array(*this)` then reads the object it is writing. For the
sample array of two leaves `7, 8` the call returns an array of size `2` over a new block
whose elements were copy-constructed from their own raw storage: `a[0]` no longer holds
`7`, its value is indeterminate, and the old block is released. For the sample `2 x 3`
array the call has undefined behaviour: `other[0]` is read from the node array just
allocated, before any object is constructed in it. -/
theorem self_assignment_loses_leaves :
    sample_heap2.load (sample_vector.elem 0) = some (some 7) ∧
    (∃ h1 x1, copy_assign_self 0 sample_vector sample_heap2 = .ok (h1, x1) ∧
      x1.size = 2 ∧ x1.entire_array_data = (⟨3, 0⟩ : Ptr) ∧ h1.len 2 = none ∧
      h1.load (x1.elem 0) = some none ∧ h1.load (x1.elem 1) = some none) ∧
    (copy_assign_self 1 sample_owner sample_heap).is_undefined = true ∧
    (copy_assign 1 (initialise 1 0) sample_heap sample_owner).is_ok = true := by
  refine ⟨by decide, ⟨_, _, rfl, rfl, rfl, rfl, by decide, by decide⟩, by decide, by decide⟩

/-- C39. The member `fill(v)` on a canonically empty array has undefined behaviour in any
heap whose null block is not live: `this_level_array_head` and `this_level_array_tail`
are null, the loop test `p != this_level_array_tail + 1` holds at `p == nullptr`, and the
first pass writes `*nullptr = v`. A default-constructed array, an array constructed with
`count == 0` and a moved-from array are in that state. -/
theorem fill_of_empty_writes_null (L : Nat) (a : Allocator) (v : α) (h : Heap α)
    (hnull : h.len 0 = none) :
    (fill (initialise L a) v h).is_undefined = true ∧
    (fill (dynarray.mk_default L) v h).is_undefined = true ∧
    (∀ this other : dynarray L, (move_array L this other).2 = initialise L 0) ∧
    (initialise L a).this_level_array_head = Ptr.null ∧
    (initialise L a).this_level_array_tail = Ptr.null := by
  have key : ∀ b : Allocator, (fill (initialise L b) v h).is_undefined = true := by
    intro b
    have hv : h.valid (Ptr.null.add 0) = false := by
      simp [Heap.valid, Ptr.null, Ptr.add, hnull]
    have hn : ((Ptr.null.add 1).diff Ptr.null) = 1 := by decide
    simp [fill, initialise, hn, Heap.assign, hv, for_loop, Result.is_undefined]
  exact ⟨key a, key 0, fun _ _ => rfl, rfl, rfl⟩

/-- Witness of `fill_of_empty_writes_null`: the default-constructed array of arrays in
the sample heap. -/
theorem fill_of_empty_writes_null_witness :
    sample_heap.len 0 = none ∧
    (fill (initialise 1 0) (5 : Int) sample_heap).is_undefined = true ∧
    (fill (dynarray.mk_default 1) (5 : Int) sample_heap).is_undefined = true ∧
    (∀ this other : dynarray 1, (move_array 1 this other).2 = initialise 1 0) ∧
    (initialise 1 0).this_level_array_head = Ptr.null ∧
    (initialise 1 0).this_level_array_tail = Ptr.null :=
  ⟨rfl, fill_of_empty_writes_null 1 0 5 sample_heap rfl⟩

end vla

/-! ## The member `fill` (`src/dynarray.hpp`) -/

namespace vla
variable {α : Type}

theorem fill_spec {L : Nat} (x : dynarray L) (v : α) (h : Heap α) (base : Ptr) (n len : Nat)
    (hh : x.this_level_array_head = base)
    (ht : x.this_level_array_tail = (base.add (n : Nat)).add (-1))
    (hlen : h.len base.block = some len) (h0 : 0 ≤ base.off) (h1 : base.off + n ≤ len) :
    ∃ h', fill x v h = .ok h' ∧ h'.len = h.len ∧ h'.next = h.next ∧
      ∀ b i, h'.cell b i =
        if b = base.block ∧ base.off ≤ i ∧ i < base.off + n then some v else h.cell b i := by
  have hn : ((x.this_level_array_tail.add 1).diff x.this_level_array_head) = (n : Int) := by
    rw [hh, ht]; simp only [Ptr.diff, Ptr.add_off]; ring
  have hc : x.this_level_array_head.block = x.this_level_array_tail.block ∧
      (0 : Int) ≤ (n : Int) := by
    rw [hh, ht]; exact ⟨rfl, Int.natCast_nonneg _⟩
  have key : ∃ h', for_loop (fun i (h1 : Heap α) =>
      match h1.assign (x.this_level_array_head.add i) (some v) with
      | some h2 => Result.ok h2
      | none => Result.undefined) n h = .ok h' ∧
      (h'.len = h.len ∧ h'.next = h.next ∧
      ∀ b i, h'.cell b i =
        if b = base.block ∧ base.off ≤ i ∧ i < base.off + n then some v else h.cell b i) := by
    apply for_loop_inv _
      (fun k (t : Heap α) => t.len = h.len ∧ t.next = h.next ∧
        ∀ b i, t.cell b i =
          if b = base.block ∧ base.off ≤ i ∧ i < base.off + k then some v else h.cell b i)
    · refine ⟨rfl, rfl, fun b i => ?_⟩
      split_ifs with hc
      · exfalso; omega
      · rfl
    · intro k t hk ⟨hl, hnx, hcell⟩
      have hv : t.valid (x.this_level_array_head.add k) = true := by
        rw [hh, Heap.valid_iff t _ len (by rw [hl]; exact hlen)]
        simp only [Ptr.add_off]; omega
      obtain ⟨t', ht', hl', hn', hc'⟩ := Heap.assign_spec t _ (some v) hv
      refine ⟨t', by simp only [ht'], hl'.trans hl, hn'.trans hnx, ?_⟩
      intro b i
      rw [hc', hcell, hh]
      simp only [Ptr.add_block, Ptr.add_off]
      split_ifs <;> first | rfl | (exfalso; omega)
  obtain ⟨h', hf, hr⟩ := key
  refine ⟨h', ?_, hr⟩
  simp only [fill, hn, hc, and_self, if_true, Int.toNat_ofNat]
  exact hf

/-- C33. For a node `x` of a rectangular hierarchy (a top-level array, or a row or
sub-array at any depth) whose slice of `exts.prod` leaves lies in a live block,
`x.fill(v)` completes; afterwards every leaf `x[i0]...[ik]` holds `v`, every address
outside the slice of `x` (so every leaf of every sibling) holds what it held, no block
changes its length, and `x`, which `fill` does not write, still reports the sizes `exts`
at every level. -/
theorem fill_sets_subtree (L : Nat) (own : Bool) (x : dynarray L) (v : α) (h : Heap α)
    (base : Ptr) (exts : List Nat) (len : Nat) (hl : layout L own x base exts)
    (hlen : h.len base.block = some len) (h0 : 0 ≤ base.off)
    (h1 : base.off + (exts.prod : Nat) ≤ len) :
    ∃ h', fill x v h = .ok h' ∧
      (∀ idx, in_range exts idx →
        ∃ p, leaf_address L x idx = some p ∧ h'.load p = some (some v)) ∧
      (∀ p : Ptr, ¬ (p.block = base.block ∧ base.off ≤ p.off ∧
        p.off < base.off + (exts.prod : Nat)) → h'.load p = h.load p) ∧
      h'.len = h.len ∧ has_shape L x exts := by
  obtain ⟨hh, ht, _⟩ := layout_head L own x base exts hl
  obtain ⟨h', hf, hlen', _, hcell⟩ := fill_spec x v h base exts.prod len hh ht hlen h0 h1
  refine ⟨h', hf, fun idx hr => ?_, fun p hp => ?_, hlen', layout_has_shape L _ _ _ _ hl⟩
  · obtain ⟨rest, he⟩ := layout_size L own x base exts hl
    have hlt := in_range_flat_lt exts idx _ rest he hr
    refine ⟨_, layout_leaf_address L _ _ _ _ _ hl hr, ?_⟩
    have hv : h'.valid (base.add (flat_offset exts idx : Nat)) = true := by
      rw [Heap.valid_iff h' _ len (by rw [Ptr.add_block, hlen']; exact hlen)]
      simp only [Ptr.add_off]; omega
    simp only [Heap.load, hv, if_true, hcell, Ptr.add_block, Ptr.add_off]
    rw [if_pos ⟨trivial, by omega, by omega⟩]
  · have hvv : h'.valid p = h.valid p := by simp only [Heap.valid, hlen']
    simp only [Heap.load, hvv, hcell, if_neg hp]

/-- Witness of `fill_sets_subtree`: the row `a[1]` of the sample `2 x 3` array. -/
theorem fill_sets_subtree_witness :
    layout 0 false (sample_row 3 3) ⟨1, 3⟩ [3] ∧
    ∃ h', fill (sample_row 3 3) (9 : Int) sample_heap = .ok h' ∧
      (∀ idx, in_range [3] idx →
        ∃ p, leaf_address 0 (sample_row 3 3) idx = some p ∧ h'.load p = some (some 9)) ∧
      (∀ p : Ptr, ¬ (p.block = (⟨1, 3⟩ : Ptr).block ∧ (⟨1, 3⟩ : Ptr).off ≤ p.off ∧
        p.off < (⟨1, 3⟩ : Ptr).off + (([3] : List Nat).prod : Nat)) →
          h'.load p = sample_heap.load p) ∧
      h'.len = sample_heap.len ∧ has_shape 0 (sample_row 3 3) [3] :=
  ⟨by simp [layout, sample_row, Ptr.add, Ptr.null],
    fill_sets_subtree 0 false (sample_row 3 3) 9 sample_heap ⟨1, 3⟩ [3] 6
      (by simp [layout, sample_row, Ptr.add, Ptr.null]) rfl (by decide) (by decide)⟩

end vla

/-! ## Construction from an iterator pair (`src/dynarray.hpp`) -/

namespace vla
variable {α : Type}

theorem begin_add_deref {L : Nat} (x : dynarray (L + 1)) (cs : List (dynarray L))
    (hcs : x.current_dimension_array_data = some cs) (i r : Nat) :
    ((x.begin.add (i : Int)).add (r : Int)).deref = cs.get? (i + r) := by
  show (match x.current_dimension_array_data with
    | some cs => if 0 ≤ (0 : Int) + (i : Int) + (r : Int)
        then cs.get? ((0 : Int) + (i : Int) + (r : Int)).toNat else none
    | none => none) = cs.get? (i + r)
  rw [hcs]
  have h1 : (0 : Int) + (i : Int) + (r : Int) = ((i + r : Nat) : Int) := by push_cast; ring
  simp only [h1, Int.natCast_nonneg, if_true, Int.toNat_ofNat]

theorem begin_add_diff {L : Nat} (x : dynarray (L + 1)) (i j : Nat) (hij : i ≤ j) :
    ((x.begin.add (j : Int)).diff (x.begin.add (i : Int))).natAbs = j - i := by
  show (((0 : Int) + (j : Int)) - ((0 : Int) + (i : Int))).natAbs = j - i
  omega

theorem iter_loop_spec (L : Nat) (a : dynarray (L + 1)) (cs : List (dynarray L))
    (hcs : a.current_dimension_array_data = some cs) (h : Heap α) (start base : Ptr)
    (rest : List Nat) (i m : Nat)
    (hch : ∀ k c, cs.get? k = some c →
      layout L false c (base.add ((k * rest.prod : Nat) : Int)) rest)
    (hlen : i + m ≤ cs.length) (hpos : ∀ n ∈ rest, 1 ≤ n)
    (hmax : m * rest.prod ≤ PTRDIFF_MAX) (hB : rest.prod ≤ PTRDIFF_MAX) :
    ∃ cs', for_loop (iter_node_step start (a.begin.add (i : Int))) m (h, []) = .ok (h, cs') ∧
      cs'.length = m ∧
      ∀ r c, cs'.get? r = some c →
        layout L false c (start.add ((r * rest.prod : Nat) : Int)) rest := by
  obtain ⟨⟨hf, cs'⟩, hloop, hhf, hlencs, hlay⟩ := for_loop_inv
    (iter_node_step start (a.begin.add (i : Int)))
    (fun r (s : Heap α × List (dynarray L)) => s.1 = h ∧ s.2.length = r ∧
      ∀ j c, s.2.get? j = some c →
        layout L false c (start.add ((j * rest.prod : Nat) : Int)) rest)
    m (h, []) ⟨rfl, rfl, by simp⟩
    (by
      rintro r ⟨hr, cr⟩ hlt ⟨hhi, hlencr, hlay⟩
      simp only at hhi hlencr hlay
      subst hhi
      have hir : i + r < cs.length := by omega
      have hg : cs.get? (i + r) = some (cs.get ⟨i + r, hir⟩) := by
        rw [List.get?_eq_getElem?]; exact List.getElem?_eq_getElem hir
      have hlo := hch _ _ hg
      have hbs : (cs.get ⟨i + r, hir⟩).get_block_size = rest.prod :=
        layout_block_size L false _ _ rest hlo hB
      have hrB : (r + 1) * rest.prod ≤ m * rest.prod := Nat.mul_le_mul_right _ hlt
      have hsm : size_mul r rest.prod = r * rest.prod :=
        size_mul_eq (le_trans (by rw [Nat.succ_mul] at hrB; omega) hmax)
      obtain ⟨x, hx, hxl⟩ := copy_array_at_spec L (initialise L 0) (cs.get ⟨i + r, hir⟩) hr
        (start.add ((r * rest.prod : Nat) : Int)) _ rest hlo hpos hB
      refine ⟨(hr, cr ++ [x]), ?_, rfl, by simp [hlencr], ?_⟩
      · simp only [iter_node_step, begin_add_deref a cs hcs, hg, hbs, hsm, hx]
      · intro j c hj
        rcases get?_snoc hj with ⟨_, hj'⟩ | ⟨hj', hcx⟩
        · exact hlay j c hj'
        · rw [hj', hcx, hlencr]; exact hxl)
  simp only at hhf hlencs hlay
  subst hhf
  exact ⟨cs', hloop, hlencs, hlay⟩

/-- The construction from the iterator pair `(a.begin() + i, a.begin() + j)` of a
rectangular owner: the result, its layout in a fresh block, and the cells of that block. -/
theorem mk_iterators_spec (L : Nat) (h : Heap α) (a : dynarray (L + 1)) (b n0 : Nat)
    (rest : List Nat) (i j : Nat)
    (hl : layout (L + 1) true a ⟨b, 0⟩ (n0 :: rest)) (hlen : h.len b = some (n0 * rest.prod))
    (hb : b ≤ h.next) (hpos : ∀ n ∈ rest, 1 ≤ n) (hmax : n0 * rest.prod ≤ PTRDIFF_MAX)
    (hij : i < j) (hj : j ≤ n0) :
    ∃ h' c, dynarray.mk_iterators (L + 1) h (a.begin.add (i : Int)) (a.begin.add (j : Int))
        = .ok (h', c) ∧
      layout (L + 1) true c ⟨h.next + 1, 0⟩ ((j - i) :: rest) ∧ h'.next = h.next + 1 ∧
      (∀ d, h'.len d = if d = h.next + 1 then some ((j - i) * rest.prod) else h.len d) ∧
      ∀ d k, h'.cell d k =
        if d = h.next + 1 then
          (if 0 ≤ k ∧ k < (((j - i) * rest.prod : Nat) : Int)
            then h.cell b (((i * rest.prod : Nat) : Int) + k) else none)
        else h.cell d k := by
  obtain ⟨rest', cs, he, hent, hcs, hlencs, hh, ht, hch⟩ := hl
  have hsz : a.current_dimension_array_size = n0 := by
    have := List.head_eq_of_cons_eq he; exact this.symm
  have hrest : rest' = rest := by
    have := List.tail_eq_of_cons_eq he; exact this.symm
  subst hrest
  rw [hsz] at hlencs
  obtain ⟨m, hm⟩ : ∃ m, j = i + m := ⟨j - i, by omega⟩
  subst hm
  have hm1 : 1 ≤ m := by omega
  have hB1 : 1 ≤ rest'.prod := prod_pos_of_pos _ hpos
  generalize hBdef : rest'.prod = B at *
  have hjm : i + m - i = m := by omega
  rw [hjm]
  have hadd : (i + m) * B = i * B + m * B := Nat.add_mul _ _ _
  have hle : (i + m) * B ≤ n0 * B := Nat.mul_le_mul_right _ hj
  have hmB : m * B ≤ PTRDIFF_MAX := by omega
  have hBmax : B ≤ PTRDIFF_MAX := le_trans (Nat.le_mul_of_pos_left _ hm1) hmB
  have hmB1 : 1 ≤ m * B := Nat.mul_pos hm1 hB1
  -- the two ends of the range
  have hi' : i < cs.length := by omega
  have hgi : cs.get? i = some (cs.get ⟨i, hi'⟩) := by
    rw [List.get?_eq_getElem?]; exact List.getElem?_eq_getElem hi'
  have hj' : i + m - 1 < cs.length := by omega
  have hgj : cs.get? (i + m - 1) = some (cs.get ⟨i + m - 1, hj'⟩) := by
    rw [List.get?_eq_getElem?]; exact List.getElem?_eq_getElem hj'
  have hfirst : (a.begin.add ((i : Nat) : Int)).deref = some (cs.get ⟨i, hi'⟩) := by
    have := begin_add_deref a cs hcs i 0
    simp only [Nat.add_zero] at this
    rw [← hgi, ← this]
    show _ = ((a.begin.add (i : Int)).add ((0 : Nat) : Int)).deref
    congr 1
  have hlast : ((a.begin.add ((i + m : Nat) : Int)).add (-1)).deref
      = some (cs.get ⟨i + m - 1, hj'⟩) := by
    rw [← hgj]
    show (match a.current_dimension_array_data with
      | some cs => if 0 ≤ (0 : Int) + ((i + m : Nat) : Int) + (-1)
          then cs.get? ((0 : Int) + ((i + m : Nat) : Int) + (-1)).toNat else none
      | none => none) = _
    rw [hcs]
    have h1 : (0 : Int) + ((i + m : Nat) : Int) + (-1) = ((i + m - 1 : Nat) : Int) := by omega
    simp only [h1, Int.natCast_nonneg, if_true, Int.toNat_ofNat]
  have hli := hch _ _ hgi
  have hlj := hch _ _ hgj
  obtain ⟨hhi, _, _⟩ := layout_head L false _ _ _ hli
  obtain ⟨_, htj, _⟩ := layout_head L false _ _ _ hlj
  rw [hBdef] at htj
  have hjB : (i + m - 1) * B + B = (i + m) * B := by
    have : i + m = (i + m - 1) + 1 := by omega
    nth_rewrite 2 [this]
    rw [Nat.succ_mul]
  have hsize : (((cs.get ⟨i + m - 1, hj'⟩).this_level_array_tail.diff
      (cs.get ⟨i, hi'⟩).this_level_array_head + 1) % (SIZE_MOD : Int)).toNat = m * B := by
    rw [hhi, htj]
    simp only [Ptr.diff, Ptr.add_off]
    have h2 : (0 : Int) + (((i + m - 1) * B : Nat) : Int) + ((B : Nat) : Int) + -1
        - ((0 : Int) + ((i * B : Nat) : Int)) + 1 = ((m * B : Nat) : Int) := by
      have : (((i + m - 1) * B : Nat) : Int) + ((B : Nat) : Int) = (((i + m) * B : Nat) : Int) := by
        rw [← hjB]; push_cast; ring
      rw [hadd] at this
      push_cast at this ⊢
      omega
    rw [h2]
    have h3 : ((m * B : Nat) : Int) % (SIZE_MOD : Int) = ((m * B : Nat) : Int) := by
      apply Int.emod_eq_of_lt (Int.natCast_nonneg _)
      unfold SIZE_MOD; unfold PTRDIFF_MAX at hmB
      have : m * B < 2 ^ 64 := by omega
      exact_mod_cast this
    rw [h3]; exact Int.toNat_ofNat (m * B)
  have hsize2 := hsize
  rw [hhi] at hsize2
  have hne : h.next + 1 ≠ b := by omega
  obtain ⟨h2, hc, hl2, hn2, hcell2⟩ := copy_n_spec (⟨h.next + 1, 0⟩ : Ptr)
    ((⟨b, 0⟩ : Ptr).add ((i * B : Nat) : Int)) (m * B)
    (h.allocate (m * B)).2 (n0 * B) (m * B)
    (by simp only [Heap.allocate, Ptr.add_block]; rw [if_neg (Ne.symm hne)]; exact hlen)
    (by simp only [Ptr.add_off]; omega)
    (by simp only [Ptr.add_off]; omega)
    (by simp [Heap.allocate]) (le_refl _) (by simp) (by simpa [Ptr.add_block] using hne)
  obtain ⟨cs', hloop, hlencs', hlay⟩ := iter_loop_spec L a cs hcs h2 ⟨h.next + 1, 0⟩ ⟨b, 0⟩
    rest' i m (by rw [hBdef]; exact hch) (by omega) hpos (by rw [hBdef]; exact hmB)
    (by rw [hBdef]; exact hBmax)
  rw [hBdef] at hlay
  have hcount := begin_add_diff a i (i + m) (by omega)
  rw [hjm] at hcount
  have hm0 : ¬ m = 0 := by omega
  have hp : (h.allocate (m * B)).1 = (⟨h.next + 1, 0⟩ : Ptr) := rfl
  refine ⟨h2, _, by
    simp only [dynarray.mk_iterators, copy_array_iter, hcount, hm0, if_false, hfirst, hlast,
      hsize, hsize2, hhi, hp, hc, hloop]
    rfl, ?_, hn2, ?_, ?_⟩
  · refine ⟨rest', cs', rfl, rfl, rfl, hlencs', rfl, ?_, ?_⟩
    · simp only [List.prod_cons, hBdef]
    · rw [hBdef]; exact hlay
  · intro d; rw [hl2]; rfl
  · intro d k
    rw [hcell2]
    simp only [Heap.allocate, Ptr.add_block, Ptr.add_off]
    split_ifs <;> first | rfl | (exfalso; omega) | (congr 1; omega)

/-- C34. For a rectangular top-level owner `a` of extents `n0, rest...` (for a 2-D array,
`rest` is the row length) and `0 ≤ i < j ≤ n0`, the array `c` constructed from the
iterator pair `(a.begin() + i, a.begin() + j)` is built: it is a top-level owner with
`c.size() == j - i` whose elements have the sizes `rest` at every level, its buffer is a
live block other than the one of `a`, the leaf `c[r][k...]` holds what `a[i + r][k...]`
holds for every `r < j - i` and every inner index, and the leaves of `a` are what they
were. -/
theorem iterator_pair_construction (L : Nat) (h : Heap α) (a : dynarray (L + 1)) (n0 : Nat)
    (rest : List Nat) (i j : Nat) (ha : owns h (L + 1) a (n0 :: rest)) (hij : i < j)
    (hj : j ≤ n0) :
    ∃ h' c, dynarray.mk_iterators (L + 1) h (a.begin.add (i : Int)) (a.begin.add (j : Int))
        = .ok (h', c) ∧
      owns h' (L + 1) c ((j - i) :: rest) ∧ c.size = j - i ∧
      has_shape (L + 1) c ((j - i) :: rest) ∧ has_shape (L + 1) a (n0 :: rest) ∧
      c.entire_array_data ≠ Ptr.null ∧
      c.entire_array_data.block ≠ a.entire_array_data.block ∧
      ∀ r idx, r < j - i → in_range rest idx →
        ∃ p q, leaf_address (L + 1) a ((i + r) :: idx) = some p ∧
          leaf_address (L + 1) c (r :: idx) = some q ∧
          h.valid p = true ∧ h'.valid q = true ∧
          h'.load q = h.load p ∧ h'.load p = h.load p := by
  obtain ⟨b, hl, hlen, hb, hpos, hmax⟩ := ha
  have hpos1 : ∀ n ∈ rest, 1 ≤ n := fun n hn => hpos n (List.mem_cons_of_mem _ hn)
  rw [List.prod_cons] at hlen hmax
  obtain ⟨h', c, hc, hlc, hn', hlen', hcell'⟩ :=
    mk_iterators_spec L h a b n0 rest i j hl hlen hb hpos1 hmax hij hj
  have hentc := (layout_head (L + 1) true c _ _ hlc).2.2
  have henta := (layout_head (L + 1) true a _ _ hl).2.2
  simp only [if_true] at hentc henta
  have hne : b ≠ h.next + 1 := by omega
  have hB1 : 1 ≤ rest.prod := prod_pos_of_pos _ hpos1
  have hm1 : 1 ≤ j - i := by omega
  have hle : (j - i) * rest.prod ≤ n0 * rest.prod := Nat.mul_le_mul_right _ (by omega)
  have hsizec : c.size = j - i := by
    obtain ⟨r1, he1⟩ := layout_size (L + 1) true c _ _ hlc
    have := List.head_eq_of_cons_eq he1
    exact this.symm
  -- the extents below the first are not empty
  obtain ⟨rest2, s, hrs⟩ : ∃ rest2 s, rest = s :: rest2 := by
    obtain ⟨r1, he1, _, _, _, hex, hch⟩ := layout_child hl
    have hsz : a.current_dimension_array_size = n0 := (List.head_eq_of_cons_eq he1).symm
    have hr1 : r1 = rest := (List.tail_eq_of_cons_eq he1).symm
    obtain ⟨c0, hc0⟩ := hex 0 (by rw [hsz]; omega)
    obtain ⟨_, hl0⟩ := hch 0 c0 hc0
    obtain ⟨r0, he0⟩ := layout_size L false c0 _ _ hl0
    exact ⟨r0, c0.current_dimension_array_size, by rw [← hr1]; exact he0⟩
  refine ⟨h', c, hc, ⟨h.next + 1, hlc, by rw [hlen', if_pos rfl, List.prod_cons], by omega,
      ?_, by rw [List.prod_cons]; omega⟩, hsizec, layout_has_shape _ _ _ _ _ hlc,
    layout_has_shape _ _ _ _ _ hl, ?_, ?_, fun r idx hr hidx => ?_⟩
  · intro n hn
    rcases List.mem_cons.mp hn with h1 | h1
    · omega
    · exact hpos1 n h1
  · rw [hentc]; intro hh; simpa [Ptr.null] using congrArg Ptr.block hh
  · rw [hentc, henta]; exact fun hh => hne hh.symm
  have hfo := in_range_flat_lt rest idx s rest2 hrs hidx
  have hra : in_range (n0 :: rest) ((i + r) :: idx) := ⟨by omega, hidx⟩
  have hrc : in_range ((j - i) :: rest) (r :: idx) := ⟨hr, hidx⟩
  have hoa : flat_offset (n0 :: rest) ((i + r) :: idx) = (i + r) * rest.prod + flat_offset rest idx :=
    rfl
  have hoc : flat_offset ((j - i) :: rest) (r :: idx) = r * rest.prod + flat_offset rest idx := rfl
  generalize flat_offset rest idx = fo at *
  generalize rest.prod = B at *
  have hadd : (i + r) * B = i * B + r * B := Nat.add_mul _ _ _
  have hirB : (i + r + 1) * B ≤ n0 * B := Nat.mul_le_mul_right _ (by omega)
  have hirB2 : (i + r + 1) * B = (i + r) * B + B := Nat.succ_mul _ _
  have hrB : (r + 1) * B ≤ (j - i) * B := Nat.mul_le_mul_right _ hr
  have hrB2 : (r + 1) * B = r * B + B := Nat.succ_mul _ _
  have hvp : h.valid ((⟨b, 0⟩ : Ptr).add ((i + r) * B + fo : Nat)) = true := by
    rw [Heap.valid_iff h _ (n0 * B) (by rw [Ptr.add_block]; exact hlen)]
    simp only [Ptr.add_off]; omega
  have hvp' : h'.valid ((⟨b, 0⟩ : Ptr).add ((i + r) * B + fo : Nat)) = true := by
    rw [Heap.valid_iff h' _ (n0 * B) (by rw [Ptr.add_block, hlen', if_neg hne]; exact hlen)]
    simp only [Ptr.add_off]; omega
  have hvq : h'.valid ((⟨h.next + 1, 0⟩ : Ptr).add (r * B + fo : Nat)) = true := by
    rw [Heap.valid_iff h' _ ((j - i) * B) (by rw [Ptr.add_block, hlen', if_pos rfl])]
    simp only [Ptr.add_off]; omega
  refine ⟨_, _, by rw [layout_leaf_address _ _ _ _ _ _ hl hra, hoa],
    by rw [layout_leaf_address _ _ _ _ _ _ hlc hrc, hoc], hvp, hvq, ?_, ?_⟩
  · simp only [Heap.load, hvp, hvq, if_true, hcell', Ptr.add_block, Ptr.add_off]
    rw [if_pos ⟨by omega, by omega⟩]
    congr 2
    omega
  · simp only [Heap.load, hvp, hvp', if_true, hcell', Ptr.add_block, if_neg hne]

/-- Witness of `iterator_pair_construction`: the second row of the sample `2 x 3` owner,
`(a.begin() + 1, a.begin() + 2)`. -/
theorem iterator_pair_construction_witness :
    owns sample_heap 1 sample_owner [2, 3] ∧
    ∃ h' c, dynarray.mk_iterators 1 sample_heap (sample_owner.begin.add ((1 : Nat) : Int))
        (sample_owner.begin.add ((2 : Nat) : Int)) = .ok (h', c) ∧
      owns h' 1 c [2 - 1, 3] ∧ c.size = 2 - 1 ∧
      has_shape 1 c [2 - 1, 3] ∧ has_shape 1 sample_owner [2, 3] ∧
      c.entire_array_data ≠ Ptr.null ∧
      c.entire_array_data.block ≠ sample_owner.entire_array_data.block ∧
      ∀ r idx, r < 2 - 1 → in_range [3] idx →
        ∃ p q, leaf_address 1 sample_owner ((1 + r) :: idx) = some p ∧
          leaf_address 1 c (r :: idx) = some q ∧
          sample_heap.valid p = true ∧ h'.valid q = true ∧
          h'.load q = sample_heap.load p ∧ h'.load p = sample_heap.load p :=
  ⟨sample_owner_owns,
    iterator_pair_construction 0 sample_heap sample_owner 2 [3] 1 2 sample_owner_owns
      (by decide) (by decide)⟩

end vla

/-! ## Move assignment in `src/vla_nest/dynarray_lite.hpp` -/

namespace vla_nest
open vla

/-- C35. Move assignment into a non-empty target can change the structure of the target.
`operator=(dynarray &&)` keeps the target and moves values only when the two outer sizes
differ; when they are equal it tears the target down and rebuilds it from the source. The
`2 x 3` array `T` (leaves `1`) and the `2 x 5` array `S` (leaves `2`) are built by the
constructor and `T = std::move(S)` is run: it completes, `T` has outer size `2` before
and after, but its rows have size `3` before and size `5` afterwards. Move-assigned from
a `3 x 5` array instead, `T` keeps its outer size `2` and its rows of size `3`. -/
theorem lite_move_assignment_rebuilds :
    ((dynarray.mk_counts 1 (Heap.empty : Heap Int) 2 [⟨3, 0⟩, ⟨0, 1⟩]).state.bind fun s1 =>
      (dynarray.mk_counts 1 s1.1 2 [⟨5, 0⟩, ⟨0, 2⟩]).state.bind fun s2 =>
        (move_assign (fun v : Int => v) (fun L => dynarray.mk_default L) 1
            s1.2 s2.1 s2.2).state.map fun s3 =>
          ((s1.2.size, (s1.2.child 0).map dynarray.size, (s1.2.child 1).map dynarray.size),
           (s2.2.size, (s2.2.child 0).map dynarray.size, (s2.2.child 1).map dynarray.size),
           (s3.2.1.size, (s3.2.1.child 0).map dynarray.size,
             (s3.2.1.child 1).map dynarray.size)))
      = some ((2, some 3, some 3), (2, some 5, some 5), (2, some 5, some 5)) ∧
    ((dynarray.mk_counts 1 (Heap.empty : Heap Int) 2 [⟨3, 0⟩, ⟨0, 1⟩]).state.bind fun s1 =>
      (dynarray.mk_counts 1 s1.1 3 [⟨5, 0⟩, ⟨0, 2⟩]).state.bind fun s2 =>
        (move_assign (fun v : Int => v) (fun L => dynarray.mk_default L) 1
            s1.2 s2.1 s2.2).state.map fun s3 =>
          ((s2.2.size, (s2.2.child 0).map dynarray.size),
           (s3.2.1.size, (s3.2.1.child 0).map dynarray.size,
             (s3.2.1.child 1).map dynarray.size)))
      = some ((3, some 5), (2, some 3, some 3)) := by
  constructor
  · decide
  · decide

end vla_nest

/-! ## The three variants on a 2-D construction -/

namespace vla
variable {α : Type}

theorem flat_offset_pair (n0 n1 i j : Nat) : flat_offset [n0, n1] [i, j] = i * n1 + j := by
  simp [flat_offset]

/-- The array `dynarray<dynarray<T>>(n0, n1, v)` of `src/dynarray.hpp`: its shape and its
leaves. -/
theorem mk_counts_pair_spec [Inhabited α] (h : Heap α) (n0 : Nat) (a1 a2 : Arg α)
    (h0 : 1 ≤ n0) (h1 : 1 ≤ a1.toSize) (hmax : n0 * a1.toSize ≤ PTRDIFF_MAX) :
    ∃ h' x, dynarray.mk_counts 1 h n0 [a1, a2] = .ok (h', x) ∧
      has_shape 1 x [n0, a1.toSize] ∧ x.size = n0 ∧
      ∀ i j, i < n0 → j < a1.toSize →
        ∃ p, leaf_address 1 x [i, j] = some p ∧ h'.load p = some (some a2.toLeaf) := by
  obtain ⟨h', x, hx, hl, hn, hlen, hcell⟩ := allocate_array_spec 1 (initialise 1 0) h n0
    [a1, a2] (by simp) (by simp [extents]; exact ⟨h0, h1⟩) (by simpa [extents] using hmax)
  have hext : extents 1 n0 [a1, a2] = [n0, a1.toSize] := rfl
  rw [hext] at hl hlen hcell
  simp only [List.prod_cons, List.prod_nil, mul_one] at hlen hcell
  obtain ⟨r1, he1⟩ := layout_size 1 true x _ _ hl
  have hsz : x.size = n0 := (List.head_eq_of_cons_eq he1).symm
  refine ⟨h', x, hx, layout_has_shape 1 _ _ _ _ hl, hsz, fun i j hi hj => ?_⟩
  have hr : in_range [n0, a1.toSize] [i, j] := ⟨hi, hj, trivial⟩
  refine ⟨_, layout_leaf_address 1 _ _ _ _ _ hl hr, ?_⟩
  rw [flat_offset_pair]
  have hiB : (i + 1) * a1.toSize ≤ n0 * a1.toSize := Nat.mul_le_mul_right _ hi
  have hsucc : (i + 1) * a1.toSize = i * a1.toSize + a1.toSize := Nat.succ_mul _ _
  have hlt : i * a1.toSize + j < n0 * a1.toSize := by omega
  have hvalid : h'.valid ((⟨h.next + 1, 0⟩ : Ptr).add ((i * a1.toSize + j : Nat) : Int)) = true := by
    rw [Heap.valid_iff h' _ (n0 * a1.toSize) (by rw [Ptr.add_block, hlen, if_pos rfl])]
    simp only [Ptr.add_off]
    omega
  simp only [Heap.load, hvalid, if_true, hcell, Ptr.add_block, Ptr.add_off]
  rw [if_pos ⟨Or.inl (by simp), by omega, by omega⟩]
  rfl

end vla

namespace vla_neat
open vla
variable {α : Type}

/-- The array `dynarray<T, 2>(n0, n1, v)` of `src/vla_neat/dynarray.hpp`: its shape and
its leaves. -/
theorem neat_mk_counts_pair_spec [Inhabited α] (h : Heap α) (n0 : Nat) (a1 a2 : Arg α)
    (h0 : 1 ≤ n0) (h1 : 1 ≤ a1.toSize) (hmax : n0 * a1.toSize ≤ PTRDIFF_MAX) :
    ∃ h' x, dynarray.mk_counts 1 h n0 [a1, a2] = .ok (h', x) ∧
      has_shape 1 x [n0, a1.toSize] ∧ x.size = n0 ∧
      ∀ i j, i < n0 → j < a1.toSize →
        ∃ p, leaf_address 1 x [i, j] = some p ∧ h'.load p = some (some a2.toLeaf) := by
  have hpos : ∀ n ∈ extents 1 n0 [a1, a2], 1 ≤ n := by simp [extents]; exact ⟨h0, h1⟩
  have hmax' : (extents 1 n0 [a1, a2]).prod ≤ PTRDIFF_MAX := by simpa [extents] using hmax
  obtain ⟨h', x, hx, hl, hn, hlen, hcell⟩ := neat_allocate_array_spec 1 (initialise 1 0) h n0
    [a1, a2] (by simp) hpos hmax'
  have hsh := neat_layout_has_shape 1 true x _ _ hl (by simp) hmax' hpos
  have hext : extents 1 n0 [a1, a2] = [n0, a1.toSize] := rfl
  rw [hext] at hl hlen hcell hsh
  simp only [List.prod_cons, List.prod_nil, mul_one] at hlen hcell
  have hsz : x.size = n0 := by
    obtain ⟨r1, he1, _⟩ := hsh
    exact (List.head_eq_of_cons_eq he1).symm
  refine ⟨h', x, hx, hsh, hsz, fun i j hi hj => ?_⟩
  have hr : in_range [n0, a1.toSize] [i, j] := ⟨hi, hj, trivial⟩
  refine ⟨_, neat_layout_leaf_address 1 _ _ _ _ _ hl hr, ?_⟩
  rw [flat_offset_pair]
  have hiB : (i + 1) * a1.toSize ≤ n0 * a1.toSize := Nat.mul_le_mul_right _ hi
  have hsucc : (i + 1) * a1.toSize = i * a1.toSize + a1.toSize := Nat.succ_mul _ _
  have hlt : i * a1.toSize + j < n0 * a1.toSize := by omega
  have hvalid : h'.valid ((⟨h.next + 1, 0⟩ : Ptr).add ((i * a1.toSize + j : Nat) : Int)) = true := by
    rw [Heap.valid_iff h' _ (n0 * a1.toSize) (by rw [Ptr.add_block, hlen, if_pos rfl])]
    simp only [Ptr.add_off]
    omega
  simp only [Heap.load, hvalid, if_true, hcell, Ptr.add_block, Ptr.add_off]
  rw [if_pos ⟨by omega, by omega⟩]
  rfl

end vla_neat

namespace vla_nest
open vla
variable {α : Type}

/-- The array `dynarray<T>(count, v)` of `src/vla_nest/dynarray_lite.hpp`: a fresh block
of `count` leaves, each built from the arguments. -/
theorem lite_allocate_leaf_spec [Inhabited α] (this : dynarray 0) (h : Heap α) (count : Nat)
    (args : List (Arg α)) (hc1 : 1 ≤ count) (hmax : count ≤ PTRDIFF_MAX) :
    ∃ h', allocate_array 0 this h count args =
        .ok (h', { this with
          current_dimension_array_size := count
          current_dimension_array_data := (⟨h.next + 1, 0⟩ : Ptr) }) ∧
      h'.next = h.next + 1 ∧
      (∀ b, h'.len b = if b = h.next + 1 then some count else h.len b) ∧
      ∀ b i, h'.cell b i =
        if b = h.next + 1 then
          (if 0 ≤ i ∧ i < (count : Int) then some (make_leaf args) else none)
        else h.cell b i := by
  have hv : verify_size count = false := by simp [verify_size]; exact hmax
  have hv1 : verify_size 1 = false := by simp [verify_size, PTRDIFF_MAX]
  have hsm : size_mul 1 count = count := by rw [size_mul_eq (by simpa using hmax)]; simp
  obtain ⟨h', hc, hl, hn, hcell⟩ := construct_n_spec (⟨h.next + 1, 0⟩ : Ptr)
    (some (make_leaf args)) count (h.allocate count).2 count (by simp [Heap.allocate])
    (le_refl _) (by simp)
  have hg : ¬ (0 > args.length ∨ count = 0) := by omega
  simp only [Heap.allocate] at hc
  refine ⟨h', by
    simp only [allocate_array, hv, hv1, hsm, Bool.false_eq_true, if_false, hg,
      Heap.allocate, hc], hn, ?_, ?_⟩
  · intro b; rw [hl]; rfl
  · intro b i
    rw [hcell]
    simp only [Heap.allocate]
    split_ifs <;> first | rfl | (exfalso; omega)

/-- The array `dynarray<dynarray<T>>(n0, n1, v)` of `src/vla_nest/dynarray_lite.hpp`: row
`i` is an array of `n1` leaves in its own block, the block `i + 1` after the blocks of the
heap before the call, and every leaf is built from `v`. -/
theorem lite_mk_counts_pair_blocks [Inhabited α] (h : Heap α) (n0 : Nat) (a1 a2 : Arg α)
    (h0 : 1 ≤ n0) (h1 : 1 ≤ a1.toSize) (hmax : n0 * a1.toSize ≤ PTRDIFF_MAX) :
    ∃ h' cs, dynarray.mk_counts 1 h n0 [a1, a2] =
        .ok (h', { dynarray.mk_default 1 with
          current_dimension_array_size := n0
          current_dimension_array_data := some cs }) ∧
      cs.length = n0 ∧
      (∀ i, i < n0 → cs.get? i = some
        { current_dimension_array_size := a1.toSize
          current_dimension_array_data := (⟨h.next + 1 + i, 0⟩ : Ptr)
          array_allocator := 0 }) ∧
      (∀ i, i < n0 → h'.len (h.next + 1 + i) = some a1.toSize) ∧
      ∀ i (k : Int), i < n0 → 0 ≤ k → k < (a1.toSize : Int) →
        h'.cell (h.next + 1 + i) k = some a2.toLeaf := by
  have hn0 : n0 ≤ PTRDIFF_MAX := le_trans (Nat.le_mul_of_pos_right _ h1) hmax
  have hn1 : a1.toSize ≤ PTRDIFF_MAX := le_trans (Nat.le_mul_of_pos_left _ h0) hmax
  have hv0 : verify_size n0 = false := by simp [verify_size]; exact hn0
  have hv1 : verify_size a1.toSize = false := by simp [verify_size]; exact hn1
  have hsm : size_mul a1.toSize n0 = n0 * a1.toSize := by
    rw [size_mul_eq (by rw [Nat.mul_comm]; exact hmax), Nat.mul_comm]
  have hvN : verify_size (n0 * a1.toSize) = false := by simp [verify_size]; exact hmax
  have hN1 : 1 ≤ n0 * a1.toSize := Nat.mul_pos h0 h1
  have hg : ¬ (0 + 1 > [a1, a2].length ∨ n0 * a1.toSize = 0) := by
    simp only [List.length_cons, List.length_nil]; omega
  have key : ∃ t, for_loop (element_step (fun h1 =>
      allocate_array 0 (dynarray.mk_default 0) h1 a1.toSize [a2])) n0 (h, []) = .ok t ∧
      (t.2.length = n0 ∧ t.1.next = h.next + n0 ∧
      (∀ i, i < n0 → t.2.get? i = some
        { current_dimension_array_size := a1.toSize
          current_dimension_array_data := (⟨h.next + 1 + i, 0⟩ : Ptr)
          array_allocator := 0 }) ∧
      (∀ i, i < n0 → t.1.len (h.next + 1 + i) = some a1.toSize) ∧
      ∀ i (k : Int), i < n0 → 0 ≤ k → k < (a1.toSize : Int) →
        t.1.cell (h.next + 1 + i) k = some a2.toLeaf) := by
    apply for_loop_inv _
      (fun r (t : Heap α × List (dynarray 0)) => t.2.length = r ∧ t.1.next = h.next + r ∧
        (∀ i, i < r → t.2.get? i = some
          { current_dimension_array_size := a1.toSize
            current_dimension_array_data := (⟨h.next + 1 + i, 0⟩ : Ptr)
            array_allocator := 0 }) ∧
        (∀ i, i < r → t.1.len (h.next + 1 + i) = some a1.toSize) ∧
        ∀ i (k : Int), i < r → 0 ≤ k → k < (a1.toSize : Int) →
          t.1.cell (h.next + 1 + i) k = some a2.toLeaf)
    · exact ⟨rfl, rfl, fun i hi => absurd hi (by omega), fun i hi => absurd hi (by omega),
        fun i k hi => absurd hi (by omega)⟩
    · rintro r ⟨t, cr⟩ hr ⟨hlen, hnx, hget, hlenb, hcell⟩
      simp only at hlen hnx hget hlenb hcell
      obtain ⟨t', hal, hn', hl', hc'⟩ := lite_allocate_leaf_spec (dynarray.mk_default 0) t
        a1.toSize [a2] h1 hn1
      refine ⟨(t', cr ++ [{ current_dimension_array_size := a1.toSize
                            current_dimension_array_data := (⟨t.next + 1, 0⟩ : Ptr)
                            array_allocator := 0 }]), by
          simp only [element_step, hal]
          rfl, by simp [hlen], by rw [hn', hnx]; omega, ?_, ?_, ?_⟩
      · intro i hi
        rcases Nat.lt_or_ge i r with hlt | hge
        · rw [List.get?_eq_getElem?, List.getElem?_append_left (by omega),
            ← List.get?_eq_getElem?]
          exact hget i hlt
        · have hir : i = r := by omega
          subst hir
          rw [List.get?_eq_getElem?, List.getElem?_append_right (by omega)]
          simp only [hlen, Nat.sub_self, List.getElem?_cons_zero, dynarray.mk_default, hnx]
          congr 3
          omega
      · intro i hi
        rw [hl', hnx]
        rcases Nat.lt_or_ge i r with hlt | hge
        · rw [if_neg (by omega)]; exact hlenb i hlt
        · rw [if_pos (by omega)]
      · intro i k hi hk0 hk1
        rw [hc', hnx]
        rcases Nat.lt_or_ge i r with hlt | hge
        · rw [if_neg (by omega)]; exact hcell i k hlt hk0 hk1
        · rw [if_pos (by omega), if_pos ⟨hk0, hk1⟩]; rfl
  obtain ⟨⟨t, cs⟩, hloop, hlen, _, hget, hlenb, hcell⟩ := key
  refine ⟨t, cs, ?_, hlen, hget, hlenb, hcell⟩
  unfold dynarray.mk_counts
  rw [allocate_array]
  simp only [hv0, expand_counts, hv1, hsm, hvN, Bool.false_eq_true, if_false, hg, hloop]

/-- C37. For all extents `n0, n1 ≥ 1` of product at most `PTRDIFF_MAX` and every leaf
argument, the 2-D arrays built by the three variants from `(n0, n1, v)`, each in a heap
of its own, are all constructed and are observationally equal: each reports the outer
size `n0`, each row of each reports the size `n1`, and for every index pair `(i, j)`
within the sizes `operator[]` reaches a live leaf that holds the leaf built from `v`, in
all three. -/
theorem three_variants_agree [Inhabited α] (h1 h2 h3 : Heap α) (n0 : Nat) (a1 a2 : Arg α)
    (hn0 : 1 ≤ n0) (hn1 : 1 ≤ a1.toSize) (hmax : n0 * a1.toSize ≤ PTRDIFF_MAX) :
    ∃ g1 x1 g2 x2 g3 x3,
      vla.dynarray.mk_counts 1 h1 n0 [a1, a2] = .ok (g1, x1) ∧
      vla_neat.dynarray.mk_counts 1 h2 n0 [a1, a2] = .ok (g2, x2) ∧
      vla_nest.dynarray.mk_counts 1 h3 n0 [a1, a2] = .ok (g3, x3) ∧
      vla.dynarray.size x1 = n0 ∧ vla_neat.dynarray.size x2 = n0 ∧
      vla_nest.dynarray.size x3 = n0 ∧
      vla.has_shape 1 x1 [n0, a1.toSize] ∧ vla_neat.has_shape 1 x2 [n0, a1.toSize] ∧
      vla_nest.has_shape 1 x3 [n0, a1.toSize] ∧
      ∀ i j, i < n0 → j < a1.toSize →
        ∃ p1 p2 p3, vla.leaf_address 1 x1 [i, j] = some p1 ∧
          vla_neat.leaf_address 1 x2 [i, j] = some p2 ∧
          vla_nest.leaf_address 1 x3 [i, j] = some p3 ∧
          g1.load p1 = some (some a2.toLeaf) ∧ g2.load p2 = some (some a2.toLeaf) ∧
          g3.load p3 = some (some a2.toLeaf) := by
  obtain ⟨g1, x1, hx1, hs1, hz1, hv1⟩ := vla.mk_counts_pair_spec h1 n0 a1 a2 hn0 hn1 hmax
  obtain ⟨g2, x2, hx2, hs2, hz2, hv2⟩ :=
    vla_neat.neat_mk_counts_pair_spec h2 n0 a1 a2 hn0 hn1 hmax
  obtain ⟨g3, cs, hx3, hlen3, hget3, hlenb3, hcell3⟩ :=
    lite_mk_counts_pair_blocks h3 n0 a1 a2 hn0 hn1 hmax
  refine ⟨g1, x1, g2, x2, g3, _, hx1, hx2, hx3, hz1, hz2, rfl, hs1, hs2, ?_, fun i j hi hj => ?_⟩
  · refine ⟨[a1.toSize], rfl, fun i hi => ?_⟩
    exact ⟨_, hget3 i hi, rfl⟩
  · obtain ⟨p1, hp1, hl1⟩ := hv1 i j hi hj
    obtain ⟨p2, hp2, hl2⟩ := hv2 i j hi hj
    have hchild : dynarray.child
        ({ dynarray.mk_default 1 with
          current_dimension_array_size := n0
          current_dimension_array_data := some cs } : dynarray 1) i = _ := hget3 i hi
    refine ⟨p1, p2, (⟨h3.next + 1 + i, 0⟩ : Ptr).add (j : Nat), hp1, hp2, ?_, hl1, hl2, ?_⟩
    · simp only [leaf_address, hchild]
      rfl
    · have hvalid : g3.valid ((⟨h3.next + 1 + i, 0⟩ : Ptr).add ((j : Nat) : Int)) = true := by
        rw [Heap.valid_iff g3 _ a1.toSize (by rw [Ptr.add_block]; exact hlenb3 i hi)]
        simp only [Ptr.add_off]
        omega
      simp only [Heap.load, hvalid, if_true, Ptr.add_block, Ptr.add_off]
      rw [hcell3 i _ hi (by omega) (by omega)]

/-- Witness of `three_variants_agree`: the call `(3, 4, 7)` in three empty heaps. -/
theorem three_variants_agree_witness :
    (3 * (⟨4, 0⟩ : Arg Int).toSize ≤ PTRDIFF_MAX) ∧
    ∃ g1 x1 g2 x2 g3 x3,
      vla.dynarray.mk_counts 1 (Heap.empty : Heap Int) 3 [⟨4, 0⟩, ⟨0, 7⟩] = .ok (g1, x1) ∧
      vla_neat.dynarray.mk_counts 1 (Heap.empty : Heap Int) 3 [⟨4, 0⟩, ⟨0, 7⟩] = .ok (g2, x2) ∧
      vla_nest.dynarray.mk_counts 1 (Heap.empty : Heap Int) 3 [⟨4, 0⟩, ⟨0, 7⟩] = .ok (g3, x3) ∧
      vla.dynarray.size x1 = 3 ∧ vla_neat.dynarray.size x2 = 3 ∧
      vla_nest.dynarray.size x3 = 3 ∧
      vla.has_shape 1 x1 [3, 4] ∧ vla_neat.has_shape 1 x2 [3, 4] ∧
      vla_nest.has_shape 1 x3 [3, 4] ∧
      ∀ i j, i < 3 → j < 4 →
        ∃ p1 p2 p3, vla.leaf_address 1 x1 [i, j] = some p1 ∧
          vla_neat.leaf_address 1 x2 [i, j] = some p2 ∧
          vla_nest.leaf_address 1 x3 [i, j] = some p3 ∧
          g1.load p1 = some (some 7) ∧ g2.load p2 = some (some 7) ∧
          g3.load p3 = some (some 7) :=
  ⟨by decide,
    three_variants_agree Heap.empty Heap.empty Heap.empty 3 ⟨4, 0⟩ ⟨0, 7⟩ (by decide)
      (by decide) (by decide)⟩

end vla_nest
